import Mathlib

/-!
# Layered disk-image access: VDI container, MBR partition, ext2 metadata

A shallow embedding of `step4_only.cpp` (VDI header, MBR partition window, ext2
superblock / block-group descriptors, inode fetch and store, inode bitmap), of
`mbrOpen` of `unnamed/part_000`, and of the file-descriptor variants: `vdiOpen`
with its packed header record of `vdi.cpp`, `openPartition` and `seekPartition`
of `partition.cpp`.

Conventions of the embedding

* A byte is a `Fin 256`; memory (a buffer, the content of the host file, a packed
  record) is a function from offsets to bytes.  Buffers carry no length: the
  length is the one the source allocates (`blockSize`, 512, 400, 128).
* Machine integers are natural numbers; every place where the source computes in
  `uint32_t` or `uint64_t` reduces modulo `2^32` or `2^64` explicitly.
* Pointers are replaced by nesting: an `Ext2File` holds its `MBRPartition`, which
  holds its `VDIFile`, which holds the `std::fstream`.
* Undefined behaviour of the source (division by zero, indexing a vector or a
  buffer outside its bounds, an over-wide shift, an out-of-range conversion) is
  the result `none`.
* `std::fstream` is modelled by `FStream`: content and size of the host file, the
  open mode, the shared file position, the three state bits and `gcount`.  The
  operations follow the C++ standard and, where it leaves room, GNU libstdc++: a
  transfer to a file that is not open for output stores nothing and is reported
  at once (badbit); state bits are sticky, only `seekg` clears eofbit.
* The host is little-endian with 64-bit `size_t` and `std::streamoff`.
-/

namespace Step4

/-! ## Bytes and memory -/

abbrev Byte := Fin 256

abbrev Mem := Nat → Byte

/-- A buffer of zero bytes, as `std::vector<uint8_t> buf(n)` creates. -/
def zeroMem : Mem := fun _ => 0

/-- The value of `memset(buf, v, n)`. -/
def memset (buf : Mem) (v : Byte) (n : Nat) : Mem :=
  fun k => if k < n then v else buf k

/-- The destination after `memcpy(dst + dOff, src + sOff, n)`. -/
def memcpy (dst : Mem) (dOff : Nat) (src : Mem) (sOff : Nat) (n : Nat) : Mem :=
  fun k => if dOff ≤ k ∧ k < dOff + n then src (sOff + (k - dOff)) else dst k

/-- Little-endian `uint16_t` at `off` (the host reads packed records in place). -/
def le16 (m : Mem) (off : Nat) : Nat :=
  (m off).val + 256 * (m (off + 1)).val

/-- Little-endian `uint32_t` at `off`. -/
def le32 (m : Mem) (off : Nat) : Nat :=
  (m off).val + 256 * (m (off + 1)).val + 65536 * (m (off + 2)).val
    + 16777216 * (m (off + 3)).val

/-- Little-endian `uint64_t` at `off`. -/
def le64 (m : Mem) (off : Nat) : Nat :=
  le32 m off + 4294967296 * le32 m (off + 4)

/-- Conversion of a 64-bit unsigned value to `int64_t` (`std::streamoff`). -/
def toInt64 (x : Nat) : Int :=
  if x % 18446744073709551616 < 9223372036854775808 then
    ((x % 18446744073709551616 : Nat) : Int)
  else ((x % 18446744073709551616 : Nat) : Int) - 18446744073709551616

/-! ## The file stream -/

/-- A file of the host: its bytes and its length. -/
structure HostFile where
  data : Mem
  size : Nat

/-- State of a `std::fstream`. -/
structure FStream where
  data : Mem
  size : Nat
  isOpen : Bool
  modeIn : Bool
  modeOut : Bool
  pos : Nat
  eofbit : Bool
  failbit : Bool
  badbit : Bool
  gcount : Nat

namespace FStream

/-- A default-constructed stream, not associated with a file. -/
def closed : FStream :=
  { data := zeroMem, size := 0, isOpen := false, modeIn := false, modeOut := false,
    pos := 0, eofbit := false, failbit := false, badbit := false, gcount := 0 }

def good (s : FStream) : Bool := !s.eofbit && !s.failbit && !s.badbit

def fail (s : FStream) : Bool := s.failbit || s.badbit

/-- The call `open(filename, mode)`: fails (failbit) when the stream is already
open or the file does not exist; otherwise associates the file and clears the
state. -/
def openFile (s : FStream) (host : Option HostFile) (mIn mOut : Bool) : FStream :=
  if s.isOpen then { s with failbit := true }
  else
    match host with
    | none => { s with failbit := true }
    | some h =>
      { data := h.data, size := h.size, isOpen := true, modeIn := mIn, modeOut := mOut,
        pos := 0, eofbit := false, failbit := false, badbit := false, gcount := s.gcount }

/-- The call `seekg(off, std::ios::beg)`: clears eofbit, then, if the stream is
good, repositions; a closed file or a negative offset sets failbit. -/
def seekg (s : FStream) (off : Int) : FStream :=
  let s1 := { s with eofbit := false }
  if !s1.good then { s1 with failbit := true }
  else if !s1.isOpen || off < 0 then { s1 with failbit := true }
  else { s1 with pos := off.toNat }

/-- Number of bytes that can be extracted from the position: none when the file
is not open for input. -/
def avail (s : FStream) : Nat :=
  if s.isOpen && s.modeIn then s.size - s.pos else 0

/-- Number of bytes that a request of `n` bytes obtains. -/
def got (s : FStream) (n : Nat) : Nat :=
  if n > s.avail then s.avail else n

/-- The call `read(buf, n)`: on a stream that is not good nothing is read and
failbit is set; otherwise the bytes available from the position are stored at the
start of `buf`, and a short transfer sets eofbit and failbit. -/
def read (s : FStream) (buf : Mem) (n : Nat) : FStream × Mem :=
  if !s.good then ({ s with failbit := true, gcount := 0 }, buf)
  else if s.got n < n then
    ({ s with pos := s.pos + s.got n, gcount := s.got n, eofbit := true, failbit := true },
      memcpy buf 0 s.data s.pos (s.got n))
  else
    ({ s with pos := s.pos + s.got n, gcount := s.got n },
      memcpy buf 0 s.data s.pos (s.got n))

/-- The call `seekp(off, std::ios::beg)`; a file stream has one position for
reading and writing. -/
def seekp (s : FStream) (off : Int) : FStream :=
  let s1 := if !s.good && s.badbit then { s with failbit := true } else s
  if s1.fail then s1
  else if !s1.isOpen || off < 0 then { s1 with failbit := true }
  else { s1 with pos := off.toNat }

/-- The call `write(buf, n)`: nothing happens on a stream that is not good; a
transfer of one byte or more to a file that is not open for output sets badbit;
otherwise the bytes replace the content at the position (the file grows, with
zero bytes in a gap, when the position is past its end). -/
def write (s : FStream) (buf : Mem) (n : Nat) : FStream :=
  if !s.good then (if s.badbit then { s with failbit := true } else s)
  else if n = 0 then s
  else if !(s.isOpen && s.modeOut) then { s with badbit := true }
  else
    { s with
      data := fun i =>
        if s.pos ≤ i ∧ i < s.pos + n then buf (i - s.pos)
        else if s.size ≤ i ∧ i < s.pos then 0
        else s.data i
      size := if s.size < s.pos + n then s.pos + n else s.size
      pos := s.pos + n }

end FStream

/-! ## 1) VDI container -/

structure VDIFile where
  file : FStream
  signature : Nat
  imageType : Nat
  mapOffset : Nat
  frameOffset : Nat
  frameSize : Nat
  diskSize : Nat

/-- A default-initialised `VDIFile`. -/
def VDIFile.fresh : VDIFile :=
  { file := FStream.closed, signature := 0, imageType := 0, mapOffset := 0,
    frameOffset := 0, frameSize := 0, diskSize := 0 }

def vdiRead (vdi : VDIFile) (diskOffset : Nat) (buf : Mem) (count : Nat) :
    VDIFile × Mem × Int :=
  if diskOffset ≥ vdi.diskSize then (vdi, buf, 0)
  else
    let remain := vdi.diskSize - diskOffset
    let toRead := if count > remain then remain else count
    let physical := (vdi.frameOffset + diskOffset) % 18446744073709551616
    let f1 := vdi.file.seekg (toInt64 physical)
    if !f1.good then ({ vdi with file := f1 }, buf, -1)
    else
      let r := f1.read buf toRead
      ({ vdi with file := r.1 }, r.2, (r.1.gcount : Int))

/-- The function `vdiOpen`; `host` is the file named by `filename`, if any.
Debug output is not modelled. -/
def vdiOpen (vdi : VDIFile) (host : Option HostFile) : VDIFile × Bool :=
  let f0 := vdi.file.openFile host true false
  if !f0.isOpen then ({ vdi with file := f0 }, false)
  else
    let f1 := f0.seekg 0
    let r := f1.read (memset zeroMem 0 400) 400
    if !r.1.good then ({ vdi with file := r.1 }, false)
    else
      ({ file := r.1,
         signature := le32 r.2 0x40,
         imageType := le32 r.2 0x4C,
         mapOffset := le32 r.2 0x154,
         frameOffset := le32 r.2 0x158,
         frameSize := le32 r.2 0x15C,
         diskSize := le64 r.2 0x170 }, true)

/-! ## 2) MBR partition -/

structure PartitionEntry where
  status : Nat
  firstCHS : Nat → Nat
  type : Nat
  lastCHS : Nat → Nat
  firstLBA : Nat
  sectorCount : Nat

structure MBRPartition where
  vdi : VDIFile
  parts : Nat → PartitionEntry
  startByte : Nat
  sizeBytes : Nat
  cursor : Nat

/-- Entry `i` of the table as `parseMBR` fills it from the sector. -/
def parseEntry (sector : Mem) (i : Nat) : PartitionEntry :=
  let off := 446 + i * 16
  { status := (sector (off + 0)).val
    firstCHS := fun j => if j < 3 then (sector (off + 1 + j)).val else 0
    type := (sector (off + 4)).val
    lastCHS := fun j => if j < 3 then (sector (off + 5 + j)).val else 0
    firstLBA := le32 sector (off + 8)
    sectorCount := le32 sector (off + 12) }

def parseMBR (sector : Mem) (out : Nat → PartitionEntry) : Nat → PartitionEntry :=
  fun i => if i < 4 then parseEntry sector i else out i

def mbrOpen (mp : MBRPartition) (vdi : VDIFile) (index : Int) : MBRPartition × Bool :=
  let r := vdiRead vdi 0 zeroMem 512
  let mp1 := { mp with vdi := r.1, cursor := 0 }
  if r.2.2 < 512 then (mp1, false)
  else
    let mp2 := { mp1 with parts := parseMBR r.2.1 mp1.parts }
    if index < 0 ∨ index > 3 then (mp2, false)
    else
      let pe := mp2.parts index.toNat
      ({ mp2 with
         startByte := (pe.firstLBA * 512) % 18446744073709551616
         sizeBytes := (pe.sectorCount * 512) % 18446744073709551616 }, true)

def mbrRead (mp : MBRPartition) (buf : Mem) (count : Nat) : MBRPartition × Mem × Int :=
  if mp.cursor ≥ mp.sizeBytes then (mp, buf, 0)
  else
    let remain := mp.sizeBytes - mp.cursor
    let toRead := if count > remain then remain else count
    let diskOffset := (mp.startByte + mp.cursor) % 18446744073709551616
    let r := vdiRead mp.vdi diskOffset buf toRead
    let got := r.2.2
    if got > 0 then
      ({ mp with vdi := r.1, cursor := (mp.cursor + got.toNat) % 18446744073709551616 },
        r.2.1, got)
    else ({ mp with vdi := r.1 }, r.2.1, got)

def mbrSeek (mp : MBRPartition) (offset : Int) : MBRPartition × Bool :=
  if offset < 0 ∨ offset.toNat > mp.sizeBytes then (mp, false)
  else ({ mp with cursor := offset.toNat }, true)

/-! ## 3) ext2 structures -/

/-- The packed `Ext2Superblock` record: the 264 bytes that `memcpy` stores into
it.  Fields are read in place, little-endian, at their packed offsets. -/
structure Ext2Superblock where
  raw : Mem

namespace Ext2Superblock

def s_inodes_count (sb : Ext2Superblock) : Nat := le32 sb.raw 0
def s_blocks_count (sb : Ext2Superblock) : Nat := le32 sb.raw 4
def s_r_blocks_count (sb : Ext2Superblock) : Nat := le32 sb.raw 8
def s_free_blocks_count (sb : Ext2Superblock) : Nat := le32 sb.raw 12
def s_free_inodes_count (sb : Ext2Superblock) : Nat := le32 sb.raw 16
def s_first_data_block (sb : Ext2Superblock) : Nat := le32 sb.raw 20
def s_log_block_size (sb : Ext2Superblock) : Nat := le32 sb.raw 24
def s_log_frag_size (sb : Ext2Superblock) : Nat := le32 sb.raw 28
def s_blocks_per_group (sb : Ext2Superblock) : Nat := le32 sb.raw 32
def s_frags_per_group (sb : Ext2Superblock) : Nat := le32 sb.raw 36
def s_inodes_per_group (sb : Ext2Superblock) : Nat := le32 sb.raw 40
def s_mtime (sb : Ext2Superblock) : Nat := le32 sb.raw 44
def s_wtime (sb : Ext2Superblock) : Nat := le32 sb.raw 48
def s_mnt_count (sb : Ext2Superblock) : Nat := le16 sb.raw 52
def s_max_mnt_count (sb : Ext2Superblock) : Nat := le16 sb.raw 54
def s_magic (sb : Ext2Superblock) : Nat := le16 sb.raw 56
def s_state (sb : Ext2Superblock) : Nat := le16 sb.raw 58
def s_errors (sb : Ext2Superblock) : Nat := le16 sb.raw 60
def s_minor_rev_level (sb : Ext2Superblock) : Nat := le16 sb.raw 62
def s_lastcheck (sb : Ext2Superblock) : Nat := le32 sb.raw 64
def s_checkinterval (sb : Ext2Superblock) : Nat := le32 sb.raw 68
def s_creator_os (sb : Ext2Superblock) : Nat := le32 sb.raw 72
def s_rev_level (sb : Ext2Superblock) : Nat := le32 sb.raw 76
def s_def_resuid (sb : Ext2Superblock) : Nat := le16 sb.raw 80
def s_def_resgid (sb : Ext2Superblock) : Nat := le16 sb.raw 82
def s_first_ino (sb : Ext2Superblock) : Nat := le32 sb.raw 84
def s_inode_size (sb : Ext2Superblock) : Nat := le16 sb.raw 88

end Ext2Superblock

/-- Size of the packed `Ext2Superblock`. -/
def sizeofExt2Superblock : Nat := 264

/-- Size of the packed `Ext2BlockGroupDescriptor`. -/
def sizeofBGD : Nat := 32

/-- Size of the packed `Inode`. -/
def sizeofInode : Nat := 128

structure Ext2BlockGroupDescriptor where
  bg_block_bitmap : Nat
  bg_inode_bitmap : Nat
  bg_inode_table : Nat
  bg_free_blocks_count : Nat
  bg_free_inodes_count : Nat
  bg_used_dirs_count : Nat
  bg_pad : Nat
  bg_reserved : Nat → Nat

/-- The descriptor stored in the 32 bytes at `off`. -/
def decodeBGD (m : Mem) (off : Nat) : Ext2BlockGroupDescriptor :=
  { bg_block_bitmap := le32 m off
    bg_inode_bitmap := le32 m (off + 4)
    bg_inode_table := le32 m (off + 8)
    bg_free_blocks_count := le16 m (off + 12)
    bg_free_inodes_count := le16 m (off + 14)
    bg_used_dirs_count := le16 m (off + 16)
    bg_pad := le16 m (off + 18)
    bg_reserved := fun j => if j < 3 then le32 m (off + 20 + 4 * j) else 0 }

/-- A `std::vector<Ext2BlockGroupDescriptor>`: its element count and the bytes of
its storage. -/
structure BGDTVector where
  raw : Mem
  len : Nat

namespace BGDTVector

def empty : BGDTVector := { raw := zeroMem, len := 0 }

/-- Element `g` of the vector; indexing past the end is undefined. -/
def get? (v : BGDTVector) (g : Nat) : Option Ext2BlockGroupDescriptor :=
  if g < v.len then some (decodeBGD v.raw (sizeofBGD * g)) else none

/-- The call `resize(n)`: the first elements are kept, new ones are zero. -/
def resize (v : BGDTVector) (n : Nat) : BGDTVector :=
  { raw := fun k => if k < sizeofBGD * (if v.len < n then v.len else n) then v.raw k else 0
    len := n }

end BGDTVector

structure Ext2File where
  part : MBRPartition
  sb : Ext2Superblock
  bgdt : BGDTVector
  blockSize : Nat
  numBlockGroups : Nat
  inodeSize : Nat

/-- The same volume with another state of the underlying file stream. -/
def Ext2File.setFile (ext2 : Ext2File) (f : FStream) : Ext2File :=
  { ext2 with part := { ext2.part with vdi := { ext2.part.vdi with file := f } } }

/-! ## 6) ext2 block read, superblock, descriptor table -/

def ext2ReadBlock (ext2 : Ext2File) (blockIndex : Nat) (buf : Mem) :
    Ext2File × Mem × Bool :=
  let offset := (blockIndex * ext2.blockSize) % 18446744073709551616
  if (offset + ext2.blockSize) % 18446744073709551616 > ext2.part.sizeBytes then
    (ext2, memset buf 0 ext2.blockSize, false)
  else
    let diskOffset := (ext2.part.startByte + offset) % 18446744073709551616
    let vdi := ext2.part.vdi
    if (diskOffset + ext2.blockSize) % 18446744073709551616 > vdi.diskSize then
      (ext2, memset buf 0 ext2.blockSize, false)
    else
      let f1 := vdi.file.seekg
        (toInt64 ((vdi.frameOffset + diskOffset) % 18446744073709551616))
      if !f1.good then (ext2.setFile f1, memset buf 0 ext2.blockSize, false)
      else
        let r := f1.read buf ext2.blockSize
        if r.1.gcount < ext2.blockSize then
          (ext2.setFile r.1, memset r.2 0 ext2.blockSize, false)
        else (ext2.setFile r.1, r.2, true)

/-- Least shift `k` (counting up from the given one) with `2^52 * b ≤ a * 2^k`. -/
def normShift (a b : Nat) : Nat → Nat → Nat
  | 0, k => k
  | fuel + 1, k => if 2 ^ 52 * b ≤ a * 2 ^ k then k else normShift a b fuel (k + 1)

/-- The quotient `double(a) / double(b)` of two 32-bit values, `b` non-zero, in
IEEE-754 binary64 with round-to-nearest-even: a pair `(m, k)` standing for
`m / 2^k`.  Both operands convert to `double` exactly; a non-zero quotient lies
in `[2^-32, 2^32)`, so it is a normal number whose 53-bit significand is the
rounded value of `a * 2^k / b` for the least `k` that makes it reach `2^52`. -/
def doubleDiv (a b : Nat) : Nat × Nat :=
  if a = 0 then (0, 0)
  else
    let k := normShift a b 84 0
    let q := (a * 2 ^ k) / b
    let r := (a * 2 ^ k) % b
    let m := if b < 2 * r ∨ (2 * r = b ∧ q % 2 = 1) then q + 1 else q
    (m, k)

/-- The value of `std::ceil` on `m / 2^k`. -/
def ceilDouble (x : Nat × Nat) : Nat := (x.1 + 2 ^ x.2 - 1) / 2 ^ x.2

def ext2LoadSuperblock (ext2 : Ext2File) : Option (Ext2File × Bool) :=
  if 1024 + 1024 > ext2.part.sizeBytes then some (ext2, false)
  else
    let vdi := ext2.part.vdi
    let diskOffset := (ext2.part.startByte + 1024) % 18446744073709551616
    if (diskOffset + 1024) % 18446744073709551616 > vdi.diskSize then some (ext2, false)
    else
      let f1 := vdi.file.seekg
        (toInt64 ((vdi.frameOffset + diskOffset) % 18446744073709551616))
      if !f1.good then some (ext2.setFile f1, false)
      else
        let r := f1.read (memset zeroMem 0 1024) 1024
        if r.1.gcount < 1024 then some (ext2.setFile r.1, false)
        else
          let e1 : Ext2File :=
            { ext2.setFile r.1 with
              sb := { raw := memcpy ext2.sb.raw 0 r.2 0 sizeofExt2Superblock } }
          if e1.sb.s_magic ≠ 0xEF53 then some (e1, false)
          else if e1.sb.s_log_block_size ≥ 32 then none
          else if e1.sb.s_blocks_per_group = 0 then none
          else
            some
              ({ e1 with
                 blockSize := (1024 <<< e1.sb.s_log_block_size) % 4294967296
                 inodeSize :=
                   if e1.sb.s_rev_level > 0 then e1.sb.s_inode_size else 128
                 numBlockGroups :=
                   ceilDouble (doubleDiv e1.sb.s_blocks_count e1.sb.s_blocks_per_group)
                     % 4294967296 }, true)

/-- The copy loop of `ext2LoadBGDT`: `fuel` blocks remain, `b` is the loop
counter. -/
def ext2LoadBGDTLoop (totalBytes bgdtBlock : Nat) :
    Nat → Ext2File → Nat → Mem → Nat → Ext2File × Bool
  | 0, ext2, _, _, _ => (ext2, true)
  | fuel + 1, ext2, b, blockBuf, bytesCopied =>
    let r := ext2ReadBlock ext2 ((bgdtBlock + b % 4294967296) % 4294967296) blockBuf
    if !r.2.2 then (r.1, false)
    else
      let toCopy :=
        if bytesCopied + ext2.blockSize > totalBytes then totalBytes - bytesCopied
        else ext2.blockSize
      let e1 : Ext2File :=
        { r.1 with bgdt := { r.1.bgdt with raw := memcpy r.1.bgdt.raw bytesCopied r.2.1 0 toCopy } }
      ext2LoadBGDTLoop totalBytes bgdtBlock fuel e1 (b + 1) r.2.1 (bytesCopied + toCopy)

def ext2LoadBGDT (ext2 : Ext2File) : Option (Ext2File × Bool) :=
  let bgdtBlock := (ext2.sb.s_first_data_block + 1) % 4294967296
  let totalBytes := ext2.numBlockGroups * sizeofBGD
  if ext2.blockSize = 0 then none
  else
    let blocksNeeded := (totalBytes + ext2.blockSize - 1) / ext2.blockSize
    let e1 : Ext2File := { ext2 with bgdt := ext2.bgdt.resize ext2.numBlockGroups }
    some (ext2LoadBGDTLoop totalBytes bgdtBlock blocksNeeded e1 0
      (memset zeroMem 0 ext2.blockSize) 0)

def ext2Open (ext2 : Ext2File) (part : MBRPartition) : Option (Ext2File × Bool) :=
  let e0 : Ext2File := { ext2 with part := part }
  match ext2LoadSuperblock e0 with
  | none => none
  | some (e1, false) => some (e1, false)
  | some (e1, true) =>
    match ext2LoadBGDT e1 with
    | none => none
    | some (e2, false) => some (e2, false)
    | some (e2, true) => some (e2, true)

/-! ## Step 4: inode fetch -/

/-- Lines 562 to 565 of `fetchInode`: read block `blockNum` into a fresh buffer
and copy `sizeof(Inode)` bytes from `offset` into the output record.  Reading
past the end of the block buffer is undefined. -/
def fetchInodeAt (fs : Ext2File) (blockNum offset : Nat) (inode : Mem) :
    Option (Ext2File × Mem × Int) :=
  let r := ext2ReadBlock fs blockNum zeroMem
  if !r.2.2 then some (r.1, inode, -1)
  else if offset + sizeofInode > fs.blockSize then none
  else some (r.1, memcpy inode 0 r.2.1 offset sizeofInode, 0)

def fetchInode (fs : Ext2File) (iNum : Nat) (inode : Mem) :
    Option (Ext2File × Mem × Int) :=
  if iNum = 0 ∨ iNum > fs.sb.s_inodes_count then some (fs, inode, -1)
  else if fs.sb.s_inodes_per_group = 0 then none
  else
    let group := ((iNum + 4294967295) % 4294967296) / fs.sb.s_inodes_per_group
    let index := ((iNum + 4294967295) % 4294967296) % fs.sb.s_inodes_per_group
    if fs.inodeSize = 0 then none
    else
      let inodesPerBlock := fs.blockSize / fs.inodeSize
      if inodesPerBlock = 0 then none
      else
        let blockIndex := index / inodesPerBlock
        let offset := ((index % inodesPerBlock) * fs.inodeSize) % 4294967296
        match fs.bgdt.get? group with
        | none => none
        | some d =>
          let blockNum := (d.bg_inode_table + blockIndex) % 4294967296
          fetchInodeAt fs blockNum offset inode

/-! ## Step 4d: VDI write and MBR write -/

def vdiWrite (vdi : VDIFile) (diskOffset : Nat) (buf : Mem) (count : Nat) :
    VDIFile × Int :=
  if diskOffset ≥ vdi.diskSize then (vdi, 0)
  else
    let remain := vdi.diskSize - diskOffset
    let toWrite := if count > remain then remain else count
    let physical := (vdi.frameOffset + diskOffset) % 18446744073709551616
    let f1 := vdi.file.seekp (toInt64 physical)
    if !f1.good then ({ vdi with file := f1 }, -1)
    else
      let f2 := f1.write buf toWrite
      ({ vdi with file := f2 }, if f2.good then toInt64 toWrite else -1)

def mbrWrite (mp : MBRPartition) (buf : Mem) (count : Nat) : MBRPartition × Int :=
  if mp.cursor ≥ mp.sizeBytes then (mp, 0)
  else
    let remain := mp.sizeBytes - mp.cursor
    let toWrite := if count > remain then remain else count
    let diskOffset := (mp.startByte + mp.cursor) % 18446744073709551616
    let r := vdiWrite mp.vdi diskOffset buf toWrite
    let written := r.2
    if written > 0 then
      ({ mp with vdi := r.1, cursor := (mp.cursor + written.toNat) % 18446744073709551616 },
        written)
    else ({ mp with vdi := r.1 }, written)

/-! ## Step 4e: inode store -/

/-- Lines 688 to 698 of `writeInode`: read block `blockNum`, overwrite
`sizeof(Inode)` bytes at `byteOffset`, seek the partition to the 32-bit product
`blockNum * blockSize` (the result of the seek is ignored) and write the block.
Writing past the end of the block buffer is undefined. -/
def writeInodeAt (fs : Ext2File) (blockNum byteOffset : Nat) (inode : Mem) :
    Option (Ext2File × Int) :=
  let r := ext2ReadBlock fs blockNum zeroMem
  if !r.2.2 then some (r.1, -1)
  else if byteOffset + sizeofInode > fs.blockSize then none
  else
    let buf := memcpy r.2.1 byteOffset inode 0 sizeofInode
    let p1 := (mbrSeek r.1.part (((blockNum * fs.blockSize) % 4294967296 : Nat) : Int)).1
    let w := mbrWrite p1 buf fs.blockSize
    some ({ r.1 with part := w.1 }, if w.2 = (fs.blockSize : Int) then 0 else -1)

def writeInode (fs : Ext2File) (iNum : Nat) (inode : Mem) : Option (Ext2File × Int) :=
  if fs.sb.s_inodes_per_group = 0 then none
  else
    let group := ((iNum + 4294967295) % 4294967296) / fs.sb.s_inodes_per_group
    let indexInGroup := ((iNum + 4294967295) % 4294967296) % fs.sb.s_inodes_per_group
    if fs.inodeSize = 0 then none
    else
      let inodesPerBlock := fs.blockSize / fs.inodeSize
      if inodesPerBlock = 0 then none
      else
        let blockOffset := indexInGroup / inodesPerBlock
        let byteOffset := ((indexInGroup % inodesPerBlock) * fs.inodeSize) % 4294967296
        match fs.bgdt.get? group with
        | none => none
        | some d =>
          let blockNum := (d.bg_inode_table + blockOffset) % 4294967296
          writeInodeAt fs blockNum byteOffset inode

/-! ## Step 4f: inode bitmap -/

/-- A byte from the low eight bits of a value (`uint8_t` conversion). -/
def byteOfNat (x : Nat) : Byte := ⟨x % 256, Nat.mod_lt x (by decide)⟩

/-- The test `(bitmap[byte] & (1 << bit)) != 0`. -/
def bitSet (b : Byte) (bit : Nat) : Bool := (b.val &&& (1 <<< bit)) != 0

/-- The update `bitmap[byte] |= (1 << bit)`. -/
def orBit (b : Byte) (bit : Nat) : Byte := byteOfNat (b.val ||| (1 <<< bit))

/-- The update `bitmap[byte] &= ~(1 << bit)`; on the low eight bits the
complement of `1 << bit` is `255 xor (1 << bit)`. -/
def clearBit (b : Byte) (bit : Nat) : Byte :=
  byteOfNat (b.val &&& (255 ^^^ (1 <<< bit)))

def inodeInUse (fs : Ext2File) (iNum : Nat) : Option (Ext2File × Bool) :=
  let idx := (iNum + 4294967295) % 4294967296
  if fs.sb.s_inodes_per_group = 0 then none
  else
    let grp := idx / fs.sb.s_inodes_per_group
    let bitIdx := idx % fs.sb.s_inodes_per_group
    let byte := bitIdx / 8
    let bit := bitIdx % 8
    match fs.bgdt.get? grp with
    | none => none
    | some d =>
      let bbBlock := d.bg_inode_bitmap
      let r := ext2ReadBlock fs bbBlock zeroMem
      if byte ≥ fs.blockSize then none
      else some (r.1, bitSet (r.2.1 byte) bit)

/-- The inner loop of `allocateInode` over the bit positions `i, i+1, ...` of one
bitmap (`fuel` positions remain): the first position whose bit is clear, if
any.  Indexing the bitmap buffer past `blockSize` is undefined. -/
def allocScan (blockSize : Nat) (bitmap : Mem) : Nat → Nat → Option (Option Nat)
  | 0, _ => some none
  | fuel + 1, i =>
    if i / 8 ≥ blockSize then none
    else if !bitSet (bitmap (i / 8)) (i % 8) then some (some i)
    else allocScan blockSize bitmap fuel (i + 1)

/-- The outer loop of `allocateInode` from group `g` on (`fuel` groups remain). -/
def allocateInodeLoop : Nat → Ext2File → Nat → Option (Ext2File × Nat)
  | 0, fs, _ => some (fs, 0)
  | fuel + 1, fs, g =>
    match fs.bgdt.get? g with
    | none => none
    | some d =>
      let r := ext2ReadBlock fs d.bg_inode_bitmap zeroMem
      match allocScan fs.blockSize r.2.1 fs.sb.s_inodes_per_group 0 with
      | none => none
      | some (some i) =>
        let b := i / 8
        let bit := i % 8
        let newByte := orBit (r.2.1 b) bit
        let p1 := (mbrSeek r.1.part
          (((d.bg_inode_bitmap * fs.blockSize + b) % 4294967296 : Nat) : Int)).1
        let w := mbrWrite p1 (fun _ => newByte) 1
        some ({ r.1 with part := w.1 },
          (g * fs.sb.s_inodes_per_group + i + 1) % 4294967296)
      | some none => allocateInodeLoop fuel r.1 (g + 1)

/-- The function `allocateInode`; the source gives `groupHint` the default -1. -/
def allocateInode (fs : Ext2File) (groupHint : Int) : Option (Ext2File × Nat) :=
  let groups := fs.numBlockGroups
  let g0 := if groupHint < 0 then 0 else groupHint.toNat
  allocateInodeLoop (groups - g0) fs g0

def freeInode (fs : Ext2File) (iNum : Nat) : Option (Ext2File × Bool) :=
  let idx := (iNum + 4294967295) % 4294967296
  if fs.sb.s_inodes_per_group = 0 then none
  else
    let grp := idx / fs.sb.s_inodes_per_group
    let bitIdx := idx % fs.sb.s_inodes_per_group
    let byte := bitIdx / 8
    let bit := bitIdx % 8
    match fs.bgdt.get? grp with
    | none => none
    | some d =>
      let r := ext2ReadBlock fs d.bg_inode_bitmap zeroMem
      if byte ≥ fs.blockSize then none
      else
        let newByte := clearBit (r.2.1 byte) bit
        let p1 := (mbrSeek r.1.part
          (((d.bg_inode_bitmap * fs.blockSize + byte) % 4294967296 : Nat) : Int)).1
        let w := mbrWrite p1 (fun _ => newByte) 1
        some ({ r.1 with part := w.1 }, decide (w.2 = 1))

/-! ## The opening sequence of `main` -/

/-- An `MBRPartition` before `mbrOpen` has filled it. -/
def MBRPartition.fresh : MBRPartition :=
  { vdi := VDIFile.fresh
    parts := fun _ =>
      { status := 0, firstCHS := fun _ => 0, type := 0, lastCHS := fun _ => 0,
        firstLBA := 0, sectorCount := 0 }
    startByte := 0, sizeBytes := 0, cursor := 0 }

/-- An `Ext2File` before `ext2Open` has filled it (the vector is empty). -/
def Ext2File.fresh : Ext2File :=
  { part := MBRPartition.fresh, sb := { raw := zeroMem }, bgdt := BGDTVector.empty,
    blockSize := 0, numBlockGroups := 0, inodeSize := 0 }

/-- The opening sequence of `main` (lines 764 to 771) for partition `index`:
`vdiOpen`, `mbrOpen`, `ext2Open`; the volume when all three succeed. -/
def openVolume (host : Option HostFile) (index : Int) : Option Ext2File :=
  let v := vdiOpen VDIFile.fresh host
  if !v.2 then none
  else
    let m := mbrOpen MBRPartition.fresh v.1 index
    if !m.2 then none
    else
      match ext2Open Ext2File.fresh m.1 with
      | some (fs, true) => some fs
      | _ => none

/-- Ranges of the fields that the machine types and `mbrOpen` guarantee: 32-bit
`blockSize` and `frameOffset`, and a partition extent that is 512 times a 32-bit
sector number. -/
structure Ext2File.InRange (fs : Ext2File) : Prop where
  blockSize_lt : fs.blockSize < 4294967296
  frameOffset_lt : fs.part.vdi.frameOffset < 4294967296
  startByte_le : fs.part.startByte ≤ 4294967295 * 512
  sizeBytes_le : fs.part.sizeBytes ≤ 4294967295 * 512

/-- Physical offset in the host file of block `index` of the partition. -/
def physOffset (fs : Ext2File) (index : Nat) : Nat :=
  fs.part.vdi.frameOffset + fs.part.startByte + index * fs.blockSize

/-- The physical transfer of `ext2ReadBlock`: the seek and the read of
`blockSize` bytes on the stream. -/
def physRead (fs : Ext2File) (index : Nat) (buf : Mem) : FStream × Mem :=
  (fs.part.vdi.file.seekg (toInt64 (physOffset fs index))).read buf fs.blockSize

/-! ## Inode addressing as the specification words it -/

/-- Location of an inode: group, index in the group, inodes per block, block
number and byte offset in the block. -/
structure InodeAddress where
  group : Nat
  indexInGroup : Nat
  inodesPerBlock : Nat
  block : Nat
  byteOffset : Nat
deriving DecidableEq

/-- Addressing of the 1-based inode number `n`, in the words of the
specification: group = (n-1)/inodesPerGroup, indexInGroup = (n-1) mod
inodesPerGroup, inodesPerBlock = blockSize/inodeSize, block = inodeTable[group]
+ indexInGroup/inodesPerBlock, byteOffset = (indexInGroup mod inodesPerBlock)
* inodeSize.  All operations are the exact ones on natural numbers. -/
def specInodeAddress (inodesPerGroup inodeSize blockSize : Nat) (inodeTable : Nat → Nat)
    (n : Nat) : InodeAddress :=
  let group := (n - 1) / inodesPerGroup
  let indexInGroup := (n - 1) % inodesPerGroup
  let inodesPerBlock := blockSize / inodeSize
  { group := group
    indexInGroup := indexInGroup
    inodesPerBlock := inodesPerBlock
    block := inodeTable group + indexInGroup / inodesPerBlock
    byteOffset := (indexInGroup % inodesPerBlock) * inodeSize }

/-- The field `bgdt[g].bg_inode_table` (0 where the vector has no element `g`). -/
def Ext2File.inodeTable (fs : Ext2File) (g : Nat) : Nat :=
  match fs.bgdt.get? g with
  | some d => d.bg_inode_table
  | none => 0

/-- The field `bgdt[g].bg_inode_bitmap` (0 where the vector has no element `g`). -/
def Ext2File.inodeBitmap (fs : Ext2File) (g : Nat) : Nat :=
  match fs.bgdt.get? g with
  | some d => d.bg_inode_bitmap
  | none => 0

/-- The address of inode `n` on the volume `fs` after the specification. -/
def Ext2File.address (fs : Ext2File) (n : Nat) : InodeAddress :=
  specInodeAddress fs.sb.s_inodes_per_group fs.inodeSize fs.blockSize fs.inodeTable n

/-- The inode arithmetic of `fetchInode` and `writeInode` is defined for `n`:
the divisors are non-zero, the group has a descriptor, and the block number
fits the 32-bit type. -/
structure Ext2File.AddressDefined (fs : Ext2File) (n : Nat) : Prop where
  n_pos : 1 ≤ n
  n_lt : n < 4294967296
  blockSize_lt : fs.blockSize < 4294967296
  ipg_pos : 0 < fs.sb.s_inodes_per_group
  inodeSize_pos : 0 < fs.inodeSize
  inodeSize_le : fs.inodeSize ≤ fs.blockSize
  group_lt : (n - 1) / fs.sb.s_inodes_per_group < fs.bgdt.len
  block_lt : (fs.address n).block < 4294967296

/-! ## A sample image

A VDI file whose data area starts at byte 512 and holds a 128 MiB disk; its
partition 0 starts at sector 2048 and has 204800 sectors; the partition holds an
ext2 volume with 1 KiB blocks and two groups of 8192 inodes.  Group 0 has its
inode bitmap in block 4 and its inode table in block 5, group 1 in blocks 8196
and 8197.  Inodes 1 to 3 are marked allocated.  With `rev1` the superblock has
revision 1 and declares 256-byte inodes. -/

def sampleData (rev1 : Bool) : Mem := fun i =>
  -- container header: frameOffset = 512 at 0x158, diskSize = 0x8000000 at 0x170
  if i = 345 then 2 else if i = 371 then 8
  -- boot sector at 512: entry 0 has firstLBA = 2048, sectorCount = 204800
  else if i = 967 then 8 else if i = 971 then 0x20 else if i = 972 then 3
  -- superblock at 512 + 1048576 + 1024 = 1050112
  else if i = 1050113 then 0x40        -- s_inodes_count = 16384
  else if i = 1050117 then 0x40        -- s_blocks_count = 16384
  else if i = 1050132 then 1           -- s_first_data_block = 1
  else if i = 1050145 then 0x20        -- s_blocks_per_group = 8192
  else if i = 1050153 then 0x20        -- s_inodes_per_group = 8192
  else if i = 1050168 then 0x53 else if i = 1050169 then 0xEF   -- s_magic
  else if i = 1050188 then (if rev1 then 1 else 0)              -- s_rev_level
  else if i = 1050201 then (if rev1 then 1 else 0)              -- s_inode_size = 256
  -- descriptor table in block 2, at 1051136
  else if i = 1051140 then 4 else if i = 1051144 then 5
  else if i = 1051172 then 4 else if i = 1051173 then 0x20
  else if i = 1051176 then 5 else if i = 1051177 then 0x20
  -- inode bitmap of group 0 in block 4, at 1053184: inodes 1, 2, 3 in use
  else if i = 1053184 then 7
  -- inode table of group 0 in block 5, at 1054208
  else if i = 1054336 then 0xA4 else if i = 1054337 then 0x81
  else if i = 1054592 then 0x77
  -- inode table of group 1 in block 8197, at 9442816
  else if i = 9442816 then 0xED else if i = 9442817 then 0x41
  else 0

def sampleHost (rev1 : Bool) : HostFile := { data := sampleData rev1, size := 134218240 }

/-- The sample volume as `main` opens it. -/
def sampleFs : Ext2File := (openVolume (some (sampleHost false)) 0).getD Ext2File.fresh

/-- The sample volume with 256-byte inodes as `main` opens it. -/
def sampleFs256 : Ext2File := (openVolume (some (sampleHost true)) 0).getD Ext2File.fresh

/-- An inode record to store: first bytes 0xED 0x41, the rest zero. -/
def sampleInode : Mem := fun k => if k = 0 then 0xED else if k = 1 then 0x41 else 0

/-! ## A second sample image

The same container and partition table, with a disk of 16 GiB and a partition of
8 GiB; the volume has 4 KiB blocks and one group, whose inode table is at block
1048576 (partition offset 2^32). -/

def bigData : Mem := fun i =>
  -- container header: frameOffset = 512, diskSize = 0x400000000
  if i = 345 then 2 else if i = 372 then 4
  -- boot sector: entry 0 has firstLBA = 2048, sectorCount = 0x1000000
  else if i = 967 then 8 else if i = 973 then 1
  -- superblock at 1050112
  else if i = 1050113 then 0x20        -- s_inodes_count = 8192
  else if i = 1050117 then 0x80        -- s_blocks_count = 32768
  else if i = 1050136 then 2           -- s_log_block_size = 2
  else if i = 1050145 then 0x80        -- s_blocks_per_group = 32768
  else if i = 1050153 then 0x20        -- s_inodes_per_group = 8192
  else if i = 1050168 then 0x53 else if i = 1050169 then 0xEF   -- s_magic
  -- descriptor table in block 1, at 1049088 + 4096 = 1053184
  else if i = 1053188 then 2           -- bg_inode_bitmap = 2
  else if i = 1053194 then 0x10        -- bg_inode_table = 0x100000
  -- inode table in block 1048576, at 1049088 + 2^32 = 4296016384
  else if i = 4296016384 then 0xA4
  else 0

def bigHost : HostFile := { data := bigData, size := 17179869696 }

/-- The second sample volume as `main` opens it. -/
def bigFs : Ext2File := (openVolume (some bigHost) 0).getD Ext2File.fresh

/-- The second sample volume on a stream that is open for input and output. -/
def bigFsRW : Ext2File := bigFs.setFile { bigFs.part.vdi.file with modeOut := true }

/-! ## The inode bitmap as the volume delivers it -/

/-- The bitmap block of group `g` as `ext2ReadBlock` delivers it on `fs` (all
zero when the read fails). -/
def Ext2File.bitmapRead (fs : Ext2File) (g : Nat) : Mem :=
  (ext2ReadBlock fs (fs.inodeBitmap g) zeroMem).2.1

/-- Bit `i` of the bitmap of group `g`. -/
def Ext2File.bitmapBit (fs : Ext2File) (g i : Nat) : Bool :=
  bitSet (fs.bitmapRead g (i / 8)) (i % 8)

/-- Geometry under which the bitmap scan of `allocateInode` is defined and its
result fits 32 bits: every scanned group has a descriptor, the bits of a group
fit its one-block bitmap, and the inode numbers of all groups fit `uint32_t`. -/
structure Ext2File.BitmapGeometry (fs : Ext2File) : Prop where
  groups_le : fs.numBlockGroups ≤ fs.bgdt.len
  bits_le : fs.sb.s_inodes_per_group ≤ 8 * fs.blockSize
  inodes_lt : fs.numBlockGroups * fs.sb.s_inodes_per_group < 4294967296

/-- Two states of the stream on the same file that reads cannot tell apart: they
may differ in position, eofbit and gcount. -/
structure FStream.ReadEquiv (f g : FStream) : Prop where
  data : g.data = f.data
  size : g.size = f.size
  isOpen : g.isOpen = f.isOpen
  modeIn : g.modeIn = f.modeIn
  modeOut : g.modeOut = f.modeOut
  failbit : g.failbit = f.failbit
  badbit : g.badbit = f.badbit

/-- Two states of the stream on the same file, in the same open mode. -/
structure FStream.SameFile (f g : FStream) : Prop where
  data : g.data = f.data
  size : g.size = f.size
  isOpen : g.isOpen = f.isOpen
  modeIn : g.modeIn = f.modeIn
  modeOut : g.modeOut = f.modeOut

/-- The write-back of `allocateInode` for bit `i` of the bitmap in block
`bitmapBlock`: seek the partition to the 32-bit value `bitmapBlock * blockSize +
i/8` (the result of the seek is ignored) and write the one byte `byte | (1 <<
(i mod 8))`. -/
def allocWriteBack (cur : Ext2File) (bitmapBlock i : Nat) (byte : Byte) : Ext2File :=
  { cur with
    part := (mbrWrite
      (mbrSeek cur.part
        (((bitmapBlock * cur.blockSize + i / 8) % 4294967296 : Nat) : Int)).1
      (fun _ => orBit byte (i % 8)) 1).1 }

/-- A later state of the same stream on a file that was not written: the file,
its open mode, and a failure that has occurred are kept. -/
structure FStream.Later (f g : FStream) : Prop where
  same : f.SameFile g
  fail : f.fail = true → g.fail = true

/-- The same volume with another partition cursor. -/
def Ext2File.setCursor (fs : Ext2File) (c : Nat) : Ext2File :=
  { fs with part := { fs.part with cursor := c } }

/-- The fields of the partition window and of the container that no ext2
operation changes. -/
structure SameExtent (p q : MBRPartition) : Prop where
  startByte : q.startByte = p.startByte
  sizeBytes : q.sizeBytes = p.sizeBytes
  frameOffset : q.vdi.frameOffset = p.vdi.frameOffset
  diskSize : q.vdi.diskSize = p.vdi.diskSize

/-! ## Sample containers for the VDI layer -/

/-- The sample container as `vdiOpen` opens it. -/
def sampleVdi : VDIFile := (vdiOpen VDIFile.fresh (some (sampleHost false))).1

/-- The first 1024 bytes of the sample file: the header and the boot sector, and
nothing more of the 128 MiB disk that the header declares. -/
def shortHost : HostFile := { data := sampleData false, size := 1024 }

/-- The short container as `vdiOpen` opens it. -/
def shortVdi : VDIFile := (vdiOpen VDIFile.fresh (some shortHost)).1

/-- A 1024-byte file whose header declares `frameOffset = 512` and
`diskSize = 2^64 - 1`; the byte at file offset 256 is 0x5A. -/
def wideData : Mem := fun i =>
  if i = 345 then 2 else if 368 ≤ i ∧ i < 376 then 0xFF
  else if i = 256 then 0x5A else 0

def wideHost : HostFile := { data := wideData, size := 1024 }

/-- The container with the widest disk as `vdiOpen` opens it. -/
def wideVdi : VDIFile := (vdiOpen VDIFile.fresh (some wideHost)).1

/-! ## Reading the superblock -/

/-- The partition that `vdiOpen` and `mbrOpen` (index 0) deliver on a file, as
`main` passes it to `ext2Open`. -/
def openPartition (host : HostFile) : MBRPartition :=
  (mbrOpen MBRPartition.fresh (vdiOpen VDIFile.fresh (some host)).1 0).1

/-- The superblock region of a partition, its bytes 1024 to 2047, is readable: it
lies inside the partition and inside the logical disk, the file has these bytes,
and the stream is open for input and has not failed.  The data offset and the
start of the partition are in the ranges of `uint32_t` and of `mbrOpen`. -/
structure SuperblockReadable (part : MBRPartition) : Prop where
  frameOffset_lt : part.vdi.frameOffset < 4294967296
  startByte_le : part.startByte ≤ 4294967295 * 512
  in_partition : 2048 ≤ part.sizeBytes
  in_disk : part.startByte + 2048 ≤ part.vdi.diskSize
  in_file : part.vdi.frameOffset + part.startByte + 2048 ≤ part.vdi.file.size
  not_failed : part.vdi.file.fail = false
  isOpen : part.vdi.file.isOpen = true
  modeIn : part.vdi.file.modeIn = true

/-- The magic field of the superblock as the file stores it: the little-endian
16-bit value at byte 56 of the superblock, which starts at byte 1024 of the
partition. -/
def diskMagic (part : MBRPartition) : Nat :=
  le16 part.vdi.file.data (part.vdi.frameOffset + part.startByte + 1024 + 56)

/-- The sample image with the magic field 0x1234. -/
def badMagicHost : HostFile :=
  { data := fun i =>
      if i = 1050168 then 0x34 else if i = 1050169 then 0x12 else sampleData false i
    size := 134218240 }

/-- The sample image with `s_log_block_size = 22`. -/
def shift22Host : HostFile :=
  { data := fun i => if i = 1050136 then 22 else sampleData false i
    size := 134218240 }

/-- The sample image with `s_blocks_count = 100` and `s_blocks_per_group = 40`. -/
def smallHost : HostFile :=
  { data := fun i =>
      if i = 1050116 then 100 else if i = 1050117 then 0
      else if i = 1050144 then 40 else if i = 1050145 then 0
      else sampleData false i
    size := 134218240 }

/-! ## Readable blocks -/

/-- Block `index` of the volume can be read: it lies inside the partition and
inside the logical disk, the file has its bytes, and the stream is open for
input and has not failed. -/
structure Ext2File.BlockReadable (fs : Ext2File) (index : Nat) : Prop where
  in_partition : index * fs.blockSize + fs.blockSize ≤ fs.part.sizeBytes
  in_disk :
    fs.part.startByte + index * fs.blockSize + fs.blockSize ≤ fs.part.vdi.diskSize
  in_file : physOffset fs index + fs.blockSize ≤ fs.part.vdi.file.size
  not_failed : fs.part.vdi.file.fail = false
  isOpen : fs.part.vdi.file.isOpen = true
  modeIn : fs.part.vdi.file.modeIn = true

/-- First block of the descriptor table: `s_first_data_block + 1`. -/
def Ext2File.bgdtStart (e : Ext2File) : Nat := e.sb.s_first_data_block + 1

/-- Number of blocks that hold `numBlockGroups` descriptors of 32 bytes, as the
specification words it: the ceiling of `32 * numBlockGroups / blockSize`. -/
def Ext2File.bgdtBlocks (e : Ext2File) : Nat :=
  (32 * e.numBlockGroups + e.blockSize - 1) / e.blockSize

/-- The call of the copy loop that `ext2LoadBGDT` makes, with `n` iterations
allowed. -/
def Ext2File.bgdtRun (e : Ext2File) (n : Nat) : Ext2File × Bool :=
  ext2LoadBGDTLoop (e.numBlockGroups * sizeofBGD)
    ((e.sb.s_first_data_block + 1) % 4294967296) n
    { e with bgdt := e.bgdt.resize e.numBlockGroups } 0 (memset zeroMem 0 e.blockSize) 0

/-- The sample volume after `ext2LoadSuperblock`, before `ext2LoadBGDT`. -/
def sampleSuper : Ext2File :=
  ((ext2LoadSuperblock
    { Ext2File.fresh with part := openPartition (sampleHost false) }).getD
      (Ext2File.fresh, false)).1

/-- The sample file cut off at the end of the superblock (byte 1051136), where
the descriptor table would start. -/
def truncHost : HostFile := { data := sampleData false, size := 1051136 }

/-- The volume of the cut-off file after `ext2LoadSuperblock`. -/
def truncSuper : Ext2File :=
  ((ext2LoadSuperblock
    { Ext2File.fresh with part := openPartition truncHost }).getD
      (Ext2File.fresh, false)).1

/-! ## The inode bitmap on disk -/

/-- Bit `bit` of a byte is 1. -/
def bitIsOne (b : Byte) (bit : Nat) : Bool := decide (b.val / 2 ^ bit % 2 = 1)

/-- The bit of inode `n` in the inode bitmap as the file stores it, in the words
of the specification: bit `((n-1) mod inodesPerGroup) mod 8` of byte
`((n-1) mod inodesPerGroup) / 8` of the block `bgdt[(n-1) / inodesPerGroup]
.bg_inode_bitmap`. -/
def Ext2File.diskInodeBit (fs : Ext2File) (n : Nat) : Bool :=
  bitIsOne
    (fs.part.vdi.file.data
      (physOffset fs (fs.inodeBitmap ((n - 1) / fs.sb.s_inodes_per_group))
        + (n - 1) % fs.sb.s_inodes_per_group / 8))
    ((n - 1) % fs.sb.s_inodes_per_group % 8)

/-- The sample volume after a call of `allocateInode`. -/
def sampleFsAfterAlloc : Ext2File :=
  ((allocateInode sampleFs (-1)).getD (Ext2File.fresh, 0)).1

/-! ## A third sample image

The second sample image with the inode bitmap of its group in block 1048577
(partition offset 2^32 + 4096, file offset 4296020480), where inodes 1 to 3 are
marked allocated. -/

def wrapHost : HostFile :=
  { data := fun i =>
      if i = 1053188 then 1 else if i = 1053190 then 0x10
      else if i = 4296020480 then 7 else bigData i
    size := 17179869696 }

/-- The third sample volume as `main` opens it. -/
def wrapFs : Ext2File := (openVolume (some wrapHost) 0).getD Ext2File.fresh

/-- The third sample volume on a stream that is open for input and output. -/
def wrapFsRW : Ext2File := wrapFs.setFile { wrapFs.part.vdi.file with modeOut := true }

/-! ## The partition layer: the variant of `unnamed/part_000`, samples -/

namespace Part000

/-- The function `mbrOpen` of `unnamed/part_000`, which sets `mp.vdi` and
`mp.cursor` only after the read and the index check have passed.  The second
component is the disk after the read; on failure the record keeps the disk it
referred to. -/
def mbrOpen (mp : MBRPartition) (vdi : VDIFile) (pIndex : Int) :
    MBRPartition × VDIFile × Bool :=
  let r := vdiRead vdi 0 zeroMem 512
  if r.2.2 < 512 then (mp, r.1, false)
  else
    let mp1 := { mp with parts := parseMBR r.2.1 mp.parts }
    if pIndex < 0 ∨ pIndex > 3 then (mp1, r.1, false)
    else
      let pe := mp1.parts pIndex.toNat
      ({ mp1 with
         vdi := r.1
         cursor := 0
         startByte := (pe.firstLBA * 512) % 18446744073709551616
         sizeBytes := (pe.sectorCount * 512) % 18446744073709551616 }, r.1, true)

end Part000

/-- The boot sector of the sample image. -/
def sampleSector : Mem := fun k => sampleData false (512 + k)

/-- The partition of the sample image as `mbrOpen` delivers it. -/
def samplePart : MBRPartition := openPartition (sampleHost false)

/-- Ranges of the fields of a partition that the machine types and `mbrOpen`
guarantee: a 32-bit data offset and an extent that is 512 times a 32-bit sector
number. -/
structure MBRPartition.InRange (mp : MBRPartition) : Prop where
  frameOffset_lt : mp.vdi.frameOffset < 4294967296
  startByte_le : mp.startByte ≤ 4294967295 * 512
  sizeBytes_le : mp.sizeBytes ≤ 4294967295 * 512

/-- The partition of the sample image on a stream that is open for input and
output. -/
def samplePartRW : MBRPartition :=
  { samplePart with
    vdi := { samplePart.vdi with file := { samplePart.vdi.file with modeOut := true } } }

/-! ## `partition.cpp`: the cursor of a partition on a file descriptor -/

/-- Conversion of a signed 64-bit value to `uint64_t` (`size_t`). -/
def toUInt64 (x : Int) : Nat := (x % 18446744073709551616).toNat

/-- The record `Partition` of `partition.cpp`. -/
structure Partition where
  fd : Int
  cursor : Nat
  partitionStart : Nat
  partitionSize : Nat

/-- The anchors of `<unistd.h>`. -/
def SEEK_SET : Int := 0

def SEEK_CUR : Int := 1

def SEEK_END : Int := 2

/-- The function `seekPartition` of `partition.cpp`.  `newCursor` is an `off_t`:
the sums are formed in `uint64_t` and converted; the comparison with
`partitionSize` is unsigned. -/
def seekPartition (p : Partition) (offset : Int) (anchor : Int) : Partition × Int :=
  let newCursor : Option Int :=
    if anchor = SEEK_SET then some offset
    else if anchor = SEEK_CUR then
      some (toInt64 ((p.cursor + toUInt64 offset) % 18446744073709551616))
    else if anchor = SEEK_END then
      some (toInt64 ((p.partitionSize + toUInt64 offset) % 18446744073709551616))
    else none
  match newCursor with
  | none => (p, -1)
  | some c =>
    if c ≥ 0 ∧ toUInt64 c ≤ p.partitionSize then
      ({ p with cursor := toUInt64 c }, toInt64 (toUInt64 c))
    else (p, -1)

/-- The candidate cursor in the words of the specification, in exact integer
arithmetic: `offset`, `cursor + offset` or `partitionSize + offset`; none for an
unknown anchor. -/
def seekCandidate (p : Partition) (offset : Int) (anchor : Int) : Option Int :=
  if anchor = 0 then some offset
  else if anchor = 1 then some ((p.cursor : Int) + offset)
  else if anchor = 2 then some ((p.partitionSize : Int) + offset)
  else none

/-- A partition record with the extent of the sample partition and the cursor at
100. -/
def samplePartition : Partition :=
  { fd := 3, cursor := 100, partitionStart := 1048576, partitionSize := 104857600 }

/-! ## Sample images with an inconsistent superblock or descriptor

The sample image with `s_inodes_count = 2`; with `s_inodes_count = 24576` (three
groups of inodes on a volume of two block groups); and with the inode bitmap of
group 0 in block 200000, past the 102400 blocks of the partition, and 0xEB in
the first byte of the partition. -/

def fewHost : HostFile :=
  { data := fun i =>
      if i = 1050112 then 2 else if i = 1050113 then 0 else sampleData false i
    size := 134218240 }

/-- The volume with `s_inodes_count = 2` as `main` opens it. -/
def fewFs : Ext2File := (openVolume (some fewHost) 0).getD Ext2File.fresh

/-- The volume with `s_inodes_count = 2` on a stream open for input and output. -/
def fewFsRW : Ext2File := fewFs.setFile { fewFs.part.vdi.file with modeOut := true }

def manyHost : HostFile :=
  { data := fun i => if i = 1050113 then 0x60 else sampleData false i
    size := 134218240 }

/-- The volume with `s_inodes_count = 24576` as `main` opens it. -/
def manyFs : Ext2File := (openVolume (some manyHost) 0).getD Ext2File.fresh

def farHost : HostFile :=
  { data := fun i =>
      if i = 1051140 then 0x40 else if i = 1051141 then 0x0D else if i = 1051142 then 3
      else if i = 1049088 then 0xEB else sampleData false i
    size := 134218240 }

/-- The volume with the far inode bitmap as `main` opens it. -/
def farFs : Ext2File := (openVolume (some farHost) 0).getD Ext2File.fresh

/-- The volume with the far inode bitmap on a stream open for input and output. -/
def farFsRW : Ext2File := farFs.setFile { farFs.part.vdi.file with modeOut := true }

/-! ## Reading a block through the partition layer -/

/-- Reading block `index` through the layers beneath, in the words of the
specification: `mbrSeek` to `index * blockSize`, then `mbrRead` of `blockSize`
bytes into `buf`; the result is the partition, the buffer, and whether the seek
succeeded and the read returned `blockSize`. -/
def layeredReadBlock (fs : Ext2File) (index : Nat) (buf : Mem) : MBRPartition × Mem × Bool :=
  let s := mbrSeek fs.part (toInt64 ((index * fs.blockSize) % 18446744073709551616))
  if !s.2 then (s.1, buf, false)
  else
    let r := mbrRead s.1 buf fs.blockSize
    (r.1, r.2.1, decide (r.2.2 = (fs.blockSize : Int)))

/-- The sample volume later in a session: the stream where the open left it, the
partition cursor moved to 7. -/
def sampleFsLater : Ext2File := (sampleFs.setFile sampleFs.part.vdi.file).setCursor 7

/-! ## `vdi.cpp` and `partition.cpp`: the image on a file descriptor -/

/-- The call `pread(fd, buf, count, offset)` on a regular file: the bytes the
file has from `offset`, at most `count`, stored at the start of `buf`; the
number of bytes transferred. -/
def pread (file : HostFile) (buf : Mem) (count offset : Nat) : Mem × Int :=
  let n := min count (file.size - offset)
  (memcpy buf 0 file.data offset n, (n : Int))

namespace VdiCpp

/-- The members of the packed record `VDIHeader` of `vdi.cpp`. -/
inductive HeaderField where
  | imageName | signature | version | headerSize | imageType | imageFlags
  | description | offsetBlocks | offsetData | sectorSize | unused | diskSize
  | blockSize | blockExtraSize | totalBlocks | blocksAllocated
deriving DecidableEq

/-- The members in the order of their declaration, with their sizes in bytes. -/
def headerLayout : List (HeaderField × Nat) :=
  [(.imageName, 64), (.signature, 4), (.version, 4), (.headerSize, 4), (.imageType, 4),
   (.imageFlags, 4), (.description, 256), (.offsetBlocks, 4), (.offsetData, 4),
   (.sectorSize, 4), (.unused, 4), (.diskSize, 8), (.blockSize, 4),
   (.blockExtraSize, 4), (.totalBlocks, 4), (.blocksAllocated, 4)]

/-- Offset of a member in a record packed with `#pragma pack(push,1)`: the sum
of the sizes of the members declared before it. -/
def offsetIn : List (HeaderField × Nat) → HeaderField → Nat
  | [], _ => 0
  | (g, n) :: rest, f => if g = f then 0 else n + offsetIn rest f

def offsetOf (f : HeaderField) : Nat := offsetIn headerLayout f

/-- The value of `sizeof(VDIHeader)`. -/
def sizeofVDIHeader : Nat := (headerLayout.map Prod.snd).sum

/-- The record `VDIHeader`: its bytes; members are read in place, little-endian. -/
structure VDIHeader where
  raw : Mem

namespace VDIHeader

def signature (h : VDIHeader) : Nat := le32 h.raw (offsetOf .signature)
def imageType (h : VDIHeader) : Nat := le32 h.raw (offsetOf .imageType)
def offsetBlocks (h : VDIHeader) : Nat := le32 h.raw (offsetOf .offsetBlocks)
def offsetData (h : VDIHeader) : Nat := le32 h.raw (offsetOf .offsetData)
def sectorSize (h : VDIHeader) : Nat := le32 h.raw (offsetOf .sectorSize)
def diskSize (h : VDIHeader) : Nat := le64 h.raw (offsetOf .diskSize)

end VDIHeader

/-- The record `VDIFile` of `vdi.cpp`. -/
structure VDIFile where
  fd : Int
  cursor : Nat
  header : VDIHeader

/-- The function `vdiOpen` of `vdi.cpp`: `host` is the file named by `filename`
when it can be opened `O_RDWR`, `fd` the descriptor that `open` returns for it,
`fresh` the content of the record that `new VDIFile` delivers.  The result of
`pread` is not looked at. -/
def vdiOpen (host : Option HostFile) (fd : Int) (fresh : Mem) : Option VDIFile :=
  match host with
  | none => none
  | some h =>
    some { fd := fd, cursor := 0, header := { raw := (pread h fresh sizeofVDIHeader 0).1 } }

end VdiCpp

namespace PartitionCpp

/-- The value of `sizeof(MBR)`: 446 bytes of bootstrap, four entries of 16 bytes
and the signature. -/
def sizeofMBR : Nat := 446 + 4 * 16 + 2

/-- The member `partitions[i].firstLBASector` of the packed record `MBR`. -/
def firstLBASector (mbr : Mem) (i : Nat) : Nat := le32 mbr (446 + 16 * i + 8)

/-- The member `partitions[i].sectorCount` of the packed record `MBR`. -/
def sectorCount (mbr : Mem) (i : Nat) : Nat := le32 mbr (446 + 16 * i + 12)

/-- The function `openPartition` of `partition.cpp`: `host` is the file named
by `filename` when it can be opened `O_RDWR`, `fd` its descriptor, `stack` the
content of the local `mbr` before `pread` fills it from file offset 0.  The
products are formed in `uint32_t`.  No result stands for `nullptr`. -/
def openPartition (host : Option HostFile) (fd : Int) (stack : Mem) (partNum : Int) :
    Option Partition :=
  match host with
  | none => none
  | some h =>
    let mbr := (pread h stack sizeofMBR 0).1
    if partNum < 0 ∨ partNum > 3 ∨ sectorCount mbr partNum.toNat = 0 then none
    else
      some { fd := fd
             partitionStart := (firstLBASector mbr partNum.toNat * 512) % 4294967296
             partitionSize := (sectorCount mbr partNum.toNat * 512) % 4294967296
             cursor := 0 }

end PartitionCpp

/-- A memory with one byte replaced. -/
def patch (m : Mem) (off : Nat) (v : Byte) : Mem := fun i => if i = off then v else m i

/-- A disk image without a container in front of it: the bytes 0x158 to 0x15B
are zero (data offset 0), the bytes at 0x170 declare a disk of 16 GiB, and entry
0 of the partition table at byte 446 has `firstLBA = 0x800000` and
`sectorCount = 0x800800`. -/
def rawData : Mem := fun i =>
  if i = 372 then 4
  else if i = 456 then 0x80
  else if i = 459 then 8 else if i = 460 then 0x80
  else 0

def rawHost : HostFile := { data := rawData, size := 17179869184 }

/-! ## A sample image cut off inside the volume -/

/-- The sample file cut off at the end of block 3 of the partition (byte
1053184), where the inode bitmap of group 0 would start. -/
def cutHost : HostFile := { data := sampleData false, size := 1053184 }

/-- The volume of the cut-off file as `main` opens it. -/
def cutFs : Ext2File := (openVolume (some cutHost) 0).getD Ext2File.fresh

/-! ## A fourth sample image

A disk of 16 GiB with a partition of 8 GiB; the volume has 4 KiB blocks and two
groups of 2^20 blocks and 8192 inodes.  Group 0 has its inode bitmap in block 2
and its inode table in block 5 (file offset 1069568), group 1 in blocks
0x100002 and 0x100005 (partition offset 2^32 + 20480, file offset 4296036864).
The record of inode 1 starts with 0xA4, that of inode 8193 with 0x77. -/

def twoGroupData : Mem := fun i =>
  -- container header: frameOffset = 512, diskSize = 0x400000000
  if i = 345 then 2 else if i = 372 then 4
  -- boot sector: entry 0 has firstLBA = 2048, sectorCount = 0x1000000
  else if i = 967 then 8 else if i = 973 then 1
  -- superblock at 1050112
  else if i = 1050113 then 0x40        -- s_inodes_count = 16384
  else if i = 1050118 then 0x20        -- s_blocks_count = 0x200000
  else if i = 1050136 then 2           -- s_log_block_size = 2
  else if i = 1050146 then 0x10        -- s_blocks_per_group = 0x100000
  else if i = 1050153 then 0x20        -- s_inodes_per_group = 8192
  else if i = 1050168 then 0x53 else if i = 1050169 then 0xEF   -- s_magic
  -- descriptor table in block 1, at 1053184
  else if i = 1053188 then 2 else if i = 1053192 then 5
  else if i = 1053220 then 2 else if i = 1053222 then 0x10
  else if i = 1053224 then 5 else if i = 1053226 then 0x10
  -- inode table of group 0 in block 5
  else if i = 1069568 then 0xA4
  -- inode table of group 1 in block 0x100005
  else if i = 4296036864 then 0x77
  else 0

def twoGroupHost : HostFile := { data := twoGroupData, size := 17179869696 }

/-- The fourth sample volume as `main` opens it. -/
def twoGroupFs : Ext2File := (openVolume (some twoGroupHost) 0).getD Ext2File.fresh

/-- The fourth sample volume on a stream open for input and output. -/
def twoGroupFsRW : Ext2File :=
  twoGroupFs.setFile { twoGroupFs.part.vdi.file with modeOut := true }

/-! ## Sample images with a superblock that `ext2Open` does not check -/

/-- The sample image with `s_inodes_per_group = 0`. -/
def noGroupHost : HostFile :=
  { data := patch (sampleData false) 1050153 0, size := 134218240 }

def noGroupFs : Ext2File := (openVolume (some noGroupHost) 0).getD Ext2File.fresh

/-- The sample image of revision 1 with `s_inode_size = 64`. -/
def smallInodeHost : HostFile :=
  { data := patch (patch (sampleData true) 1050200 0x40) 1050201 0, size := 134218240 }

def smallInodeFs : Ext2File := (openVolume (some smallInodeHost) 0).getD Ext2File.fresh

/-- The sample image of revision 1 with `s_inode_size = 0`. -/
def zeroInodeHost : HostFile :=
  { data := patch (sampleData true) 1050201 0, size := 134218240 }

def zeroInodeFs : Ext2File := (openVolume (some zeroInodeHost) 0).getD Ext2File.fresh

/-- The sample image with `s_inodes_per_group = 8200`, more than the 8192 bits
of a bitmap block. -/
def wideGroupHost : HostFile :=
  { data := patch (sampleData false) 1050152 8, size := 134218240 }

def wideGroupFs : Ext2File := (openVolume (some wideGroupHost) 0).getD Ext2File.fresh

/-- The sample image with `s_inodes_per_group = 2^32 - 1`. -/
def hugeGroupHost : HostFile :=
  { data := patch (patch (patch (patch (sampleData false) 1050152 0xFF) 1050153 0xFF)
      1050154 0xFF) 1050155 0xFF
    size := 134218240 }

def hugeGroupFs : Ext2File := (openVolume (some hugeGroupHost) 0).getD Ext2File.fresh

/-- Start of the slot of inode `n` relative to the first byte of the inode table
of its group: `(indexInGroup / inodesPerBlock) * blockSize + byteOffset`. -/
def Ext2File.slotOffset (fs : Ext2File) (n : Nat) : Nat :=
  (fs.address n).indexInGroup / (fs.address n).inodesPerBlock * fs.blockSize
    + (fs.address n).byteOffset

/-- The sample container after a read of 100 bytes at logical offset 4096. -/
def sampleVdiLater : VDIFile := (vdiRead sampleVdi 4096 zeroMem 100).1

/-- The sample volume after a read of block 5. -/
def sampleFsRead : Ext2File := (ext2ReadBlock sampleFs 5 zeroMem).1

/-- The sample volume on a stream open for input and output. -/
def sampleFsRW : Ext2File := sampleFs.setFile { sampleFs.part.vdi.file with modeOut := true }

/-! ## Sample images whose block numbers leave the 32-bit range -/

/-- The sample image with `bg_inode_table` of group 0 set to 0xFFFFFFFF, and the
byte 0x5A at the start of the partition (file offset 1049088). -/
def wrapTableHost : HostFile :=
  { data := fun i =>
      if i = 1051144 ∨ i = 1051145 ∨ i = 1051146 ∨ i = 1051147 then 0xFF
      else if i = 1049088 then 0x5A else sampleData false i
    size := 134218240 }

/-- The volume of that image as `main` opens it. -/
def wrapTableFs : Ext2File := (openVolume (some wrapTableHost) 0).getD Ext2File.fresh

/-- The sample image with `s_first_data_block = 0xFFFFFFFF`, and in the first
block of the partition (file offset 1049088) the bytes 4 and 5 at offsets 4 and
8, where a descriptor has `bg_inode_bitmap` and `bg_inode_table`. -/
def lastBlockHost : HostFile :=
  { data := fun i =>
      if i = 1050132 ∨ i = 1050133 ∨ i = 1050134 ∨ i = 1050135 then 0xFF
      else if i = 1049092 then 4 else if i = 1049096 then 5 else sampleData false i
    size := 134218240 }

/-- The volume of that image after `ext2LoadSuperblock`, before `ext2LoadBGDT`. -/
def lastBlockSuper : Ext2File :=
  ((ext2LoadSuperblock
    { Ext2File.fresh with part := openPartition lastBlockHost }).getD
      (Ext2File.fresh, false)).1

/-- The volume of that image as `main` opens it. -/
def lastBlockFs : Ext2File := (openVolume (some lastBlockHost) 0).getD Ext2File.fresh

/-! ## The bitmap byte of an inode -/

/-- File offset of the byte that holds the bit of inode `n` in the inode bitmap,
in the words of the specification: byte `((n-1) mod inodesPerGroup) / 8` of the
block `bgdt[(n-1) / inodesPerGroup].bg_inode_bitmap`, that is partition offset
`bitmapBlock * blockSize + byteIndex`, plus `startByte` on the logical disk, plus
the data offset of the container in the file. -/
def Ext2File.bitmapByteOffset (fs : Ext2File) (n : Nat) : Nat :=
  physOffset fs (fs.inodeBitmap ((n - 1) / fs.sb.s_inodes_per_group))
    + (n - 1) % fs.sb.s_inodes_per_group / 8

/-! ## Lemmas on the stream and on `ext2ReadBlock` -/

theorem toInt64_of_lt (x : Nat) (h : x < 9223372036854775808) : toInt64 x = (x : Int) := by
  unfold toInt64
  have h1 : x % 18446744073709551616 = x := Nat.mod_eq_of_lt (by omega)
  rw [h1, if_pos h]

theorem le32_lt (m : Mem) (off : Nat) : le32 m off < 4294967296 := by
  unfold le32; omega

theorem le16_lt (m : Mem) (off : Nat) : le16 m off < 65536 := by
  unfold le16; omega

theorem le64_lt (m : Mem) (off : Nat) : le64 m off < 18446744073709551616 := by
  have h1 := le32_lt m off
  have h2 := le32_lt m (off + 4)
  unfold le64; omega

theorem ext2ReadBlock_eq (fs : Ext2File) (index : Nat) (buf : Mem) (hr : fs.InRange)
    (hidx : index < 4294967296) :
    ext2ReadBlock fs index buf =
      if index * fs.blockSize + fs.blockSize > fs.part.sizeBytes then
        (fs, memset buf 0 fs.blockSize, false)
      else if fs.part.startByte + index * fs.blockSize + fs.blockSize
          > fs.part.vdi.diskSize then
        (fs, memset buf 0 fs.blockSize, false)
      else if !(fs.part.vdi.file.seekg ((physOffset fs index : Nat) : Int)).good then
        (fs.setFile (fs.part.vdi.file.seekg ((physOffset fs index : Nat) : Int)),
          memset buf 0 fs.blockSize, false)
      else if (physRead fs index buf).1.gcount < fs.blockSize then
        (fs.setFile (physRead fs index buf).1,
          memset (physRead fs index buf).2 0 fs.blockSize, false)
      else (fs.setFile (physRead fs index buf).1, (physRead fs index buf).2, true) := by
  obtain ⟨h1, h2, h3, h4⟩ := hr
  have hmul : index * fs.blockSize ≤ 4294967295 * 4294967295 :=
    Nat.mul_le_mul (by omega) (by omega)
  have e1 : (index * fs.blockSize) % 18446744073709551616 = index * fs.blockSize :=
    Nat.mod_eq_of_lt (by omega)
  have e2 : (index * fs.blockSize + fs.blockSize) % 18446744073709551616
      = index * fs.blockSize + fs.blockSize := Nat.mod_eq_of_lt (by omega)
  unfold ext2ReadBlock
  simp only [e1, e2]
  by_cases c1 : index * fs.blockSize + fs.blockSize > fs.part.sizeBytes
  · simp only [if_pos c1]
  · simp only [if_neg c1]
    have e3 : (fs.part.startByte + index * fs.blockSize) % 18446744073709551616
        = fs.part.startByte + index * fs.blockSize := Nat.mod_eq_of_lt (by omega)
    have e4 : (fs.part.startByte + index * fs.blockSize + fs.blockSize)
        % 18446744073709551616
        = fs.part.startByte + index * fs.blockSize + fs.blockSize :=
      Nat.mod_eq_of_lt (by omega)
    have e5 : (fs.part.vdi.frameOffset + (fs.part.startByte + index * fs.blockSize))
        % 18446744073709551616 = physOffset fs index := by
      unfold physOffset
      rw [Nat.mod_eq_of_lt (by omega)]; omega
    have e6 : toInt64 (physOffset fs index) = ((physOffset fs index : Nat) : Int) :=
      toInt64_of_lt _ (by unfold physOffset; omega)
    simp only [e3, e4, e5, e6, physRead]

theorem FStream.read_gcount (s : FStream) (buf : Mem) (n : Nat) :
    (s.read buf n).1.gcount = if s.good then s.got n else 0 := by
  unfold FStream.read
  cases hg : s.good <;> simp
  split_ifs <;> rfl

theorem FStream.read_snd (s : FStream) (buf : Mem) (n : Nat) :
    (s.read buf n).2 = if s.good then memcpy buf 0 s.data s.pos (s.got n) else buf := by
  unfold FStream.read
  cases hg : s.good <;> simp
  split_ifs <;> rfl

theorem FStream.got_le (s : FStream) (n : Nat) : s.got n ≤ n := by
  unfold FStream.got; split_ifs <;> omega

theorem FStream.read_full_good (s : FStream) (buf : Mem) (n : Nat)
    (h : ¬ (s.read buf n).1.gcount < n) (hn : 0 < n) :
    s.good = true ∧ s.got n = n := by
  rw [FStream.read_gcount] at h
  have := s.got_le n
  cases hg : s.good
  · simp [hg] at h; omega
  · simp [hg] at h; exact ⟨rfl, by omega⟩

theorem FStream.read_full (s : FStream) (buf : Mem) (n : Nat)
    (h : ¬ (s.read buf n).1.gcount < n) (k : Nat) (hk : k < n) :
    (s.read buf n).2 k = s.data (s.pos + k) := by
  obtain ⟨hg, hgot⟩ := s.read_full_good buf n h (by omega)
  rw [FStream.read_snd, hg, if_pos rfl, hgot]
  simp [memcpy, hk]

theorem FStream.read_full_size (s : FStream) (buf : Mem) (n : Nat)
    (h : ¬ (s.read buf n).1.gcount < n) (hn : 0 < n) :
    s.pos + n ≤ s.size ∧ s.isOpen = true ∧ s.modeIn = true := by
  obtain ⟨_, hgot⟩ := s.read_full_good buf n h hn
  unfold FStream.got FStream.avail at hgot
  by_cases ho : (s.isOpen && s.modeIn) = true
  · have ho2 := ho
    simp only [Bool.and_eq_true] at ho2
    simp only [ho, if_true] at hgot
    split_ifs at hgot <;> exact ⟨by omega, ho2.1, ho2.2⟩
  · simp only [ho, Bool.false_eq_true, if_false] at hgot
    split_ifs at hgot <;> omega

theorem FStream.seekg_good (s : FStream) (off : Nat)
    (h : (s.seekg (off : Int)).good = true) :
    (s.seekg (off : Int)).pos = off ∧ (s.seekg (off : Int)).data = s.data
      ∧ (s.seekg (off : Int)).size = s.size := by
  unfold FStream.seekg at h ⊢
  simp only at h ⊢
  split_ifs at h ⊢ with c1 c2
  · simp [FStream.good] at h
  · simp [FStream.good] at h
  · simp

theorem physOffset_toInt64 (fs : Ext2File) (index : Nat) (hr : fs.InRange)
    (h1 : index * fs.blockSize + fs.blockSize ≤ fs.part.sizeBytes) :
    toInt64 (physOffset fs index) = ((physOffset fs index : Nat) : Int) := by
  apply toInt64_of_lt
  have := hr.1; have := hr.2; have := hr.3; have := hr.4
  unfold physOffset; omega

theorem ext2ReadBlock_false_of (fs : Ext2File) (index : Nat) (buf : Mem)
    (hr : fs.InRange) (hidx : index < 4294967296)
    (h : index * fs.blockSize + fs.blockSize > fs.part.sizeBytes
        ∨ fs.part.startByte + index * fs.blockSize + fs.blockSize > fs.part.vdi.diskSize
        ∨ (physRead fs index buf).1.gcount < fs.blockSize
        ∨ (0 < fs.blockSize
          ∧ fs.part.vdi.file.size < physOffset fs index + fs.blockSize)) :
    (ext2ReadBlock fs index buf).2.2 = false := by
  rw [ext2ReadBlock_eq fs index buf hr hidx]
  rcases h with h | h | h | ⟨hpos, h⟩
  · simp only [if_pos h]
  · split_ifs <;> rfl
  · split_ifs <;> rfl
  · split_ifs with c1 c2 c3 c4
    · rfl
    · rfl
    · rfl
    · rfl
    · exfalso
      have hg : (fs.part.vdi.file.seekg ((physOffset fs index : Nat) : Int)).good = true := by
        simpa using c3
      obtain ⟨hp, _, hs⟩ := FStream.seekg_good _ _ hg
      have e6 := physOffset_toInt64 fs index hr (by omega)
      have := (FStream.read_full_size _ buf fs.blockSize
        (by simpa [physRead, e6] using c4) hpos).1
      rw [hp, hs] at this
      omega

/-- On every path on which `ext2ReadBlock` returns false the buffer is zero. -/
theorem ext2ReadBlock_false_zero (fs : Ext2File) (index : Nat) (buf : Mem)
    (h : (ext2ReadBlock fs index buf).2.2 = false) (k : Nat) (hk : k < fs.blockSize) :
    (ext2ReadBlock fs index buf).2.1 k = 0 := by
  unfold ext2ReadBlock at h ⊢
  simp only at h ⊢
  split_ifs at h ⊢
  all_goals simp [memset, hk]

theorem ext2ReadBlock_true_spec (fs : Ext2File) (index : Nat) (buf : Mem)
    (hr : fs.InRange) (hidx : index < 4294967296)
    (h : (ext2ReadBlock fs index buf).2.2 = true) :
    index * fs.blockSize + fs.blockSize ≤ fs.part.sizeBytes
    ∧ fs.part.startByte + index * fs.blockSize + fs.blockSize ≤ fs.part.vdi.diskSize
    ∧ (∀ k, k < fs.blockSize →
        (ext2ReadBlock fs index buf).2.1 k
          = fs.part.vdi.file.data
              (fs.part.vdi.frameOffset + fs.part.startByte + index * fs.blockSize + k))
    ∧ (0 < fs.blockSize →
        fs.part.vdi.frameOffset + fs.part.startByte + index * fs.blockSize + fs.blockSize
          ≤ fs.part.vdi.file.size) := by
  rw [ext2ReadBlock_eq fs index buf hr hidx] at h ⊢
  split_ifs at h ⊢ with c1 c2 c3 c4
  have hg : (fs.part.vdi.file.seekg ((physOffset fs index : Nat) : Int)).good = true := by
    simpa using c3
  obtain ⟨hp, hd, hs⟩ := FStream.seekg_good _ _ hg
  have e6 := physOffset_toInt64 fs index hr (by omega)
  refine ⟨by omega, by omega, ?_, ?_⟩
  · intro k hk
    have := FStream.read_full _ buf fs.blockSize (by simpa [physRead, e6] using c4) k hk
    simp only [physRead, e6]
    rw [this, hp, hd]
    rfl
  · intro hpos
    have := (FStream.read_full_size _ buf fs.blockSize
      (by simpa [physRead, e6] using c4) hpos).1
    rw [hp, hs] at this
    exact this

/-- C6. `ext2ReadBlock` returns false whenever the block reaches past the
partition (`index*blockSize + blockSize > sizeBytes`), or past the logical disk
(`startByte + index*blockSize + blockSize > diskSize`), or the physical read
delivers fewer than `blockSize` bytes (as it does when the file ends before the
end of the block); and whenever it returns false, all `blockSize` bytes of the
buffer are zero. -/
theorem ext2ReadBlock_failure_zero_fill (fs : Ext2File) (index : Nat) (buf : Mem)
    (hr : fs.InRange) (hidx : index < 4294967296) :
    ((index * fs.blockSize + fs.blockSize > fs.part.sizeBytes
        ∨ fs.part.startByte + index * fs.blockSize + fs.blockSize > fs.part.vdi.diskSize
        ∨ (physRead fs index buf).1.gcount < fs.blockSize
        ∨ (0 < fs.blockSize
          ∧ fs.part.vdi.file.size < physOffset fs index + fs.blockSize))
      → (ext2ReadBlock fs index buf).2.2 = false)
    ∧ ((ext2ReadBlock fs index buf).2.2 = false
      → ∀ k, k < fs.blockSize → (ext2ReadBlock fs index buf).2.1 k = 0) :=
  ⟨ext2ReadBlock_false_of fs index buf hr hidx, ext2ReadBlock_false_zero fs index buf⟩

/-- C7. Whenever `ext2ReadBlock` returns true, the block lies wholly inside the
partition and inside the logical disk, and the buffer holds exactly the
`blockSize` bytes of the backing file at physical offset
`frameOffset + startByte + index*blockSize` (bytes that the file has). -/
theorem ext2ReadBlock_success_exact (fs : Ext2File) (index : Nat) (buf : Mem)
    (hr : fs.InRange) (hidx : index < 4294967296)
    (h : (ext2ReadBlock fs index buf).2.2 = true) :
    index * fs.blockSize + fs.blockSize ≤ fs.part.sizeBytes
    ∧ fs.part.startByte + index * fs.blockSize + fs.blockSize ≤ fs.part.vdi.diskSize
    ∧ (∀ k, k < fs.blockSize →
        (ext2ReadBlock fs index buf).2.1 k
          = fs.part.vdi.file.data
              (fs.part.vdi.frameOffset + fs.part.startByte + index * fs.blockSize + k))
    ∧ (0 < fs.blockSize →
        fs.part.vdi.frameOffset + fs.part.startByte + index * fs.blockSize + fs.blockSize
          ≤ fs.part.vdi.file.size) :=
  ext2ReadBlock_true_spec fs index buf hr hidx h

theorem sampleFs_inRange : sampleFs.InRange :=
  ⟨by decide, by decide, by decide, by decide⟩

/-- Witness of C6 on the sample volume: block 200000 lies past the partition of
102400 blocks; the call returns false and the buffer, which held 0xED in byte 0,
is zero. -/
theorem ext2ReadBlock_failure_zero_fill_witness :
    sampleInode 0 = 0xED
    ∧ (ext2ReadBlock sampleFs 200000 sampleInode).2.2 = false
    ∧ (ext2ReadBlock sampleFs 200000 sampleInode).2.1 0 = 0 :=
  ⟨by decide,
    (ext2ReadBlock_failure_zero_fill sampleFs 200000 sampleInode sampleFs_inRange
      (by decide)).1 (Or.inl (by decide)),
    (ext2ReadBlock_failure_zero_fill sampleFs 200000 sampleInode sampleFs_inRange
      (by decide)).2 (by decide) 0 (by decide)⟩

/-- Witness of C7 on the sample volume: block 5 (the inode table of group 0) is
read, and byte 128 of the buffer is the byte 0xA4 of the file at offset
512 + 1048576 + 5*1024 + 128. -/
theorem ext2ReadBlock_success_exact_witness :
    (ext2ReadBlock sampleFs 5 zeroMem).2.2 = true
    ∧ (ext2ReadBlock sampleFs 5 zeroMem).2.1 128
        = sampleFs.part.vdi.file.data
            (sampleFs.part.vdi.frameOffset + sampleFs.part.startByte
              + 5 * sampleFs.blockSize + 128)
    ∧ sampleFs.part.vdi.file.data (512 + 1048576 + 5 * 1024 + 128) = 0xA4 :=
  ⟨by decide,
    (ext2ReadBlock_success_exact sampleFs 5 zeroMem sampleFs_inRange (by decide)
      (by decide)).2.2.1 128 (by decide),
    by decide⟩

/-! ## Inode addressing (C2) -/

theorem u32_pred (n : Nat) (h1 : 1 ≤ n) (h2 : n < 4294967296) :
    (n + 4294967295) % 4294967296 = n - 1 := by omega

theorem Ext2File.inodeTable_of_get (fs : Ext2File) (g : Nat) (d : Ext2BlockGroupDescriptor)
    (h : fs.bgdt.get? g = some d) : fs.inodeTable g = d.bg_inode_table := by
  simp [Ext2File.inodeTable, h]

theorem BGDTVector.get_of_lt (v : BGDTVector) (g : Nat) (h : g < v.len) :
    v.get? g = some (decodeBGD v.raw (sizeofBGD * g)) := by
  simp [BGDTVector.get?, h]

theorem Ext2File.byteOffset_le (fs : Ext2File) (n : Nat) :
    (fs.address n).byteOffset + fs.inodeSize ≤ fs.blockSize ∨ fs.blockSize / fs.inodeSize = 0 := by
  by_cases h0 : fs.blockSize / fs.inodeSize = 0
  · exact Or.inr h0
  · left
    have hpos : 0 < fs.blockSize / fs.inodeSize := Nat.pos_of_ne_zero h0
    have h1 : (fs.address n).byteOffset
        = (((n - 1) % fs.sb.s_inodes_per_group) % (fs.blockSize / fs.inodeSize)) * fs.inodeSize := rfl
    have h2 := Nat.mod_lt ((n - 1) % fs.sb.s_inodes_per_group) hpos
    have h3 : (((n - 1) % fs.sb.s_inodes_per_group) % (fs.blockSize / fs.inodeSize) + 1)
        * fs.inodeSize ≤ (fs.blockSize / fs.inodeSize) * fs.inodeSize :=
      Nat.mul_le_mul_right _ h2
    have h4 := Nat.div_mul_le_self fs.blockSize fs.inodeSize
    rw [h1]
    rw [Nat.add_mul, Nat.one_mul] at h3
    omega

theorem fetchInode_eq (fs : Ext2File) (n : Nat) (inode : Mem) (h : fs.AddressDefined n)
    (hn : n ≤ fs.sb.s_inodes_count) :
    fetchInode fs n inode
      = fetchInodeAt fs (fs.address n).block (fs.address n).byteOffset inode := by
  obtain ⟨h1, h2, h3, h4, h5, h6, h7, h8⟩ := h
  have hipb : 0 < fs.blockSize / fs.inodeSize := Nat.div_pos h6 h5
  have hoff := fs.byteOffset_le n
  have e1 := u32_pred n h1 h2
  have eg := BGDTVector.get_of_lt fs.bgdt _ h7
  have et := fs.inodeTable_of_get _ _ eg
  have hb : (fs.address n).block
      = fs.inodeTable ((n - 1) / fs.sb.s_inodes_per_group)
        + ((n - 1) % fs.sb.s_inodes_per_group) / (fs.blockSize / fs.inodeSize) := rfl
  have ho : (fs.address n).byteOffset
      = (((n - 1) % fs.sb.s_inodes_per_group) % (fs.blockSize / fs.inodeSize)) * fs.inodeSize := rfl
  unfold fetchInode
  rw [if_neg (by omega), if_neg (by omega)]
  simp only [e1]
  rw [if_neg (by omega), if_neg (by omega)]
  simp only [eg]
  rw [hb, ho, et]
  rw [hb, et] at h8
  rw [ho] at hoff
  have hlt : (n - 1) % fs.sb.s_inodes_per_group % (fs.blockSize / fs.inodeSize)
      * fs.inodeSize < 4294967296 := by
    rcases hoff with hoff | hoff
    · exact Nat.lt_of_le_of_lt (Nat.le_trans (Nat.le_add_right _ _) hoff) h3
    · omega
  rw [Nat.mod_eq_of_lt h8, Nat.mod_eq_of_lt hlt]

theorem writeInode_eq (fs : Ext2File) (n : Nat) (inode : Mem) (h : fs.AddressDefined n) :
    writeInode fs n inode
      = writeInodeAt fs (fs.address n).block (fs.address n).byteOffset inode := by
  obtain ⟨h1, h2, h3, h4, h5, h6, h7, h8⟩ := h
  have hipb : 0 < fs.blockSize / fs.inodeSize := Nat.div_pos h6 h5
  have hoff := fs.byteOffset_le n
  have e1 := u32_pred n h1 h2
  have eg := BGDTVector.get_of_lt fs.bgdt _ h7
  have et := fs.inodeTable_of_get _ _ eg
  have hb : (fs.address n).block
      = fs.inodeTable ((n - 1) / fs.sb.s_inodes_per_group)
        + ((n - 1) % fs.sb.s_inodes_per_group) / (fs.blockSize / fs.inodeSize) := rfl
  have ho : (fs.address n).byteOffset
      = (((n - 1) % fs.sb.s_inodes_per_group) % (fs.blockSize / fs.inodeSize)) * fs.inodeSize := rfl
  unfold writeInode
  rw [if_neg (by omega)]
  simp only [e1]
  rw [if_neg (by omega), if_neg (by omega)]
  simp only [eg]
  rw [hb, ho, et]
  rw [hb, et] at h8
  rw [ho] at hoff
  have hlt : (n - 1) % fs.sb.s_inodes_per_group % (fs.blockSize / fs.inodeSize)
      * fs.inodeSize < 4294967296 := by
    rcases hoff with hoff | hoff
    · exact Nat.lt_of_le_of_lt (Nat.le_trans (Nat.le_add_right _ _) hoff) h3
    · omega
  rw [Nat.mod_eq_of_lt h8, Nat.mod_eq_of_lt hlt]

theorem fetchInode_eq_mod (fs : Ext2File) (n : Nat) (inode : Mem)
    (h1 : 1 ≤ n) (h2 : n < 4294967296) (h3 : fs.blockSize < 4294967296)
    (h4 : 0 < fs.sb.s_inodes_per_group) (h5 : 0 < fs.inodeSize)
    (h6 : fs.inodeSize ≤ fs.blockSize)
    (h7 : (n - 1) / fs.sb.s_inodes_per_group < fs.bgdt.len)
    (hn : n ≤ fs.sb.s_inodes_count) :
    fetchInode fs n inode
      = fetchInodeAt fs ((fs.address n).block % 4294967296) (fs.address n).byteOffset
          inode := by
  have hipb : 0 < fs.blockSize / fs.inodeSize := Nat.div_pos h6 h5
  have hoff := fs.byteOffset_le n
  have e1 := u32_pred n h1 h2
  have eg := BGDTVector.get_of_lt fs.bgdt _ h7
  have et := fs.inodeTable_of_get _ _ eg
  have hb : (fs.address n).block
      = fs.inodeTable ((n - 1) / fs.sb.s_inodes_per_group)
        + ((n - 1) % fs.sb.s_inodes_per_group) / (fs.blockSize / fs.inodeSize) := rfl
  have ho : (fs.address n).byteOffset
      = (((n - 1) % fs.sb.s_inodes_per_group) % (fs.blockSize / fs.inodeSize)) * fs.inodeSize := rfl
  unfold fetchInode
  rw [if_neg (by omega), if_neg (by omega)]
  simp only [e1]
  rw [if_neg (by omega), if_neg (by omega)]
  simp only [eg]
  rw [hb, ho, et]
  rw [ho] at hoff
  have hlt : (n - 1) % fs.sb.s_inodes_per_group % (fs.blockSize / fs.inodeSize)
      * fs.inodeSize < 4294967296 := by
    rcases hoff with hoff | hoff
    · exact Nat.lt_of_le_of_lt (Nat.le_trans (Nat.le_add_right _ _) hoff) h3
    · omega
  rw [Nat.mod_eq_of_lt hlt]

theorem writeInode_eq_mod (fs : Ext2File) (n : Nat) (inode : Mem)
    (h1 : 1 ≤ n) (h2 : n < 4294967296) (h3 : fs.blockSize < 4294967296)
    (h4 : 0 < fs.sb.s_inodes_per_group) (h5 : 0 < fs.inodeSize)
    (h6 : fs.inodeSize ≤ fs.blockSize)
    (h7 : (n - 1) / fs.sb.s_inodes_per_group < fs.bgdt.len) :
    writeInode fs n inode
      = writeInodeAt fs ((fs.address n).block % 4294967296) (fs.address n).byteOffset
          inode := by
  have hipb : 0 < fs.blockSize / fs.inodeSize := Nat.div_pos h6 h5
  have hoff := fs.byteOffset_le n
  have e1 := u32_pred n h1 h2
  have eg := BGDTVector.get_of_lt fs.bgdt _ h7
  have et := fs.inodeTable_of_get _ _ eg
  have hb : (fs.address n).block
      = fs.inodeTable ((n - 1) / fs.sb.s_inodes_per_group)
        + ((n - 1) % fs.sb.s_inodes_per_group) / (fs.blockSize / fs.inodeSize) := rfl
  have ho : (fs.address n).byteOffset
      = (((n - 1) % fs.sb.s_inodes_per_group) % (fs.blockSize / fs.inodeSize)) * fs.inodeSize := rfl
  unfold writeInode
  rw [if_neg (by omega)]
  simp only [e1]
  rw [if_neg (by omega), if_neg (by omega)]
  simp only [eg]
  rw [hb, ho, et]
  rw [ho] at hoff
  have hlt : (n - 1) % fs.sb.s_inodes_per_group % (fs.blockSize / fs.inodeSize)
      * fs.inodeSize < 4294967296 := by
    rcases hoff with hoff | hoff
    · exact Nat.lt_of_le_of_lt (Nat.le_trans (Nat.le_add_right _ _) hoff) h3
    · omega
  rw [Nat.mod_eq_of_lt hlt]

/-- C2. Inode addressing: for an inode number `n ≥ 1` on a volume whose inodes
per group are non-zero, with `0 < inodeSize ≤ blockSize` and a descriptor for
the group of `n`, `fetchInode` (for `n` up to `s_inodes_count`) and `writeInode`
operate on block `(bgdt[group].bg_inode_table + indexInGroup/inodesPerBlock) mod
2^32` at byte offset `(indexInGroup mod inodesPerBlock) * inodeSize`, with group
= (n-1)/inodesPerGroup, indexInGroup = (n-1) mod inodesPerGroup and
inodesPerBlock = blockSize/inodeSize; the block is the sum itself whenever the
sum is below 2^32.  With inodes_per_group = 8192, inodeSize = 128 and blockSize
= 1024, inode 1 has (group 0, index 0, byteOffset 0) and inode 8193 has (group
1, index 0, byteOffset 0). -/
theorem inode_addressing (fs : Ext2File) (n : Nat) (inode : Mem)
    (h1 : 1 ≤ n) (h2 : n < 4294967296) (h3 : fs.blockSize < 4294967296)
    (h4 : 0 < fs.sb.s_inodes_per_group) (h5 : 0 < fs.inodeSize)
    (h6 : fs.inodeSize ≤ fs.blockSize)
    (h7 : (n - 1) / fs.sb.s_inodes_per_group < fs.bgdt.len) :
    (n ≤ fs.sb.s_inodes_count →
      fetchInode fs n inode
        = fetchInodeAt fs ((fs.address n).block % 4294967296) (fs.address n).byteOffset
            inode)
    ∧ writeInode fs n inode
        = writeInodeAt fs ((fs.address n).block % 4294967296) (fs.address n).byteOffset
            inode
    ∧ ((fs.address n).block < 4294967296 →
        (n ≤ fs.sb.s_inodes_count →
          fetchInode fs n inode
            = fetchInodeAt fs (fs.address n).block (fs.address n).byteOffset inode)
        ∧ writeInode fs n inode
            = writeInodeAt fs (fs.address n).block (fs.address n).byteOffset inode)
    ∧ fs.address n =
        { group := (n - 1) / fs.sb.s_inodes_per_group
          indexInGroup := (n - 1) % fs.sb.s_inodes_per_group
          inodesPerBlock := fs.blockSize / fs.inodeSize
          block := fs.inodeTable ((n - 1) / fs.sb.s_inodes_per_group)
            + ((n - 1) % fs.sb.s_inodes_per_group) / (fs.blockSize / fs.inodeSize)
          byteOffset := (((n - 1) % fs.sb.s_inodes_per_group)
            % (fs.blockSize / fs.inodeSize)) * fs.inodeSize }
    ∧ (∀ tbl : Nat → Nat, specInodeAddress 8192 128 1024 tbl 1
        = { group := 0, indexInGroup := 0, inodesPerBlock := 8, block := tbl 0,
            byteOffset := 0 })
    ∧ (∀ tbl : Nat → Nat, specInodeAddress 8192 128 1024 tbl 8193
        = { group := 1, indexInGroup := 0, inodesPerBlock := 8, block := tbl 1,
            byteOffset := 0 }) :=
  ⟨fetchInode_eq_mod fs n inode h1 h2 h3 h4 h5 h6 h7,
    writeInode_eq_mod fs n inode h1 h2 h3 h4 h5 h6 h7,
    fun hb => ⟨fetchInode_eq fs n inode ⟨h1, h2, h3, h4, h5, h6, h7, hb⟩,
      writeInode_eq fs n inode ⟨h1, h2, h3, h4, h5, h6, h7, hb⟩⟩,
    rfl, fun tbl => by simp [specInodeAddress], fun tbl => by simp [specInodeAddress]⟩

theorem sampleFs_open : openVolume (some (sampleHost false)) 0 = some sampleFs := rfl

theorem sampleFs256_open : openVolume (some (sampleHost true)) 0 = some sampleFs256 := rfl

theorem sampleFs_addressDefined_8193 : sampleFs.AddressDefined 8193 :=
  ⟨by decide, by decide, by decide, by decide, by decide, by decide, by decide, by decide⟩

/-- Witness of C2 on the sample volume (8192 inodes per group, 128-byte inodes,
1 KiB blocks): inode 8193 is slot 0 of group 1, whose inode table starts at
block 8197. -/
theorem inode_addressing_witness :
    sampleFs.sb.s_inodes_per_group = 8192 ∧ sampleFs.inodeSize = 128
    ∧ sampleFs.blockSize = 1024
    ∧ sampleFs.address 8193
        = { group := 1, indexInGroup := 0, inodesPerBlock := 8, block := 8197,
            byteOffset := 0 }
    ∧ fetchInode sampleFs 8193 zeroMem
        = fetchInodeAt sampleFs (sampleFs.address 8193).block
            (sampleFs.address 8193).byteOffset zeroMem
    ∧ writeInode sampleFs 8193 sampleInode
        = writeInodeAt sampleFs (sampleFs.address 8193).block
            (sampleFs.address 8193).byteOffset sampleInode :=
  ⟨by decide, by decide, by decide, by decide,
    ((inode_addressing sampleFs 8193 zeroMem (by decide) (by decide) (by decide) (by decide)
      (by decide) (by decide) (by decide)).2.2.1 (by decide)).1 (by decide),
    ((inode_addressing sampleFs 8193 sampleInode (by decide) (by decide) (by decide)
      (by decide) (by decide) (by decide) (by decide)).2.2.1 (by decide)).2⟩

/-- Counterexample to C2 as stated: the sample image with `bg_inode_table` of
group 0 set to 0xFFFFFFFF is opened by `vdiOpen`, `mbrOpen` and `ext2Open`.
Inode 9 has index 8 in group 0, so the block of the formula is 0xFFFFFFFF + 1 =
2^32, which lies outside the partition: an access to that block returns -1.
`fetchInode(9)` returns 0 with the bytes of block 0 of the partition (file
offset 1049088, first byte 0x5A): the 32-bit sum is 0.  `writeInode(9, X)` reads
block 0 as well and goes on to the write, which fails on the stream open for
input only and sets badbit; an access to block 2^32 ends at the bounds test and
leaves the stream as it was. -/
theorem inode_block_wraps :
    openVolume (some wrapTableHost) 0 = some wrapTableFs
    ∧ wrapTableFs.sb.s_inodes_per_group = 8192 ∧ wrapTableFs.inodeSize = 128
    ∧ wrapTableFs.blockSize = 1024 ∧ wrapTableFs.sb.s_inodes_count = 16384
    ∧ wrapTableFs.bgdt.len = 2
    ∧ wrapTableFs.inodeTable 0 = 4294967295
    ∧ wrapTableFs.address 9
        = { group := 0, indexInGroup := 8, inodesPerBlock := 8, block := 4294967296,
            byteOffset := 0 }
    ∧ (fetchInodeAt wrapTableFs (wrapTableFs.address 9).block
          (wrapTableFs.address 9).byteOffset zeroMem).map (fun r => (r.2.2, r.2.1 0))
        = some (-1, 0)
    ∧ (fetchInode wrapTableFs 9 zeroMem).map (fun r => (r.2.2, r.2.1 0)) = some (0, 0x5A)
    ∧ (fetchInodeAt wrapTableFs 0 0 zeroMem).map (fun r => (r.2.2, r.2.1 0))
        = some (0, 0x5A)
    ∧ physOffset wrapTableFs 0 = 1049088
    ∧ wrapTableFs.part.vdi.file.data 1049088 = 0x5A
    ∧ (writeInode wrapTableFs 9 sampleInode).map
        (fun r => (r.2, r.1.part.vdi.file.badbit)) = some (-1, true)
    ∧ (writeInodeAt wrapTableFs 0 0 sampleInode).map
        (fun r => (r.2, r.1.part.vdi.file.badbit)) = some (-1, true)
    ∧ (writeInodeAt wrapTableFs (wrapTableFs.address 9).block
          (wrapTableFs.address 9).byteOffset sampleInode).map
        (fun r => (r.2, r.1.part.vdi.file.badbit)) = some (-1, false) := by
  refine ⟨rfl, ?_, ?_, ?_, ?_, ?_, ?_, ?_, ?_, ?_, ?_, ?_, ?_, ?_, ?_, ?_⟩ <;> decide

/-! ## Results of `fetchInode` (C3, C4) -/

theorem fetchInodeAt_eq (fs : Ext2File) (blockNum offset : Nat) (inode : Mem)
    (h : offset + sizeofInode ≤ fs.blockSize) :
    fetchInodeAt fs blockNum offset inode
      = some (if (ext2ReadBlock fs blockNum zeroMem).2.2 = false then
          ((ext2ReadBlock fs blockNum zeroMem).1, inode, -1)
        else
          ((ext2ReadBlock fs blockNum zeroMem).1,
            memcpy inode 0 (ext2ReadBlock fs blockNum zeroMem).2.1 offset sizeofInode, 0)) := by
  unfold fetchInodeAt
  by_cases hb : (ext2ReadBlock fs blockNum zeroMem).2.2 = false
  · simp [hb]
  · have hb1 : (ext2ReadBlock fs blockNum zeroMem).2.2 = true := by simpa using hb
    have hc : ¬ (offset + sizeofInode > fs.blockSize) := by omega
    simp [hb1, hc]

theorem fetchInode_cases (fs : Ext2File) (n : Nat) (inode : Mem)
    (hd : n = 0 ∨ n > fs.sb.s_inodes_count
      ∨ (fs.AddressDefined n ∧ (fs.address n).byteOffset + sizeofInode ≤ fs.blockSize)) :
    fetchInode fs n inode
      = some (if n = 0 ∨ n > fs.sb.s_inodes_count then (fs, inode, -1)
        else if (ext2ReadBlock fs (fs.address n).block zeroMem).2.2 = false then
          ((ext2ReadBlock fs (fs.address n).block zeroMem).1, inode, -1)
        else
          ((ext2ReadBlock fs (fs.address n).block zeroMem).1,
            memcpy inode 0 (ext2ReadBlock fs (fs.address n).block zeroMem).2.1
              (fs.address n).byteOffset sizeofInode, 0)) := by
  by_cases hrange : n = 0 ∨ n > fs.sb.s_inodes_count
  · rw [if_pos hrange]
    unfold fetchInode
    rw [if_pos hrange]
  · rw [if_neg hrange]
    rcases hd with h | h | ⟨h1, h2⟩
    · exact absurd (Or.inl h) hrange
    · exact absurd (Or.inr h) hrange
    · rw [fetchInode_eq fs n inode h1 (by omega), fetchInodeAt_eq fs _ _ inode h2]

theorem FStream.seekg_modeOut (s : FStream) (off : Int) :
    (s.seekg off).modeOut = s.modeOut := by
  unfold FStream.seekg; simp only; split_ifs <;> rfl

theorem FStream.read_modeOut (s : FStream) (buf : Mem) (n : Nat) :
    (s.read buf n).1.modeOut = s.modeOut := by
  unfold FStream.read; split_ifs <;> rfl

theorem FStream.seekp_modeOut (s : FStream) (off : Int) :
    (s.seekp off).modeOut = s.modeOut := by
  unfold FStream.seekp; simp only; split_ifs <;> rfl

theorem FStream.write_modeOut (s : FStream) (buf : Mem) (n : Nat) :
    (s.write buf n).modeOut = s.modeOut := by
  unfold FStream.write; split_ifs <;> rfl

theorem FStream.seekp_data (s : FStream) (off : Int) :
    (s.seekp off).data = s.data ∧ (s.seekp off).size = s.size := by
  unfold FStream.seekp; simp only; split_ifs <;> exact ⟨rfl, rfl⟩

theorem FStream.write_readonly (s : FStream) (buf : Mem) (n : Nat)
    (h : s.modeOut = false) :
    ((s.write buf n).good = true → n = 0)
    ∧ (s.write buf n).data = s.data ∧ (s.write buf n).size = s.size := by
  rcases s with ⟨d, sz, o, mi, mo, p, e, f, b, g⟩
  simp only at h
  subst h
  by_cases hn : n = 0
  · cases e <;> cases f <;> cases b <;> simp [FStream.write, FStream.good, hn]
  · cases e <;> cases f <;> cases b <;> simp [FStream.write, FStream.good, hn]

theorem vdiRead_modeOut (vdi : VDIFile) (off : Nat) (buf : Mem) (count : Nat) :
    (vdiRead vdi off buf count).1.file.modeOut = vdi.file.modeOut := by
  unfold vdiRead
  simp only
  split_ifs
  all_goals
    first
      | rfl
      | exact FStream.seekg_modeOut _ _
      | exact (FStream.read_modeOut _ _ _).trans (FStream.seekg_modeOut _ _)

theorem FStream.read_not_good (s : FStream) (buf : Mem) (n : Nat) (h : s.good = false) :
    (s.read buf n).1.good = false := by
  rcases s with ⟨d, sz, o, mi, mo, p, e, f, b, g⟩
  cases e <;> cases f <;> cases b <;> simp [FStream.read, FStream.good] at h ⊢

theorem FStream.seekg_openFile_good (s : FStream) (host : Option HostFile) (mIn mOut : Bool)
    (off : Int) (h : ((s.openFile host mIn mOut).seekg off).good = true) :
    (s.openFile host mIn mOut).modeOut = mOut := by
  rcases s with ⟨d, sz, o, mi, mo, p, e, f, b, g⟩
  cases o
  · cases host with
    | none => simp [FStream.openFile, FStream.seekg, FStream.good] at h
    | some hf => simp [FStream.openFile]
  · simp [FStream.openFile, FStream.seekg, FStream.good] at h

theorem vdiOpen_modeOut (vdi : VDIFile) (host : Option HostFile)
    (h : (vdiOpen vdi host).2 = true) : (vdiOpen vdi host).1.file.modeOut = false := by
  unfold vdiOpen at h ⊢
  simp only at h ⊢
  split_ifs at h ⊢ with c1 c2
  have hgood : ((vdi.file.openFile host true false).seekg 0).good = true := by
    by_contra hc
    have hc1 : ((vdi.file.openFile host true false).seekg 0).good = false := by simpa using hc
    apply c2
    rw [FStream.read_not_good _ _ _ hc1]
    rfl
  exact (FStream.read_modeOut _ _ _).trans ((FStream.seekg_modeOut _ _).trans
    (FStream.seekg_openFile_good _ _ _ _ _ hgood))

theorem mbrOpen_modeOut (mp : MBRPartition) (vdi : VDIFile) (index : Int) :
    (mbrOpen mp vdi index).1.vdi.file.modeOut = vdi.file.modeOut := by
  unfold mbrOpen
  simp only
  split_ifs <;> exact vdiRead_modeOut _ _ _ _

theorem ext2ReadBlock_modeOut (fs : Ext2File) (index : Nat) (buf : Mem) :
    (ext2ReadBlock fs index buf).1.part.vdi.file.modeOut = fs.part.vdi.file.modeOut := by
  unfold ext2ReadBlock
  simp only
  split_ifs
  all_goals
    first
      | rfl
      | exact FStream.seekg_modeOut _ _
      | exact (FStream.read_modeOut _ _ _).trans (FStream.seekg_modeOut _ _)

theorem ext2LoadSuperblock_modeOut (e e1 : Ext2File) (b : Bool)
    (h : ext2LoadSuperblock e = some (e1, b)) :
    e1.part.vdi.file.modeOut = e.part.vdi.file.modeOut := by
  unfold ext2LoadSuperblock at h
  simp only at h
  split_ifs at h
  all_goals
    simp only [Option.some.injEq, Prod.mk.injEq] at h
    obtain ⟨h1, _⟩ := h
    subst h1
    first
      | rfl
      | exact FStream.seekg_modeOut _ _
      | exact (FStream.read_modeOut _ _ _).trans (FStream.seekg_modeOut _ _)

theorem ext2LoadBGDTLoop_modeOut (totalBytes bgdtBlock : Nat) (fuel : Nat) :
    ∀ (e : Ext2File) (b : Nat) (blockBuf : Mem) (bytesCopied : Nat),
      (ext2LoadBGDTLoop totalBytes bgdtBlock fuel e b blockBuf bytesCopied).1.part.vdi.file.modeOut
        = e.part.vdi.file.modeOut := by
  induction fuel with
  | zero => intro e b blockBuf bytesCopied; rfl
  | succ k ih =>
    intro e b blockBuf bytesCopied
    unfold ext2LoadBGDTLoop
    simp only
    split_ifs
    all_goals
      first
        | exact ext2ReadBlock_modeOut _ _ _
        | (rw [ih]; exact ext2ReadBlock_modeOut _ _ _)

theorem ext2LoadBGDT_modeOut (e e1 : Ext2File) (b : Bool)
    (h : ext2LoadBGDT e = some (e1, b)) :
    e1.part.vdi.file.modeOut = e.part.vdi.file.modeOut := by
  unfold ext2LoadBGDT at h
  simp only at h
  split_ifs at h
  simp only [Option.some.injEq] at h
  have := ext2LoadBGDTLoop_modeOut (e.numBlockGroups * sizeofBGD)
    ((e.sb.s_first_data_block + 1) % 4294967296)
    ((e.numBlockGroups * sizeofBGD + e.blockSize - 1) / e.blockSize)
    { e with bgdt := e.bgdt.resize e.numBlockGroups } 0 (memset zeroMem 0 e.blockSize) 0
  rw [h] at this
  exact this

theorem ext2Open_modeOut (e : Ext2File) (part : MBRPartition) (fs : Ext2File) (b : Bool)
    (h : ext2Open e part = some (fs, b)) :
    fs.part.vdi.file.modeOut = part.vdi.file.modeOut := by
  unfold ext2Open at h
  simp only at h
  split at h
  · simp at h
  · rename_i e1 hs
    simp only [Option.some.injEq, Prod.mk.injEq] at h
    rw [← h.1]
    exact ext2LoadSuperblock_modeOut _ _ _ hs
  · rename_i e1 hs
    have h1 := ext2LoadSuperblock_modeOut _ _ _ hs
    split at h
    · simp at h
    · rename_i e2 hb
      simp only [Option.some.injEq, Prod.mk.injEq] at h
      rw [← h.1, ext2LoadBGDT_modeOut _ _ _ hb, h1]
    · rename_i e2 hb
      simp only [Option.some.injEq, Prod.mk.injEq] at h
      rw [← h.1, ext2LoadBGDT_modeOut _ _ _ hb, h1]

/-- A volume opened by the sequence of `main` has a stream that is not open for
output. -/
theorem openVolume_modeOut (host : Option HostFile) (index : Int) (fs : Ext2File)
    (h : openVolume host index = some fs) : fs.part.vdi.file.modeOut = false := by
  unfold openVolume at h
  simp only at h
  split_ifs at h with c1 c2
  split at h
  · rename_i fs1 he
    simp only [Option.some.injEq] at h
    subst h
    rw [ext2Open_modeOut _ _ _ _ he, mbrOpen_modeOut]
    exact vdiOpen_modeOut _ _ (by simpa using c1)
  · simp at h

/-! ## Writing through a stream that is not open for output (C1) -/

theorem toInt64_zero : toInt64 0 = 0 := by decide

theorem vdiWrite_readonly (vdi : VDIFile) (off : Nat) (buf : Mem) (count : Nat)
    (h : vdi.file.modeOut = false) :
    (vdiWrite vdi off buf count).2 ≤ 0
    ∧ (vdiWrite vdi off buf count).1.file.data = vdi.file.data
    ∧ (vdiWrite vdi off buf count).1.file.size = vdi.file.size
    ∧ (vdiWrite vdi off buf count).1.file.modeOut = false := by
  unfold vdiWrite
  simp only
  generalize (if count > vdi.diskSize - off then vdi.diskSize - off else count) = toWrite
  generalize hf1 : vdi.file.seekp
    (toInt64 ((vdi.frameOffset + off) % 18446744073709551616)) = f1
  have hm : f1.modeOut = false := by rw [← hf1, FStream.seekp_modeOut, h]
  have hd : f1.data = vdi.file.data ∧ f1.size = vdi.file.size := by
    rw [← hf1]; exact FStream.seekp_data _ _
  have hw := FStream.write_readonly f1 buf toWrite hm
  by_cases c1 : off ≥ vdi.diskSize
  · rw [if_pos c1]
    exact ⟨le_refl _, rfl, rfl, h⟩
  · rw [if_neg c1]
    by_cases c2 : f1.good = true
    · rw [if_neg (by simp [c2])]
      refine ⟨?_, hw.2.1.trans hd.1, hw.2.2.trans hd.2,
        (FStream.write_modeOut _ _ _).trans hm⟩
      show (if (f1.write buf toWrite).good = true then toInt64 toWrite else -1) ≤ 0
      split_ifs with c3
      · rw [hw.1 c3]; decide
      · decide
    · rw [if_pos (by simpa using c2)]
      exact ⟨by simp, hd.1, hd.2, hm⟩

theorem mbrWrite_readonly (mp : MBRPartition) (buf : Mem) (count : Nat)
    (h : mp.vdi.file.modeOut = false) :
    (mbrWrite mp buf count).2 ≤ 0
    ∧ (mbrWrite mp buf count).1.vdi.file.data = mp.vdi.file.data
    ∧ (mbrWrite mp buf count).1.vdi.file.size = mp.vdi.file.size
    ∧ (mbrWrite mp buf count).1.vdi.file.modeOut = false := by
  unfold mbrWrite
  simp only
  generalize (if count > mp.sizeBytes - mp.cursor then mp.sizeBytes - mp.cursor
    else count) = toWrite
  have hv := vdiWrite_readonly mp.vdi
    ((mp.startByte + mp.cursor) % 18446744073709551616) buf toWrite h
  by_cases c1 : mp.cursor ≥ mp.sizeBytes
  · rw [if_pos c1]
    exact ⟨le_refl _, rfl, rfl, h⟩
  · rw [if_neg c1]
    split_ifs with c2
    · exact absurd hv.1 (by omega)
    · exact hv

theorem mbrSeek_vdi (mp : MBRPartition) (off : Int) : (mbrSeek mp off).1.vdi = mp.vdi := by
  unfold mbrSeek; split_ifs <;> rfl

theorem writeInodeAt_readonly (fs : Ext2File) (blockNum byteOffset : Nat) (inode : Mem)
    (h : fs.part.vdi.file.modeOut = false) (r : Ext2File × Int)
    (hr : writeInodeAt fs blockNum byteOffset inode = some r) : r.2 = -1 := by
  unfold writeInodeAt at hr
  simp only at hr
  have hm : (mbrSeek (ext2ReadBlock fs blockNum zeroMem).1.part
      (((blockNum * fs.blockSize) % 4294967296 : Nat) : Int)).1.vdi.file.modeOut = false := by
    rw [mbrSeek_vdi, ext2ReadBlock_modeOut, h]
  have hw := (mbrWrite_readonly _ (memcpy (ext2ReadBlock fs blockNum zeroMem).2.1 byteOffset
    inode 0 sizeofInode) fs.blockSize hm).1
  have hsz : sizeofInode = 128 := rfl
  split_ifs at hr with c1 c2 c3
  · simp only [Option.some.injEq] at hr; rw [← hr]
  · omega
  · simp only [Option.some.injEq] at hr; rw [← hr]

theorem writeInode_readonly (fs : Ext2File) (iNum : Nat) (inode : Mem)
    (h : fs.part.vdi.file.modeOut = false) (r : Ext2File × Int)
    (hr : writeInode fs iNum inode = some r) : r.2 = -1 := by
  unfold writeInode at hr
  simp only at hr
  split_ifs at hr
  split at hr
  · simp at hr
  · exact writeInodeAt_readonly fs _ _ inode h r hr

/-- C1 (the code on this claim). On every volume opened by `vdiOpen`, `mbrOpen`
and `ext2Open`, `writeInode` never returns 0, for any inode number and record:
the stream is open for input only, so the write-back of the block fails. -/
theorem writeInode_fails_after_open (host : Option HostFile) (index : Int) (fs : Ext2File)
    (iNum : Nat) (inode : Mem) (hopen : openVolume host index = some fs) :
    (writeInode fs iNum inode).map Prod.snd ≠ some 0 := by
  intro hc
  cases hw : writeInode fs iNum inode with
  | none => simp [hw] at hc
  | some r =>
    have := writeInode_readonly fs iNum inode (openVolume_modeOut host index fs hopen) r hw
    simp [hw, this] at hc

/-- Witness of C1 on the sample volume: `writeInode(2, X)` returns -1, and the
`fetchInode(2)` that follows returns -1 as well (the failed write has left the
stream in a failed state). -/
theorem writeInode_fails_after_open_witness :
    (writeInode sampleFs 2 sampleInode).map Prod.snd ≠ some 0
    ∧ (writeInode sampleFs 2 sampleInode).map Prod.snd = some (-1)
    ∧ ((writeInode sampleFs 2 sampleInode).bind
        (fun r => fetchInode r.1 2 zeroMem)).map (fun r => r.2.2) = some (-1) :=
  ⟨writeInode_fails_after_open (some (sampleHost false)) 0 sampleFs 2 sampleInode
      sampleFs_open, by decide, by decide⟩

/-! ## The offset of the write-back in `writeInode` (C5) -/

/-- C5 (the code on this claim). On the second sample volume (4 KiB blocks, inode
table at block 1048576), on a stream open for output, `writeInode(1, X)` reads
the block at partition offset 1048576 * 4096 = 2^32 (file offset 4296016384),
returns 0, and has written the block at partition offset 0 (file offset
1049088): the 32-bit product `blockNum * blockSize` is 0.  The slot of inode 1
still holds its old byte 0xA4, which the `fetchInode(1)` that follows delivers.
On the volume as `main` opens it (stream open for input only) the same call
returns -1 and writes nothing. -/
theorem writeInode_seek_offset_wraps :
    bigFsRW.blockSize = 4096
    ∧ (bigFsRW.address 1).block = 1048576
    ∧ physOffset bigFsRW 1048576 = 4296016384
    ∧ (ext2ReadBlock bigFsRW 1048576 zeroMem).2.2 = true
    ∧ bigFsRW.part.vdi.file.data 1049088 = 0
    ∧ (writeInode bigFsRW 1 sampleInode).map
        (fun r => (r.2, r.1.part.vdi.file.data 1049088, r.1.part.vdi.file.data 4296016384))
        = some (0, 0xED, 0xA4)
    ∧ ((writeInode bigFsRW 1 sampleInode).bind (fun r => fetchInode r.1 1 zeroMem)).map
        (fun r => (r.2.2, r.2.1 0)) = some (0, 0xA4)
    ∧ openVolume (some bigHost) 0 = some bigFs
    ∧ (writeInode bigFs 1 sampleInode).map
        (fun r => (r.2, r.1.part.vdi.file.data 1049088, r.1.part.vdi.file.data 4296016384))
        = some (-1, 0, 0xA4) := by
  refine ⟨?_, ?_, ?_, ?_, ?_, ?_, ?_, rfl, ?_⟩ <;> decide

/-! ## Reads do not depend on the position of the stream -/

theorem FStream.readEquiv_refl (f : FStream) : f.ReadEquiv f :=
  ⟨rfl, rfl, rfl, rfl, rfl, rfl, rfl⟩

theorem FStream.readEquiv_trans {f g h : FStream} (a : f.ReadEquiv g) (b : g.ReadEquiv h) :
    f.ReadEquiv h :=
  ⟨b.data.trans a.data, b.size.trans a.size, b.isOpen.trans a.isOpen,
    b.modeIn.trans a.modeIn, b.modeOut.trans a.modeOut, b.failbit.trans a.failbit,
    b.badbit.trans a.badbit⟩

theorem FStream.seekg_read_congr (f g : FStream) (h : f.ReadEquiv g) (off : Int)
    (buf : Mem) (n : Nat) :
    (g.seekg off).good = (f.seekg off).good
    ∧ ((g.seekg off).read buf n).2 = ((f.seekg off).read buf n).2
    ∧ ((g.seekg off).read buf n).1.gcount = ((f.seekg off).read buf n).1.gcount := by
  obtain ⟨h1, h2, h3, h4, h5, h6, h7⟩ := h
  rcases f with ⟨d, sz, o, mi, mo, p, e, fb, bb, gc⟩
  rcases g with ⟨d', sz', o', mi', mo', p', e', fb', bb', gc'⟩
  simp only at h1 h2 h3 h4 h5 h6 h7
  subst h1 h2 h3 h4 h5 h6 h7
  by_cases hoff : off < 0
  · cases fb' <;> cases bb' <;> cases o' <;>
      simp [FStream.seekg, FStream.read, FStream.good, hoff]
  · cases fb' <;> cases bb' <;> cases o' <;>
      simp [FStream.seekg, FStream.read, FStream.good, FStream.got, FStream.avail, hoff]

theorem Ext2File.setFile_setFile (fs : Ext2File) (f g : FStream) :
    (fs.setFile f).setFile g = fs.setFile g := rfl

theorem Ext2File.setFile_self (fs : Ext2File) : fs.setFile fs.part.vdi.file = fs := rfl

theorem ext2ReadBlock_fst (fs : Ext2File) (index : Nat) (buf : Mem) :
    (ext2ReadBlock fs index buf).1
      = fs.setFile (ext2ReadBlock fs index buf).1.part.vdi.file := by
  unfold ext2ReadBlock
  simp only
  split_ifs <;> rfl

/-- The buffer and the result of `ext2ReadBlock` are the same on two states of
the stream that reads cannot tell apart. -/
theorem ext2ReadBlock_congr (fs : Ext2File) (g : FStream)
    (h : fs.part.vdi.file.ReadEquiv g) (index : Nat) (buf : Mem) :
    (ext2ReadBlock (fs.setFile g) index buf).2 = (ext2ReadBlock fs index buf).2 := by
  obtain ⟨hg, hb, hgc⟩ := FStream.seekg_read_congr fs.part.vdi.file g h
    (toInt64 ((fs.part.vdi.frameOffset
        + (fs.part.startByte + index * fs.blockSize % 18446744073709551616)
          % 18446744073709551616) % 18446744073709551616)) buf fs.blockSize
  unfold ext2ReadBlock
  simp only [Ext2File.setFile]
  simp only [hg, hb, hgc]
  split_ifs <;> rfl

/-! ## The bitmap scan of `allocateInode` -/

theorem FStream.ReadEquiv.sameFile {f g : FStream} (h : f.ReadEquiv g) : f.SameFile g :=
  ⟨h.data, h.size, h.isOpen, h.modeIn, h.modeOut⟩

theorem FStream.sameFile_refl (f : FStream) : f.SameFile f := ⟨rfl, rfl, rfl, rfl, rfl⟩

theorem FStream.sameFile_trans {f g h : FStream} (a : f.SameFile g) (b : g.SameFile h) :
    f.SameFile h :=
  ⟨b.data.trans a.data, b.size.trans a.size, b.isOpen.trans a.isOpen,
    b.modeIn.trans a.modeIn, b.modeOut.trans a.modeOut⟩

theorem FStream.seekg_sameFile (f : FStream) (off : Int) : f.SameFile (f.seekg off) := by
  unfold FStream.seekg; simp only; split_ifs <;> exact ⟨rfl, rfl, rfl, rfl, rfl⟩

theorem FStream.read_sameFile (f : FStream) (buf : Mem) (n : Nat) :
    f.SameFile (f.read buf n).1 := by
  unfold FStream.read; split_ifs <;> exact ⟨rfl, rfl, rfl, rfl, rfl⟩

theorem ext2ReadBlock_sameFile (fs : Ext2File) (index : Nat) (buf : Mem) :
    fs.part.vdi.file.SameFile (ext2ReadBlock fs index buf).1.part.vdi.file := by
  unfold ext2ReadBlock
  simp only
  split_ifs
  all_goals
    first
      | exact FStream.sameFile_refl _
      | exact FStream.seekg_sameFile _ _
      | exact FStream.sameFile_trans (FStream.seekg_sameFile _ _) (FStream.read_sameFile _ _ _)

theorem FStream.later_refl (f : FStream) : f.Later f := ⟨FStream.sameFile_refl f, id⟩

theorem FStream.later_trans {f g h : FStream} (a : f.Later g) (b : g.Later h) : f.Later h :=
  ⟨FStream.sameFile_trans a.same b.same, fun x => b.fail (a.fail x)⟩

theorem FStream.seekg_later (f : FStream) (off : Int) : f.Later (f.seekg off) := by
  refine ⟨FStream.seekg_sameFile f off, ?_⟩
  rcases f with ⟨d, sz, o, mi, mo, p, e, fb, bb, gc⟩
  cases fb <;> cases bb <;> simp [FStream.seekg, FStream.fail, FStream.good]

theorem FStream.read_later (f : FStream) (buf : Mem) (n : Nat) : f.Later (f.read buf n).1 := by
  refine ⟨FStream.read_sameFile f buf n, ?_⟩
  rcases f with ⟨d, sz, o, mi, mo, p, e, fb, bb, gc⟩
  cases fb <;> cases bb <;> cases e <;> simp [FStream.read, FStream.fail, FStream.good]

theorem FStream.seekp_later (f : FStream) (off : Int) : f.Later (f.seekp off) := by
  rcases f with ⟨d, sz, o, mi, mo, p, e, fb, bb, gc⟩
  constructor
  · unfold FStream.seekp; simp only; split_ifs <;> exact ⟨rfl, rfl, rfl, rfl, rfl⟩
  · cases fb <;> cases bb <;> cases e <;> simp [FStream.seekp, FStream.fail, FStream.good]

theorem FStream.write_later (f : FStream) (buf : Mem) (n : Nat) (h : f.modeOut = false) :
    f.Later (f.write buf n) := by
  rcases f with ⟨d, sz, o, mi, mo, p, e, fb, bb, gc⟩
  simp only at h
  subst h
  constructor
  · unfold FStream.write
    split_ifs <;> first | exact ⟨rfl, rfl, rfl, rfl, rfl⟩ | simp_all
  · cases fb <;> cases bb <;> cases e <;> simp [FStream.write, FStream.fail, FStream.good]

theorem ext2ReadBlock_later (fs : Ext2File) (index : Nat) (buf : Mem) :
    fs.part.vdi.file.Later (ext2ReadBlock fs index buf).1.part.vdi.file := by
  unfold ext2ReadBlock
  simp only
  split_ifs
  all_goals
    first
      | exact FStream.later_refl _
      | exact FStream.seekg_later _ _
      | exact FStream.later_trans (FStream.seekg_later _ _) (FStream.read_later _ _ _)

theorem FStream.seekg_good_equiv (f : FStream) (off : Int)
    (hg : (f.seekg off).good = true) : f.ReadEquiv (f.seekg off) := by
  rcases f with ⟨d, sz, o, mi, mo, p, e, fb, bb, gc⟩
  by_cases hoff : off < 0
  · cases fb <;> cases bb <;> cases o <;>
      simp [FStream.seekg, FStream.good, hoff] at hg
  · cases fb <;> cases bb <;> cases o <;>
      simp [FStream.seekg, FStream.good, hoff] at hg
    simp only [FStream.seekg, FStream.good, hoff]
    exact ⟨rfl, rfl, rfl, rfl, rfl, rfl, rfl⟩

theorem FStream.read_full_equiv (s : FStream) (buf : Mem) (n : Nat)
    (hg : s.good = true) (hc : ¬ (s.read buf n).1.gcount < n) :
    s.ReadEquiv (s.read buf n).1 := by
  rw [FStream.read_gcount, hg, if_pos rfl] at hc
  unfold FStream.read
  rw [if_neg (by simp [hg]), if_neg hc]
  exact ⟨rfl, rfl, rfl, rfl, rfl, rfl, rfl⟩

theorem FStream.seekg_read_full_equiv (f : FStream) (off : Int) (buf : Mem) (n : Nat)
    (hg : (f.seekg off).good = true) (hc : ¬ ((f.seekg off).read buf n).1.gcount < n) :
    f.ReadEquiv ((f.seekg off).read buf n).1 :=
  FStream.readEquiv_trans (FStream.seekg_good_equiv f off hg)
    (FStream.read_full_equiv _ buf n hg hc)

theorem ext2ReadBlock_true_equiv (fs : Ext2File) (index : Nat) (buf : Mem)
    (h : (ext2ReadBlock fs index buf).2.2 = true) :
    fs.part.vdi.file.ReadEquiv (ext2ReadBlock fs index buf).1.part.vdi.file := by
  unfold ext2ReadBlock at h ⊢
  simp only at h ⊢
  split_ifs at h ⊢ with c1 c2 c3 c4
  exact FStream.seekg_read_full_equiv _ _ _ _ (by simpa using c3) c4

theorem allocScan_spec (bs : Nat) (m : Mem) :
    ∀ (fuel i0 : Nat), (∀ i, i < i0 + fuel → i / 8 < bs) →
      (∃ i, allocScan bs m fuel i0 = some (some i) ∧ i0 ≤ i ∧ i < i0 + fuel
          ∧ bitSet (m (i / 8)) (i % 8) = false
          ∧ ∀ j, i0 ≤ j → j < i → bitSet (m (j / 8)) (j % 8) = true)
      ∨ (allocScan bs m fuel i0 = some none
          ∧ ∀ j, i0 ≤ j → j < i0 + fuel → bitSet (m (j / 8)) (j % 8) = true) := by
  intro fuel
  induction fuel with
  | zero =>
    intro i0 _
    right
    exact ⟨rfl, fun j h1 h2 => by omega⟩
  | succ k ih =>
    intro i0 hb
    unfold allocScan
    have h0 : ¬ (i0 / 8 ≥ bs) := by
      have := hb i0 (by omega)
      omega
    rw [if_neg h0]
    by_cases hbit : bitSet (m (i0 / 8)) (i0 % 8) = true
    · rw [if_neg (by simp [hbit])]
      rcases ih (i0 + 1) (fun i hi => hb i (by omega)) with ⟨i, h1, h2, h3, h4, h5⟩ | ⟨h1, h2⟩
      · left
        refine ⟨i, h1, by omega, by omega, h4, ?_⟩
        intro j hj1 hj2
        by_cases hj : j = i0
        · rw [hj]; exact hbit
        · exact h5 j (by omega) hj2
      · right
        refine ⟨h1, ?_⟩
        intro j hj1 hj2
        by_cases hj : j = i0
        · rw [hj]; exact hbit
        · exact h2 j (by omega) (by omega)
    · have hbit0 : bitSet (m (i0 / 8)) (i0 % 8) = false := by simpa using hbit
      rw [if_pos (by simp [hbit0])]
      left
      exact ⟨i0, rfl, le_refl _, by omega, hbit0, fun j h1 h2 => by omega⟩

theorem ext2ReadBlock_blockSize (fs : Ext2File) (index : Nat) (buf : Mem) :
    (ext2ReadBlock fs index buf).1.blockSize = fs.blockSize := by
  rw [ext2ReadBlock_fst]; rfl

theorem Ext2File.inodeBitmap_of_get (fs : Ext2File) (g : Nat) (d : Ext2BlockGroupDescriptor)
    (h : fs.bgdt.get? g = some d) : fs.inodeBitmap g = d.bg_inode_bitmap := by
  simp [Ext2File.inodeBitmap, h]

theorem allocateInodeLoop_step (cur : Ext2File) (fuel g : Nat) (hg : g < cur.bgdt.len) :
    allocateInodeLoop (fuel + 1) cur g =
      match allocScan cur.blockSize (ext2ReadBlock cur (cur.inodeBitmap g) zeroMem).2.1
          cur.sb.s_inodes_per_group 0 with
      | none => none
      | some (some i) =>
        some (allocWriteBack (ext2ReadBlock cur (cur.inodeBitmap g) zeroMem).1
            (cur.inodeBitmap g) i ((ext2ReadBlock cur (cur.inodeBitmap g) zeroMem).2.1 (i / 8)),
          (g * cur.sb.s_inodes_per_group + i + 1) % 4294967296)
      | some none =>
        allocateInodeLoop fuel (ext2ReadBlock cur (cur.inodeBitmap g) zeroMem).1 (g + 1) := by
  have eg := BGDTVector.get_of_lt cur.bgdt g hg
  have eb := cur.inodeBitmap_of_get g _ eg
  rw [allocateInodeLoop, eg]
  simp only
  rw [← eb]
  cases allocScan cur.blockSize (ext2ReadBlock cur (cur.inodeBitmap g) zeroMem).2.1
      cur.sb.s_inodes_per_group 0 with
  | none => rfl
  | some o =>
    cases o with
    | none => rfl
    | some i =>
      simp only [allocWriteBack, ext2ReadBlock_blockSize]

theorem bitSet_zero (k : Nat) : bitSet 0 k = false := by
  simp [bitSet]

theorem allocateInodeLoop_spec (fs : Ext2File) (hgeo : fs.BitmapGeometry) :
    ∀ (fuel g : Nat) (f : FStream), g + fuel = fs.numBlockGroups →
      (fs.sb.s_inodes_per_group = 0 ∨ fs.part.vdi.file.ReadEquiv f) →
      fs.part.vdi.file.Later f →
      ∃ fs1 n, allocateInodeLoop fuel (fs.setFile f) g = some (fs1, n) ∧
        ((n = 0 ∧ fs.part.vdi.file.Later fs1.part.vdi.file
            ∧ ∀ g1 i, g ≤ g1 → g1 < fs.numBlockGroups → i < fs.sb.s_inodes_per_group →
              fs.bitmapBit g1 i = true)
        ∨ (∃ g1 i f1, g ≤ g1 ∧ g1 < fs.numBlockGroups ∧ i < fs.sb.s_inodes_per_group
            ∧ fs.bitmapBit g1 i = false
            ∧ (∀ g2 i2, g ≤ g2 → i2 < fs.sb.s_inodes_per_group →
                (g2 < g1 ∨ (g2 = g1 ∧ i2 < i)) → fs.bitmapBit g2 i2 = true)
            ∧ n = g1 * fs.sb.s_inodes_per_group + i + 1
            ∧ fs.part.vdi.file.Later f1
            ∧ fs1 = allocWriteBack (fs.setFile f1) (fs.inodeBitmap g1) i
                (fs.bitmapRead g1 (i / 8)))) := by
  intro fuel
  induction fuel with
  | zero =>
    intro g f hg _ hs
    exact ⟨fs.setFile f, 0, rfl, Or.inl ⟨rfl, hs, fun g1 i h1 h2 _ => by omega⟩⟩
  | succ k ih =>
    intro g f hg hinv hs
    have hglt : g < (fs.setFile f).bgdt.len := by
      have := hgeo.groups_le
      show g < fs.bgdt.len
      omega
    rw [allocateInodeLoop_step (fs.setFile f) k g hglt]
    have hbnd : ∀ i, i < 0 + fs.sb.s_inodes_per_group → i / 8 < fs.blockSize := by
      intro i hi
      have := hgeo.bits_le
      omega
    have hread : fs.sb.s_inodes_per_group = 0
        ∨ (ext2ReadBlock (fs.setFile f) (fs.inodeBitmap g) zeroMem).2
          = (ext2ReadBlock fs (fs.inodeBitmap g) zeroMem).2 :=
      hinv.imp id (fun h => ext2ReadBlock_congr fs f h _ _)
    have hfst := ext2ReadBlock_fst (fs.setFile f) (fs.inodeBitmap g) zeroMem
    have hs2 : fs.part.vdi.file.Later
        (ext2ReadBlock (fs.setFile f) (fs.inodeBitmap g) zeroMem).1.part.vdi.file :=
      FStream.later_trans hs (ext2ReadBlock_later (fs.setFile f) _ _)
    show ∃ fs1 n, (match allocScan fs.blockSize
        (ext2ReadBlock (fs.setFile f) (fs.inodeBitmap g) zeroMem).2.1
        fs.sb.s_inodes_per_group 0 with
      | none => none
      | some (some i) =>
        some (allocWriteBack (ext2ReadBlock (fs.setFile f) (fs.inodeBitmap g) zeroMem).1
            (fs.inodeBitmap g) i
            ((ext2ReadBlock (fs.setFile f) (fs.inodeBitmap g) zeroMem).2.1 (i / 8)),
          (g * fs.sb.s_inodes_per_group + i + 1) % 4294967296)
      | some none =>
        allocateInodeLoop k (ext2ReadBlock (fs.setFile f) (fs.inodeBitmap g) zeroMem).1
          (g + 1)) = some (fs1, n) ∧ _
    rcases allocScan_spec fs.blockSize
        (ext2ReadBlock (fs.setFile f) (fs.inodeBitmap g) zeroMem).2.1
        fs.sb.s_inodes_per_group 0 hbnd with ⟨i, h1, h2, h3, h4, h5⟩ | ⟨h1, h2⟩
    · rw [h1]
      have hipg : fs.sb.s_inodes_per_group ≠ 0 := by omega
      have hrd := hread.resolve_left hipg
      have hbuf : (ext2ReadBlock (fs.setFile f) (fs.inodeBitmap g) zeroMem).2.1
          = fs.bitmapRead g := by
        rw [hrd]; rfl
      have hmul : (g + 1) * fs.sb.s_inodes_per_group
          ≤ fs.numBlockGroups * fs.sb.s_inodes_per_group :=
        Nat.mul_le_mul_right _ (by omega)
      rw [Nat.add_mul, Nat.one_mul] at hmul
      have hlt := hgeo.inodes_lt
      refine ⟨_, _, rfl, Or.inr ⟨g, i,
        (ext2ReadBlock (fs.setFile f) (fs.inodeBitmap g) zeroMem).1.part.vdi.file,
        le_refl _, by omega, by omega, ?_, ?_, ?_, hs2, ?_⟩⟩
      · unfold Ext2File.bitmapBit
        rw [← hbuf]; exact h4
      · intro g2 i2 hg2 hi2 hor
        rcases hor with h | ⟨h, h6⟩
        · omega
        · subst h
          unfold Ext2File.bitmapBit
          rw [← hbuf]; exact h5 i2 (Nat.zero_le _) h6
      · exact Nat.mod_eq_of_lt (by omega)
      · rw [hbuf]
        rw [hfst]
        rfl
    · rw [h1]
      simp only
      rw [hfst]
      have hgbits : ∀ i, i < fs.sb.s_inodes_per_group → fs.bitmapBit g i = true := by
        intro i hi
        have hipg : fs.sb.s_inodes_per_group ≠ 0 := by omega
        have hrd := hread.resolve_left hipg
        unfold Ext2File.bitmapBit Ext2File.bitmapRead
        rw [← hrd]
        exact h2 i (Nat.zero_le _) (by omega)
      have hinv2 : fs.sb.s_inodes_per_group = 0 ∨ fs.part.vdi.file.ReadEquiv
          (ext2ReadBlock (fs.setFile f) (fs.inodeBitmap g) zeroMem).1.part.vdi.file := by
        by_cases hz : fs.sb.s_inodes_per_group = 0
        · exact Or.inl hz
        · right
          have hre := hinv.resolve_left hz
          have hok : (ext2ReadBlock (fs.setFile f) (fs.inodeBitmap g) zeroMem).2.2 = true := by
            by_contra hc
            have hcf : (ext2ReadBlock (fs.setFile f) (fs.inodeBitmap g) zeroMem).2.2 = false := by
              simpa using hc
            have hbs : 0 < (fs.setFile f).blockSize := by
              have := hgeo.bits_le
              show 0 < fs.blockSize
              omega
            have hz0 := ext2ReadBlock_false_zero (fs.setFile f) _ zeroMem hcf 0 hbs
            have hb0 := h2 0 (le_refl _) (by omega)
            simp only [Nat.zero_div, Nat.zero_mod] at hb0
            rw [hz0, bitSet_zero] at hb0
            exact absurd hb0 (by decide)
          exact FStream.readEquiv_trans hre (ext2ReadBlock_true_equiv (fs.setFile f) _ _ hok)
      obtain ⟨fs1, n, he, hres⟩ := ih (g + 1) _ (by omega) hinv2 hs2
      refine ⟨fs1, n, he, ?_⟩
      rcases hres with ⟨hn, hsf, hall⟩ | ⟨g1, i, f1, a1, a2, a3, a4, a5, a6, a7, a8⟩
      · left
        refine ⟨hn, hsf, ?_⟩
        intro g1 i hg1 hg2 hi
        by_cases hc : g1 = g
        · subst hc; exact hgbits i hi
        · exact hall g1 i (by omega) hg2 hi
      · right
        refine ⟨g1, i, f1, by omega, a2, a3, a4, ?_, a6, a7, a8⟩
        intro g2 i2 hg2 hi2 hor
        by_cases hc : g2 = g
        · subst hc; exact hgbits i2 hi2
        · exact a5 g2 i2 (by omega) hi2 hor

theorem orBit_bits_fin :
    ∀ (b : Fin 256) (k j : Fin 8),
      bitSet (orBit b k.val) j.val = (bitSet b j.val || decide (j.val = k.val)) := by
  decide!

theorem orBit_bits (b : Byte) (k j : Nat) (hk : k < 8) (hj : j < 8) :
    bitSet (orBit b k) j = (bitSet b j || decide (j = k)) :=
  orBit_bits_fin b ⟨k, hk⟩ ⟨j, hj⟩

theorem clearBit_bits_fin :
    ∀ (b : Fin 256) (k j : Fin 8),
      bitSet (clearBit b k.val) j.val = (bitSet b j.val && !decide (j.val = k.val)) := by
  decide!

theorem clearBit_bits (b : Byte) (k j : Nat) (hk : k < 8) (hj : j < 8) :
    bitSet (clearBit b k) j = (bitSet b j && !decide (j = k)) :=
  clearBit_bits_fin b ⟨k, hk⟩ ⟨j, hj⟩

theorem inodeInUse_eq (fs : Ext2File) (g i : Nat) (hi : i < fs.sb.s_inodes_per_group)
    (hg : g < fs.bgdt.len) (hb : i / 8 < fs.blockSize)
    (hn : g * fs.sb.s_inodes_per_group + i + 1 < 4294967296) :
    inodeInUse fs (g * fs.sb.s_inodes_per_group + i + 1)
      = some ((ext2ReadBlock fs (fs.inodeBitmap g) zeroMem).1, fs.bitmapBit g i) := by
  have hpos : 0 < fs.sb.s_inodes_per_group := by omega
  have e : (g * fs.sb.s_inodes_per_group + i + 1 + 4294967295) % 4294967296
      = i + g * fs.sb.s_inodes_per_group := by omega
  have ed : (i + g * fs.sb.s_inodes_per_group) / fs.sb.s_inodes_per_group = g := by
    rw [Nat.add_mul_div_right _ _ hpos, Nat.div_eq_of_lt hi, Nat.zero_add]
  have em : (i + g * fs.sb.s_inodes_per_group) % fs.sb.s_inodes_per_group = i := by
    rw [Nat.add_mul_mod_self_right, Nat.mod_eq_of_lt hi]
  have eg := BGDTVector.get_of_lt fs.bgdt g hg
  have eb := fs.inodeBitmap_of_get g _ eg
  unfold inodeInUse
  simp only [e, ed, em]
  rw [if_neg (by omega), eg]
  simp only
  rw [if_neg (by omega), ← eb]
  rfl

theorem allocateInode_spec (fs : Ext2File) (groupHint : Int) (hgeo : fs.BitmapGeometry) :
    ∃ fs1 n, allocateInode fs groupHint = some (fs1, n) ∧
      ((n = 0 ∧ fs.part.vdi.file.Later fs1.part.vdi.file
          ∧ ∀ g i, (if groupHint < 0 then 0 else groupHint.toNat) ≤ g →
            g < fs.numBlockGroups → i < fs.sb.s_inodes_per_group →
            fs.bitmapBit g i = true)
      ∨ (∃ g i f1, (if groupHint < 0 then 0 else groupHint.toNat) ≤ g
          ∧ g < fs.numBlockGroups ∧ i < fs.sb.s_inodes_per_group
          ∧ fs.bitmapBit g i = false
          ∧ (∀ g2 i2, (if groupHint < 0 then 0 else groupHint.toNat) ≤ g2 →
              i2 < fs.sb.s_inodes_per_group →
              (g2 < g ∨ (g2 = g ∧ i2 < i)) → fs.bitmapBit g2 i2 = true)
          ∧ n = g * fs.sb.s_inodes_per_group + i + 1
          ∧ fs.part.vdi.file.Later f1
          ∧ fs1 = allocWriteBack (fs.setFile f1) (fs.inodeBitmap g) i
              (fs.bitmapRead g (i / 8)))) := by
  unfold allocateInode
  simp only
  generalize (if groupHint < 0 then 0 else groupHint.toNat) = g0
  by_cases hc : g0 ≤ fs.numBlockGroups
  · have h := allocateInodeLoop_spec fs hgeo (fs.numBlockGroups - g0) g0 fs.part.vdi.file
      (by omega) (Or.inr (FStream.readEquiv_refl _)) (FStream.later_refl _)
    exact h
  · have e : fs.numBlockGroups - g0 = 0 := by omega
    rw [e]
    exact ⟨fs, 0, rfl, Or.inl ⟨rfl, FStream.later_refl _, fun g i h1 h2 _ => by omega⟩⟩

/-- The scan of `allocateInode` over the bitmap blocks as `ext2ReadBlock`
delivers them (a block that cannot be read is all clear), on any stream.  On a
volume whose geometry keeps the scan defined (a descriptor for every group, the
bits of a group within its bitmap block, 32-bit inode numbers), the call scans
the groups from `groupHint` (0 when negative) and the bit positions `0 ..
inodesPerGroup-1` in ascending order, and returns `g*inodesPerGroup + i + 1` for
the first `(g, i)` whose bit in the buffer is clear; the byte it hands to the
write-back is the buffer byte with exactly that bit added; it returns 0 if and
only if every bit of every scanned group is set in the buffer; and a non-zero
result `n` has `inodeInUse(n)` false before the call. -/
theorem allocateInode_first_fit (fs : Ext2File) (groupHint : Int)
    (hgeo : fs.BitmapGeometry) :
    ∃ fs1 n, allocateInode fs groupHint = some (fs1, n)
      ∧ (n = 0 ↔ ∀ g i, (if groupHint < 0 then 0 else groupHint.toNat) ≤ g →
          g < fs.numBlockGroups → i < fs.sb.s_inodes_per_group →
          fs.bitmapBit g i = true)
      ∧ (n ≠ 0 → ∃ g i f1, (if groupHint < 0 then 0 else groupHint.toNat) ≤ g
          ∧ g < fs.numBlockGroups ∧ i < fs.sb.s_inodes_per_group
          ∧ fs.bitmapBit g i = false
          ∧ (∀ g2 i2, (if groupHint < 0 then 0 else groupHint.toNat) ≤ g2 →
              i2 < fs.sb.s_inodes_per_group →
              (g2 < g ∨ (g2 = g ∧ i2 < i)) → fs.bitmapBit g2 i2 = true)
          ∧ n = g * fs.sb.s_inodes_per_group + i + 1
          ∧ fs.part.vdi.file.Later f1
          ∧ fs1 = allocWriteBack (fs.setFile f1) (fs.inodeBitmap g) i
              (fs.bitmapRead g (i / 8))
          ∧ (∀ j, j < 8 → bitSet (orBit (fs.bitmapRead g (i / 8)) (i % 8)) j
              = (bitSet (fs.bitmapRead g (i / 8)) j || decide (j = i % 8)))
          ∧ (inodeInUse fs n).map Prod.snd = some false) := by
  obtain ⟨fs1, n, he, hres⟩ := allocateInode_spec fs groupHint hgeo
  refine ⟨fs1, n, he, ?_, ?_⟩
  · rcases hres with ⟨hn, _, hall⟩ | ⟨g, i, f1, a1, a2, a3, a4, a5, a6, a7, a8⟩
    · exact ⟨fun _ => hall, fun _ => hn⟩
    · constructor
      · intro hn; omega
      · intro hall
        have := hall g i a1 a2 a3
        rw [a4] at this
        exact absurd this (by decide)
  · intro hn
    rcases hres with ⟨hn0, _, _⟩ | ⟨g, i, f1, a1, a2, a3, a4, a5, a6, a7, a8⟩
    · exact absurd hn0 hn
    · refine ⟨g, i, f1, a1, a2, a3, a4, a5, a6, a7, a8, ?_, ?_⟩
      · intro j hj
        exact orBit_bits _ _ _ (Nat.mod_lt _ (by decide)) hj
      · have hmul : (g + 1) * fs.sb.s_inodes_per_group
            ≤ fs.numBlockGroups * fs.sb.s_inodes_per_group :=
          Nat.mul_le_mul_right _ (by omega)
        rw [Nat.add_mul, Nat.one_mul] at hmul
        have h1 := hgeo.inodes_lt
        have h2 := hgeo.bits_le
        have h3 := hgeo.groups_le
        rw [a6, inodeInUse_eq fs g i a3 (by omega) (by omega) (by omega), a4]
        rfl

theorem sampleFs_geometry : sampleFs.BitmapGeometry :=
  ⟨by decide, by decide, by decide⟩

/-- The scan on the sample volume, where inodes 1 to 3 are allocated: the
default call returns inode 4, which `inodeInUse` reported free, and a call
with hint 1 returns the first inode of group 1. -/
theorem allocateInode_first_fit_witness :
    (∃ fs1 n, allocateInode sampleFs (-1) = some (fs1, n)
      ∧ (n = 0 ↔ ∀ g i, (if (-1 : Int) < 0 then 0 else (-1 : Int).toNat) ≤ g →
          g < sampleFs.numBlockGroups → i < sampleFs.sb.s_inodes_per_group →
          sampleFs.bitmapBit g i = true)
      ∧ (n ≠ 0 → ∃ g i f1, (if (-1 : Int) < 0 then 0 else (-1 : Int).toNat) ≤ g
          ∧ g < sampleFs.numBlockGroups ∧ i < sampleFs.sb.s_inodes_per_group
          ∧ sampleFs.bitmapBit g i = false
          ∧ (∀ g2 i2, (if (-1 : Int) < 0 then 0 else (-1 : Int).toNat) ≤ g2 →
              i2 < sampleFs.sb.s_inodes_per_group →
              (g2 < g ∨ (g2 = g ∧ i2 < i)) → sampleFs.bitmapBit g2 i2 = true)
          ∧ n = g * sampleFs.sb.s_inodes_per_group + i + 1
          ∧ sampleFs.part.vdi.file.Later f1
          ∧ fs1 = allocWriteBack (sampleFs.setFile f1) (sampleFs.inodeBitmap g) i
              (sampleFs.bitmapRead g (i / 8))
          ∧ (∀ j, j < 8 → bitSet (orBit (sampleFs.bitmapRead g (i / 8)) (i % 8)) j
              = (bitSet (sampleFs.bitmapRead g (i / 8)) j || decide (j = i % 8)))
          ∧ (inodeInUse sampleFs n).map Prod.snd = some false))
    ∧ (allocateInode sampleFs (-1)).map Prod.snd = some 4
    ∧ (inodeInUse sampleFs 3).map Prod.snd = some true
    ∧ (inodeInUse sampleFs 4).map Prod.snd = some false
    ∧ (allocateInode sampleFs 1).map Prod.snd = some 8193
    ∧ (allocateInode sampleFs 2).map Prod.snd = some 0 :=
  ⟨allocateInode_first_fit sampleFs (-1) sampleFs_geometry,
    by decide, by decide, by decide, by decide, by decide⟩

/-! ## After an allocation on a stream that is not open for output (C9, C10) -/

theorem vdiWrite_later (vdi : VDIFile) (off : Nat) (buf : Mem) (count : Nat)
    (h : vdi.file.modeOut = false) :
    vdi.file.Later (vdiWrite vdi off buf count).1.file := by
  unfold vdiWrite
  simp only
  have h1 := FStream.seekp_later vdi.file
    (toInt64 ((vdi.frameOffset + off) % 18446744073709551616))
  have hm : (vdi.file.seekp
      (toInt64 ((vdi.frameOffset + off) % 18446744073709551616))).modeOut = false :=
    h1.same.modeOut.trans h
  split_ifs
  all_goals
    first
      | exact FStream.later_refl _
      | exact h1
      | exact FStream.later_trans h1 (FStream.write_later _ _ _ hm)

theorem mbrWrite_later (mp : MBRPartition) (buf : Mem) (count : Nat)
    (h : mp.vdi.file.modeOut = false) :
    mp.vdi.file.Later (mbrWrite mp buf count).1.vdi.file := by
  unfold mbrWrite
  simp only
  split_ifs
  all_goals
    first
      | exact FStream.later_refl _
      | exact vdiWrite_later _ _ _ _ h

theorem mbrWrite_shape (mp : MBRPartition) (buf : Mem) (count : Nat) :
    (mbrWrite mp buf count).1
      = { mp with
          vdi := { mp.vdi with file := (mbrWrite mp buf count).1.vdi.file }
          cursor := (mbrWrite mp buf count).1.cursor } := by
  unfold mbrWrite vdiWrite
  simp only
  split_ifs <;> rfl

theorem mbrSeek_shape (mp : MBRPartition) (off : Int) :
    (mbrSeek mp off).1 = { mp with cursor := (mbrSeek mp off).1.cursor } := by
  unfold mbrSeek
  split_ifs <;> rfl

theorem allocWriteBack_shape (cur : Ext2File) (blk i : Nat) (b : Byte) :
    allocWriteBack cur blk i b
      = (cur.setFile (allocWriteBack cur blk i b).part.vdi.file).setCursor
          (allocWriteBack cur blk i b).part.cursor := by
  unfold allocWriteBack
  simp only
  rw [mbrWrite_shape]
  rw [mbrSeek_shape]
  rfl

theorem allocWriteBack_later (cur : Ext2File) (blk i : Nat) (b : Byte)
    (h : cur.part.vdi.file.modeOut = false) :
    cur.part.vdi.file.Later (allocWriteBack cur blk i b).part.vdi.file := by
  unfold allocWriteBack
  simp only
  have := mbrWrite_later (mbrSeek cur.part
    (((blk * cur.blockSize + i / 8) % 4294967296 : Nat) : Int)).1
    (fun _ => orBit b (i % 8)) 1 (by rw [mbrSeek_vdi]; exact h)
  rw [mbrSeek_vdi] at this
  exact this

theorem ext2ReadBlock_setCursor (fs : Ext2File) (c : Nat) (index : Nat) (buf : Mem) :
    (ext2ReadBlock (fs.setCursor c) index buf).2 = (ext2ReadBlock fs index buf).2 := by
  unfold ext2ReadBlock
  simp only [Ext2File.setCursor, Ext2File.setFile]
  split_ifs <;> rfl

theorem FStream.seekg_good_fail (f : FStream) (off : Int)
    (hg : (f.seekg off).good = true) : f.fail = false := by
  rcases f with ⟨d, sz, o, mi, mo, p, e, fb, bb, gc⟩
  cases fb <;> cases bb <;> simp [FStream.seekg, FStream.good, FStream.fail] at hg ⊢

theorem ext2ReadBlock_true_bits (fs : Ext2File) (index : Nat) (buf : Mem)
    (h : (ext2ReadBlock fs index buf).2.2 = true) :
    fs.part.vdi.file.fail = false := by
  unfold ext2ReadBlock at h
  simp only at h
  split_ifs at h with c1 c2 c3 c4
  exact FStream.seekg_good_fail _ _ (by simpa using c3)

/-- A read that succeeds on a later state of the stream delivers what the read
on the earlier state delivers. -/
theorem ext2ReadBlock_later_congr (fs : Ext2File) (g : FStream)
    (h : fs.part.vdi.file.Later g) (index : Nat) (buf : Mem)
    (hok : (ext2ReadBlock (fs.setFile g) index buf).2.2 = true) :
    (ext2ReadBlock (fs.setFile g) index buf).2 = (ext2ReadBlock fs index buf).2 := by
  have hg : g.fail = false := ext2ReadBlock_true_bits (fs.setFile g) index buf hok
  have hf : fs.part.vdi.file.fail = false := by
    by_contra hc
    have := h.fail (by simpa using hc)
    rw [hg] at this
    exact absurd this (by decide)
  unfold FStream.fail at hg hf
  simp only [Bool.or_eq_false_iff] at hg hf
  exact ext2ReadBlock_congr fs g
    ⟨h.same.data, h.same.size, h.same.isOpen, h.same.modeIn, h.same.modeOut,
      hg.1.trans hf.1.symm, hg.2.trans hf.2.symm⟩ index buf

theorem allocateInode_readonly_after (fs : Ext2File) (hint : Int)
    (hgeo : fs.BitmapGeometry) (hm : fs.part.vdi.file.modeOut = false)
    (fs1 : Ext2File) (n : Nat) (h : allocateInode fs hint = some (fs1, n)) (hn : n ≠ 0) :
    (inodeInUse fs1 n).map Prod.snd = some false
    ∧ fs.part.vdi.file.Later fs1.part.vdi.file := by
  obtain ⟨fs2, n2, he, hres⟩ := allocateInode_spec fs hint hgeo
  rw [h] at he
  simp only [Option.some.injEq, Prod.mk.injEq] at he
  obtain ⟨e1, e2⟩ := he
  subst e1 e2
  rcases hres with ⟨hn0, _, _⟩ | ⟨g, i, f1, a1, a2, a3, a4, a5, a6, a7, a8⟩
  · exact absurd hn0 hn
  · have hl := allocWriteBack_later (fs.setFile f1) (fs.inodeBitmap g) i
      (fs.bitmapRead g (i / 8)) (a7.same.modeOut.trans hm)
    have hL : fs.part.vdi.file.Later fs1.part.vdi.file := by
      rw [a8]; exact FStream.later_trans a7 hl
    refine ⟨?_, hL⟩
    have hshape := allocWriteBack_shape (fs.setFile f1) (fs.inodeBitmap g) i
      (fs.bitmapRead g (i / 8))
    rw [← a8] at hshape
    have hmul : (g + 1) * fs.sb.s_inodes_per_group
        ≤ fs.numBlockGroups * fs.sb.s_inodes_per_group :=
      Nat.mul_le_mul_right _ (by omega)
    rw [Nat.add_mul, Nat.one_mul] at hmul
    have h1 := hgeo.inodes_lt
    have h2 := hgeo.bits_le
    have h3 := hgeo.groups_le
    have hb : i / 8 < fs.blockSize := by omega
    have hbit : fs1.bitmapBit g i = false := by
      rw [hshape]
      unfold Ext2File.bitmapBit Ext2File.bitmapRead
      rw [ext2ReadBlock_setCursor]
      show bitSet ((ext2ReadBlock (fs.setFile fs1.part.vdi.file) (fs.inodeBitmap g)
        zeroMem).2.1 (i / 8)) (i % 8) = false
      by_cases hok : (ext2ReadBlock (fs.setFile fs1.part.vdi.file) (fs.inodeBitmap g)
          zeroMem).2.2 = true
      · rw [ext2ReadBlock_later_congr fs _ hL _ _ hok]
        exact a4
      · have hf : (ext2ReadBlock (fs.setFile fs1.part.vdi.file) (fs.inodeBitmap g)
            zeroMem).2.2 = false := by simpa using hok
        rw [ext2ReadBlock_false_zero _ _ _ hf (i / 8) hb]
        exact bitSet_zero _
    have hsb : fs1.sb = fs.sb := by rw [hshape]; rfl
    have hlen : fs1.bgdt = fs.bgdt := by rw [hshape]; rfl
    have hbs : fs1.blockSize = fs.blockSize := by rw [hshape]; rfl
    rw [a6, ← hsb]
    rw [inodeInUse_eq fs1 g i (by rw [hsb]; exact a3) (by rw [hlen]; omega)
      (by rw [hbs]; exact hb) (by rw [hsb]; omega), hbit]
    rfl

/-- C9 (the code on this claim). On every volume opened by `vdiOpen`, `mbrOpen`
and `ext2Open` (with a geometry that keeps the bitmap scan defined), when
`allocateInode` returns `n ≠ 0`, `inodeInUse(n)` evaluated immediately
afterwards is false, and the file is as it was: the stream is open for input
only, so the byte with the new bit never reaches the disk. -/
theorem allocateInode_not_recorded (host : Option HostFile) (index : Int) (fs : Ext2File)
    (hint : Int) (fs1 : Ext2File) (n : Nat) (hopen : openVolume host index = some fs)
    (hgeo : fs.BitmapGeometry) (halloc : allocateInode fs hint = some (fs1, n))
    (hn : n ≠ 0) :
    (inodeInUse fs1 n).map Prod.snd = some false
    ∧ fs1.part.vdi.file.data = fs.part.vdi.file.data
    ∧ fs1.part.vdi.file.size = fs.part.vdi.file.size := by
  have h := allocateInode_readonly_after fs hint hgeo (openVolume_modeOut host index fs hopen)
    fs1 n halloc hn
  exact ⟨h.1, h.2.same.data, h.2.same.size⟩

theorem option_eq_some_of_isSome {α : Type} (o : Option α) (h : o.isSome = true) :
    ∃ a, o = some a := by
  cases o with
  | none => simp at h
  | some a => exact ⟨a, rfl⟩

/-- Witness of C9 on the sample volume: the default call returns inode 4, and
`inodeInUse(4)` on the resulting state is false; bit 3 of the first bitmap byte
(0x07 on disk) is still clear. -/
theorem allocateInode_not_recorded_witness :
    (allocateInode sampleFs (-1)).map Prod.snd = some 4
    ∧ ((allocateInode sampleFs (-1)).bind (fun r => inodeInUse r.1 r.2)).map Prod.snd
        = some false
    ∧ ((allocateInode sampleFs (-1)).map
        (fun r => r.1.part.vdi.file.data 1053184)) = some 7 := by
  refine ⟨by decide, ?_, by decide⟩
  obtain ⟨r, hr⟩ := option_eq_some_of_isSome (allocateInode sampleFs (-1)) (by decide)
  have hn : (allocateInode sampleFs (-1)).map Prod.snd = some 4 := by decide
  rw [hr] at hn ⊢
  simp only [Option.map_some', Option.some.injEq] at hn
  simp only [Option.some_bind]
  exact (allocateInode_not_recorded (some (sampleHost false)) 0 sampleFs (-1) r.1 r.2
    sampleFs_open sampleFs_geometry hr (by omega)).1

theorem vdiWrite_modeOut (vdi : VDIFile) (off : Nat) (buf : Mem) (count : Nat) :
    (vdiWrite vdi off buf count).1.file.modeOut = vdi.file.modeOut := by
  unfold vdiWrite
  simp only
  split_ifs
  all_goals
    first
      | rfl
      | exact FStream.seekp_modeOut _ _
      | exact (FStream.write_modeOut _ _ _).trans (FStream.seekp_modeOut _ _)

theorem mbrWrite_modeOut (mp : MBRPartition) (buf : Mem) (count : Nat) :
    (mbrWrite mp buf count).1.vdi.file.modeOut = mp.vdi.file.modeOut := by
  unfold mbrWrite
  simp only
  split_ifs
  all_goals
    first
      | rfl
      | exact vdiWrite_modeOut _ _ _ _

theorem allocateInodeLoop_modeOut :
    ∀ (fuel : Nat) (cur : Ext2File) (g : Nat) (r : Ext2File × Nat),
      allocateInodeLoop fuel cur g = some r →
      r.1.part.vdi.file.modeOut = cur.part.vdi.file.modeOut := by
  intro fuel
  induction fuel with
  | zero =>
    intro cur g r h
    simp only [allocateInodeLoop, Option.some.injEq] at h
    rw [← h]
  | succ k ih =>
    intro cur g r h
    rw [allocateInodeLoop] at h
    split at h
    · simp at h
    · rename_i d hd
      simp only at h
      split at h
      · simp at h
      · simp only [Option.some.injEq] at h
        rw [← h]
        show (mbrWrite _ _ 1).1.vdi.file.modeOut = _
        rw [mbrWrite_modeOut, mbrSeek_vdi, ext2ReadBlock_modeOut]
      · rw [ih _ _ _ h, ext2ReadBlock_modeOut]

theorem freeInode_readonly (fs : Ext2File) (iNum : Nat)
    (hm : fs.part.vdi.file.modeOut = false) (r : Ext2File × Bool)
    (h : freeInode fs iNum = some r) : r.2 = false := by
  unfold freeInode at h
  simp only at h
  cases hg : fs.bgdt.get? ((iNum + 4294967295) % 4294967296 / fs.sb.s_inodes_per_group) with
  | none =>
    rw [hg] at h
    split_ifs at h
  | some d =>
    rw [hg] at h
    simp only at h
    have hw := (mbrWrite_readonly (mbrSeek (ext2ReadBlock fs d.bg_inode_bitmap zeroMem).1.part
      (((d.bg_inode_bitmap * fs.blockSize
        + (iNum + 4294967295) % 4294967296 % fs.sb.s_inodes_per_group / 8) % 4294967296 : Nat)
        : Int)).1
      (fun _ => clearBit ((ext2ReadBlock fs d.bg_inode_bitmap zeroMem).2.1
        ((iNum + 4294967295) % 4294967296 % fs.sb.s_inodes_per_group / 8))
        ((iNum + 4294967295) % 4294967296 % fs.sb.s_inodes_per_group % 8)) 1
      (by rw [mbrSeek_vdi, ext2ReadBlock_modeOut, hm])).1
    split_ifs at h
    simp only [Option.some.injEq] at h
    rw [← h]
    simp only [decide_eq_false_iff_not]
    omega

/-- C10 (the code on this claim). On every volume opened by `vdiOpen`, `mbrOpen`
and `ext2Open`, after `n = allocateInode()`, `freeInode(n)` does not return
true: its one-byte write fails, the stream being open for input only. -/
theorem freeInode_fails_after_open (host : Option HostFile) (index : Int) (fs : Ext2File)
    (hint : Int) (fs1 : Ext2File) (n : Nat) (hopen : openVolume host index = some fs)
    (halloc : allocateInode fs hint = some (fs1, n)) :
    (freeInode fs1 n).map Prod.snd ≠ some true := by
  have hm : fs1.part.vdi.file.modeOut = false := by
    have := allocateInodeLoop_modeOut _ _ _ _ halloc
    exact this.trans (openVolume_modeOut host index fs hopen)
  intro hc
  cases hf : freeInode fs1 n with
  | none => simp [hf] at hc
  | some r =>
    have := freeInode_readonly fs1 n hm r hf
    simp [hf, this] at hc

/-- Witness of C10 on the sample volume: `allocateInode()` returns 4 and
`freeInode(4)` on the resulting state returns false. -/
theorem freeInode_fails_after_open_witness :
    (allocateInode sampleFs (-1)).map Prod.snd = some 4
    ∧ ((allocateInode sampleFs (-1)).bind (fun r => freeInode r.1 r.2)).map Prod.snd
        ≠ some true
    ∧ ((allocateInode sampleFs (-1)).bind (fun r => freeInode r.1 r.2)).map Prod.snd
        = some false := by
  refine ⟨by decide, ?_, by decide⟩
  obtain ⟨r, hr⟩ := option_eq_some_of_isSome (allocateInode sampleFs (-1)) (by decide)
  rw [hr]
  simp only [Option.some_bind]
  exact freeInode_fails_after_open (some (sampleHost false)) 0 sampleFs (-1) r.1 r.2
    sampleFs_open hr

/-! ## Ranges on an opened volume -/

theorem vdiRead_fields (vdi : VDIFile) (off : Nat) (buf : Mem) (count : Nat) :
    (vdiRead vdi off buf count).1.frameOffset = vdi.frameOffset
    ∧ (vdiRead vdi off buf count).1.diskSize = vdi.diskSize := by
  unfold vdiRead
  simp only
  split_ifs <;> exact ⟨rfl, rfl⟩

theorem vdiOpen_frameOffset (vdi : VDIFile) (host : Option HostFile)
    (h : (vdiOpen vdi host).2 = true) : (vdiOpen vdi host).1.frameOffset < 4294967296 := by
  unfold vdiOpen at h ⊢
  simp only at h ⊢
  split_ifs at h ⊢
  exact le32_lt _ _

theorem mbrOpen_range (mp : MBRPartition) (vdi : VDIFile) (index : Int)
    (h : (mbrOpen mp vdi index).2 = true) :
    (mbrOpen mp vdi index).1.startByte ≤ 4294967295 * 512
    ∧ (mbrOpen mp vdi index).1.sizeBytes ≤ 4294967295 * 512
    ∧ (mbrOpen mp vdi index).1.cursor = 0
    ∧ (mbrOpen mp vdi index).1.vdi.frameOffset = vdi.frameOffset := by
  unfold mbrOpen at h ⊢
  simp only at h ⊢
  split_ifs at h ⊢ with c1 c2
  have hi : index.toNat < 4 := by omega
  simp only [parseMBR, hi, if_true, parseEntry]
  have h1 := le32_lt (vdiRead vdi 0 zeroMem 512).2.1 (446 + index.toNat * 16 + 8)
  have h2 := le32_lt (vdiRead vdi 0 zeroMem 512).2.1 (446 + index.toNat * 16 + 12)
  refine ⟨?_, ?_, ?_, (vdiRead_fields vdi 0 zeroMem 512).1⟩
  · rw [Nat.mod_eq_of_lt (by omega)]; omega
  · rw [Nat.mod_eq_of_lt (by omega)]; omega
  · trivial

theorem sameExtent_refl (p : MBRPartition) : SameExtent p p := ⟨rfl, rfl, rfl, rfl⟩

theorem sameExtent_trans {p q r : MBRPartition} (a : SameExtent p q) (b : SameExtent q r) :
    SameExtent p r :=
  ⟨b.startByte.trans a.startByte, b.sizeBytes.trans a.sizeBytes,
    b.frameOffset.trans a.frameOffset, b.diskSize.trans a.diskSize⟩

theorem ext2ReadBlock_extent (fs : Ext2File) (index : Nat) (buf : Mem) :
    SameExtent fs.part (ext2ReadBlock fs index buf).1.part := by
  rw [ext2ReadBlock_fst]
  exact ⟨rfl, rfl, rfl, rfl⟩

theorem ext2LoadSuperblock_extent (e e1 : Ext2File) (b : Bool)
    (h : ext2LoadSuperblock e = some (e1, b)) : SameExtent e.part e1.part := by
  unfold ext2LoadSuperblock at h
  simp only at h
  split_ifs at h
  all_goals
    simp only [Option.some.injEq, Prod.mk.injEq] at h
    obtain ⟨h1, _⟩ := h
    subst h1
    exact ⟨rfl, rfl, rfl, rfl⟩

theorem ext2LoadSuperblock_blockSize (e e1 : Ext2File)
    (h : ext2LoadSuperblock e = some (e1, true)) : e1.blockSize < 4294967296 := by
  unfold ext2LoadSuperblock at h
  simp only at h
  split_ifs at h
  all_goals
    simp only [Option.some.injEq, Prod.mk.injEq] at h
    obtain ⟨h1, h2⟩ := h
    first
      | exact absurd h2 (by decide)
      | (subst h1; exact Nat.mod_lt _ (by decide))

theorem ext2LoadBGDTLoop_extent (totalBytes bgdtBlock : Nat) (fuel : Nat) :
    ∀ (e : Ext2File) (b : Nat) (blockBuf : Mem) (bytesCopied : Nat),
      SameExtent e.part
        (ext2LoadBGDTLoop totalBytes bgdtBlock fuel e b blockBuf bytesCopied).1.part
      ∧ (ext2LoadBGDTLoop totalBytes bgdtBlock fuel e b blockBuf bytesCopied).1.blockSize
        = e.blockSize := by
  induction fuel with
  | zero => intro e b blockBuf bytesCopied; exact ⟨sameExtent_refl _, rfl⟩
  | succ k ih =>
    intro e b blockBuf bytesCopied
    unfold ext2LoadBGDTLoop
    simp only
    have hx := ext2ReadBlock_extent e ((bgdtBlock + b % 4294967296) % 4294967296) blockBuf
    have hb := ext2ReadBlock_blockSize e ((bgdtBlock + b % 4294967296) % 4294967296) blockBuf
    generalize ext2ReadBlock e ((bgdtBlock + b % 4294967296) % 4294967296) blockBuf = r
      at hx hb ⊢
    split_ifs
    · exact ⟨hx, hb⟩
    · have := ih { r.1 with bgdt := { r.1.bgdt with
        raw := memcpy r.1.bgdt.raw bytesCopied r.2.1 0 (totalBytes - bytesCopied) } }
        (b + 1) r.2.1 (bytesCopied + (totalBytes - bytesCopied))
      exact ⟨sameExtent_trans hx this.1, this.2.trans hb⟩
    · have := ih { r.1 with bgdt := { r.1.bgdt with
        raw := memcpy r.1.bgdt.raw bytesCopied r.2.1 0 e.blockSize } }
        (b + 1) r.2.1 (bytesCopied + e.blockSize)
      exact ⟨sameExtent_trans hx this.1, this.2.trans hb⟩

theorem ext2LoadBGDT_extent (e e1 : Ext2File) (b : Bool)
    (h : ext2LoadBGDT e = some (e1, b)) :
    SameExtent e.part e1.part ∧ e1.blockSize = e.blockSize := by
  unfold ext2LoadBGDT at h
  simp only at h
  split_ifs at h
  simp only [Option.some.injEq] at h
  have := ext2LoadBGDTLoop_extent (e.numBlockGroups * sizeofBGD)
    ((e.sb.s_first_data_block + 1) % 4294967296)
    ((e.numBlockGroups * sizeofBGD + e.blockSize - 1) / e.blockSize)
    { e with bgdt := e.bgdt.resize e.numBlockGroups } 0 (memset zeroMem 0 e.blockSize) 0
  rw [h] at this
  exact this

theorem ext2Open_range (e : Ext2File) (part : MBRPartition) (fs : Ext2File)
    (h : ext2Open e part = some (fs, true)) :
    SameExtent part fs.part ∧ fs.blockSize < 4294967296 := by
  unfold ext2Open at h
  simp only at h
  split at h
  · simp at h
  · simp at h
  · rename_i e1 hs
    have h1 := ext2LoadSuperblock_extent _ _ _ hs
    have h2 := ext2LoadSuperblock_blockSize _ _ hs
    split at h
    · simp at h
    · simp at h
    · rename_i e2 hb
      simp only [Option.some.injEq, Prod.mk.injEq, and_true] at h
      subst h
      have h3 := ext2LoadBGDT_extent _ _ _ hb
      exact ⟨sameExtent_trans h1 h3.1, by rw [h3.2]; exact h2⟩

/-- A volume opened by the sequence of `main` has its fields in the ranges of
`InRange`. -/
theorem openVolume_inRange (host : Option HostFile) (index : Int) (fs : Ext2File)
    (h : openVolume host index = some fs) : fs.InRange := by
  unfold openVolume at h
  simp only at h
  split_ifs at h with c1 c2
  split at h
  · rename_i fs1 he
    simp only [Option.some.injEq] at h
    subst h
    obtain ⟨hx, hbs⟩ := ext2Open_range _ _ _ he
    obtain ⟨m1, m2, _, m4⟩ := mbrOpen_range MBRPartition.fresh (vdiOpen VDIFile.fresh host).1
      index (by simpa using c2)
    have v1 := vdiOpen_frameOffset VDIFile.fresh host (by simpa using c1)
    exact ⟨hbs, by rw [hx.frameOffset, m4]; exact v1, by rw [hx.startByte]; exact m1,
      by rw [hx.sizeBytes]; exact m2⟩
  · simp at h

/-! ## The container layer: `vdiOpen`, `vdiRead`, `vdiWrite`

The functions `vdiOpen` and `vdiRead` of `step3.cpp` and of `unnamed/part_000` are
the ones of `step4_only.cpp`. -/

theorem FStream.seekg_read_ok (f : FStream) (off : Nat) (buf : Mem) (n : Nat)
    (hf : f.fail = false) (ho : f.isOpen = true) (hi : f.modeIn = true)
    (hs : off + n ≤ f.size) :
    (f.seekg (off : Int)).good = true
    ∧ ((f.seekg (off : Int)).read buf n).1.gcount = n
    ∧ ((f.seekg (off : Int)).read buf n).1.good = true
    ∧ ((f.seekg (off : Int)).read buf n).2 = memcpy buf 0 f.data off n
    ∧ ((f.seekg (off : Int)).read buf n).1.pos = off + n := by
  obtain ⟨d, sz, o, mi, mo, p, e, fb, bb, g⟩ := f
  simp only [FStream.fail, Bool.or_eq_false_iff] at hf
  obtain ⟨h1, h2⟩ := hf
  simp only at ho hi hs h1 h2
  subst ho hi h1 h2
  have hn : ¬ (sz - off < n) := by omega
  have hn2 : ¬ (n > sz - off) := by omega
  have h0 : ¬ ((off : Int) < 0) := by omega
  refine ⟨?_, ?_, ?_, ?_, ?_⟩ <;>
    simp [FStream.seekg, FStream.read, FStream.good, FStream.got, FStream.avail, hn, hn2, h0]

theorem le32_memcpy (dst src : Mem) (n off : Nat) (h : off + 4 ≤ n) :
    le32 (memcpy dst 0 src 0 n) off = le32 src off := by
  have a0 : off < n := by omega
  have a1 : off + 1 < n := by omega
  have a2 : off + 2 < n := by omega
  have a3 : off + 3 < n := by omega
  simp [le32, memcpy, a0, a1, a2, a3]

theorem le64_memcpy (dst src : Mem) (n off : Nat) (h : off + 8 ≤ n) :
    le64 (memcpy dst 0 src 0 n) off = le64 src off := by
  unfold le64
  rw [le32_memcpy dst src n off (by omega), le32_memcpy dst src n (off + 4) (by omega)]

/-- The two ways `vdiOpen` fails: the file cannot be opened (the stream is
already open, or there is no such file), or it holds fewer than 400 bytes. -/
theorem vdiOpen_false (vdi : VDIFile) (host : Option HostFile)
    (h : vdi.file.isOpen = true ∨ host = none ∨ ∃ hf, host = some hf ∧ hf.size < 400) :
    (vdiOpen vdi host).2 = false := by
  obtain ⟨⟨d, sz, o, mi, mo, p, e, fb, bb, g⟩, sg, it, mp, fo, fsz, ds⟩ := vdi
  rcases h with h | h | ⟨hf, h, hs⟩
  · simp only at h
    subst h
    unfold vdiOpen
    simp only [FStream.openFile]
    cases fb <;> cases bb <;>
      simp [FStream.seekg, FStream.read, FStream.good]
  · subst h
    cases o
    · simp [vdiOpen, FStream.openFile]
    · unfold vdiOpen
      simp only [FStream.openFile]
      cases fb <;> cases bb <;>
        simp [FStream.seekg, FStream.read, FStream.good]
  · subst h
    cases o
    · have h1 : hf.size < 400 := hs
      have h2 : ¬ (400 ≤ hf.size) := by omega
      simp [vdiOpen, FStream.openFile, FStream.seekg, FStream.read, FStream.good,
        FStream.got, FStream.avail, h1, h2]
    · unfold vdiOpen
      simp only [FStream.openFile]
      cases fb <;> cases bb <;>
        simp [FStream.seekg, FStream.read, FStream.good]

theorem vdiOpen_true (vdi : VDIFile) (hf : HostFile) (hc : vdi.file.isOpen = false)
    (hs : 400 ≤ hf.size) :
    vdiOpen vdi (some hf) =
      ({ file := { data := hf.data, size := hf.size, isOpen := true, modeIn := true,
                   modeOut := false, pos := 400, eofbit := false, failbit := false,
                   badbit := false, gcount := 400 }
         signature := le32 hf.data 0x40
         imageType := le32 hf.data 0x4C
         mapOffset := le32 hf.data 0x154
         frameOffset := le32 hf.data 0x158
         frameSize := le32 hf.data 0x15C
         diskSize := le64 hf.data 0x170 }, true) := by
  obtain ⟨⟨d, sz, o, mi, mo, p, e, fb, bb, g⟩, sg, it, mp, fo, fsz, ds⟩ := vdi
  simp only at hc
  subst hc
  have h2 : ¬ (400 > hf.size - 0) := by omega
  have h3 : ¬ (hf.size < 400) := by omega
  simp [vdiOpen, FStream.openFile, FStream.seekg, FStream.read, FStream.good,
    FStream.got, FStream.avail, h2, h3, le32_memcpy, le64_memcpy]


/-- C20. `vdiOpen` returns false when the file cannot be opened (no such file,
or the stream is already open) or holds fewer than 400 bytes; for every file of
400 bytes or more it returns true and sets signature, imageType, mapOffset,
frameOffset and frameSize to the little-endian 32-bit values at header offsets
0x40, 0x4C, 0x154, 0x158 and 0x15C, and diskSize to the little-endian 64-bit
value at 0x170. -/
theorem vdiOpen_header_decoding (vdi : VDIFile) (host : Option HostFile) :
    ((vdi.file.isOpen = true ∨ host = none ∨ ∃ hf, host = some hf ∧ hf.size < 400)
        → (vdiOpen vdi host).2 = false)
    ∧ (∀ hf, vdi.file.isOpen = false → host = some hf → 400 ≤ hf.size →
        (vdiOpen vdi host).2 = true
        ∧ (vdiOpen vdi host).1.signature = le32 hf.data 0x40
        ∧ (vdiOpen vdi host).1.imageType = le32 hf.data 0x4C
        ∧ (vdiOpen vdi host).1.mapOffset = le32 hf.data 0x154
        ∧ (vdiOpen vdi host).1.frameOffset = le32 hf.data 0x158
        ∧ (vdiOpen vdi host).1.frameSize = le32 hf.data 0x15C
        ∧ (vdiOpen vdi host).1.diskSize = le64 hf.data 0x170) := by
  refine ⟨vdiOpen_false vdi host, ?_⟩
  intro hf hc hh hs
  subst hh
  rw [vdiOpen_true vdi hf hc hs]
  exact ⟨rfl, rfl, rfl, rfl, rfl, rfl, rfl⟩

/-- Witness of C20: without a file and on a 399-byte file `vdiOpen` returns
false; on the sample file it returns true with frameOffset 512 (bytes 00 02 00 00
at 0x158) and diskSize 0x8000000 (byte 08 at 0x173). -/
theorem vdiOpen_header_decoding_witness :
    (vdiOpen VDIFile.fresh none).2 = false
    ∧ (vdiOpen VDIFile.fresh (some { data := sampleData false, size := 399 })).2 = false
    ∧ (vdiOpen VDIFile.fresh (some (sampleHost false))).2 = true
    ∧ (vdiOpen VDIFile.fresh (some (sampleHost false))).1.frameOffset = 512
    ∧ (vdiOpen VDIFile.fresh (some (sampleHost false))).1.diskSize = 134217728 :=
  ⟨(vdiOpen_header_decoding VDIFile.fresh none).1 (Or.inr (Or.inl rfl)),
    (vdiOpen_header_decoding VDIFile.fresh
      (some { data := sampleData false, size := 399 })).1
      (Or.inr (Or.inr ⟨_, rfl, by decide⟩)),
    ((vdiOpen_header_decoding VDIFile.fresh (some (sampleHost false))).2
      (sampleHost false) rfl rfl (by decide)).1,
    (((vdiOpen_header_decoding VDIFile.fresh (some (sampleHost false))).2
      (sampleHost false) rfl rfl (by decide)).2.2.2.2.1).trans (by decide),
    (((vdiOpen_header_decoding VDIFile.fresh (some (sampleHost false))).2
      (sampleHost false) rfl rfl (by decide)).2.2.2.2.2.2).trans (by decide)⟩

theorem vdiWrite_readonly_neg (vdi : VDIFile) (off : Nat) (buf : Mem) (count : Nat)
    (h : vdi.file.modeOut = false) (ho : off < vdi.diskSize) (hc : 0 < count) :
    (vdiWrite vdi off buf count).2 = -1 := by
  unfold vdiWrite
  simp only
  have htw : (if count > vdi.diskSize - off then vdi.diskSize - off else count) ≠ 0 := by
    split_ifs <;> omega
  generalize (if count > vdi.diskSize - off then vdi.diskSize - off else count) = toWrite
    at htw ⊢
  generalize hf1 : vdi.file.seekp
    (toInt64 ((vdi.frameOffset + off) % 18446744073709551616)) = f1
  have hm : f1.modeOut = false := by rw [← hf1, FStream.seekp_modeOut, h]
  have hw := FStream.write_readonly f1 buf toWrite hm
  rw [if_neg (by omega)]
  by_cases c2 : f1.good = true
  · rw [if_neg (by simp [c2])]
    show (if (f1.write buf toWrite).good = true then toInt64 toWrite else -1) = -1
    split_ifs with c3
    · exact absurd (hw.1 c3) htw
    · rfl
  · rw [if_pos (by simpa using c2)]


theorem vdiOpen_true_inv (vdi : VDIFile) (host : Option HostFile)
    (h : (vdiOpen vdi host).2 = true) :
    vdi.file.isOpen = false ∧ ∃ hf, host = some hf ∧ 400 ≤ hf.size := by
  by_contra hc
  have : (vdiOpen vdi host).2 = false := by
    apply vdiOpen_false
    by_cases ho : vdi.file.isOpen = true
    · exact Or.inl ho
    · right
      cases host with
      | none => exact Or.inl rfl
      | some hf =>
        right
        refine ⟨hf, rfl, ?_⟩
        by_contra hs
        exact hc ⟨by simpa using ho, hf, rfl, by omega⟩
  rw [this] at h
  exact Bool.false_ne_true h

/-- C19. On every disk that `vdiOpen` has opened, `vdiWrite` at an offset inside
the disk with a count of one byte or more returns -1 and writes nothing: the
content and the length of the file are as before. -/
theorem vdiWrite_fails_after_vdiOpen (vdi0 : VDIFile) (host : Option HostFile)
    (off : Nat) (buf : Mem) (count : Nat)
    (hopen : (vdiOpen vdi0 host).2 = true)
    (ho : off < (vdiOpen vdi0 host).1.diskSize) (hc : 0 < count) :
    (vdiWrite (vdiOpen vdi0 host).1 off buf count).2 = -1
    ∧ (vdiWrite (vdiOpen vdi0 host).1 off buf count).1.file.data
        = (vdiOpen vdi0 host).1.file.data
    ∧ (vdiWrite (vdiOpen vdi0 host).1 off buf count).1.file.size
        = (vdiOpen vdi0 host).1.file.size :=
  ⟨vdiWrite_readonly_neg _ off buf count (vdiOpen_modeOut vdi0 host hopen) ho hc,
    (vdiWrite_readonly _ off buf count (vdiOpen_modeOut vdi0 host hopen)).2.1,
    (vdiWrite_readonly _ off buf count (vdiOpen_modeOut vdi0 host hopen)).2.2.1⟩

/-- Witness of C19 on the sample container: writing the 128 bytes ED 41 00 ...
at logical offset 0 returns -1, and byte 512 of the file (logical offset 0) is
still 0. -/
theorem vdiWrite_fails_after_vdiOpen_witness :
    (vdiOpen VDIFile.fresh (some (sampleHost false))).2 = true
    ∧ 0 < (vdiOpen VDIFile.fresh (some (sampleHost false))).1.diskSize
    ∧ (vdiWrite (vdiOpen VDIFile.fresh (some (sampleHost false))).1 0
        sampleInode 128).2 = -1
    ∧ (vdiWrite (vdiOpen VDIFile.fresh (some (sampleHost false))).1 0
        sampleInode 128).1.file.data 512 = 0 :=
  ⟨by decide, by decide,
    (vdiWrite_fails_after_vdiOpen VDIFile.fresh (some (sampleHost false)) 0 sampleInode 128
      (by decide) (by decide) (by decide)).1,
    (congrFun (vdiWrite_fails_after_vdiOpen VDIFile.fresh (some (sampleHost false)) 0
      sampleInode 128 (by decide) (by decide) (by decide)).2.1 512).trans (by decide)⟩

theorem vdiRead_of_ge (vdi : VDIFile) (off : Nat) (buf : Mem) (count : Nat)
    (h : vdi.diskSize ≤ off) : vdiRead vdi off buf count = (vdi, buf, 0) := by
  unfold vdiRead
  rw [if_pos h]

theorem vdiRead_eq (vdi : VDIFile) (off : Nat) (buf : Mem) (count : Nat)
    (ho : off < vdi.diskSize) (hp : vdi.frameOffset + off < 9223372036854775808) :
    vdiRead vdi off buf count =
      if !(vdi.file.seekg ((vdi.frameOffset + off : Nat) : Int)).good then
        ({ vdi with file := vdi.file.seekg ((vdi.frameOffset + off : Nat) : Int) }, buf, -1)
      else
        ({ vdi with file := ((vdi.file.seekg ((vdi.frameOffset + off : Nat) : Int)).read buf
              (min count (vdi.diskSize - off))).1 },
          ((vdi.file.seekg ((vdi.frameOffset + off : Nat) : Int)).read buf
              (min count (vdi.diskSize - off))).2,
          ((((vdi.file.seekg ((vdi.frameOffset + off : Nat) : Int)).read buf
              (min count (vdi.diskSize - off))).1.gcount : Nat) : Int)) := by
  unfold vdiRead
  have e1 : (vdi.frameOffset + off) % 18446744073709551616 = vdi.frameOffset + off :=
    Nat.mod_eq_of_lt (by omega)
  have e2 : toInt64 (vdi.frameOffset + off) = ((vdi.frameOffset + off : Nat) : Int) :=
    toInt64_of_lt _ hp
  have e3 : (if count > vdi.diskSize - off then vdi.diskSize - off else count)
      = min count (vdi.diskSize - off) := by
    split_ifs <;> omega
  rw [if_neg (by omega)]
  simp only [e1, e2, e3]

theorem vdiRead_transfer (vdi : VDIFile) (off : Nat) (buf : Mem) (count : Nat)
    (ho : off < vdi.diskSize) (hp : vdi.frameOffset + off < 9223372036854775808) :
    ((vdi.file.seekg ((vdi.frameOffset + off : Nat) : Int)).good = false →
        (vdiRead vdi off buf count).2 = (buf, -1))
    ∧ ((vdi.file.seekg ((vdi.frameOffset + off : Nat) : Int)).good = true →
        ∃ k : Nat, (vdiRead vdi off buf count).2.2 = (k : Int)
          ∧ k = min (min count (vdi.diskSize - off))
                  (vdi.file.seekg ((vdi.frameOffset + off : Nat) : Int)).avail
          ∧ k ≤ min count (vdi.diskSize - off)
          ∧ (0 < k → vdi.frameOffset + off + k ≤ vdi.file.size)
          ∧ (∀ j, j < k →
              (vdiRead vdi off buf count).2.1 j = vdi.file.data (vdi.frameOffset + off + j))
          ∧ (∀ j, k ≤ j → (vdiRead vdi off buf count).2.1 j = buf j)) := by
  rw [vdiRead_eq vdi off buf count ho hp]
  generalize hf1 : vdi.file.seekg ((vdi.frameOffset + off : Nat) : Int) = f1
  constructor
  · intro hg
    rw [if_pos (by simp [hg])]
  · intro hg
    have hsk := FStream.seekg_good vdi.file (vdi.frameOffset + off) (by rw [hf1]; exact hg)
    rw [hf1] at hsk
    obtain ⟨hpos, hdata, hsize⟩ := hsk
    rw [if_neg (by simp [hg])]
    refine ⟨f1.got (min count (vdi.diskSize - off)), ?_, ?_, f1.got_le _, ?_, ?_, ?_⟩
    · simp only [FStream.read_gcount, hg, if_true]
    · unfold FStream.got; split_ifs <;> omega
    · intro hk
      have : f1.got (min count (vdi.diskSize - off)) ≤ f1.avail := by
        unfold FStream.got; split_ifs <;> omega
      unfold FStream.avail at this
      split_ifs at this
      · rw [hpos, hsize] at this; omega
      · omega
    · intro j hj
      simp only [FStream.read_snd, hg, if_true, memcpy]
      rw [if_pos ⟨by omega, by omega⟩, hdata, hpos]
      congr 1
    · intro j hj
      simp only [FStream.read_snd, hg, if_true, memcpy]
      rw [if_neg (by omega)]


theorem vdiRead_one (vdi : VDIFile) (o : Nat) (buf : Mem)
    (hf : vdi.file.fail = false) (hop : vdi.file.isOpen = true)
    (hin : vdi.file.modeIn = true)
    (hwhole : vdi.frameOffset + vdi.diskSize ≤ vdi.file.size)
    (hsize : vdi.file.size < 9223372036854775808) (ho : o < vdi.diskSize) :
    (vdiRead vdi o buf 1).2.2 = 1 := by
  obtain ⟨hg, hgc, _, _, _⟩ := FStream.seekg_read_ok vdi.file (vdi.frameOffset + o) buf 1
    hf hop hin (by omega)
  rw [vdiRead_eq vdi o buf 1 ho (by omega), if_neg (by rw [hg]; simp)]
  have hmin : min 1 (vdi.diskSize - o) = 1 := by omega
  simp only [hmin, hgc]
  rfl

/-- C17. On an opened disk whose backing file holds the whole logical disk
(`frameOffset + diskSize` does not exceed the length of the file) and whose
stream has not failed, `vdiRead(o, buf, 1)` returns exactly 1 for every logical
offset `o < diskSize`; and `vdiRead(diskSize, buf, 1)` returns 0 (on every
disk). -/
theorem vdiRead_one_byte (vdi : VDIFile) (o : Nat) (buf : Mem)
    (hf : vdi.file.fail = false) (hop : vdi.file.isOpen = true)
    (hin : vdi.file.modeIn = true)
    (hwhole : vdi.frameOffset + vdi.diskSize ≤ vdi.file.size)
    (hsize : vdi.file.size < 9223372036854775808) :
    (o < vdi.diskSize → (vdiRead vdi o buf 1).2.2 = 1)
    ∧ (vdiRead vdi vdi.diskSize buf 1).2.2 = 0 :=
  ⟨vdiRead_one vdi o buf hf hop hin hwhole hsize,
    by rw [vdiRead_of_ge vdi vdi.diskSize buf 1 (le_refl _)]⟩

/-- Witness of C17 on the sample container, whose file of 512 + 0x8000000 bytes
holds the whole disk: the last byte of the disk is read, the offset past it is
not. -/
theorem vdiRead_one_byte_witness :
    sampleVdi.diskSize = 134217728
    ∧ (vdiRead sampleVdi 134217727 zeroMem 1).2.2 = 1
    ∧ (vdiRead sampleVdi sampleVdi.diskSize zeroMem 1).2.2 = 0 :=
  ⟨by decide,
    (vdiRead_one_byte sampleVdi 134217727 zeroMem (by decide) (by decide) (by decide)
      (by decide) (by decide)).1 (by decide),
    (vdiRead_one_byte sampleVdi 134217727 zeroMem (by decide) (by decide) (by decide)
      (by decide) (by decide)).2⟩

/-- Counterexample to C17 as stated: `vdiOpen` accepts the 1024-byte file whose
header declares a disk of 0x8000000 bytes behind a 512-byte data offset; logical
offset 1024 lies inside the disk, and `vdiRead(1024, buf, 1)` returns 0, the file
having no byte at physical offset 1536. -/
theorem vdiRead_one_byte_short_file :
    (vdiOpen VDIFile.fresh (some shortHost)).2 = true
    ∧ ¬ (∀ o, o < shortVdi.diskSize → (vdiRead shortVdi o zeroMem 1).2.2 = 1) := by
  refine ⟨by decide, ?_⟩
  intro hc
  have h := hc 1024 (by decide)
  revert h
  decide

/-- C18. `vdiRead` returns 0, and leaves the disk state and the buffer as they
are, when `offset ≥ diskSize`.  Otherwise, provided the physical offset
`frameOffset + offset` is a file offset (below 2^63): when the seek to it fails
the call returns -1 with the buffer unchanged; when the seek succeeds the call
requests `min(count, diskSize - offset)` bytes there and returns the transferred
count `k`, the lesser of the request and of the bytes that the file has from that
offset on, so `k ≤ min(count, diskSize - offset)`; `buf[0..k)` are the bytes of
the backing file at `[frameOffset + offset, frameOffset + offset + k)`, the rest
of the buffer is unchanged, and no byte at a logical offset `≥ diskSize` is
returned. -/
theorem vdiRead_contract (vdi : VDIFile) (off : Nat) (buf : Mem) (count : Nat) :
    (vdi.diskSize ≤ off → vdiRead vdi off buf count = (vdi, buf, 0))
    ∧ (off < vdi.diskSize → vdi.frameOffset + off < 9223372036854775808 →
        ((vdi.file.seekg ((vdi.frameOffset + off : Nat) : Int)).good = false →
            (vdiRead vdi off buf count).2 = (buf, -1))
        ∧ ((vdi.file.seekg ((vdi.frameOffset + off : Nat) : Int)).good = true →
            ∃ k : Nat, (vdiRead vdi off buf count).2.2 = (k : Int)
              ∧ k = min (min count (vdi.diskSize - off))
                      (vdi.file.seekg ((vdi.frameOffset + off : Nat) : Int)).avail
              ∧ k ≤ min count (vdi.diskSize - off)
              ∧ off + k ≤ vdi.diskSize
              ∧ (0 < k → vdi.frameOffset + off + k ≤ vdi.file.size)
              ∧ (∀ j, j < k →
                  (vdiRead vdi off buf count).2.1 j
                    = vdi.file.data (vdi.frameOffset + off + j))
              ∧ (∀ j, k ≤ j → (vdiRead vdi off buf count).2.1 j = buf j))) := by
  refine ⟨vdiRead_of_ge vdi off buf count, ?_⟩
  intro ho hp
  refine ⟨(vdiRead_transfer vdi off buf count ho hp).1, ?_⟩
  intro hg
  obtain ⟨k, h1, h2, h3, h4, h5, h6⟩ := (vdiRead_transfer vdi off buf count ho hp).2 hg
  exact ⟨k, h1, h2, h3, by omega, h4, h5, h6⟩

/-- Witness of C18 on the sample container: a request of 512 bytes at logical
offset 0 transfers the boot sector (byte 455 of it is 8, the file's byte 967); a
request of 512 bytes 100 bytes before the end of the disk transfers 100 bytes;
a request at `diskSize` returns 0. -/
theorem vdiRead_contract_witness :
    (vdiRead sampleVdi 0 zeroMem 512).2.2 = 512
    ∧ (vdiRead sampleVdi 0 zeroMem 512).2.1 455 = 8
    ∧ (vdiRead sampleVdi 134217628 zeroMem 512).2.2 = 100
    ∧ vdiRead sampleVdi 134217728 zeroMem 512 = (sampleVdi, zeroMem, 0) := by
  obtain ⟨k, h1, h2, -, -, -, h5, -⟩ :=
    ((vdiRead_contract sampleVdi 0 zeroMem 512).2 (by decide) (by decide)).2 (by decide)
  obtain ⟨k2, g1, g2, -⟩ :=
    ((vdiRead_contract sampleVdi 134217628 zeroMem 512).2 (by decide) (by decide)).2
      (by decide)
  have hk : k = 512 := h2.trans (by decide)
  have hk2 : k2 = 100 := g2.trans (by decide)
  subst hk hk2
  exact ⟨h1, (h5 455 (by decide)).trans (by decide), g1,
    (vdiRead_contract sampleVdi 134217728 zeroMem 512).1 (by decide)⟩

/-- Counterexample to C18 as stated: `vdiOpen` accepts the header that declares
`frameOffset = 512` and `diskSize = 2^64 - 1`.  At logical offset `2^64 - 256`,
inside that disk, the 64-bit sum `frameOffset + offset` wraps to 256:
`vdiRead` returns 1 and delivers 0x5A, the byte at file offset 256, while
`frameOffset + offset` is `2^64 + 256`, where the 1024-byte file has no byte.
And on the short container, after the read at logical offset 1024 has met the
end of the file, the request of one byte at logical offset 0 returns -1, which
is no transferred count. -/
theorem vdiRead_physical_offset_wraps :
    (vdiOpen VDIFile.fresh (some wideHost)).2 = true
    ∧ 18446744073709551360 < wideVdi.diskSize
    ∧ (vdiRead wideVdi 18446744073709551360 zeroMem 1).2.1 0 = wideVdi.file.data 256
    ∧ ¬ (∃ k : Nat, (vdiRead wideVdi 18446744073709551360 zeroMem 1).2.2 = (k : Int)
          ∧ k ≤ min 1 (wideVdi.diskSize - 18446744073709551360)
          ∧ wideVdi.frameOffset + 18446744073709551360 + k ≤ wideVdi.file.size
          ∧ ∀ j, j < k →
              (vdiRead wideVdi 18446744073709551360 zeroMem 1).2.1 j
                = wideVdi.file.data (wideVdi.frameOffset + 18446744073709551360 + j))
    ∧ (vdiRead (vdiRead shortVdi 1024 zeroMem 1).1 0 zeroMem 1).2.2 = -1 := by
  refine ⟨by decide, by decide, by decide, ?_, by decide⟩
  rintro ⟨k, hk, -, hsz, hb⟩
  have h1 : (vdiRead wideVdi 18446744073709551360 zeroMem 1).2.2 = 1 := by decide
  have hk1 : k = 1 := by
    rw [h1] at hk
    exact_mod_cast hk.symm
  subst hk1
  have h2 := hb 0 (by decide)
  revert h2
  decide

/-! ## Opening a volume: the magic check -/

theorem le16_memcpy (dst src : Mem) (n off : Nat) (h : off + 2 ≤ n) :
    le16 (memcpy dst 0 src 0 n) off = le16 src off := by
  have a0 : off < n := by omega
  have a1 : off + 1 < n := by omega
  simp [le16, memcpy, a0, a1]

theorem le16_memcpy_from (dst src : Mem) (p n off : Nat) (h : off + 2 ≤ n) :
    le16 (memcpy dst 0 src p n) off = le16 src (p + off) := by
  have a0 : off < n := by omega
  have a1 : off + 1 < n := by omega
  simp [le16, memcpy, a0, a1, Nat.add_assoc]

/-- On a partition whose superblock region is readable, `ext2LoadSuperblock`
with a magic field other than 0xEF53 on disk returns false; it has replaced the
superblock record and moved the stream, and nothing else. -/
theorem ext2LoadSuperblock_bad_magic (e : Ext2File) (hr : SuperblockReadable e.part)
    (hm : diskMagic e.part ≠ 0xEF53) :
    ∃ e1, ext2LoadSuperblock e = some (e1, false)
      ∧ e1.bgdt = e.bgdt ∧ e1.blockSize = e.blockSize
      ∧ e1.numBlockGroups = e.numBlockGroups ∧ e1.inodeSize = e.inodeSize := by
  obtain ⟨h1, h2, h3, h4, h5, h6, h7, h8⟩ := hr
  have e1 : (e.part.startByte + 1024) % 18446744073709551616 = e.part.startByte + 1024 :=
    Nat.mod_eq_of_lt (by omega)
  have e2 : (e.part.startByte + 1024 + 1024) % 18446744073709551616
      = e.part.startByte + 1024 + 1024 := Nat.mod_eq_of_lt (by omega)
  have e3 : (e.part.vdi.frameOffset + (e.part.startByte + 1024)) % 18446744073709551616
      = e.part.vdi.frameOffset + e.part.startByte + 1024 := by
    rw [Nat.mod_eq_of_lt (by omega)]; omega
  have e4 : toInt64 (e.part.vdi.frameOffset + e.part.startByte + 1024)
      = ((e.part.vdi.frameOffset + e.part.startByte + 1024 : Nat) : Int) :=
    toInt64_of_lt _ (by omega)
  obtain ⟨hg, hgc, -, hbuf, -⟩ := FStream.seekg_read_ok e.part.vdi.file
    (e.part.vdi.frameOffset + e.part.startByte + 1024) (memset zeroMem 0 1024) 1024
    h6 h7 h8 (by omega)
  unfold ext2LoadSuperblock
  simp only [e1, e2, e3, e4]
  rw [if_neg (by omega), if_neg (by omega), if_neg (by rw [hg]; simp),
    if_neg (by rw [hgc]; omega)]
  have hmag : le16 (memcpy e.sb.raw 0
      ((e.part.vdi.file.seekg
        ((e.part.vdi.frameOffset + e.part.startByte + 1024 : Nat) : Int)).read
          (memset zeroMem 0 1024) 1024).2 0 sizeofExt2Superblock) 56 = diskMagic e.part := by
    rw [le16_memcpy _ _ _ _ (by decide), hbuf, le16_memcpy_from _ _ _ _ _ (by decide)]
    rfl
  rw [if_pos (by
    show le16 _ 56 ≠ 0xEF53
    rw [hmag]; exact hm)]
  exact ⟨_, rfl, rfl, rfl, rfl, rfl⟩

theorem ext2Open_bad_magic (e : Ext2File) (part : MBRPartition)
    (hr : SuperblockReadable part) (hm : diskMagic part ≠ 0xEF53) :
    ∃ e1, ext2LoadSuperblock { e with part := part } = some (e1, false)
      ∧ ext2Open e part = some (e1, false)
      ∧ e1.bgdt = e.bgdt ∧ e1.blockSize = e.blockSize
      ∧ e1.numBlockGroups = e.numBlockGroups := by
  obtain ⟨e1, h1, h2, h3, h4, -⟩ :=
    ext2LoadSuperblock_bad_magic { e with part := part } hr hm
  refine ⟨e1, h1, ?_, h2, h3, h4⟩
  unfold ext2Open
  simp only [h1]

theorem badMagic_readable : SuperblockReadable (openPartition badMagicHost) :=
  ⟨by decide, by decide, by decide, by decide, by decide, by decide, by decide, by decide⟩

/-- C13. For every partition whose superblock region is readable and whose magic
field on disk differs from 0xEF53, `ext2LoadSuperblock` returns false and
`ext2Open` returns false with the state that `ext2LoadSuperblock` left:
`ext2LoadBGDT` is not executed, and the bgdt vector, `blockSize` and
`numBlockGroups` are as they were before the call. -/
theorem ext2Open_rejects_bad_magic (e : Ext2File) (part : MBRPartition)
    (hr : SuperblockReadable part) (hm : diskMagic part ≠ 0xEF53) :
    ∃ e1, ext2LoadSuperblock { e with part := part } = some (e1, false)
      ∧ ext2Open e part = some (e1, false)
      ∧ e1.bgdt = e.bgdt ∧ e1.blockSize = e.blockSize
      ∧ e1.numBlockGroups = e.numBlockGroups :=
  ext2Open_bad_magic e part hr hm

/-- Witness of C13: the sample image with the magic field 0x1234, opened into the
sample volume (which has 2 descriptors, 1 KiB blocks, 2 groups): both functions
return false and the three fields keep their values. -/
theorem ext2Open_rejects_bad_magic_witness :
    diskMagic (openPartition badMagicHost) = 0x1234
    ∧ ∃ e1, ext2LoadSuperblock { sampleFs with part := openPartition badMagicHost }
          = some (e1, false)
      ∧ ext2Open sampleFs (openPartition badMagicHost) = some (e1, false)
      ∧ e1.bgdt = sampleFs.bgdt ∧ e1.blockSize = 1024 ∧ e1.numBlockGroups = 2 := by
  obtain ⟨e1, h1, h2, h3, h4, h5⟩ :=
    ext2Open_rejects_bad_magic sampleFs (openPartition badMagicHost) badMagic_readable
      (by decide)
  exact ⟨by decide, e1, h1, h2, h3, h4.trans (by decide), h5.trans (by decide)⟩

/-! ## The derived geometry of an accepted superblock -/


theorem normShift_spec (a b : Nat) (fuel k : Nat) (h : 2 ^ 52 * b ≤ a * 2 ^ (k + fuel)) :
    2 ^ 52 * b ≤ a * 2 ^ (normShift a b fuel k) := by
  induction fuel generalizing k with
  | zero => simpa [normShift] using h
  | succ n ih =>
    unfold normShift
    split_ifs with c
    · exact c
    · apply ih
      have : k + 1 + n = k + (n + 1) := by omega
      rw [this]; exact h

/-- Rounding a quotient `a * P / b` to one of its two neighbours (up only when
the division leaves a remainder) does not move it across a multiple of `P`,
when `b ≤ P`: its ceiling in units of `P` is the ceiling of `a / b`. -/
theorem ceil_of_rounded (a b P q r m c : Nat) (hb : 0 < b) (hbP : b ≤ P)
    (haP : a * P = b * q + r) (hr : r < b) (hm : m = q ∨ (m = q + 1 ∧ 0 < r))
    (hc1 : a ≤ c * b) (hc2 : c * b < a + b) (ha : 0 < a) :
    (m + P - 1) / P = c := by
  have hP : 0 < P := by omega
  obtain ⟨d, rfl⟩ : ∃ d, c = d + 1 := by
    cases c with
    | zero => simp at hc1; omega
    | succ d => exact ⟨d, rfl⟩
  have h1 : (d * b + 1) * P ≤ a * P := Nat.mul_le_mul_right P (by nlinarith)
  have h2 : a * P ≤ (d + 1) * b * P := Nat.mul_le_mul_right P hc1
  have hup : m ≤ (d + 1) * P := by
    by_contra hcon
    have hq : (d + 1) * P ≤ q := by
      rcases hm with hm | ⟨hm, _⟩ <;> omega
    have : b * ((d + 1) * P) ≤ b * q := Nat.mul_le_mul_left b hq
    rcases hm with hm | ⟨hm, hr0⟩
    · have hq2 : (d + 1) * P + 1 ≤ q := by omega
      have : b * ((d + 1) * P + 1) ≤ b * q := Nat.mul_le_mul_left b hq2
      nlinarith
    · nlinarith
  have hlo : d * P + 1 ≤ m := by
    by_contra hcon
    have hq : q ≤ d * P := by
      rcases hm with hm | ⟨hm, _⟩ <;> omega
    have : b * q ≤ b * (d * P) := Nat.mul_le_mul_left b hq
    nlinarith
  apply Nat.div_eq_of_lt_le
  · have : (d + 1) * P = d * P + P := by ring
    omega
  · have : (d + 1 + 1) * P = (d + 1) * P + P := by ring
    omega

theorem ceilDouble_doubleDiv (a b : Nat) (ha : a < 4294967296) (hb : 0 < b)
    (hb2 : b < 4294967296) : ceilDouble (doubleDiv a b) = (a + b - 1) / b := by
  by_cases ha0 : a = 0
  · subst ha0
    have : (0 + b - 1) / b = 0 := Nat.div_eq_of_lt (by omega)
    rw [this]
    simp [doubleDiv, ceilDouble]
  · have hk := normShift_spec a b 84 0 (by
      have h1 : 2 ^ 52 * b ≤ 2 ^ 52 * 2 ^ 32 := Nat.mul_le_mul_left _ (by omega)
      have h2 : 1 * 2 ^ (0 + 84) ≤ a * 2 ^ (0 + 84) := Nat.mul_le_mul_right _ (by omega)
      have h3 : (2:Nat) ^ 52 * 2 ^ 32 = 1 * 2 ^ (0 + 84) := by norm_num
      omega)
    unfold doubleDiv ceilDouble
    rw [if_neg ha0]
    simp only
    generalize normShift a b 84 0 = k at hk
    have hP : 0 < 2 ^ k := Nat.pow_pos (by decide)
    generalize (2:Nat) ^ k = P at hk hP
    have hbP : b ≤ P := by
      by_contra hcon
      have h1 : a * P ≤ a * b := Nat.mul_le_mul_left a (by omega)
      have h2 : a * b ≤ 4294967296 * b := Nat.mul_le_mul_right b (by omega)
      omega
    have hdm := Nat.div_add_mod (a * P) b
    have hr := Nat.mod_lt (a * P) hb
    have hc := Nat.div_add_mod (a + b - 1) b
    have hcr := Nat.mod_lt (a + b - 1) hb
    apply ceil_of_rounded a b P (a * P / b) (a * P % b) _ _ hb hbP hdm.symm hr
    · split_ifs with c
      · right
        refine ⟨rfl, ?_⟩
        rcases c with c | ⟨c, _⟩ <;> omega
      · left; rfl
    · have : (a + b - 1) / b * b = b * ((a + b - 1) / b) := Nat.mul_comm _ _
      omega
    · have : (a + b - 1) / b * b = b * ((a + b - 1) / b) := Nat.mul_comm _ _
      omega
    · omega


theorem ext2LoadSuperblock_true (e e1 : Ext2File)
    (h : ext2LoadSuperblock e = some (e1, true)) :
    e1.sb.s_magic = 0xEF53 ∧ e1.sb.s_log_block_size < 32 ∧ 0 < e1.sb.s_blocks_per_group
    ∧ e1.blockSize = (1024 <<< e1.sb.s_log_block_size) % 4294967296
    ∧ e1.inodeSize = (if e1.sb.s_rev_level > 0 then e1.sb.s_inode_size else 128)
    ∧ e1.numBlockGroups
        = ceilDouble (doubleDiv e1.sb.s_blocks_count e1.sb.s_blocks_per_group) % 4294967296
    ∧ e1.bgdt = e.bgdt := by
  unfold ext2LoadSuperblock at h
  simp only at h
  split_ifs at h with c1 c2 c3 c4 c5 c6 c7 c8
  all_goals
    simp only [Option.some.injEq, Prod.mk.injEq] at h
    obtain ⟨h1, h2⟩ := h
    first
      | exact absurd h2 (by decide)
      | (subst h1
         exact ⟨by simpa using c5, by simpa using c6, Nat.pos_of_ne_zero c7,
           rfl, by first | exact (if_pos c8).symm | exact (if_neg c8).symm, rfl, rfl⟩)

theorem ceilDiv_least (a b : Nat) (hb : 0 < b) :
    a ≤ (a + b - 1) / b * b ∧ ∀ g, a ≤ g * b → (a + b - 1) / b ≤ g := by
  have hc := Nat.div_add_mod (a + b - 1) b
  have hcr := Nat.mod_lt (a + b - 1) hb
  have hcomm : (a + b - 1) / b * b = b * ((a + b - 1) / b) := Nat.mul_comm _ _
  refine ⟨by omega, ?_⟩
  intro g hg
  apply Nat.lt_succ_iff.mp
  rw [Nat.div_lt_iff_lt_mul hb]
  have : g.succ * b = g * b + b := Nat.succ_mul g b
  omega

theorem numBlockGroups_eq (e e1 : Ext2File)
    (h : ext2LoadSuperblock e = some (e1, true)) :
    e1.numBlockGroups
      = (e1.sb.s_blocks_count + e1.sb.s_blocks_per_group - 1) / e1.sb.s_blocks_per_group := by
  obtain ⟨-, -, hb, -, -, hn, -⟩ := ext2LoadSuperblock_true e e1 h
  have h1 : e1.sb.s_blocks_count < 4294967296 := le32_lt _ _
  have h2 : e1.sb.s_blocks_per_group < 4294967296 := le32_lt _ _
  rw [hn, ceilDouble_doubleDiv _ _ h1 hb h2]
  apply Nat.mod_eq_of_lt
  have := (ceilDiv_least e1.sb.s_blocks_count e1.sb.s_blocks_per_group hb).2
    e1.sb.s_blocks_count (Nat.le_mul_of_pos_right _ hb)
  omega


/-- C14. For every superblock that `ext2LoadSuperblock` accepts,
`blocks_per_group` is positive and `numBlockGroups`, computed by the division in
`double`, `std::ceil` and the conversion to `uint32_t`, is the exact integer
ceiling of `blocks_count / blocks_per_group`: the least `g` with
`g * blocks_per_group ≥ blocks_count`. -/
theorem numBlockGroups_exact_ceiling (e e1 : Ext2File)
    (h : ext2LoadSuperblock e = some (e1, true)) :
    0 < e1.sb.s_blocks_per_group
    ∧ e1.numBlockGroups
        = (e1.sb.s_blocks_count + e1.sb.s_blocks_per_group - 1) / e1.sb.s_blocks_per_group
    ∧ e1.sb.s_blocks_count ≤ e1.numBlockGroups * e1.sb.s_blocks_per_group
    ∧ ∀ g, e1.sb.s_blocks_count ≤ g * e1.sb.s_blocks_per_group → e1.numBlockGroups ≤ g := by
  have hb := (ext2LoadSuperblock_true e e1 h).2.2.1
  have hn := numBlockGroups_eq e e1 h
  have hl := ceilDiv_least e1.sb.s_blocks_count e1.sb.s_blocks_per_group hb
  rw [hn]
  exact ⟨hb, rfl, hl.1, hl.2⟩

/-- Witness of C14: the sample image with `blocks_count = 100` and
`blocks_per_group = 40` is accepted with `numBlockGroups = 3`. -/
theorem numBlockGroups_exact_ceiling_witness :
    ∃ e1, ext2LoadSuperblock { Ext2File.fresh with part := openPartition smallHost }
          = some (e1, true)
      ∧ e1.sb.s_blocks_count = 100 ∧ e1.sb.s_blocks_per_group = 40
      ∧ e1.numBlockGroups = 3 := by
  obtain ⟨r, hr⟩ := option_eq_some_of_isSome
    (ext2LoadSuperblock { Ext2File.fresh with part := openPartition smallHost }) (by decide)
  have hf : (ext2LoadSuperblock { Ext2File.fresh with part := openPartition smallHost }).map
      (fun r => (r.2, r.1.sb.s_blocks_count, r.1.sb.s_blocks_per_group))
      = some (true, 100, 40) := by decide
  rw [hr] at hf
  simp only [Option.map_some', Option.some.injEq, Prod.mk.injEq] at hf
  obtain ⟨h2, hbc, hbpg⟩ := hf
  have hr2 : ext2LoadSuperblock { Ext2File.fresh with part := openPartition smallHost }
      = some (r.1, true) := by rw [hr, ← h2]
  have hn := (numBlockGroups_exact_ceiling _ r.1 hr2).2.1
  refine ⟨r.1, hr2, hbc, hbpg, ?_⟩
  rw [hn, hbc, hbpg]

theorem blockSize_of_small_shift (s : Nat) (hs : s ≤ 21) :
    (1024 <<< s) % 4294967296 = 1024 * 2 ^ s := by
  rw [Nat.shiftLeft_eq]
  apply Nat.mod_eq_of_lt
  have : 2 ^ s ≤ 2 ^ 21 := Nat.pow_le_pow_right (by decide) hs
  omega

/-- C15. For every superblock that `ext2LoadSuperblock` accepts, `blockSize` is
`1024 * 2^s_log_block_size` when `s_log_block_size ≤ 21` (the left shift in
`uint32_t` loses no bits for these values), and `inodeSize` is `s_inode_size`
when `s_rev_level > 0` and 128 when `s_rev_level = 0`. -/
theorem ext2LoadSuperblock_blockSize_inodeSize (e e1 : Ext2File)
    (h : ext2LoadSuperblock e = some (e1, true)) :
    (e1.sb.s_log_block_size ≤ 21 → e1.blockSize = 1024 * 2 ^ e1.sb.s_log_block_size)
    ∧ (0 < e1.sb.s_rev_level → e1.inodeSize = e1.sb.s_inode_size)
    ∧ (e1.sb.s_rev_level = 0 → e1.inodeSize = 128) := by
  obtain ⟨-, -, -, hbs, his, -, -⟩ := ext2LoadSuperblock_true e e1 h
  refine ⟨?_, ?_, ?_⟩
  · intro hs
    rw [hbs, blockSize_of_small_shift _ hs]
  · intro hrev
    rw [his, if_pos hrev]
  · intro hrev
    rw [his, if_neg (by omega)]

/-- Witness of C15: the sample image with revision 1 and `s_inode_size = 256`
is accepted with `blockSize = 1024` (`s_log_block_size = 0`) and
`inodeSize = 256`. -/
theorem ext2LoadSuperblock_blockSize_inodeSize_witness :
    ∃ e1, ext2LoadSuperblock { Ext2File.fresh with part := openPartition (sampleHost true) }
          = some (e1, true)
      ∧ e1.sb.s_log_block_size = 0 ∧ e1.sb.s_rev_level = 1
      ∧ e1.blockSize = 1024 ∧ e1.inodeSize = 256 := by
  obtain ⟨r, hr⟩ := option_eq_some_of_isSome
    (ext2LoadSuperblock { Ext2File.fresh with part := openPartition (sampleHost true) })
    (by decide)
  have hf : (ext2LoadSuperblock
      { Ext2File.fresh with part := openPartition (sampleHost true) }).map
      (fun r => (r.2, r.1.sb.s_log_block_size, r.1.sb.s_rev_level, r.1.sb.s_inode_size))
      = some (true, 0, 1, 256) := by decide
  rw [hr] at hf
  simp only [Option.map_some', Option.some.injEq, Prod.mk.injEq] at hf
  obtain ⟨h2, hs, hrev, hsz⟩ := hf
  have hr2 : ext2LoadSuperblock
      { Ext2File.fresh with part := openPartition (sampleHost true) }
      = some (r.1, true) := by rw [hr, ← h2]
  have hc := ext2LoadSuperblock_blockSize_inodeSize _ r.1 hr2
  refine ⟨r.1, hr2, hs, hrev, ?_, ?_⟩
  · rw [hc.1 (by omega), hs]; rfl
  · rw [hc.2.1 (by omega), hsz]

/-- Counterexample to C15 as stated: the sample image with
`s_log_block_size = 22` is accepted, and `blockSize` is 0, not `1024 * 2^22`:
the shift in `uint32_t` loses the one bit of the value. -/
theorem blockSize_shift_loses_bits :
    ¬ (∀ e1, ext2LoadSuperblock { Ext2File.fresh with part := openPartition shift22Host }
          = some (e1, true) →
        e1.blockSize = 1024 * 2 ^ e1.sb.s_log_block_size) := by
  intro hc
  obtain ⟨r, hr⟩ := option_eq_some_of_isSome
    (ext2LoadSuperblock { Ext2File.fresh with part := openPartition shift22Host })
    (by decide)
  have hf : (ext2LoadSuperblock
      { Ext2File.fresh with part := openPartition shift22Host }).map
      (fun r => (r.2, r.1.sb.s_log_block_size, r.1.blockSize))
      = some (true, 22, 0) := by decide
  rw [hr] at hf
  simp only [Option.map_some', Option.some.injEq, Prod.mk.injEq] at hf
  obtain ⟨h2, hs, hbs⟩ := hf
  have := hc r.1 (by rw [hr, ← h2])
  rw [hbs, hs] at this
  revert this
  decide

/-! ## The descriptor table -/

theorem ext2ReadBlock_readable (fs : Ext2File) (index : Nat) (buf : Mem)
    (hr : fs.InRange) (hidx : index < 4294967296) (h : fs.BlockReadable index) :
    ext2ReadBlock fs index buf
        = (fs.setFile (physRead fs index buf).1,
            memcpy buf 0 fs.part.vdi.file.data (physOffset fs index) fs.blockSize, true)
    ∧ fs.part.vdi.file.ReadEquiv (physRead fs index buf).1
    ∧ (physRead fs index buf).1.pos = physOffset fs index + fs.blockSize := by
  obtain ⟨h1, h2, h3, h4, h5, h6⟩ := h
  have e6 := physOffset_toInt64 fs index hr h1
  obtain ⟨hg, hgc, -, hbuf, hpos⟩ := FStream.seekg_read_ok fs.part.vdi.file
    (physOffset fs index) buf fs.blockSize h4 h5 h6 h3
  have hgc2 : (physRead fs index buf).1.gcount = fs.blockSize := by
    simp only [physRead, e6]; exact hgc
  refine ⟨?_, ?_, ?_⟩
  · rw [ext2ReadBlock_eq fs index buf hr hidx, if_neg (by omega), if_neg (by omega),
      if_neg (by rw [hg]; simp), if_neg (by rw [hgc2]; omega)]
    simp only [physRead, e6, hbuf]
  · simp only [physRead, e6]
    exact FStream.seekg_read_full_equiv _ _ _ _ hg (by rw [hgc]; omega)
  · simp only [physRead, e6]; exact hpos

theorem ext2ReadBlock_unreadable (fs : Ext2File) (index : Nat) (buf : Mem)
    (hr : fs.InRange) (hidx : index < 4294967296) (hbs : 0 < fs.blockSize)
    (h : ¬ fs.BlockReadable index) : (ext2ReadBlock fs index buf).2.2 = false := by
  by_contra hc
  have ht : (ext2ReadBlock fs index buf).2.2 = true := by simpa using hc
  apply h
  obtain ⟨h1, h2, -, h4⟩ := ext2ReadBlock_true_spec fs index buf hr hidx ht
  have hnf := ext2ReadBlock_true_bits fs index buf ht
  rw [ext2ReadBlock_eq fs index buf hr hidx] at ht
  split_ifs at ht with c1 c2 c3 c4
  have hg : (fs.part.vdi.file.seekg ((physOffset fs index : Nat) : Int)).good = true := by
    simpa using c3
  have e6 := physOffset_toInt64 fs index hr h1
  have hfs := FStream.read_full_size _ buf fs.blockSize
    (by simpa [physRead, e6] using c4) hbs
  have heq := FStream.seekg_good_equiv _ _ hg
  exact ⟨h1, h2, h4 hbs, hnf, by rw [← heq.isOpen]; exact hfs.2.1,
    by rw [← heq.modeIn]; exact hfs.2.2⟩

theorem Ext2File.blockReadable_congr (e : Ext2File) (f : FStream) (v : BGDTVector)
    (hf : e.part.vdi.file.ReadEquiv f) (index : Nat) :
    Ext2File.BlockReadable { e.setFile f with bgdt := v } index ↔ e.BlockReadable index := by
  constructor
  · rintro ⟨h1, h2, h3, h4, h5, h6⟩
    refine ⟨h1, h2, ?_, ?_, ?_, ?_⟩
    · rw [← hf.size]; exact h3
    · have : f.fail = false := h4
      unfold FStream.fail at this ⊢
      rw [← hf.failbit, ← hf.badbit]; exact this
    · rw [← hf.isOpen]; exact h5
    · rw [← hf.modeIn]; exact h6
  · rintro ⟨h1, h2, h3, h4, h5, h6⟩
    refine ⟨h1, h2, ?_, ?_, ?_, ?_⟩
    · show physOffset e index + e.blockSize ≤ f.size
      rw [hf.size]; exact h3
    · show f.fail = false
      unfold FStream.fail at h4 ⊢
      rw [hf.failbit, hf.badbit]; exact h4
    · show f.isOpen = true
      rw [hf.isOpen]; exact h5
    · show f.modeIn = true
      rw [hf.modeIn]; exact h6


theorem ext2LoadBGDTLoop_ok (T S : Nat) : ∀ (fuel : Nat) (e : Ext2File) (b : Nat)
    (buf : Mem) (c : Nat),
    e.InRange → 0 < e.blockSize → (0 < fuel → S + b + fuel ≤ 4294967296) →
    (0 < fuel → c = b * e.blockSize) →
    (∀ j, b ≤ j → j < b + fuel → e.BlockReadable (S + j)) →
    (0 < fuel → (b + fuel - 1) * e.blockSize < T) → T ≤ (b + fuel) * e.blockSize →
    (ext2LoadBGDTLoop T S fuel e b buf c).2 = true
    ∧ (ext2LoadBGDTLoop T S fuel e b buf c).1
        = { e.setFile (ext2LoadBGDTLoop T S fuel e b buf c).1.part.vdi.file with
            bgdt := { raw := (ext2LoadBGDTLoop T S fuel e b buf c).1.bgdt.raw
                      len := e.bgdt.len } }
    ∧ e.part.vdi.file.ReadEquiv (ext2LoadBGDTLoop T S fuel e b buf c).1.part.vdi.file
    ∧ (∀ k, b * e.blockSize ≤ k → k < T →
        (ext2LoadBGDTLoop T S fuel e b buf c).1.bgdt.raw k
          = e.part.vdi.file.data (physOffset e S + k))
    ∧ (∀ k, k < b * e.blockSize ∨ T ≤ k →
        (ext2LoadBGDTLoop T S fuel e b buf c).1.bgdt.raw k = e.bgdt.raw k)
    ∧ (0 < fuel →
        (ext2LoadBGDTLoop T S fuel e b buf c).1.part.vdi.file.pos
          = physOffset e (S + b + fuel - 1) + e.blockSize) := by
  intro fuel
  induction fuel with
  | zero =>
    intro e b buf c hr hbs hfit hc hread hlo hhi
    refine ⟨rfl, rfl, FStream.readEquiv_refl _, ?_, ?_, ?_⟩
    · intro k h1 h2
      simp only [Nat.add_zero] at hhi
      omega
    · intro k _; rfl
    · intro h; omega
  | succ n ih =>
    intro e b buf c hr hbs hfit hc hread hlo hhi
    have hfit1 := hfit (by omega)
    have hc1 := hc (by omega)
    have hlo1 := hlo (by omega)
    have hidx : (S + b % 4294967296) % 4294967296 = S + b := by
      rw [Nat.mod_eq_of_lt (show b < 4294967296 by omega),
        Nat.mod_eq_of_lt (show S + b < 4294967296 by omega)]
    obtain ⟨hrd, heq, hpos⟩ := ext2ReadBlock_readable e (S + b) buf hr (by omega)
      (hread b (le_refl _) (by omega))
    have hb1 : (b + 1) * e.blockSize = b * e.blockSize + e.blockSize := by ring
    have hphys : physOffset e (S + b) = physOffset e S + b * e.blockSize := by
      unfold physOffset
      rw [Nat.add_mul]; omega
    have hsub : b + (n + 1) - 1 = b + n := by omega
    rw [hsub] at hlo1
    have hbn : b * e.blockSize ≤ (b + n) * e.blockSize :=
      Nat.mul_le_mul_right _ (by omega)
    -- the number of bytes taken from this block
    have htc : (if c + e.blockSize > T then T - c else e.blockSize) ≤ e.blockSize
        ∧ c + (if c + e.blockSize > T then T - c else e.blockSize) ≤ T
        ∧ (∀ k, k < T → k < c + e.blockSize →
            k < c + (if c + e.blockSize > T then T - c else e.blockSize))
        ∧ (0 < n → (if c + e.blockSize > T then T - c else e.blockSize) = e.blockSize) := by
      have hb1n : (b + 1) * e.blockSize ≤ (b + n) * e.blockSize → True := fun _ => trivial
      refine ⟨by split_ifs <;> omega, by split_ifs <;> omega, ?_, ?_⟩
      · intro k h1 h2; split_ifs <;> omega
      · intro hn
        have : (b + 1) * e.blockSize ≤ (b + n) * e.blockSize :=
          Nat.mul_le_mul_right _ (by omega)
        split_ifs <;> omega
    rw [show ∀ x, ext2LoadBGDTLoop T S (n + 1) e b buf x
        = ext2LoadBGDTLoop T S n
            { e.setFile (physRead e (S + b) buf).1 with
              bgdt := { raw := memcpy e.bgdt.raw x
                          (memcpy buf 0 e.part.vdi.file.data (physOffset e (S + b)) e.blockSize)
                          0 (if x + e.blockSize > T then T - x else e.blockSize)
                        len := e.bgdt.len } }
            (b + 1) (memcpy buf 0 e.part.vdi.file.data (physOffset e (S + b)) e.blockSize)
            (x + (if x + e.blockSize > T then T - x else e.blockSize)) from by
      intro x
      rw [ext2LoadBGDTLoop]
      simp only [hidx, hrd, Bool.not_true, Bool.false_eq_true, if_false]
      rfl]
    generalize (if c + e.blockSize > T then T - c else e.blockSize) = toCopy at htc ⊢
    obtain ⟨htc1, htc2, htc3, htc4⟩ := htc
    have hr2 : Ext2File.InRange
        { e.setFile (physRead e (S + b) buf).1 with
          bgdt := { raw := memcpy e.bgdt.raw c
                      (memcpy buf 0 e.part.vdi.file.data (physOffset e (S + b)) e.blockSize)
                      0 toCopy
                    len := e.bgdt.len } } := ⟨hr.1, hr.2, hr.3, hr.4⟩
    have hih := ih
      { e.setFile (physRead e (S + b) buf).1 with
          bgdt := { raw := memcpy e.bgdt.raw c
                      (memcpy buf 0 e.part.vdi.file.data (physOffset e (S + b)) e.blockSize)
                      0 toCopy
                    len := e.bgdt.len } }
      (b + 1) (memcpy buf 0 e.part.vdi.file.data (physOffset e (S + b)) e.blockSize)
      (c + toCopy) hr2 hbs (by intro h; omega)
      (by
        intro h
        show c + toCopy = (b + 1) * e.blockSize
        rw [htc4 h]; omega)
      (by
        intro j h1 h2
        exact (Ext2File.blockReadable_congr e _ _ heq (S + j)).mpr (hread j (by omega) (by omega)))
      (by
        intro h
        show (b + 1 + n - 1) * e.blockSize < T
        have : b + 1 + n - 1 = b + n := by omega
        rw [this]; exact hlo1)
      (by
        show T ≤ (b + 1 + n) * e.blockSize
        have : b + 1 + n = b + (n + 1) := by omega
        rw [this]; exact hhi)
    obtain ⟨i1, i2, i3, i4, i5, i6⟩ := hih
    refine ⟨i1, ?_, FStream.readEquiv_trans heq i3, ?_, ?_, ?_⟩
    · rw [i2]; rfl
    · intro k h1 h2
      by_cases hk : (b + 1) * e.blockSize ≤ k
      · rw [i4 k hk h2]
        show (physRead e (S + b) buf).1.data _ = _
        rw [heq.data]
        rfl
      · have hk2 : k < (b + 1) * e.blockSize := by omega
        rw [i5 k (Or.inl hk2)]
        show memcpy e.bgdt.raw c _ 0 toCopy k = _
        have hk3 := htc3 k h2 (by omega)
        unfold memcpy
        rw [if_pos ⟨by omega, hk3⟩, if_pos ⟨by omega, by omega⟩, hphys]
        congr 1
        omega
    · intro k hk
      have hk2 : k < (b + 1) * e.blockSize ∨ T ≤ k := by omega
      rw [i5 k hk2]
      show memcpy e.bgdt.raw c _ 0 toCopy k = _
      unfold memcpy
      rw [if_neg (by omega)]
    · intro _
      by_cases hn : 0 < n
      · rw [i6 hn]
        show physOffset e (S + (b + 1) + n - 1) + e.blockSize = _
        have : S + (b + 1) + n - 1 = S + b + (n + 1) - 1 := by omega
        rw [this]
      · have hn0 : n = 0 := by omega
        subst hn0
        show (physRead e (S + b) buf).1.pos = _
        rw [hpos]
        have : S + b + (0 + 1) - 1 = S + b := by omega
        rw [this]


/-- A run of the copy loop that has returned false is not changed by more
iterations: the loop has stopped at the read that failed. -/
theorem ext2LoadBGDTLoop_stop (T S : Nat) : ∀ (fuel : Nat) (e : Ext2File) (b : Nat)
    (buf : Mem) (c : Nat) (extra : Nat),
    (ext2LoadBGDTLoop T S fuel e b buf c).2 = false →
    ext2LoadBGDTLoop T S (fuel + extra) e b buf c = ext2LoadBGDTLoop T S fuel e b buf c := by
  intro fuel
  induction fuel with
  | zero =>
    intro e b buf c extra h
    simp [ext2LoadBGDTLoop] at h
  | succ n ih =>
    intro e b buf c extra h
    have hfu : n + 1 + extra = (n + extra) + 1 := by omega
    rw [hfu]
    rw [ext2LoadBGDTLoop] at h ⊢
    rw [ext2LoadBGDTLoop]
    simp only at h ⊢
    split_ifs at h ⊢ <;> first | rfl | exact ih _ _ _ _ extra h

theorem ext2LoadBGDTLoop_fail (T S : Nat) : ∀ (d : Nat) (e : Ext2File) (b : Nat)
    (buf : Mem) (c : Nat),
    e.InRange → 0 < e.blockSize → S + b + d < 4294967296 →
    (∀ i, b ≤ i → i < b + d → e.BlockReadable (S + i)) →
    ¬ e.BlockReadable (S + (b + d)) →
    (ext2LoadBGDTLoop T S (d + 1) e b buf c).2 = false := by
  intro d
  induction d with
  | zero =>
    intro e b buf c hr hbs hfit hread hun
    have hidx : (S + b % 4294967296) % 4294967296 = S + b := by
      rw [Nat.mod_eq_of_lt (show b < 4294967296 by omega),
        Nat.mod_eq_of_lt (show S + b < 4294967296 by omega)]
    have := ext2ReadBlock_unreadable e (S + b) buf hr (by omega) hbs
      (by simpa using hun)
    rw [ext2LoadBGDTLoop]
    simp only [hidx, this, Bool.not_false, if_true]
  | succ n ih =>
    intro e b buf c hr hbs hfit hread hun
    have hidx : (S + b % 4294967296) % 4294967296 = S + b := by
      rw [Nat.mod_eq_of_lt (show b < 4294967296 by omega),
        Nat.mod_eq_of_lt (show S + b < 4294967296 by omega)]
    obtain ⟨hrd, heq, -⟩ := ext2ReadBlock_readable e (S + b) buf hr (by omega)
      (hread b (le_refl _) (by omega))
    rw [ext2LoadBGDTLoop]
    simp only [hidx, hrd, Bool.not_true, Bool.false_eq_true, if_false]
    apply ih
    · exact ⟨hr.1, hr.2, hr.3, hr.4⟩
    · exact hbs
    · omega
    · intro i h1 h2
      exact (Ext2File.blockReadable_congr e _ _ heq (S + i)).mpr
        (hread i (by omega) (by omega))
    · intro h
      apply hun
      have := (Ext2File.blockReadable_congr e _ _ heq (S + (b + 1 + n))).mp h
      have e2 : b + 1 + n = b + (n + 1) := by omega
      rw [e2] at this
      exact this


/-- No run of the copy loop touches the vector outside the bytes from `c` up to
`c` plus one block per iteration. -/
theorem ext2LoadBGDTLoop_outside (T S : Nat) : ∀ (fuel : Nat) (e : Ext2File) (b : Nat)
    (buf : Mem) (c : Nat) (k : Nat), k < c ∨ c + fuel * e.blockSize ≤ k →
    (ext2LoadBGDTLoop T S fuel e b buf c).1.bgdt.raw k = e.bgdt.raw k := by
  intro fuel
  induction fuel with
  | zero => intro e b buf c k _; rfl
  | succ n ih =>
    intro e b buf c k hk
    have hn1 : (n + 1) * e.blockSize = n * e.blockSize + e.blockSize := by ring
    have hb := ext2ReadBlock_blockSize e ((S + b % 4294967296) % 4294967296) buf
    have hfst := ext2ReadBlock_fst e ((S + b % 4294967296) % 4294967296) buf
    rw [ext2LoadBGDTLoop]
    simp only
    generalize ext2ReadBlock e ((S + b % 4294967296) % 4294967296) buf = r at hb hfst ⊢
    have hraw : r.1.bgdt.raw = e.bgdt.raw := by rw [hfst]; rfl
    have htc : (if c + e.blockSize > T then T - c else e.blockSize) ≤ e.blockSize := by
      split_ifs <;> omega
    generalize (if c + e.blockSize > T then T - c else e.blockSize) = toCopy at htc ⊢
    split_ifs
    · show r.1.bgdt.raw k = _
      rw [hraw]
    · have hk2 : k < c + toCopy ∨ c + toCopy + n * r.1.blockSize ≤ k := by
        rw [hb]; omega
      rw [ih { r.1 with bgdt := { r.1.bgdt with raw := memcpy r.1.bgdt.raw c r.2.1 0 toCopy } }
        (b + 1) r.2.1 (c + toCopy) k hk2]
      show memcpy r.1.bgdt.raw c r.2.1 0 toCopy k = _
      unfold memcpy
      rw [if_neg (by omega), hraw]

theorem ext2LoadBGDTLoop_fail_bgdt (T S : Nat) : ∀ (d : Nat) (e : Ext2File) (b : Nat)
    (buf : Mem) (c : Nat),
    e.InRange → 0 < e.blockSize → S + b + d < 4294967296 →
    (∀ i, b ≤ i → i < b + d → e.BlockReadable (S + i)) →
    ¬ e.BlockReadable (S + (b + d)) →
    (ext2LoadBGDTLoop T S (d + 1) e b buf c).1.bgdt
      = (ext2LoadBGDTLoop T S d e b buf c).1.bgdt := by
  intro d
  induction d with
  | zero =>
    intro e b buf c hr hbs hfit hread hun
    have hidx : (S + b % 4294967296) % 4294967296 = S + b := by
      rw [Nat.mod_eq_of_lt (show b < 4294967296 by omega),
        Nat.mod_eq_of_lt (show S + b < 4294967296 by omega)]
    have := ext2ReadBlock_unreadable e (S + b) buf hr (by omega) hbs
      (by simpa using hun)
    rw [ext2LoadBGDTLoop, ext2LoadBGDTLoop]
    simp only [hidx, this, Bool.not_false, if_true]
    rw [ext2ReadBlock_fst]
    rfl
  | succ n ih =>
    intro e b buf c hr hbs hfit hread hun
    have hidx : (S + b % 4294967296) % 4294967296 = S + b := by
      rw [Nat.mod_eq_of_lt (show b < 4294967296 by omega),
        Nat.mod_eq_of_lt (show S + b < 4294967296 by omega)]
    obtain ⟨hrd, heq, -⟩ := ext2ReadBlock_readable e (S + b) buf hr (by omega)
      (hread b (le_refl _) (by omega))
    rw [ext2LoadBGDTLoop]
    conv => rhs; rw [ext2LoadBGDTLoop]
    simp only [hidx, hrd, Bool.not_true, Bool.false_eq_true, if_false]
    apply ih
    · exact ⟨hr.1, hr.2, hr.3, hr.4⟩
    · exact hbs
    · omega
    · intro i h1 h2
      exact (Ext2File.blockReadable_congr e _ _ heq (S + i)).mpr
        (hread i (by omega) (by omega))
    · intro h
      apply hun
      have := (Ext2File.blockReadable_congr e _ _ heq (S + (b + 1 + n))).mp h
      have e2 : b + 1 + n = b + (n + 1) := by omega
      rw [e2] at this
      exact this

theorem Ext2File.bgdtBlocks_bounds (e : Ext2File) (hbs : 0 < e.blockSize) :
    (0 < e.bgdtBlocks → (e.bgdtBlocks - 1) * e.blockSize < 32 * e.numBlockGroups)
    ∧ 32 * e.numBlockGroups ≤ e.bgdtBlocks * e.blockSize
    ∧ ∀ g, 32 * e.numBlockGroups ≤ g * e.blockSize → e.bgdtBlocks ≤ g := by
  have hl := ceilDiv_least (32 * e.numBlockGroups) e.blockSize hbs
  have hc := Nat.div_add_mod (32 * e.numBlockGroups + e.blockSize - 1) e.blockSize
  have hcr := Nat.mod_lt (32 * e.numBlockGroups + e.blockSize - 1) hbs
  refine ⟨?_, hl.1, hl.2⟩
  intro hpos
  unfold Ext2File.bgdtBlocks at hpos ⊢
  generalize (32 * e.numBlockGroups + e.blockSize - 1) / e.blockSize = N at hc hpos ⊢
  obtain ⟨M, rfl⟩ : ∃ M, N = M + 1 := ⟨N - 1, by omega⟩
  have h1 : e.blockSize * (M + 1) = M * e.blockSize + e.blockSize := by ring
  have h2 : M + 1 - 1 = M := by omega
  rw [h2]
  omega

theorem ext2LoadBGDT_eq (e : Ext2File) (hbs : 0 < e.blockSize) :
    ext2LoadBGDT e = some (e.bgdtRun e.bgdtBlocks) := by
  unfold ext2LoadBGDT Ext2File.bgdtRun Ext2File.bgdtBlocks
  simp only
  rw [if_neg (by omega)]
  have : e.numBlockGroups * sizeofBGD = 32 * e.numBlockGroups := by
    unfold sizeofBGD; omega
  rw [this]


theorem Ext2File.blockReadable_resize (e : Ext2File) (v : BGDTVector) (index : Nat) :
    Ext2File.BlockReadable { e with bgdt := v } index ↔ e.BlockReadable index :=
  Ext2File.blockReadable_congr e e.part.vdi.file v (FStream.readEquiv_refl _) index

theorem physOffset_concat (e : Ext2File) (S k : Nat) :
    physOffset e (S + k / e.blockSize) + k % e.blockSize = physOffset e S + k := by
  have := Nat.div_add_mod k e.blockSize
  have h2 : e.blockSize * (k / e.blockSize) = k / e.blockSize * e.blockSize :=
    Nat.mul_comm _ _
  unfold physOffset
  rw [Nat.add_mul]
  omega

theorem Ext2File.frame_of_resize (e x : Ext2File) (v : BGDTVector)
    (h : x = { Ext2File.setFile { e with bgdt := v } x.part.vdi.file with
               bgdt := { raw := x.bgdt.raw, len := v.len } }) :
    x = { e.setFile x.part.vdi.file with bgdt := x.bgdt } := by
  obtain ⟨p, sb, ⟨raw, len⟩, bs, n, is⟩ := x
  simp only [Ext2File.setFile, Ext2File.mk.injEq, BGDTVector.mk.injEq] at h ⊢
  obtain ⟨h1, h2, -, h4, h5, h6⟩ := h
  exact ⟨h1, h2, trivial, h4, h5, h6⟩

theorem ext2LoadBGDT_ok (e : Ext2File) (hr : e.InRange) (hbs : 0 < e.blockSize)
    (hfit : e.bgdtStart + e.bgdtBlocks ≤ 4294967296)
    (hread : ∀ j, j < e.bgdtBlocks → e.BlockReadable (e.bgdtStart + j)) :
    ∃ e1, ext2LoadBGDT e = some (e1, true)
      ∧ e1 = { e.setFile e1.part.vdi.file with bgdt := e1.bgdt }
      ∧ e1.bgdt.len = e.numBlockGroups
      ∧ (∀ k, k < 32 * e.numBlockGroups →
          e1.bgdt.raw k = e.part.vdi.file.data
            (physOffset e (e.bgdtStart + k / e.blockSize) + k % e.blockSize))
      ∧ (∀ k, 32 * e.numBlockGroups ≤ k → e1.bgdt.raw k = 0)
      ∧ (∀ i, i < e.numBlockGroups →
          e1.bgdt.get? i = some (decodeBGD e1.bgdt.raw (32 * i)))
      ∧ (0 < e.bgdtBlocks →
          e1.part.vdi.file.pos
            = physOffset e (e.bgdtStart + e.bgdtBlocks - 1) + e.blockSize) := by
  obtain ⟨hb1, hb2, -⟩ := e.bgdtBlocks_bounds hbs
  have hT : e.numBlockGroups * sizeofBGD = 32 * e.numBlockGroups := by
    unfold sizeofBGD; omega
  by_cases hN : e.bgdtBlocks = 0
  · -- no descriptor: no block is read
    have hn0 : e.numBlockGroups = 0 := by rw [hN] at hb2; omega
    refine ⟨{ e with bgdt := e.bgdt.resize e.numBlockGroups }, ?_, rfl, rfl, ?_, ?_, ?_, ?_⟩
    · rw [ext2LoadBGDT_eq e hbs, hN]; rfl
    · intro k hk; omega
    · intro k _
      show (e.bgdt.resize e.numBlockGroups).raw k = 0
      unfold BGDTVector.resize
      simp [hn0]
    · intro i hi; omega
    · intro h; omega
  · have hS : (e.sb.s_first_data_block + 1) % 4294967296 = e.bgdtStart := by
      unfold Ext2File.bgdtStart at hfit ⊢
      exact Nat.mod_eq_of_lt (by omega)
    have hok := ext2LoadBGDTLoop_ok (e.numBlockGroups * sizeofBGD) e.bgdtStart e.bgdtBlocks
      { e with bgdt := e.bgdt.resize e.numBlockGroups } 0 (memset zeroMem 0 e.blockSize) 0
      ⟨hr.1, hr.2, hr.3, hr.4⟩ hbs (by intro _; omega)
      (by intro _; show 0 = 0 * e.blockSize; omega)
      (by
        intro j _ hj
        exact (Ext2File.blockReadable_resize e _ _).mpr (hread j (by omega)))
      (by
        intro h
        show (0 + e.bgdtBlocks - 1) * e.blockSize < e.numBlockGroups * sizeofBGD
        rw [hT, Nat.zero_add]; exact hb1 h)
      (by
        show e.numBlockGroups * sizeofBGD ≤ (0 + e.bgdtBlocks) * e.blockSize
        rw [hT, Nat.zero_add]; exact hb2)
    have hrun : e.bgdtRun e.bgdtBlocks
        = ext2LoadBGDTLoop (e.numBlockGroups * sizeofBGD) e.bgdtStart e.bgdtBlocks
            { e with bgdt := e.bgdt.resize e.numBlockGroups } 0
            (memset zeroMem 0 e.blockSize) 0 := by
      unfold Ext2File.bgdtRun; rw [hS]
    rw [← hrun] at hok
    obtain ⟨i1, i2, i3, i4, i5, i6⟩ := hok
    have hlen : (e.bgdtRun e.bgdtBlocks).1.bgdt.len = e.numBlockGroups := by
      rw [i2]; rfl
    refine ⟨(e.bgdtRun e.bgdtBlocks).1, ?_, ?_, hlen, ?_, ?_, ?_, ?_⟩
    · rw [ext2LoadBGDT_eq e hbs, ← i1]
    · exact Ext2File.frame_of_resize e _ _ i2
    · intro k hk
      rw [i4 k (by omega) (by rw [hT]; exact hk), physOffset_concat e _ k]
      rfl
    · intro k hk
      rw [i5 k (Or.inr (by rw [hT]; exact hk))]
      show (e.bgdt.resize e.numBlockGroups).raw k = 0
      unfold BGDTVector.resize
      simp only
      rw [if_neg]
      unfold sizeofBGD
      split_ifs <;> omega
    · intro i hi
      rw [BGDTVector.get_of_lt _ _ (by rw [hlen]; exact hi)]
      rfl
    · intro h
      rw [i6 h]
      show physOffset e (e.bgdtStart + 0 + e.bgdtBlocks - 1) + e.blockSize = _
      rw [Nat.add_zero]

theorem ext2LoadBGDT_fail (e : Ext2File) (hr : e.InRange) (hbs : 0 < e.blockSize)
    (hfit : e.bgdtStart + e.bgdtBlocks ≤ 4294967296) (j : Nat) (hj : j < e.bgdtBlocks)
    (hread : ∀ i, i < j → e.BlockReadable (e.bgdtStart + i))
    (hun : ¬ e.BlockReadable (e.bgdtStart + j)) :
    ∃ e1, ext2LoadBGDT e = some (e1, false)
      ∧ e.bgdtRun e.bgdtBlocks = e.bgdtRun (j + 1)
      ∧ ∀ k, j * e.blockSize ≤ k →
          e1.bgdt.raw k = (e.bgdt.resize e.numBlockGroups).raw k := by
  have hS : (e.sb.s_first_data_block + 1) % 4294967296 = e.bgdtStart := by
    unfold Ext2File.bgdtStart at hfit ⊢
    exact Nat.mod_eq_of_lt (by omega)
  have hrun : ∀ n, e.bgdtRun n
      = ext2LoadBGDTLoop (e.numBlockGroups * sizeofBGD) e.bgdtStart n
          { e with bgdt := e.bgdt.resize e.numBlockGroups } 0
          (memset zeroMem 0 e.blockSize) 0 := by
    intro n; unfold Ext2File.bgdtRun; rw [hS]
  have hr2 : Ext2File.InRange { e with bgdt := e.bgdt.resize e.numBlockGroups } :=
    ⟨hr.1, hr.2, hr.3, hr.4⟩
  have hread2 : ∀ i, 0 ≤ i → i < 0 + j →
      Ext2File.BlockReadable { e with bgdt := e.bgdt.resize e.numBlockGroups }
        (e.bgdtStart + i) := by
    intro i _ hi
    exact (Ext2File.blockReadable_resize e _ _).mpr (hread i (by omega))
  have hun2 : ¬ Ext2File.BlockReadable { e with bgdt := e.bgdt.resize e.numBlockGroups }
      (e.bgdtStart + (0 + j)) := by
    intro h
    apply hun
    have := (Ext2File.blockReadable_resize e _ _).mp h
    rw [Nat.zero_add] at this
    exact this
  have hf := ext2LoadBGDTLoop_fail (e.numBlockGroups * sizeofBGD) e.bgdtStart j
    { e with bgdt := e.bgdt.resize e.numBlockGroups } 0 (memset zeroMem 0 e.blockSize) 0
    hr2 hbs (by omega) hread2 hun2
  have hfb := ext2LoadBGDTLoop_fail_bgdt (e.numBlockGroups * sizeofBGD) e.bgdtStart j
    { e with bgdt := e.bgdt.resize e.numBlockGroups } 0 (memset zeroMem 0 e.blockSize) 0
    hr2 hbs (by omega) hread2 hun2
  have hstop := ext2LoadBGDTLoop_stop (e.numBlockGroups * sizeofBGD) e.bgdtStart (j + 1)
    { e with bgdt := e.bgdt.resize e.numBlockGroups } 0 (memset zeroMem 0 e.blockSize) 0
    (e.bgdtBlocks - (j + 1)) hf
  have hN : j + 1 + (e.bgdtBlocks - (j + 1)) = e.bgdtBlocks := by omega
  rw [hN] at hstop
  rw [← hrun, ← hrun] at hstop
  rw [← hrun] at hf hfb
  refine ⟨(e.bgdtRun (j + 1)).1, ?_, hstop, ?_⟩
  · rw [ext2LoadBGDT_eq e hbs, hstop, ← hf]
  · intro k hk
    rw [hfb]
    have := ext2LoadBGDTLoop_outside (e.numBlockGroups * sizeofBGD) e.bgdtStart j
      { e with bgdt := e.bgdt.resize e.numBlockGroups } 0 (memset zeroMem 0 e.blockSize) 0 k
      (Or.inr (by show 0 + j * e.blockSize ≤ k; omega))
    rw [this]


/-- C16. With a non-zero `blockSize` and block numbers that fit `uint32_t`
(`s_first_data_block + 1 + ceil(32 * numBlockGroups / blockSize) ≤ 2^32`),
`ext2LoadBGDT` reads the `ceil(32 * numBlockGroups / blockSize)` consecutive
blocks that start at block `s_first_data_block + 1`, and no other: when all of
them are readable it returns true, the vector has `numBlockGroups` entries,
entry `i` being the bytes `[32i, 32i + 32)` of the vector's storage, whose first
`32 * numBlockGroups` bytes are those of the concatenation of the blocks (byte
`k` is byte `k mod blockSize` of block `s_first_data_block + 1 + k / blockSize`),
nothing is stored past them, and the stream stands at the end of the last of
the blocks; when block `j` is the first that is not readable it returns false
as soon as that read fails: the loop ends with iteration `j` and has copied
nothing from byte `j * blockSize` of the vector on. -/
theorem ext2LoadBGDT_contract (e : Ext2File) (hr : e.InRange) (hbs : 0 < e.blockSize)
    (hfit : e.bgdtStart + e.bgdtBlocks ≤ 4294967296) :
    (32 * e.numBlockGroups ≤ e.bgdtBlocks * e.blockSize
      ∧ ∀ g, 32 * e.numBlockGroups ≤ g * e.blockSize → e.bgdtBlocks ≤ g)
    ∧ ((∀ j, j < e.bgdtBlocks → e.BlockReadable (e.bgdtStart + j)) →
        ∃ e1, ext2LoadBGDT e = some (e1, true)
          ∧ e1 = { e.setFile e1.part.vdi.file with bgdt := e1.bgdt }
          ∧ e1.bgdt.len = e.numBlockGroups
          ∧ (∀ k, k < 32 * e.numBlockGroups →
              e1.bgdt.raw k = e.part.vdi.file.data
                (physOffset e (e.bgdtStart + k / e.blockSize) + k % e.blockSize))
          ∧ (∀ k, 32 * e.numBlockGroups ≤ k → e1.bgdt.raw k = 0)
          ∧ (∀ i, i < e.numBlockGroups →
              e1.bgdt.get? i = some (decodeBGD e1.bgdt.raw (32 * i)))
          ∧ (0 < e.bgdtBlocks →
              e1.part.vdi.file.pos
                = physOffset e (e.bgdtStart + e.bgdtBlocks - 1) + e.blockSize))
    ∧ (∀ j, j < e.bgdtBlocks → (∀ i, i < j → e.BlockReadable (e.bgdtStart + i)) →
        ¬ e.BlockReadable (e.bgdtStart + j) →
        ∃ e1, ext2LoadBGDT e = some (e1, false)
          ∧ e.bgdtRun e.bgdtBlocks = e.bgdtRun (j + 1)
          ∧ ∀ k, j * e.blockSize ≤ k →
              e1.bgdt.raw k = (e.bgdt.resize e.numBlockGroups).raw k) :=
  ⟨⟨(e.bgdtBlocks_bounds hbs).2.1, (e.bgdtBlocks_bounds hbs).2.2⟩,
    ext2LoadBGDT_ok e hr hbs hfit,
    fun j hj hread hun => ext2LoadBGDT_fail e hr hbs hfit j hj hread hun⟩

/-- Witness of C16.  On the sample volume (2 groups, 1 KiB blocks, table in
block 2) one block is read: the call returns true with 2 entries, whose bytes
4, 8, 36 and 37 are 4, 5, 4 and 0x20 (inode bitmap 4 and inode table 5 of group
0, inode bitmap 8196 of group 1).  On the file cut off before block 2 the call
returns false. -/
theorem ext2LoadBGDT_contract_witness :
    (sampleSuper.bgdtStart = 2 ∧ sampleSuper.bgdtBlocks = 1)
    ∧ (∃ e1, ext2LoadBGDT sampleSuper = some (e1, true) ∧ e1.bgdt.len = 2
        ∧ e1.bgdt.raw 4 = 4 ∧ e1.bgdt.raw 8 = 5 ∧ e1.bgdt.raw 36 = 4
        ∧ e1.bgdt.raw 37 = 0x20 ∧ e1.bgdt.raw 64 = 0)
    ∧ (∃ e1, ext2LoadBGDT truncSuper = some (e1, false)) := by
  have hs := (ext2LoadBGDT_contract sampleSuper ⟨by decide, by decide, by decide, by decide⟩
    (by decide) (by decide)).2.1
    (by
      intro j hj
      have hj0 : j = 0 := by
        have : sampleSuper.bgdtBlocks = 1 := by decide
        omega
      subst hj0
      exact ⟨by decide, by decide, by decide, by decide, by decide, by decide⟩)
  have ht := (ext2LoadBGDT_contract truncSuper ⟨by decide, by decide, by decide, by decide⟩
    (by decide) (by decide)).2.2 0 (by decide) (by intro i hi; omega)
    (by
      intro h
      have := h.in_file
      revert this
      decide)
  obtain ⟨e1, h1, -, h3, h4, h5, -, -⟩ := hs
  obtain ⟨e2, g1, -⟩ := ht
  refine ⟨⟨by decide, by decide⟩, ⟨e1, h1, h3.trans (by decide), ?_, ?_, ?_, ?_, ?_⟩, ⟨e2, g1⟩⟩
  · exact (h4 4 (by decide)).trans (by decide)
  · exact (h4 8 (by decide)).trans (by decide)
  · exact (h4 36 (by decide)).trans (by decide)
  · exact (h4 37 (by decide)).trans (by decide)
  · exact h5 64 (by decide)

/-- Counterexample to C16 as stated: the sample image with `s_first_data_block
= 0xFFFFFFFF` is opened by `vdiOpen`, `mbrOpen` and `ext2Open`.  The table of its
2 descriptors takes one block, and block `s_first_data_block + 1 = 2^32` lies
outside the partition of 104857600 bytes and is not readable; `ext2LoadBGDT`
returns true all the same, with the first 64 bytes of block 0 of the partition
(file offset 1049088) as the table: the 32-bit value of `s_first_data_block + 1`
is 0.  After `ext2Open` group 0 has its inode bitmap in block 4 and its inode
table in block 5, as block 0 says. -/
theorem ext2LoadBGDT_start_wraps :
    openVolume (some lastBlockHost) 0 = some lastBlockFs
    ∧ ext2LoadSuperblock { Ext2File.fresh with part := openPartition lastBlockHost }
        = some (lastBlockSuper, true)
    ∧ lastBlockSuper.sb.s_first_data_block = 4294967295
    ∧ lastBlockSuper.blockSize = 1024 ∧ lastBlockSuper.numBlockGroups = 2
    ∧ lastBlockSuper.bgdtStart = 4294967296 ∧ lastBlockSuper.bgdtBlocks = 1
    ∧ lastBlockSuper.part.sizeBytes = 104857600
    ∧ ¬ lastBlockSuper.BlockReadable lastBlockSuper.bgdtStart
    ∧ (ext2LoadBGDT lastBlockSuper).map
        (fun r => (r.2, r.1.bgdt.len, r.1.bgdt.raw 4, r.1.bgdt.raw 8, r.1.bgdt.raw 36))
        = some (true, 2, 4, 5, 0)
    ∧ physOffset lastBlockSuper 0 = 1049088
    ∧ lastBlockSuper.part.vdi.file.data (1049088 + 4) = 4
    ∧ lastBlockSuper.part.vdi.file.data (1049088 + 8) = 5
    ∧ lastBlockFs.inodeBitmap 0 = 4 ∧ lastBlockFs.inodeTable 0 = 5
    ∧ lastBlockFs.inodeTable 1 = 0 := by
  refine ⟨rfl, rfl, ?_, ?_, ?_, ?_, ?_, ?_, ?_, ?_, ?_, ?_, ?_, ?_, ?_, ?_⟩
  · decide
  · decide
  · decide
  · decide
  · decide
  · decide
  · intro h
    have := h.in_partition
    revert this
    decide
  · decide
  · decide
  · decide
  · decide
  · decide
  · decide
  · decide

/-! ## `inodeInUse` and the bitmap on disk -/

theorem bitSet_eq_bitIsOne_fin :
    ∀ (b : Fin 256) (k : Fin 8), bitSet b k.val = bitIsOne b k.val := by
  decide!

theorem bitSet_eq_bitIsOne (b : Byte) (k : Nat) (hk : k < 8) : bitSet b k = bitIsOne b k :=
  bitSet_eq_bitIsOne_fin b ⟨k, hk⟩

theorem Ext2File.inodeBitmap_lt (fs : Ext2File) (g : Nat) : fs.inodeBitmap g < 4294967296 := by
  unfold Ext2File.inodeBitmap BGDTVector.get?
  split_ifs
  · exact le32_lt _ _
  · decide

theorem ext2ReadBlock_ok_iff (fs : Ext2File) (index : Nat) (buf : Mem)
    (hr : fs.InRange) (hidx : index < 4294967296) (hbs : 0 < fs.blockSize) :
    (ext2ReadBlock fs index buf).2.2 = true ↔ fs.BlockReadable index := by
  constructor
  · intro h
    by_contra hc
    rw [ext2ReadBlock_unreadable fs index buf hr hidx hbs hc] at h
    exact Bool.false_ne_true h
  · intro h
    rw [(ext2ReadBlock_readable fs index buf hr hidx h).1]

theorem inodeInUse_bit (fs : Ext2File) (n : Nat) (hr : fs.InRange)
    (hn1 : 1 ≤ n) (hn : n < 4294967296) (hipg : 0 < fs.sb.s_inodes_per_group)
    (hg : (n - 1) / fs.sb.s_inodes_per_group < fs.bgdt.len)
    (hb : (n - 1) % fs.sb.s_inodes_per_group / 8 < fs.blockSize) :
    ∃ fs1 b, inodeInUse fs n = some (fs1, b)
      ∧ (b = true ↔
          (fs.BlockReadable (fs.inodeBitmap ((n - 1) / fs.sb.s_inodes_per_group))
            ∧ fs.diskInodeBit n = true)) := by
  have hi := Nat.mod_lt (n - 1) hipg
  have hdm := Nat.div_add_mod (n - 1) fs.sb.s_inodes_per_group
  have hcomm : fs.sb.s_inodes_per_group * ((n - 1) / fs.sb.s_inodes_per_group)
      = (n - 1) / fs.sb.s_inodes_per_group * fs.sb.s_inodes_per_group := Nat.mul_comm _ _
  have hnn : (n - 1) / fs.sb.s_inodes_per_group * fs.sb.s_inodes_per_group
      + (n - 1) % fs.sb.s_inodes_per_group + 1 = n := by omega
  have heq := inodeInUse_eq fs ((n - 1) / fs.sb.s_inodes_per_group)
    ((n - 1) % fs.sb.s_inodes_per_group) hi hg hb (by rw [hnn]; exact hn)
  rw [hnn] at heq
  refine ⟨_, _, heq, ?_⟩
  have hbs : 0 < fs.blockSize := by omega
  have hidx := fs.inodeBitmap_lt ((n - 1) / fs.sb.s_inodes_per_group)
  have hiff := ext2ReadBlock_ok_iff fs _ zeroMem hr hidx hbs
  unfold Ext2File.bitmapBit Ext2File.bitmapRead Ext2File.diskInodeBit
  rw [bitSet_eq_bitIsOne _ _ (Nat.mod_lt _ (by decide))]
  by_cases hok : (ext2ReadBlock fs
      (fs.inodeBitmap ((n - 1) / fs.sb.s_inodes_per_group)) zeroMem).2.2 = true
  · have hbyte := (ext2ReadBlock_true_spec fs _ zeroMem hr hidx hok).2.2.1 _ hb
    rw [hbyte]
    constructor
    · intro h
      exact ⟨hiff.mp hok, h⟩
    · intro h
      exact h.2
  · have hf : (ext2ReadBlock fs
        (fs.inodeBitmap ((n - 1) / fs.sb.s_inodes_per_group)) zeroMem).2.2 = false := by
      simpa using hok
    rw [ext2ReadBlock_false_zero fs _ zeroMem hf _ hb]
    constructor
    · intro h
      revert h
      simp [bitIsOne]
    · intro h
      exact absurd (hiff.mpr h.1) hok

/-- C12. Where the arithmetic of `inodeInUse(n)` is defined (`n` from 1 to
2^32 - 1, inodes per group non-zero, the group has a descriptor, the byte lies in
the block), the call returns true exactly when the inode-bitmap block named by
`bgdt[(n-1)/ipg].bg_inode_bitmap` is readable and, in that block as the file
stores it, bit `((n-1) mod ipg) mod 8` of byte `((n-1) mod ipg) / 8` is 1.  (When
the block cannot be read, the result is false whatever the disk holds.) -/
theorem inodeInUse_reads_disk_bit (fs : Ext2File) (n : Nat) (hr : fs.InRange)
    (hn1 : 1 ≤ n) (hn : n < 4294967296) (hipg : 0 < fs.sb.s_inodes_per_group)
    (hg : (n - 1) / fs.sb.s_inodes_per_group < fs.bgdt.len)
    (hb : (n - 1) % fs.sb.s_inodes_per_group / 8 < fs.blockSize) :
    ∃ fs1 b, inodeInUse fs n = some (fs1, b)
      ∧ (b = true ↔
          (fs.BlockReadable (fs.inodeBitmap ((n - 1) / fs.sb.s_inodes_per_group))
            ∧ fs.diskInodeBit n = true)) :=
  inodeInUse_bit fs n hr hn1 hn hipg hg hb

/-- Witness of C12 on the sample volume, whose first bitmap byte is 0x07:
`inodeInUse(3)` is true and `inodeInUse(4)` is false. -/
theorem inodeInUse_reads_disk_bit_witness :
    sampleFs.diskInodeBit 3 = true ∧ sampleFs.diskInodeBit 4 = false
    ∧ (inodeInUse sampleFs 3).map Prod.snd = some true
    ∧ (inodeInUse sampleFs 4).map Prod.snd = some false := by
  obtain ⟨fs1, b, h1, h2⟩ := inodeInUse_reads_disk_bit sampleFs 3 sampleFs_inRange
    (by decide) (by decide) (by decide) (by decide) (by decide)
  obtain ⟨fs2, b2, g1, g2⟩ := inodeInUse_reads_disk_bit sampleFs 4 sampleFs_inRange
    (by decide) (by decide) (by decide) (by decide) (by decide)
  have hd3 : sampleFs.diskInodeBit 3 = true := by decide
  have hd4 : sampleFs.diskInodeBit 4 = false := by decide
  refine ⟨hd3, hd4, ?_, ?_⟩
  · rw [h1]
    have : b = true := h2.mpr
      ⟨⟨by decide, by decide, by decide, by decide, by decide, by decide⟩, hd3⟩
    rw [this]; rfl
  · rw [g1]
    have : b2 = false := by
      cases hb2 : b2
      · rfl
      · have := (g2.mp hb2).2
        rw [hd4] at this
        exact absurd this (by decide)
    rw [this]; rfl

/-- Counterexample to C12 as stated: on the sample volume after a call of
`allocateInode` (which leaves the stream in a failed state), the bit of inode 1
is 1 on disk and `inodeInUse(1)` returns false: the read of the bitmap block
fails, its result is not looked at, and the zero-filled buffer is tested. -/
theorem inodeInUse_false_on_unreadable_bitmap :
    ¬ (∀ fs1 b, inodeInUse sampleFsAfterAlloc 1 = some (fs1, b) →
        (b = true ↔ sampleFsAfterAlloc.diskInodeBit 1 = true)) := by
  intro hc
  obtain ⟨r, hr⟩ := option_eq_some_of_isSome (inodeInUse sampleFsAfterAlloc 1) (by decide)
  have hv : (inodeInUse sampleFsAfterAlloc 1).map Prod.snd = some false := by decide
  rw [hr] at hv
  simp only [Option.map_some', Option.some.injEq] at hv
  have hd : sampleFsAfterAlloc.diskInodeBit 1 = true := by decide
  have := (hc r.1 r.2 hr).mpr hd
  rw [hv] at this
  exact Bool.false_ne_true this

/-! ## The byte that `allocateInode` and `freeInode` write on a stream open for output -/

/-- The 32-bit seek offset of the bitmap write-back on a stream open for output,
a state that `vdiOpen` of `step4_only.cpp` does not produce.  On the third
sample volume (4 KiB blocks, inode bitmap in block 1048577, first bitmap byte
0x07 at file offset 4296020480), `allocateInode` returns inode 4 and `freeInode(3)`
returns true, and each has written its byte (0x0F, 0x03) at file offset 1053184,
which is partition offset 4096 and the first byte of the descriptor table: the
32-bit value `bg_inode_bitmap * blockSize + byte` is 4096, not 2^32 + 4096.  The
bitmap byte still is 0x07.  On the second sample volume, whose bitmap is in
block 2, the byte written is the bitmap's (file offset 1057280).  On the volume
as `main` opens it (stream open for input only) no byte is written at all. -/
theorem bitmap_write_offset_wraps :
    wrapFsRW.blockSize = 4096
    ∧ wrapFsRW.inodeBitmap 0 = 1048577
    ∧ physOffset wrapFsRW 1048577 = 4296020480
    ∧ physOffset wrapFsRW 1 = 1053184
    ∧ wrapFsRW.part.vdi.file.data 4296020480 = 7
    ∧ wrapFsRW.part.vdi.file.data 1053184 = 0
    ∧ (allocateInode wrapFsRW (-1)).map
        (fun r => (r.2, r.1.part.vdi.file.data 4296020480, r.1.part.vdi.file.data 1053184))
        = some (4, 7, 0x0F)
    ∧ (freeInode wrapFsRW 3).map
        (fun r => (r.2, r.1.part.vdi.file.data 4296020480, r.1.part.vdi.file.data 1053184))
        = some (true, 7, 3)
    ∧ physOffset bigFsRW (bigFsRW.inodeBitmap 0) = 1057280
    ∧ (allocateInode bigFsRW (-1)).map
        (fun r => (r.2, r.1.part.vdi.file.data 1057280)) = some (1, 1)
    ∧ openVolume (some wrapHost) 0 = some wrapFs
    ∧ (allocateInode wrapFs (-1)).map
        (fun r => (r.2, r.1.part.vdi.file.data 4296020480, r.1.part.vdi.file.data 1053184))
        = some (4, 7, 0)
    ∧ (freeInode wrapFs 3).map
        (fun r => (r.2, r.1.part.vdi.file.data 4296020480, r.1.part.vdi.file.data 1053184))
        = some (false, 7, 0) := by
  refine ⟨?_, ?_, ?_, ?_, ?_, ?_, ?_, ?_, ?_, ?_, rfl, ?_, ?_⟩ <;> decide

/-! ## The partition table: `parseMBR` and `mbrOpen` -/

theorem parseMBR_fields (sector : Mem) (out : Nat → PartitionEntry) (i : Nat) (hi : i < 4) :
    (parseMBR sector out i).status = (sector (446 + 16 * i)).val
    ∧ (∀ j, j < 3 → (parseMBR sector out i).firstCHS j = (sector (446 + 16 * i + 1 + j)).val)
    ∧ (parseMBR sector out i).type = (sector (446 + 16 * i + 4)).val
    ∧ (∀ j, j < 3 → (parseMBR sector out i).lastCHS j = (sector (446 + 16 * i + 5 + j)).val)
    ∧ (parseMBR sector out i).firstLBA
        = (sector (446 + 16 * i + 8)).val + 256 * (sector (446 + 16 * i + 9)).val
          + 65536 * (sector (446 + 16 * i + 10)).val
          + 16777216 * (sector (446 + 16 * i + 11)).val
    ∧ (parseMBR sector out i).sectorCount
        = (sector (446 + 16 * i + 12)).val + 256 * (sector (446 + 16 * i + 13)).val
          + 65536 * (sector (446 + 16 * i + 14)).val
          + 16777216 * (sector (446 + 16 * i + 15)).val := by
  have e : i * 16 = 16 * i := Nat.mul_comm _ _
  unfold parseMBR
  rw [if_pos hi]
  unfold parseEntry le32
  simp only [e, Nat.add_zero]
  refine ⟨trivial, ?_, trivial, ?_, ?_, ?_⟩
  · intro j hj; rw [if_pos hj]
  · intro j hj; rw [if_pos hj]
  · trivial
  · trivial

theorem parseMBR_frame (s1 s2 : Mem) (out1 out2 : Nat → PartitionEntry)
    (h : ∀ k, 446 ≤ k → k ≤ 509 → s1 k = s2 k) (i : Nat) (hi : i < 4) :
    parseMBR s1 out1 i = parseMBR s2 out2 i := by
  unfold parseMBR
  rw [if_pos hi, if_pos hi]
  unfold parseEntry le32
  have hk : ∀ d, d < 16 → s1 (446 + i * 16 + d) = s2 (446 + i * 16 + d) := by
    intro d hd; exact h _ (by omega) (by omega)
  have a0 := hk 0 (by omega)
  have a4 := hk 4 (by omega)
  have a8 := hk 8 (by omega)
  have a9 := hk 9 (by omega)
  have a10 := hk 10 (by omega)
  have a11 := hk 11 (by omega)
  have a12 := hk 12 (by omega)
  have a13 := hk 13 (by omega)
  have a14 := hk 14 (by omega)
  have a15 := hk 15 (by omega)
  have c1 : (fun j => if j < 3 then (s1 (446 + i * 16 + 1 + j)).val else 0)
      = (fun j => if j < 3 then (s2 (446 + i * 16 + 1 + j)).val else 0) := by
    funext j
    split_ifs with hj
    · have := hk (1 + j) (by omega)
      rw [← Nat.add_assoc] at this
      rw [this]
    · rfl
  have c5 : (fun j => if j < 3 then (s1 (446 + i * 16 + 5 + j)).val else 0)
      = (fun j => if j < 3 then (s2 (446 + i * 16 + 5 + j)).val else 0) := by
    funext j
    split_ifs with hj
    · have := hk (5 + j) (by omega)
      rw [← Nat.add_assoc] at this
      rw [this]
    · rfl
  simp only [Nat.add_assoc] at a0 a4 a8 a9 a10 a11 a12 a13 a14 a15 c1 c5 ⊢
  simp only [Nat.add_zero] at a0 ⊢
  rw [a0, a4, a8, a9, a10, a11, a12, a13, a14, a15, c1, c5]


/-- C21. For every sector, every previous content of the table and every `i` in
0..3, `parseMBR` sets entry `i` from the 16 bytes at offset `446 + 16*i`: status
is byte 0, firstCHS are bytes 1..3, type is byte 4, lastCHS are bytes 5..7,
firstLBA is the little-endian value of bytes 8..11 and sectorCount that of
bytes 12..15; and the entry is the same for any other sector with the same
bytes 446..509 (and any other previous content of the table). -/
theorem parseMBR_decodes_entries (sector : Mem) (out : Nat → PartitionEntry) (i : Nat)
    (hi : i < 4) :
    ((parseMBR sector out i).status = (sector (446 + 16 * i)).val
      ∧ (∀ j, j < 3 →
          (parseMBR sector out i).firstCHS j = (sector (446 + 16 * i + 1 + j)).val)
      ∧ (parseMBR sector out i).type = (sector (446 + 16 * i + 4)).val
      ∧ (∀ j, j < 3 →
          (parseMBR sector out i).lastCHS j = (sector (446 + 16 * i + 5 + j)).val)
      ∧ (parseMBR sector out i).firstLBA
          = (sector (446 + 16 * i + 8)).val + 256 * (sector (446 + 16 * i + 9)).val
            + 65536 * (sector (446 + 16 * i + 10)).val
            + 16777216 * (sector (446 + 16 * i + 11)).val
      ∧ (parseMBR sector out i).sectorCount
          = (sector (446 + 16 * i + 12)).val + 256 * (sector (446 + 16 * i + 13)).val
            + 65536 * (sector (446 + 16 * i + 14)).val
            + 16777216 * (sector (446 + 16 * i + 15)).val)
    ∧ (∀ (s2 : Mem) (out2 : Nat → PartitionEntry),
        (∀ k, 446 ≤ k → k ≤ 509 → sector k = s2 k) →
        parseMBR sector out i = parseMBR s2 out2 i) :=
  ⟨parseMBR_fields sector out i hi,
    fun s2 out2 h => parseMBR_frame sector s2 out out2 h i hi⟩

/-- Witness of C21 on the boot sector of the sample image: entry 0 has
firstLBA 2048 (bytes 00 08 00 00) and sectorCount 204800 (bytes 00 20 03 00),
also when every byte before 446 is changed to 0xFF. -/
theorem parseMBR_decodes_entries_witness :
    (parseMBR sampleSector MBRPartition.fresh.parts 0).firstLBA = 2048
    ∧ (parseMBR sampleSector MBRPartition.fresh.parts 0).sectorCount = 204800
    ∧ parseMBR sampleSector MBRPartition.fresh.parts 0
        = parseMBR (fun k => if k < 446 then 0xFF else sampleSector k)
            MBRPartition.fresh.parts 0 := by
  obtain ⟨⟨-, -, -, -, h5, h6⟩, hf⟩ :=
    parseMBR_decodes_entries sampleSector MBRPartition.fresh.parts 0 (by decide)
  exact ⟨h5.trans (by decide), h6.trans (by decide),
    hf (fun k => if k < 446 then 0xFF else sampleSector k) MBRPartition.fresh.parts
      (by intro k h1 h2; show _ = if k < 446 then _ else _; rw [if_neg (by omega)])⟩

theorem parseEntry_lt (sector : Mem) (i : Nat) :
    (parseEntry sector i).firstLBA < 4294967296
    ∧ (parseEntry sector i).sectorCount < 4294967296 :=
  ⟨le32_lt _ _, le32_lt _ _⟩

theorem mbrOpen_ok (mp : MBRPartition) (vdi : VDIFile) (index : Int)
    (hread : 512 ≤ (vdiRead vdi 0 zeroMem 512).2.2) (h0 : 0 ≤ index) (h3 : index ≤ 3) :
    mbrOpen mp vdi index =
      ({ vdi := (vdiRead vdi 0 zeroMem 512).1
         parts := parseMBR (vdiRead vdi 0 zeroMem 512).2.1 mp.parts
         startByte := (parseEntry (vdiRead vdi 0 zeroMem 512).2.1 index.toNat).firstLBA * 512
         sizeBytes :=
           (parseEntry (vdiRead vdi 0 zeroMem 512).2.1 index.toNat).sectorCount * 512
         cursor := 0 }, true) := by
  have hi : index.toNat < 4 := by omega
  have hl := parseEntry_lt (vdiRead vdi 0 zeroMem 512).2.1 index.toNat
  unfold mbrOpen
  simp only
  rw [if_neg (by omega), if_neg (by omega)]
  have hp : parseMBR (vdiRead vdi 0 zeroMem 512).2.1 mp.parts index.toNat
      = parseEntry (vdiRead vdi 0 zeroMem 512).2.1 index.toNat := by
    unfold parseMBR; rw [if_pos hi]
  simp only [hp]
  rw [Nat.mod_eq_of_lt (by omega), Nat.mod_eq_of_lt (by omega)]

theorem mbrOpen_bad_index (mp : MBRPartition) (vdi : VDIFile) (index : Int)
    (hread : 512 ≤ (vdiRead vdi 0 zeroMem 512).2.2) (hbad : index < 0 ∨ 3 < index) :
    mbrOpen mp vdi index =
      ({ mp with
         vdi := (vdiRead vdi 0 zeroMem 512).1
         parts := parseMBR (vdiRead vdi 0 zeroMem 512).2.1 mp.parts
         cursor := 0 }, false) := by
  unfold mbrOpen
  simp only
  rw [if_neg (by omega), if_pos (by omega)]

theorem mbrOpen000_ok (mp : MBRPartition) (vdi : VDIFile) (index : Int)
    (hread : 512 ≤ (vdiRead vdi 0 zeroMem 512).2.2) (h0 : 0 ≤ index) (h3 : index ≤ 3) :
    Part000.mbrOpen mp vdi index =
      ({ vdi := (vdiRead vdi 0 zeroMem 512).1
         parts := parseMBR (vdiRead vdi 0 zeroMem 512).2.1 mp.parts
         startByte := (parseEntry (vdiRead vdi 0 zeroMem 512).2.1 index.toNat).firstLBA * 512
         sizeBytes :=
           (parseEntry (vdiRead vdi 0 zeroMem 512).2.1 index.toNat).sectorCount * 512
         cursor := 0 }, (vdiRead vdi 0 zeroMem 512).1, true) := by
  have hi : index.toNat < 4 := by omega
  have hl := parseEntry_lt (vdiRead vdi 0 zeroMem 512).2.1 index.toNat
  unfold Part000.mbrOpen
  simp only
  rw [if_neg (by omega), if_neg (by omega)]
  have hp : parseMBR (vdiRead vdi 0 zeroMem 512).2.1 mp.parts index.toNat
      = parseEntry (vdiRead vdi 0 zeroMem 512).2.1 index.toNat := by
    unfold parseMBR; rw [if_pos hi]
  simp only [hp]
  rw [Nat.mod_eq_of_lt (by omega), Nat.mod_eq_of_lt (by omega)]

/-- C22. For every disk whose boot sector is read in full and every index in
0..3, `mbrOpen` (of `step4_only.cpp` and of `unnamed/part_000` alike) returns
true with `startByte = firstLBA * 512` and `sizeBytes = sectorCount * 512` for
the entry `parts[index]` that `parseMBR` has decoded from the sector, as exact
products (both are below 2^41, no reduction modulo 2^64 occurs), and with
`cursor = 0`. -/
theorem mbrOpen_extent (mp : MBRPartition) (vdi : VDIFile) (index : Int)
    (hread : 512 ≤ (vdiRead vdi 0 zeroMem 512).2.2) (h0 : 0 ≤ index) (h3 : index ≤ 3) :
    ((mbrOpen mp vdi index).2 = true
      ∧ (mbrOpen mp vdi index).1.parts index.toNat
          = parseEntry (vdiRead vdi 0 zeroMem 512).2.1 index.toNat
      ∧ (mbrOpen mp vdi index).1.startByte
          = ((mbrOpen mp vdi index).1.parts index.toNat).firstLBA * 512
      ∧ (mbrOpen mp vdi index).1.sizeBytes
          = ((mbrOpen mp vdi index).1.parts index.toNat).sectorCount * 512
      ∧ (mbrOpen mp vdi index).1.cursor = 0
      ∧ (mbrOpen mp vdi index).1.startByte < 2 ^ 41
      ∧ (mbrOpen mp vdi index).1.sizeBytes < 2 ^ 41)
    ∧ Part000.mbrOpen mp vdi index
        = ((mbrOpen mp vdi index).1, (vdiRead vdi 0 zeroMem 512).1, true) := by
  have hi : index.toNat < 4 := by omega
  have hl := parseEntry_lt (vdiRead vdi 0 zeroMem 512).2.1 index.toNat
  have hp : parseMBR (vdiRead vdi 0 zeroMem 512).2.1 mp.parts index.toNat
      = parseEntry (vdiRead vdi 0 zeroMem 512).2.1 index.toNat := by
    unfold parseMBR; rw [if_pos hi]
  rw [mbrOpen000_ok mp vdi index hread h0 h3, mbrOpen_ok mp vdi index hread h0 h3]
  refine ⟨⟨rfl, hp, ?_, ?_, rfl, ?_, ?_⟩, rfl⟩
  · show _ = (parseMBR _ _ _).firstLBA * 512
    rw [hp]
  · show _ = (parseMBR _ _ _).sectorCount * 512
    rw [hp]
  · show (parseEntry _ _).firstLBA * 512 < 2 ^ 41
    omega
  · show (parseEntry _ _).sectorCount * 512 < 2 ^ 41
    omega

/-- Witness of C22 on the sample container: partition 0 has firstLBA 2048 and
sectorCount 204800, so `startByte = 1048576` and `sizeBytes = 104857600`. -/
theorem mbrOpen_extent_witness :
    ((mbrOpen MBRPartition.fresh sampleVdi 0).1.parts 0).firstLBA = 2048
    ∧ ((mbrOpen MBRPartition.fresh sampleVdi 0).1.parts 0).sectorCount = 204800
    ∧ (mbrOpen MBRPartition.fresh sampleVdi 0).1.startByte = 1048576
    ∧ (mbrOpen MBRPartition.fresh sampleVdi 0).1.sizeBytes = 104857600
    ∧ (mbrOpen MBRPartition.fresh sampleVdi 0).1.cursor = 0 := by
  obtain ⟨⟨-, -, h3, h4, h5, -, -⟩, -⟩ :=
    mbrOpen_extent MBRPartition.fresh sampleVdi 0 (by decide) (by decide) (by decide)
  have a : ((mbrOpen MBRPartition.fresh sampleVdi 0).1.parts 0).firstLBA = 2048 := by decide
  have b : ((mbrOpen MBRPartition.fresh sampleVdi 0).1.parts 0).sectorCount = 204800 := by
    decide
  refine ⟨a, b, ?_, ?_, h5⟩
  · rw [h3]; exact congrArg (· * 512) a
  · rw [h4]; exact congrArg (· * 512) b

/-- C23. For every disk whose boot sector is read in full, `mbrOpen` returns
false if and only if the index is not one of 0, 1, 2, 3; for such an index
`startByte` and `sizeBytes` keep the values they had (no entry of the table is
looked up). -/
theorem mbrOpen_false_iff_bad_index (mp : MBRPartition) (vdi : VDIFile) (index : Int)
    (hread : 512 ≤ (vdiRead vdi 0 zeroMem 512).2.2) :
    ((mbrOpen mp vdi index).2 = false ↔ (index < 0 ∨ 3 < index))
    ∧ ((index < 0 ∨ 3 < index) →
        (mbrOpen mp vdi index).1.startByte = mp.startByte
        ∧ (mbrOpen mp vdi index).1.sizeBytes = mp.sizeBytes) := by
  by_cases hbad : index < 0 ∨ 3 < index
  · rw [mbrOpen_bad_index mp vdi index hread hbad]
    exact ⟨⟨fun _ => hbad, fun _ => rfl⟩, fun _ => ⟨rfl, rfl⟩⟩
  · rw [mbrOpen_ok mp vdi index hread (by omega) (by omega)]
    refine ⟨⟨fun h => ?_, fun h => absurd h hbad⟩, fun h => absurd h hbad⟩
    exact Bool.noConfusion h

/-- Witness of C23 on the sample container: indices 4 and -1 are refused and
leave the extent of a partition record as it was, index 3 is accepted. -/
theorem mbrOpen_false_iff_bad_index_witness :
    (mbrOpen samplePart sampleVdi 4).2 = false
    ∧ (mbrOpen samplePart sampleVdi (-1)).2 = false
    ∧ (mbrOpen samplePart sampleVdi 4).1.startByte = 1048576
    ∧ (mbrOpen samplePart sampleVdi 4).1.sizeBytes = 104857600
    ∧ (mbrOpen samplePart sampleVdi 3).2 = true := by
  have h4 := mbrOpen_false_iff_bad_index samplePart sampleVdi 4 (by decide)
  have hm := mbrOpen_false_iff_bad_index samplePart sampleVdi (-1) (by decide)
  have h3 := mbrOpen_false_iff_bad_index samplePart sampleVdi 3 (by decide)
  refine ⟨h4.1.mpr (by decide), hm.1.mpr (by decide),
    (h4.2 (by decide)).1.trans (by decide), (h4.2 (by decide)).2.trans (by decide), ?_⟩
  cases hb : (mbrOpen samplePart sampleVdi 3).2
  · exact absurd (h3.1.mp hb) (by decide)
  · rfl

/-! ## The partition window: `mbrRead`, `mbrWrite`, `mbrSeek` -/

theorem vdiRead_le (vdi : VDIFile) (off : Nat) (buf : Mem) (count : Nat) :
    (vdiRead vdi off buf count).2.2 ≤ (count : Int) := by
  unfold vdiRead
  simp only
  have htr : (if count > vdi.diskSize - off then vdi.diskSize - off else count) ≤ count := by
    split_ifs <;> omega
  generalize (if count > vdi.diskSize - off then vdi.diskSize - off else count) = toRead
    at htr
  generalize vdi.file.seekg (toInt64 ((vdi.frameOffset + off) % 18446744073709551616)) = f1
  by_cases c1 : off ≥ vdi.diskSize
  · rw [if_pos c1]
    exact Int.natCast_nonneg _
  · rw [if_neg c1]
    by_cases c2 : (!f1.good) = true
    · rw [if_pos c2]
      show (-1 : Int) ≤ (count : Int)
      omega
    · rw [if_neg c2]
      show (((f1.read buf toRead).1.gcount : Nat) : Int) ≤ (count : Int)
      rw [FStream.read_gcount]
      have := FStream.got_le f1 toRead
      split_ifs <;> omega

theorem toInt64_le (x : Nat) : toInt64 x ≤ (x : Int) := by
  unfold toInt64
  have := Nat.mod_le x 18446744073709551616
  split_ifs <;> omega

theorem vdiWrite_le (vdi : VDIFile) (off : Nat) (buf : Mem) (count : Nat) :
    (vdiWrite vdi off buf count).2 ≤ (count : Int) := by
  unfold vdiWrite
  simp only
  have h1 : (-1 : Int) ≤ (count : Int) := by omega
  have h2 := toInt64_le (vdi.diskSize - off)
  have h3 := toInt64_le count
  split_ifs <;> omega


theorem FStream.seekp_good (s : FStream) (off : Nat)
    (h : (s.seekp (off : Int)).good = true) :
    (s.seekp (off : Int)).pos = off ∧ (s.seekp (off : Int)).data = s.data
      ∧ (s.seekp (off : Int)).size = s.size := by
  obtain ⟨d, sz, o, mi, mo, p, e, fb, bb, g⟩ := s
  have h0 : ¬ ((off : Int) < 0) := by omega
  revert h
  cases e <;> cases fb <;> cases bb <;> cases o <;>
    simp [FStream.seekp, FStream.good, FStream.fail, h0]

theorem FStream.write_data (s : FStream) (buf : Mem) (n : Nat) (i : Nat)
    (hi : i < s.size) (hout : ¬ (s.pos ≤ i ∧ i < s.pos + n)) :
    (s.write buf n).data i = s.data i := by
  unfold FStream.write
  split_ifs
  all_goals
    first
      | rfl
      | (show (if s.pos ≤ i ∧ i < s.pos + n then buf (i - s.pos)
              else if s.size ≤ i ∧ i < s.pos then 0 else s.data i) = s.data i
         rw [if_neg hout, if_neg (by omega)])

theorem FStream.write_written (s : FStream) (buf : Mem) (n : Nat)
    (hg : s.good = true) (hw : (s.write buf n).good = true) (j : Nat) (hj : j < n) :
    (s.write buf n).data (s.pos + j) = buf j := by
  unfold FStream.write at hw ⊢
  rw [if_neg (by simp [hg])] at hw ⊢
  rw [if_neg (by omega)] at hw ⊢
  by_cases c : (!(s.isOpen && s.modeOut)) = true
  · rw [if_pos c] at hw
    exfalso
    revert hw
    simp [FStream.good]
  · rw [if_neg c]
    show (if s.pos ≤ s.pos + j ∧ s.pos + j < s.pos + n then buf (s.pos + j - s.pos)
        else _) = buf j
    rw [if_pos ⟨by omega, by omega⟩]
    congr 1
    omega

theorem vdiRead_bytes (vdi : VDIFile) (off : Nat) (buf : Mem) (count : Nat)
    (hp : vdi.frameOffset + off < 9223372036854775808) (j : Nat)
    (hj : (j : Int) < (vdiRead vdi off buf count).2.2) :
    (vdiRead vdi off buf count).2.1 j = vdi.file.data (vdi.frameOffset + off + j) := by
  by_cases ho : vdi.diskSize ≤ off
  · rw [vdiRead_of_ge vdi off buf count ho] at hj
    simp only [Int.natCast_nonneg] at hj
    omega
  · have ht := vdiRead_transfer vdi off buf count (by omega) hp
    by_cases hg : (vdi.file.seekg ((vdi.frameOffset + off : Nat) : Int)).good = true
    · obtain ⟨k, h1, -, -, -, h5, -⟩ := ht.2 hg
      rw [h1] at hj
      exact h5 j (by omega)
    · have := ht.1 (by simpa using hg)
      rw [this] at hj
      simp only at hj
      omega

theorem vdiWrite_effect (vdi : VDIFile) (off : Nat) (buf : Mem) (count : Nat)
    (hp : vdi.frameOffset + off < 9223372036854775808)
    (hc : count < 9223372036854775808) :
    (∀ i, i < vdi.file.size →
        ¬ (vdi.frameOffset + off ≤ i ∧ i < vdi.frameOffset + off + count) →
        (vdiWrite vdi off buf count).1.file.data i = vdi.file.data i)
    ∧ (∀ j : Nat, (j : Int) < (vdiWrite vdi off buf count).2 →
        (vdiWrite vdi off buf count).1.file.data (vdi.frameOffset + off + j) = buf j) := by
  have e1 : (vdi.frameOffset + off) % 18446744073709551616 = vdi.frameOffset + off :=
    Nat.mod_eq_of_lt (by omega)
  have e2 : toInt64 (vdi.frameOffset + off) = ((vdi.frameOffset + off : Nat) : Int) :=
    toInt64_of_lt _ hp
  unfold vdiWrite
  simp only [e1, e2]
  have htw : (if count > vdi.diskSize - off then vdi.diskSize - off else count) ≤ count := by
    split_ifs <;> omega
  generalize (if count > vdi.diskSize - off then vdi.diskSize - off else count) = toWrite
    at htw
  generalize hf1 : vdi.file.seekp ((vdi.frameOffset + off : Nat) : Int) = f1
  have hd := FStream.seekp_data vdi.file ((vdi.frameOffset + off : Nat) : Int)
  rw [hf1] at hd
  by_cases c1 : off ≥ vdi.diskSize
  · rw [if_pos c1]
    refine ⟨fun i _ _ => rfl, fun j hj => ?_⟩
    simp only at hj
    omega
  · rw [if_neg c1]
    by_cases c2 : f1.good = true
    · rw [if_neg (by simp [c2])]
      have hsp := FStream.seekp_good vdi.file (vdi.frameOffset + off) (by rw [hf1]; exact c2)
      rw [hf1] at hsp
      obtain ⟨hpos, hdat, hsz⟩ := hsp
      constructor
      · intro i hi hout
        show (f1.write buf toWrite).data i = _
        rw [FStream.write_data f1 buf toWrite i (by rw [hsz]; exact hi)
          (by rw [hpos]; omega), hdat]
      · intro j hj
        show (f1.write buf toWrite).data _ = _
        by_cases c3 : (f1.write buf toWrite).good = true
        · have ht : toInt64 toWrite = (toWrite : Int) := toInt64_of_lt _ (by omega)
          have hj2 : (j : Int) < (toWrite : Int) := by
            have : (j : Int) < (if (f1.write buf toWrite).good = true then toInt64 toWrite
                else -1) := hj
            rw [if_pos c3, ht] at this
            exact this
          have := FStream.write_written f1 buf toWrite c2 c3 j (by omega)
          rw [hpos] at this
          exact this
        · exfalso
          have : (j : Int) < (if (f1.write buf toWrite).good = true then toInt64 toWrite
              else -1) := hj
          rw [if_neg c3] at this
          omega
    · rw [if_pos (by simpa using c2)]
      refine ⟨fun i _ _ => ?_, fun j hj => ?_⟩
      · show f1.data i = _
        rw [hd.1]
      · simp only at hj
        omega

theorem mbrRead_eq (mp : MBRPartition) (buf : Mem) (count : Nat) (hr : mp.InRange)
    (hc : mp.cursor < mp.sizeBytes) :
    mbrRead mp buf count =
      ({ mp with
         vdi := (vdiRead mp.vdi (mp.startByte + mp.cursor) buf
                  (min count (mp.sizeBytes - mp.cursor))).1
         cursor :=
           if 0 < (vdiRead mp.vdi (mp.startByte + mp.cursor) buf
                    (min count (mp.sizeBytes - mp.cursor))).2.2
           then mp.cursor + (vdiRead mp.vdi (mp.startByte + mp.cursor) buf
                    (min count (mp.sizeBytes - mp.cursor))).2.2.toNat
           else mp.cursor },
        (vdiRead mp.vdi (mp.startByte + mp.cursor) buf
          (min count (mp.sizeBytes - mp.cursor))).2) := by
  obtain ⟨h1, h2, h3⟩ := hr
  have e1 : (mp.startByte + mp.cursor) % 18446744073709551616 = mp.startByte + mp.cursor :=
    Nat.mod_eq_of_lt (by omega)
  have e3 : (if count > mp.sizeBytes - mp.cursor then mp.sizeBytes - mp.cursor else count)
      = min count (mp.sizeBytes - mp.cursor) := by
    split_ifs <;> omega
  have hle := vdiRead_le mp.vdi (mp.startByte + mp.cursor) buf
    (min count (mp.sizeBytes - mp.cursor))
  unfold mbrRead
  rw [if_neg (by omega)]
  simp only [e1, e3]
  generalize vdiRead mp.vdi (mp.startByte + mp.cursor) buf
    (min count (mp.sizeBytes - mp.cursor)) = r at hle ⊢
  by_cases hg : r.2.2 > 0
  · rw [if_pos hg, if_pos hg]
    have : (mp.cursor + r.2.2.toNat) % 18446744073709551616 = mp.cursor + r.2.2.toNat :=
      Nat.mod_eq_of_lt (by omega)
    rw [this]
  · rw [if_neg hg, if_neg hg]

theorem mbrWrite_eq (mp : MBRPartition) (buf : Mem) (count : Nat) (hr : mp.InRange)
    (hc : mp.cursor < mp.sizeBytes) :
    mbrWrite mp buf count =
      ({ mp with
         vdi := (vdiWrite mp.vdi (mp.startByte + mp.cursor) buf
                  (min count (mp.sizeBytes - mp.cursor))).1
         cursor :=
           if 0 < (vdiWrite mp.vdi (mp.startByte + mp.cursor) buf
                    (min count (mp.sizeBytes - mp.cursor))).2
           then mp.cursor + (vdiWrite mp.vdi (mp.startByte + mp.cursor) buf
                    (min count (mp.sizeBytes - mp.cursor))).2.toNat
           else mp.cursor },
        (vdiWrite mp.vdi (mp.startByte + mp.cursor) buf
          (min count (mp.sizeBytes - mp.cursor))).2) := by
  obtain ⟨h1, h2, h3⟩ := hr
  have e1 : (mp.startByte + mp.cursor) % 18446744073709551616 = mp.startByte + mp.cursor :=
    Nat.mod_eq_of_lt (by omega)
  have e3 : (if count > mp.sizeBytes - mp.cursor then mp.sizeBytes - mp.cursor else count)
      = min count (mp.sizeBytes - mp.cursor) := by
    split_ifs <;> omega
  have hle := vdiWrite_le mp.vdi (mp.startByte + mp.cursor) buf
    (min count (mp.sizeBytes - mp.cursor))
  unfold mbrWrite
  rw [if_neg (by omega)]
  simp only [e1, e3]
  generalize vdiWrite mp.vdi (mp.startByte + mp.cursor) buf
    (min count (mp.sizeBytes - mp.cursor)) = r at hle ⊢
  by_cases hg : r.2 > 0
  · rw [if_pos hg, if_pos hg]
    have : (mp.cursor + r.2.toNat) % 18446744073709551616 = mp.cursor + r.2.toNat :=
      Nat.mod_eq_of_lt (by omega)
    rw [this]
  · rw [if_neg hg, if_neg hg]


theorem mbrRead_cursor_le (mp : MBRPartition) (buf : Mem) (count : Nat)
    (h : mp.cursor ≤ mp.sizeBytes) :
    (mbrRead mp buf count).1.cursor ≤ (mbrRead mp buf count).1.sizeBytes
    ∧ (mbrRead mp buf count).1.sizeBytes = mp.sizeBytes
    ∧ (mbrRead mp buf count).1.startByte = mp.startByte := by
  unfold mbrRead
  by_cases c1 : mp.cursor ≥ mp.sizeBytes
  · rw [if_pos c1]; exact ⟨h, rfl, rfl⟩
  · rw [if_neg c1]
    simp only
    have htr : (if count > mp.sizeBytes - mp.cursor then mp.sizeBytes - mp.cursor else count)
        ≤ mp.sizeBytes - mp.cursor := by
      split_ifs <;> omega
    generalize (if count > mp.sizeBytes - mp.cursor then mp.sizeBytes - mp.cursor
      else count) = toRead at htr
    have hle := vdiRead_le mp.vdi ((mp.startByte + mp.cursor) % 18446744073709551616) buf toRead
    generalize vdiRead mp.vdi ((mp.startByte + mp.cursor) % 18446744073709551616) buf toRead
      = r at hle ⊢
    by_cases hg : r.2.2 > 0
    · rw [if_pos hg]
      refine ⟨?_, rfl, rfl⟩
      show (mp.cursor + r.2.2.toNat) % 18446744073709551616 ≤ mp.sizeBytes
      have := Nat.mod_le (mp.cursor + r.2.2.toNat) 18446744073709551616
      omega
    · rw [if_neg hg]
      exact ⟨h, rfl, rfl⟩

theorem mbrWrite_cursor_le (mp : MBRPartition) (buf : Mem) (count : Nat)
    (h : mp.cursor ≤ mp.sizeBytes) :
    (mbrWrite mp buf count).1.cursor ≤ (mbrWrite mp buf count).1.sizeBytes
    ∧ (mbrWrite mp buf count).1.sizeBytes = mp.sizeBytes
    ∧ (mbrWrite mp buf count).1.startByte = mp.startByte := by
  unfold mbrWrite
  by_cases c1 : mp.cursor ≥ mp.sizeBytes
  · rw [if_pos c1]; exact ⟨h, rfl, rfl⟩
  · rw [if_neg c1]
    simp only
    have htr : (if count > mp.sizeBytes - mp.cursor then mp.sizeBytes - mp.cursor else count)
        ≤ mp.sizeBytes - mp.cursor := by
      split_ifs <;> omega
    generalize (if count > mp.sizeBytes - mp.cursor then mp.sizeBytes - mp.cursor
      else count) = toWrite at htr
    have hle := vdiWrite_le mp.vdi ((mp.startByte + mp.cursor) % 18446744073709551616) buf
      toWrite
    generalize vdiWrite mp.vdi ((mp.startByte + mp.cursor) % 18446744073709551616) buf toWrite
      = r at hle ⊢
    by_cases hg : r.2 > 0
    · rw [if_pos hg]
      refine ⟨?_, rfl, rfl⟩
      show (mp.cursor + r.2.toNat) % 18446744073709551616 ≤ mp.sizeBytes
      have := Nat.mod_le (mp.cursor + r.2.toNat) 18446744073709551616
      omega
    · rw [if_neg hg]
      exact ⟨h, rfl, rfl⟩

theorem mbrSeek_spec (mp : MBRPartition) (offset : Int) :
    ((0 ≤ offset ∧ offset ≤ (mp.sizeBytes : Int)) →
        mbrSeek mp offset = ({ mp with cursor := offset.toNat }, true))
    ∧ (¬ (0 ≤ offset ∧ offset ≤ (mp.sizeBytes : Int)) → mbrSeek mp offset = (mp, false)) := by
  unfold mbrSeek
  constructor
  · intro h
    rw [if_neg (by omega)]
  · intro h
    rw [if_pos (by omega)]

theorem mbrSeek_cursor_le (mp : MBRPartition) (offset : Int)
    (h : mp.cursor ≤ mp.sizeBytes) :
    (mbrSeek mp offset).1.cursor ≤ (mbrSeek mp offset).1.sizeBytes
    ∧ (mbrSeek mp offset).1.sizeBytes = mp.sizeBytes
    ∧ (mbrSeek mp offset).1.startByte = mp.startByte := by
  by_cases c : 0 ≤ offset ∧ offset ≤ (mp.sizeBytes : Int)
  · rw [(mbrSeek_spec mp offset).1 c]
    refine ⟨?_, rfl, rfl⟩
    show offset.toNat ≤ mp.sizeBytes
    omega
  · rw [(mbrSeek_spec mp offset).2 c]
    exact ⟨h, rfl, rfl⟩

theorem mbrOpen_cursor (mp : MBRPartition) (vdi : VDIFile) (index : Int) :
    (mbrOpen mp vdi index).1.cursor = 0 := by
  unfold mbrOpen
  simp only
  split_ifs <;> rfl

/-- C24. On a partition whose fields are in the ranges that `mbrOpen` gives
them: with `cursor ≥ sizeBytes`, `mbrRead` and `mbrWrite` return 0 and change
nothing.  Otherwise they call `vdiRead` / `vdiWrite` at the logical disk offset
`startByte + cursor` with the count `min(count, sizeBytes - cursor)` and return
its result; the cursor advances by exactly that result when it is positive and
stays when it is 0 or negative; the result never exceeds `sizeBytes - cursor`;
the bytes delivered are those of the file at `frameOffset + startByte + cursor`
on, the bytes written are stored there, and no byte of the file outside that
range of `min(count, sizeBytes - cursor)` bytes is changed. -/
theorem mbrRead_mbrWrite_window (mp : MBRPartition) (buf : Mem) (count : Nat)
    (hr : mp.InRange) :
    (mp.sizeBytes ≤ mp.cursor →
        mbrRead mp buf count = (mp, buf, 0) ∧ mbrWrite mp buf count = (mp, 0))
    ∧ (mp.cursor < mp.sizeBytes →
        ((mbrRead mp buf count).2
            = (vdiRead mp.vdi (mp.startByte + mp.cursor) buf
                (min count (mp.sizeBytes - mp.cursor))).2
          ∧ (mbrRead mp buf count).1.vdi
            = (vdiRead mp.vdi (mp.startByte + mp.cursor) buf
                (min count (mp.sizeBytes - mp.cursor))).1
          ∧ (mbrWrite mp buf count).2
            = (vdiWrite mp.vdi (mp.startByte + mp.cursor) buf
                (min count (mp.sizeBytes - mp.cursor))).2
          ∧ (mbrWrite mp buf count).1.vdi
            = (vdiWrite mp.vdi (mp.startByte + mp.cursor) buf
                (min count (mp.sizeBytes - mp.cursor))).1)
        ∧ ((0 < (mbrRead mp buf count).2.2 →
              ((mbrRead mp buf count).1.cursor : Int)
                = (mp.cursor : Int) + (mbrRead mp buf count).2.2)
          ∧ ((mbrRead mp buf count).2.2 ≤ 0 → (mbrRead mp buf count).1.cursor = mp.cursor)
          ∧ (0 < (mbrWrite mp buf count).2 →
              ((mbrWrite mp buf count).1.cursor : Int)
                = (mp.cursor : Int) + (mbrWrite mp buf count).2)
          ∧ ((mbrWrite mp buf count).2 ≤ 0 → (mbrWrite mp buf count).1.cursor = mp.cursor))
        ∧ ((mbrRead mp buf count).2.2 ≤ ((min count (mp.sizeBytes - mp.cursor) : Nat) : Int)
          ∧ (∀ j : Nat, (j : Int) < (mbrRead mp buf count).2.2 →
              (mbrRead mp buf count).2.1 j
                = mp.vdi.file.data (mp.vdi.frameOffset + mp.startByte + mp.cursor + j))
          ∧ (mbrWrite mp buf count).2 ≤ ((min count (mp.sizeBytes - mp.cursor) : Nat) : Int)
          ∧ (∀ j : Nat, (j : Int) < (mbrWrite mp buf count).2 →
              (mbrWrite mp buf count).1.vdi.file.data
                  (mp.vdi.frameOffset + mp.startByte + mp.cursor + j) = buf j)
          ∧ (∀ i, i < mp.vdi.file.size →
              ¬ (mp.vdi.frameOffset + mp.startByte + mp.cursor ≤ i
                  ∧ i < mp.vdi.frameOffset + mp.startByte + mp.cursor
                        + min count (mp.sizeBytes - mp.cursor)) →
              (mbrWrite mp buf count).1.vdi.file.data i = mp.vdi.file.data i))) := by
  constructor
  · intro h
    unfold mbrRead mbrWrite
    rw [if_pos h, if_pos h]
    exact ⟨rfl, rfl⟩
  · intro hc
    have hR := mbrRead_eq mp buf count hr hc
    have hW := mbrWrite_eq mp buf count hr hc
    have hrl := vdiRead_le mp.vdi (mp.startByte + mp.cursor) buf
      (min count (mp.sizeBytes - mp.cursor))
    have hwl := vdiWrite_le mp.vdi (mp.startByte + mp.cursor) buf
      (min count (mp.sizeBytes - mp.cursor))
    have hp : mp.vdi.frameOffset + (mp.startByte + mp.cursor) < 9223372036854775808 := by
      have := hr.1; have := hr.2; have := hr.3; omega
    have hcnt : min count (mp.sizeBytes - mp.cursor) < 9223372036854775808 := by
      have := hr.3; omega
    have hrb := vdiRead_bytes mp.vdi (mp.startByte + mp.cursor) buf
      (min count (mp.sizeBytes - mp.cursor)) hp
    have hwe := vdiWrite_effect mp.vdi (mp.startByte + mp.cursor) buf
      (min count (mp.sizeBytes - mp.cursor)) hp hcnt
    rw [hR, hW]
    generalize vdiRead mp.vdi (mp.startByte + mp.cursor) buf
      (min count (mp.sizeBytes - mp.cursor)) = r at hrl hrb ⊢
    generalize vdiWrite mp.vdi (mp.startByte + mp.cursor) buf
      (min count (mp.sizeBytes - mp.cursor)) = w at hwl hwe ⊢
    refine ⟨⟨rfl, rfl, rfl, rfl⟩, ⟨?_, ?_, ?_, ?_⟩, ⟨hrl, ?_, hwl, ?_, ?_⟩⟩
    · intro h
      show (((if 0 < r.2.2 then mp.cursor + r.2.2.toNat else mp.cursor : Nat)) : Int) = _
      have h2 : 0 < r.2.2 := h
      rw [if_pos h2]
      show ((mp.cursor + r.2.2.toNat : Nat) : Int) = (mp.cursor : Int) + r.2.2
      omega
    · intro h
      show (if 0 < r.2.2 then mp.cursor + r.2.2.toNat else mp.cursor) = mp.cursor
      have h2 : r.2.2 ≤ 0 := h
      rw [if_neg (by omega)]
    · intro h
      show (((if 0 < w.2 then mp.cursor + w.2.toNat else mp.cursor : Nat)) : Int) = _
      have h2 : 0 < w.2 := h
      rw [if_pos h2]
      show ((mp.cursor + w.2.toNat : Nat) : Int) = (mp.cursor : Int) + w.2
      omega
    · intro h
      show (if 0 < w.2 then mp.cursor + w.2.toNat else mp.cursor) = mp.cursor
      have h2 : w.2 ≤ 0 := h
      rw [if_neg (by omega)]
    · intro j hj
      have := hrb j hj
      rw [← Nat.add_assoc] at this
      exact this
    · intro j hj
      have := hwe.2 j hj
      rw [← Nat.add_assoc] at this
      exact this
    · intro i hi hout
      exact hwe.1 i hi (by rw [← Nat.add_assoc]; exact hout)


theorem samplePart_inRange : samplePart.InRange := ⟨by decide, by decide, by decide⟩

theorem samplePartRW_inRange : samplePartRW.InRange := ⟨by decide, by decide, by decide⟩

/-- Witness of C24 on the partition of the sample image (1048576 + 104857600
bytes): a read of 2048 bytes at cursor 0 returns 2048, moves the cursor to 2048
and delivers the superblock magic 0x53 at byte 1080; a read of 512 bytes 100
bytes before the end returns 100; at the end it returns 0.  On a stream open
for output a write of 128 bytes returns 128, moves the cursor to 128, stores
0xED at file offset 1049088 and leaves the byte before it alone; on the stream
as `vdiOpen` opens it the write returns -1 and the cursor stays. -/
theorem mbrRead_mbrWrite_window_witness :
    ((mbrRead samplePart zeroMem 2048).2.2 = 2048
      ∧ (mbrRead samplePart zeroMem 2048).1.cursor = 2048
      ∧ (mbrRead samplePart zeroMem 2048).2.1 1080 = 0x53)
    ∧ (mbrRead (mbrSeek samplePart 104857500).1 zeroMem 512).2.2 = 100
    ∧ mbrRead (mbrSeek samplePart 104857600).1 zeroMem 512
        = ((mbrSeek samplePart 104857600).1, zeroMem, 0)
    ∧ ((mbrWrite samplePartRW sampleInode 128).2 = 128
      ∧ (mbrWrite samplePartRW sampleInode 128).1.cursor = 128
      ∧ (mbrWrite samplePartRW sampleInode 128).1.vdi.file.data 1049088 = 0xED
      ∧ (mbrWrite samplePartRW sampleInode 128).1.vdi.file.data 1049087 = 0)
    ∧ ((mbrWrite samplePart sampleInode 128).2 = -1
      ∧ (mbrWrite samplePart sampleInode 128).1.cursor = 0) := by
  obtain ⟨-, ⟨hc, -, -, -⟩, ⟨-, hb, -, -, -⟩⟩ :=
    (mbrRead_mbrWrite_window samplePart zeroMem 2048 samplePart_inRange).2 (by decide)
  have hres : (mbrRead samplePart zeroMem 2048).2.2 = 2048 := by decide
  have hend := ((mbrRead_mbrWrite_window (mbrSeek samplePart 104857600).1 zeroMem 512
    ⟨by decide, by decide, by decide⟩).1 (by decide)).1
  obtain ⟨-, ⟨-, -, hwc, -⟩, ⟨-, -, -, hwb, hwf⟩⟩ :=
    (mbrRead_mbrWrite_window samplePartRW sampleInode 128 samplePartRW_inRange).2 (by decide)
  have hw : (mbrWrite samplePartRW sampleInode 128).2 = 128 := by decide
  obtain ⟨-, ⟨-, -, -, hrc⟩, -⟩ :=
    (mbrRead_mbrWrite_window samplePart sampleInode 128 samplePart_inRange).2 (by decide)
  have hro : (mbrWrite samplePart sampleInode 128).2 = -1 := by decide
  refine ⟨⟨hres, ?_, ?_⟩, by decide, hend, ⟨hw, ?_, ?_, ?_⟩, ⟨hro, ?_⟩⟩
  · have := hc (by rw [hres]; decide)
    rw [hres] at this
    have h0 : samplePart.cursor = 0 := by decide
    rw [h0] at this
    omega
  · exact (hb 1080 (by rw [hres]; decide)).trans (by decide)
  · have := hwc (by rw [hw]; decide)
    rw [hw] at this
    have h0 : samplePartRW.cursor = 0 := by decide
    rw [h0] at this
    omega
  · exact (hwb 0 (by rw [hw]; decide)).trans (by decide)
  · exact (hwf 1049087 (by decide) (by decide)).trans (by decide)
  · exact (hrc (by rw [hro]; decide)).trans (by decide)

/-- C25. The cursor is 0 after every call of `mbrOpen`, and `cursor ≤
sizeBytes` is preserved by every call of `mbrRead`, `mbrWrite` and `mbrSeek`,
whatever the arguments; none of them changes `sizeBytes` or `startByte`. -/
theorem cursor_in_partition (mp : MBRPartition) :
    (∀ (vdi : VDIFile) (index : Int),
        (mbrOpen mp vdi index).1.cursor = 0
        ∧ (mbrOpen mp vdi index).1.cursor ≤ (mbrOpen mp vdi index).1.sizeBytes)
    ∧ (mp.cursor ≤ mp.sizeBytes →
        (∀ (buf : Mem) (count : Nat),
            (mbrRead mp buf count).1.cursor ≤ (mbrRead mp buf count).1.sizeBytes
            ∧ (mbrRead mp buf count).1.sizeBytes = mp.sizeBytes
            ∧ (mbrRead mp buf count).1.startByte = mp.startByte)
        ∧ (∀ (buf : Mem) (count : Nat),
            (mbrWrite mp buf count).1.cursor ≤ (mbrWrite mp buf count).1.sizeBytes
            ∧ (mbrWrite mp buf count).1.sizeBytes = mp.sizeBytes
            ∧ (mbrWrite mp buf count).1.startByte = mp.startByte)
        ∧ (∀ (offset : Int),
            (mbrSeek mp offset).1.cursor ≤ (mbrSeek mp offset).1.sizeBytes
            ∧ (mbrSeek mp offset).1.sizeBytes = mp.sizeBytes
            ∧ (mbrSeek mp offset).1.startByte = mp.startByte)) := by
  refine ⟨fun vdi index => ?_, fun h => ⟨fun buf count => mbrRead_cursor_le mp buf count h,
    fun buf count => mbrWrite_cursor_le mp buf count h,
    fun offset => mbrSeek_cursor_le mp offset h⟩⟩
  have := mbrOpen_cursor mp vdi index
  exact ⟨this, by rw [this]; exact Nat.zero_le _⟩

/-- Witness of C25 on the partition of the sample image, 100 bytes before its
end: a read of 512 bytes leaves the cursor at `sizeBytes = 104857600`; so does a
write on a stream open for output; a seek to `sizeBytes + 1` leaves it where it
was. -/
theorem cursor_in_partition_witness :
    (mbrRead (mbrSeek samplePart 104857500).1 zeroMem 512).1.cursor = 104857600
    ∧ (mbrWrite (mbrSeek samplePartRW 104857500).1 sampleInode 512).1.cursor = 104857600
    ∧ (mbrSeek (mbrSeek samplePart 104857500).1 104857601).1.cursor = 104857500
    ∧ (mbrRead (mbrSeek samplePart 104857500).1 zeroMem 512).1.cursor
        ≤ (mbrRead (mbrSeek samplePart 104857500).1 zeroMem 512).1.sizeBytes :=
  ⟨by decide, by decide, by decide,
    (((cursor_in_partition (mbrSeek samplePart 104857500).1).2 (by decide)).1
      zeroMem 512).1⟩

/-! ## Seeking in a partition: `seekPartition` and `mbrSeek` -/

theorem toInt64_toNat (c : Int) (h0 : 0 ≤ c) (h1 : c < 9223372036854775808) :
    toInt64 c.toNat = c := by
  rw [toInt64_of_lt _ (by omega)]
  omega

theorem toUInt64_of_nonneg (c : Int) (h0 : 0 ≤ c) (h1 : c < 18446744073709551616) :
    toUInt64 c = c.toNat := by
  unfold toUInt64
  omega

/-- The sum of a `uint64_t` below 2^63 and an `off_t`, converted to `off_t`: the
exact sum when it is below 2^63, and a negative value otherwise. -/
theorem wrapAdd_eq (a : Nat) (offset : Int) (ha : a < 9223372036854775808)
    (hoff : -9223372036854775808 ≤ offset ∧ offset < 9223372036854775808) :
    toInt64 ((a + toUInt64 offset) % 18446744073709551616)
      = if (a : Int) + offset < 9223372036854775808 then (a : Int) + offset
        else (a : Int) + offset - 18446744073709551616 := by
  unfold toInt64 toUInt64
  split_ifs <;> omega

theorem seekPartition_check (p : Partition) (c : Int)
    (hc : -9223372036854775808 ≤ c ∧ c < 9223372036854775808) :
    (if c ≥ 0 ∧ toUInt64 c ≤ p.partitionSize then
        (({ p with cursor := toUInt64 c }, toInt64 (toUInt64 c)) : Partition × Int)
      else (p, -1))
    = if 0 ≤ c ∧ c ≤ (p.partitionSize : Int) then ({ p with cursor := c.toNat }, c)
      else (p, -1) := by
  by_cases h0 : 0 ≤ c
  · rw [toUInt64_of_nonneg c h0 (by omega), toInt64_toNat c h0 (by omega)]
    by_cases h1 : c ≤ (p.partitionSize : Int)
    · rw [if_pos ⟨h0, by omega⟩, if_pos ⟨h0, h1⟩]
    · rw [if_neg (by omega), if_neg (by omega)]
  · rw [if_neg (by omega), if_neg (by omega)]

theorem seekPartition_eq (p : Partition) (offset anchor : Int)
    (hoff : -9223372036854775808 ≤ offset ∧ offset < 9223372036854775808)
    (hcur : p.cursor < 9223372036854775808)
    (hsz : p.partitionSize < 9223372036854775808) :
    seekPartition p offset anchor =
      match seekCandidate p offset anchor with
      | none => (p, -1)
      | some c =>
        if 0 ≤ c ∧ c ≤ (p.partitionSize : Int) then ({ p with cursor := c.toNat }, c)
        else (p, -1) := by
  unfold seekPartition seekCandidate SEEK_SET SEEK_CUR SEEK_END
  by_cases a0 : anchor = 0
  · simp only [if_pos a0]
    exact seekPartition_check p offset hoff
  · by_cases a1 : anchor = 1
    · simp only [if_neg a0, if_pos a1]
      rw [wrapAdd_eq p.cursor offset hcur hoff]
      by_cases hlt : (p.cursor : Int) + offset < 9223372036854775808
      · rw [if_pos hlt]
        exact seekPartition_check p _ ⟨by omega, hlt⟩
      · rw [if_neg hlt]
        rw [seekPartition_check p _ ⟨by omega, by omega⟩]
        rw [if_neg (by omega), if_neg (by omega)]
    · by_cases a2 : anchor = 2
      · simp only [if_neg a0, if_neg a1, if_pos a2]
        rw [wrapAdd_eq p.partitionSize offset hsz hoff]
        by_cases hlt : (p.partitionSize : Int) + offset < 9223372036854775808
        · rw [if_pos hlt]
          exact seekPartition_check p _ ⟨by omega, hlt⟩
        · rw [if_neg hlt]
          rw [seekPartition_check p _ ⟨by omega, by omega⟩]
          rw [if_neg (by omega), if_neg (by omega)]
      · simp only [if_neg a0, if_neg a1, if_neg a2]

/-- C26. For every offset of type `off_t`, on a partition record whose cursor
and size are file offsets (below 2^63): `seekPartition` forms the candidate
`offset`, `cursor + offset` or `partitionSize + offset` after the anchor; a
candidate in `[0, partitionSize]` is committed and returned; with a negative
candidate, a candidate above `partitionSize` or an unknown anchor the call
returns -1 and the record is unchanged.  `mbrSeek` commits exactly the offsets
in `[0, sizeBytes]` and returns the partition unchanged with false otherwise. -/
theorem seek_commits_in_range (p : Partition) (offset anchor : Int)
    (hoff : -9223372036854775808 ≤ offset ∧ offset < 9223372036854775808)
    (hcur : p.cursor < 9223372036854775808)
    (hsz : p.partitionSize < 9223372036854775808) (mp : MBRPartition) :
    (∀ c, seekCandidate p offset anchor = some c → 0 ≤ c → c ≤ (p.partitionSize : Int) →
        seekPartition p offset anchor = ({ p with cursor := c.toNat }, c))
    ∧ (∀ c, seekCandidate p offset anchor = some c →
        (c < 0 ∨ (p.partitionSize : Int) < c) → seekPartition p offset anchor = (p, -1))
    ∧ (seekCandidate p offset anchor = none → seekPartition p offset anchor = (p, -1))
    ∧ ((0 ≤ offset ∧ offset ≤ (mp.sizeBytes : Int)) →
        mbrSeek mp offset = ({ mp with cursor := offset.toNat }, true))
    ∧ (¬ (0 ≤ offset ∧ offset ≤ (mp.sizeBytes : Int)) → mbrSeek mp offset = (mp, false)) := by
  have h := seekPartition_eq p offset anchor hoff hcur hsz
  refine ⟨?_, ?_, ?_, (mbrSeek_spec mp offset).1, (mbrSeek_spec mp offset).2⟩
  · intro c hc h0 h1
    rw [h, hc]
    simp only
    rw [if_pos ⟨h0, h1⟩]
  · intro c hc hout
    rw [h, hc]
    simp only
    rw [if_neg (by omega)]
  · intro hc
    rw [h, hc]

/-- Witness of C26 on a record with `partitionSize = 104857600` and the cursor
at 100: `SEEK_CUR` by -100 commits 0, `SEEK_END` by 0 commits the size,
`SEEK_END` by 1, `SEEK_CUR` by -101 and the anchor 7 return -1 and keep the
cursor; `mbrSeek` on the sample partition accepts `sizeBytes` and refuses
`sizeBytes + 1` and -1. -/
theorem seek_commits_in_range_witness :
    seekPartition samplePartition (-100) SEEK_CUR = ({ samplePartition with cursor := 0 }, 0)
    ∧ seekPartition samplePartition 0 SEEK_END
        = ({ samplePartition with cursor := 104857600 }, 104857600)
    ∧ seekPartition samplePartition 1 SEEK_END = (samplePartition, -1)
    ∧ seekPartition samplePartition (-101) SEEK_CUR = (samplePartition, -1)
    ∧ seekPartition samplePartition 5 7 = (samplePartition, -1)
    ∧ mbrSeek samplePart 104857600 = ({ samplePart with cursor := 104857600 }, true)
    ∧ mbrSeek samplePart 104857601 = (samplePart, false)
    ∧ mbrSeek samplePart (-1) = (samplePart, false) :=
  ⟨(seek_commits_in_range samplePartition (-100) SEEK_CUR (by decide) (by decide)
      (by decide) samplePart).1 0 (by decide) (by decide) (by decide),
    (seek_commits_in_range samplePartition 0 SEEK_END (by decide) (by decide)
      (by decide) samplePart).1 104857600 (by decide) (by decide) (by decide),
    (seek_commits_in_range samplePartition 1 SEEK_END (by decide) (by decide)
      (by decide) samplePart).2.1 104857601 (by decide) (by decide),
    (seek_commits_in_range samplePartition (-101) SEEK_CUR (by decide) (by decide)
      (by decide) samplePart).2.1 (-1) (by decide) (by decide),
    (seek_commits_in_range samplePartition 5 7 (by decide) (by decide)
      (by decide) samplePart).2.2.1 (by decide),
    (seek_commits_in_range samplePartition 104857600 0 (by decide) (by decide)
      (by decide) samplePart).2.2.2.1 (by decide),
    (seek_commits_in_range samplePartition 104857601 0 (by decide) (by decide)
      (by decide) samplePart).2.2.2.2 (by decide),
    (seek_commits_in_range samplePartition (-1) 0 (by decide) (by decide)
      (by decide) samplePart).2.2.2.2 (by decide)⟩

/-! ## Inode numbers out of range (C27) -/

/-- C27 (the code on this claim). `fetchInode` refuses the inode numbers 0 and
`n > s_inodes_count` with -1 before it touches anything; `writeInode`,
`inodeInUse` and `freeInode` have no such check.  On the sample volume as `main`
opens it, `n = 0` becomes index 2^32 - 1 and group 524287 of a vector of 2
descriptors: the three calls are undefined (no result).  On the volume with
`s_inodes_count = 2`, `fetchInode(3)` returns -1 and leaves the stream where it
was (position 1052160), while `inodeInUse(3)` looks up the descriptor of group
0, reads its bitmap block (the stream ends at 1054208) and returns true, and
`writeInode(3)` and `freeInode(3)` read their block and attempt the write (which
fails on the stream as opened: badbit).  On a stream open for output
`writeInode(3, X)` returns 0 and has stored X in the slot of inode 3 (file
offset 1054464), and `freeInode(3)` returns true and has changed the bitmap byte
from 0x07 to 0x03. -/
theorem no_range_check_outside_fetchInode :
    openVolume (some (sampleHost false)) 0 = some sampleFs
    ∧ (fetchInode sampleFs 0 zeroMem).map (fun r => r.2.2) = some (-1)
    ∧ (inodeInUse sampleFs 0).isNone = true
    ∧ (writeInode sampleFs 0 sampleInode).isNone = true
    ∧ (freeInode sampleFs 0).isNone = true
    ∧ openVolume (some fewHost) 0 = some fewFs
    ∧ fewFs.sb.s_inodes_count = 2
    ∧ fewFs.part.vdi.file.pos = 1052160
    ∧ (fetchInode fewFs 3 zeroMem).map (fun r => (r.2.2, r.1.part.vdi.file.pos))
        = some (-1, 1052160)
    ∧ (inodeInUse fewFs 3).map (fun r => (r.2, r.1.part.vdi.file.pos))
        = some (true, 1054208)
    ∧ (writeInode fewFs 3 sampleInode).map (fun r => (r.2, r.1.part.vdi.file.badbit))
        = some (-1, true)
    ∧ (freeInode fewFs 3).map (fun r => (r.2, r.1.part.vdi.file.badbit))
        = some (false, true)
    ∧ fewFsRW.part.vdi.file.data 1054464 = 0
    ∧ (writeInode fewFsRW 3 sampleInode).map
        (fun r => (r.2, r.1.part.vdi.file.data 1054464, r.1.part.vdi.file.data 1054465))
        = some (0, 0xED, 0x41)
    ∧ fewFsRW.part.vdi.file.data 1053184 = 7
    ∧ (freeInode fewFsRW 3).map (fun r => (r.2, r.1.part.vdi.file.data 1053184))
        = some (true, 3) := by
  refine ⟨rfl, ?_, ?_, ?_, ?_, rfl, ?_, ?_, ?_, ?_, ?_, ?_, ?_, ?_, ?_, ?_⟩ <;> decide

/-! ## Failures that the bitmap operations do not propagate (C30) -/

/-- C30 (the code on this claim). On the sample volume as `main` opens it the
one-byte `mbrWrite` of `allocateInode` returns -1, and `allocateInode` returns
inode 4.  On the volume whose group 0 has its inode bitmap in block 200000, past
the end of the partition, `ext2ReadBlock` of that block returns false and the
`mbrSeek` to 200000 * 1024 returns false, and `allocateInode` returns inode 1, of
that group.  On the same volume with a stream open for output, `allocateInode`
returns 1 and has written 0x01 at the stale cursor, partition offset 0 (file
offset 1049088, 0xEB before), and `freeInode(1)` returns true and has written
0x00 there. -/
theorem bitmap_failures_not_propagated :
    openVolume (some (sampleHost false)) 0 = some sampleFs
    ∧ (mbrWrite (mbrSeek (ext2ReadBlock sampleFs (sampleFs.inodeBitmap 0) zeroMem).1.part
          4096).1 (fun _ => 0x0F) 1).2 = -1
    ∧ (allocateInode sampleFs (-1)).map Prod.snd = some 4
    ∧ openVolume (some farHost) 0 = some farFs
    ∧ farFs.inodeBitmap 0 = 200000
    ∧ (ext2ReadBlock farFs (farFs.inodeBitmap 0) zeroMem).2.2 = false
    ∧ (mbrSeek (ext2ReadBlock farFs (farFs.inodeBitmap 0) zeroMem).1.part
          (((200000 * 1024 + 0) % 4294967296 : Nat) : Int)).2 = false
    ∧ (allocateInode farFs (-1)).map Prod.snd = some 1
    ∧ farFsRW.part.vdi.file.data 1049088 = 0xEB
    ∧ physOffset farFsRW 0 = 1049088
    ∧ (allocateInode farFsRW (-1)).map (fun r => (r.2, r.1.part.vdi.file.data 1049088))
        = some (1, 1)
    ∧ (freeInode farFsRW 1).map (fun r => (r.2, r.1.part.vdi.file.data 1049088))
        = some (true, 0) := by
  refine ⟨rfl, ?_, ?_, rfl, ?_, ?_, ?_, ?_, ?_, ?_, ?_, ?_⟩ <;> decide


/-! ## The block-group bound (C28) -/

theorem ext2LoadBGDTLoop_fields (totalBytes bgdtBlock : Nat) (fuel : Nat) :
    ∀ (e : Ext2File) (b : Nat) (blockBuf : Mem) (bytesCopied : Nat),
      (ext2LoadBGDTLoop totalBytes bgdtBlock fuel e b blockBuf bytesCopied).1.bgdt.len
          = e.bgdt.len
      ∧ (ext2LoadBGDTLoop totalBytes bgdtBlock fuel e b blockBuf bytesCopied).1.numBlockGroups
          = e.numBlockGroups
      ∧ (ext2LoadBGDTLoop totalBytes bgdtBlock fuel e b blockBuf bytesCopied).1.sb = e.sb := by
  induction fuel with
  | zero => intro e b blockBuf bytesCopied; exact ⟨rfl, rfl, rfl⟩
  | succ k ih =>
    intro e b blockBuf bytesCopied
    rw [ext2LoadBGDTLoop]
    simp only
    have hfst := ext2ReadBlock_fst e ((bgdtBlock + b % 4294967296) % 4294967296) blockBuf
    generalize ext2ReadBlock e ((bgdtBlock + b % 4294967296) % 4294967296) blockBuf = r
      at hfst ⊢
    have h1 : r.1.bgdt.len = e.bgdt.len := by rw [hfst]; rfl
    have h2 : r.1.numBlockGroups = e.numBlockGroups := by rw [hfst]; rfl
    have h3 : r.1.sb = e.sb := by rw [hfst]; rfl
    generalize (if bytesCopied + e.blockSize > totalBytes then totalBytes - bytesCopied
      else e.blockSize) = toCopy
    split_ifs
    · exact ⟨h1, h2, h3⟩
    · have := ih { r.1 with bgdt := { r.1.bgdt with
        raw := memcpy r.1.bgdt.raw bytesCopied r.2.1 0 toCopy } }
        (b + 1) r.2.1 (bytesCopied + toCopy)
      exact ⟨this.1.trans h1, this.2.1.trans h2, this.2.2.trans h3⟩

theorem ext2LoadBGDT_fields (e e1 : Ext2File) (b : Bool)
    (h : ext2LoadBGDT e = some (e1, b)) :
    e1.bgdt.len = e.numBlockGroups ∧ e1.numBlockGroups = e.numBlockGroups
    ∧ e1.sb = e.sb ∧ 0 < e.blockSize := by
  unfold ext2LoadBGDT at h
  simp only at h
  split_ifs at h with c
  simp only [Option.some.injEq] at h
  have hf := ext2LoadBGDTLoop_fields (e.numBlockGroups * sizeofBGD)
    ((e.sb.s_first_data_block + 1) % 4294967296)
    ((e.numBlockGroups * sizeofBGD + e.blockSize - 1) / e.blockSize)
    { e with bgdt := e.bgdt.resize e.numBlockGroups } 0 (memset zeroMem 0 e.blockSize) 0
  rw [h] at hf
  exact ⟨hf.1, hf.2.1, hf.2.2, Nat.pos_of_ne_zero c⟩

theorem ext2Open_steps (e : Ext2File) (part : MBRPartition) (fs : Ext2File)
    (h : ext2Open e part = some (fs, true)) :
    ∃ e1, ext2LoadSuperblock { e with part := part } = some (e1, true)
      ∧ ext2LoadBGDT e1 = some (fs, true) := by
  unfold ext2Open at h
  simp only at h
  split at h
  · simp at h
  · simp at h
  · rename_i e1 hs
    split at h
    · simp at h
    · simp at h
    · rename_i e2 hb
      simp only [Option.some.injEq, Prod.mk.injEq, and_true] at h
      subst h
      exact ⟨e1, hs, hb⟩

theorem ext2Open_geometry (e : Ext2File) (part : MBRPartition) (fs : Ext2File)
    (h : ext2Open e part = some (fs, true)) :
    fs.bgdt.len = fs.numBlockGroups ∧ 0 < fs.blockSize
    ∧ 0 < fs.sb.s_blocks_per_group
    ∧ fs.numBlockGroups
        = (fs.sb.s_blocks_count + fs.sb.s_blocks_per_group - 1) / fs.sb.s_blocks_per_group := by
  obtain ⟨e1, hs, hb⟩ := ext2Open_steps e part fs h
  obtain ⟨h1, h2, h3, h4⟩ := ext2LoadBGDT_fields e1 fs true hb
  have hg := numBlockGroups_eq _ e1 hs
  have hbpg := (ext2LoadSuperblock_true _ e1 hs).2.2.1
  have hbs := (ext2LoadBGDT_extent e1 fs true hb).2
  refine ⟨by rw [h1, h2], by rw [hbs]; exact h4, by rw [h3]; exact hbpg, ?_⟩
  rw [h2, h3]; exact hg

theorem group_lt_of_count_le (ipg groups count n : Nat) (hipg : 0 < ipg)
    (hcount : count ≤ groups * ipg) (h1 : 1 ≤ n) (hn : n ≤ count) :
    (n - 1) / ipg < groups := by
  rw [Nat.div_lt_iff_lt_mul hipg]
  omega

/-- C28. For every volume that `ext2Open` has opened, the bgdt vector has
`numBlockGroups` elements; and when the superblock has a non-zero
`s_inodes_per_group` and no more inodes than its block groups hold
(`s_inodes_count ≤ numBlockGroups * s_inodes_per_group`), then for every inode
number `n` with `1 ≤ n ≤ s_inodes_count` the group index `(n-1) /
s_inodes_per_group` is below `numBlockGroups`, and `bgdt[group]` exists. -/
theorem group_index_in_range (e : Ext2File) (part : MBRPartition) (fs : Ext2File)
    (h : ext2Open e part = some (fs, true)) :
    fs.bgdt.len = fs.numBlockGroups
    ∧ (0 < fs.sb.s_inodes_per_group →
        fs.sb.s_inodes_count ≤ fs.numBlockGroups * fs.sb.s_inodes_per_group →
        ∀ n, 1 ≤ n → n ≤ fs.sb.s_inodes_count →
          (n - 1) / fs.sb.s_inodes_per_group < fs.numBlockGroups
          ∧ (fs.bgdt.get? ((n - 1) / fs.sb.s_inodes_per_group)).isSome = true) := by
  have hlen := (ext2Open_geometry e part fs h).1
  refine ⟨hlen, fun hipg hcount n h1 hn => ?_⟩
  have hg := group_lt_of_count_le _ _ _ n hipg hcount h1 hn
  refine ⟨hg, ?_⟩
  rw [BGDTVector.get_of_lt _ _ (by rw [hlen]; exact hg)]
  rfl

theorem sampleFs_ext2Open :
    ext2Open Ext2File.fresh (openPartition (sampleHost false)) = some (sampleFs, true) := by
  rfl

/-- Witness of C28 on the sample volume (2 groups of 8192 inodes, 16384 inodes):
the last inode, 16384, is in group 1, which has a descriptor. -/
theorem group_index_in_range_witness :
    sampleFs.bgdt.len = 2 ∧ sampleFs.numBlockGroups = 2
    ∧ (16384 - 1) / sampleFs.sb.s_inodes_per_group < sampleFs.numBlockGroups
    ∧ (sampleFs.bgdt.get? ((16384 - 1) / sampleFs.sb.s_inodes_per_group)).isSome = true :=
  ⟨by decide, by decide,
    ((group_index_in_range Ext2File.fresh (openPartition (sampleHost false)) sampleFs
      sampleFs_ext2Open).2 (by decide) (by decide) 16384 (by decide) (by decide)).1,
    ((group_index_in_range Ext2File.fresh (openPartition (sampleHost false)) sampleFs
      sampleFs_ext2Open).2 (by decide) (by decide) 16384 (by decide) (by decide)).2⟩

/-- Counterexample to C28 as stated: `ext2Open` accepts the sample image with
`s_inodes_count = 24576`, where the volume has 2 block groups of 8192 inodes;
inode 16385 is within `s_inodes_count` and its group index is 2, not below
`numBlockGroups = 2` (`fetchInode(16385)` then indexes the vector past its
end). -/
theorem group_index_out_of_range :
    ext2Open Ext2File.fresh (openPartition manyHost) = some (manyFs, true)
    ∧ ¬ (∀ n, 1 ≤ n → n ≤ manyFs.sb.s_inodes_count →
          (n - 1) / manyFs.sb.s_inodes_per_group < manyFs.numBlockGroups)
    ∧ (fetchInode manyFs 16385 zeroMem).isNone = true := by
  refine ⟨rfl, ?_, by decide⟩
  intro hc
  have := hc 16385 (by decide) (by decide)
  revert this
  decide

/-! ## `ext2ReadBlock` and the layers beneath it (C29) -/

theorem vdiRead_le_clamped (vdi : VDIFile) (off : Nat) (buf : Mem) (count : Nat)
    (ho : off < vdi.diskSize) :
    (vdiRead vdi off buf count).2.2 ≤ ((min count (vdi.diskSize - off) : Nat) : Int) := by
  unfold vdiRead
  simp only
  have e3 : (if count > vdi.diskSize - off then vdi.diskSize - off else count)
      = min count (vdi.diskSize - off) := by
    split_ifs <;> omega
  rw [e3]
  generalize vdi.file.seekg (toInt64 ((vdi.frameOffset + off) % 18446744073709551616)) = f1
  rw [if_neg (by omega)]
  by_cases c2 : (!f1.good) = true
  · rw [if_pos c2]
    show (-1 : Int) ≤ _
    omega
  · rw [if_neg c2]
    show (((f1.read buf (min count (vdi.diskSize - off))).1.gcount : Nat) : Int) ≤ _
    rw [FStream.read_gcount]
    have := FStream.got_le f1 (min count (vdi.diskSize - off))
    split_ifs <;> omega

theorem mbrSeek_ok_fields (mp : MBRPartition) (c : Nat) (hc : c ≤ mp.sizeBytes)
    (h63 : c < 9223372036854775808) :
    ∃ mp1, mbrSeek mp (toInt64 c) = (mp1, true) ∧ mp1.vdi = mp.vdi ∧ mp1.parts = mp.parts
      ∧ mp1.startByte = mp.startByte ∧ mp1.sizeBytes = mp.sizeBytes ∧ mp1.cursor = c := by
  have ht := toInt64_of_lt c h63
  refine ⟨_, (mbrSeek_spec mp (toInt64 c)).1 (by rw [ht]; omega), rfl, rfl, rfl, rfl, ?_⟩
  show (toInt64 c).toNat = c
  rw [ht]; rfl

theorem layeredReadBlock_false_of (fs : Ext2File) (index : Nat) (buf : Mem)
    (h : (layeredReadBlock fs index buf).2.2 = false) :
    layeredReadBlock fs index buf
      = ((layeredReadBlock fs index buf).1, (layeredReadBlock fs index buf).2.1, false) := by
  conv => lhs; rw [show layeredReadBlock fs index buf
    = ((layeredReadBlock fs index buf).1, (layeredReadBlock fs index buf).2.1,
        (layeredReadBlock fs index buf).2.2) from rfl]
  rw [h]

theorem layeredReadBlock_seek_ok (fs : Ext2File) (index : Nat) (buf : Mem) (hr : fs.InRange)
    (hidx : index < 4294967296) (hc : index * fs.blockSize < fs.part.sizeBytes) :
    layeredReadBlock fs index buf
      = ({ fs.part with
           vdi := (vdiRead fs.part.vdi (fs.part.startByte + index * fs.blockSize) buf
                    (min fs.blockSize (fs.part.sizeBytes - index * fs.blockSize))).1
           cursor :=
             if 0 < (vdiRead fs.part.vdi (fs.part.startByte + index * fs.blockSize) buf
                      (min fs.blockSize (fs.part.sizeBytes - index * fs.blockSize))).2.2
             then index * fs.blockSize
               + (vdiRead fs.part.vdi (fs.part.startByte + index * fs.blockSize) buf
                      (min fs.blockSize (fs.part.sizeBytes - index * fs.blockSize))).2.2.toNat
             else index * fs.blockSize },
          (vdiRead fs.part.vdi (fs.part.startByte + index * fs.blockSize) buf
            (min fs.blockSize (fs.part.sizeBytes - index * fs.blockSize))).2.1,
          decide ((vdiRead fs.part.vdi (fs.part.startByte + index * fs.blockSize) buf
            (min fs.blockSize (fs.part.sizeBytes - index * fs.blockSize))).2.2
              = (fs.blockSize : Int))) := by
  obtain ⟨h1, h2, h3, h4⟩ := hr
  have hmul : index * fs.blockSize ≤ 4294967295 * 4294967295 :=
    Nat.mul_le_mul (by omega) (by omega)
  have e1 : (index * fs.blockSize) % 18446744073709551616 = index * fs.blockSize :=
    Nat.mod_eq_of_lt (by omega)
  obtain ⟨mp1, hmp, hv, hp, hst, hsz, hcur⟩ :=
    mbrSeek_ok_fields fs.part (index * fs.blockSize) (by omega) (by omega)
  have hR := mbrRead_eq mp1 buf fs.blockSize ⟨by rw [hv]; exact h2, by rw [hst]; exact h3,
    by rw [hsz]; exact h4⟩ (by rw [hcur, hsz]; exact hc)
  unfold layeredReadBlock
  simp only [e1, hmp, Bool.not_true, Bool.false_eq_true, if_false]
  rw [hR]
  simp only [hv, hp, hst, hsz, hcur]

theorem layeredReadBlock_eq (fs : Ext2File) (index : Nat) (buf : Mem) (hr : fs.InRange)
    (hidx : index < 4294967296) (hbs : 0 < fs.blockSize) :
    layeredReadBlock fs index buf =
      if index * fs.blockSize + fs.blockSize > fs.part.sizeBytes then
        ((layeredReadBlock fs index buf).1, (layeredReadBlock fs index buf).2.1, false)
      else if fs.part.startByte + index * fs.blockSize + fs.blockSize
          > fs.part.vdi.diskSize then
        ((layeredReadBlock fs index buf).1, (layeredReadBlock fs index buf).2.1, false)
      else if !(fs.part.vdi.file.seekg ((physOffset fs index : Nat) : Int)).good then
        ((layeredReadBlock fs index buf).1, (layeredReadBlock fs index buf).2.1, false)
      else if (physRead fs index buf).1.gcount < fs.blockSize then
        ((layeredReadBlock fs index buf).1, (layeredReadBlock fs index buf).2.1, false)
      else
        ({ fs.part with
           vdi := { fs.part.vdi with file := (physRead fs index buf).1 }
           cursor := index * fs.blockSize + fs.blockSize },
          (physRead fs index buf).2, true) := by
  have hr2 := hr
  obtain ⟨h1, h2, h3, h4⟩ := hr
  have hmul : index * fs.blockSize ≤ 4294967295 * 4294967295 :=
    Nat.mul_le_mul (by omega) (by omega)
  have e1 : (index * fs.blockSize) % 18446744073709551616 = index * fs.blockSize :=
    Nat.mod_eq_of_lt (by omega)
  by_cases c1 : index * fs.blockSize + fs.blockSize > fs.part.sizeBytes
  · rw [if_pos c1]
    apply layeredReadBlock_false_of
    by_cases hc : index * fs.blockSize < fs.part.sizeBytes
    · rw [layeredReadBlock_seek_ok fs index buf hr2 hidx hc]
      have hle := vdiRead_le fs.part.vdi (fs.part.startByte + index * fs.blockSize) buf
        (min fs.blockSize (fs.part.sizeBytes - index * fs.blockSize))
      simp only [decide_eq_false_iff_not]
      intro hcon
      rw [hcon] at hle
      omega
    · unfold layeredReadBlock
      simp only [e1]
      by_cases hs : 0 ≤ toInt64 (index * fs.blockSize)
          ∧ toInt64 (index * fs.blockSize) ≤ (fs.part.sizeBytes : Int)
      · have h63 : index * fs.blockSize < 9223372036854775808 := by
          by_contra hcon
          have hneg := hs.1
          unfold toInt64 at hneg
          rw [e1, if_neg hcon] at hneg
          omega
        have ht : toInt64 (index * fs.blockSize) = ((index * fs.blockSize : Nat) : Int) :=
          toInt64_of_lt _ h63
        rw [ht] at hs
        have hceq : index * fs.blockSize = fs.part.sizeBytes := by omega
        obtain ⟨mp1, hmp, hv, hp, hst, hsz, hcur⟩ :=
          mbrSeek_ok_fields fs.part (index * fs.blockSize) (by omega) (by omega)
        simp only [hmp, Bool.not_true, Bool.false_eq_true, if_false]
        unfold mbrRead
        rw [if_pos (by rw [hcur, hsz]; omega)]
        simp only [decide_eq_false_iff_not]
        omega
      · rw [(mbrSeek_spec fs.part _).2 hs]
        simp only [Bool.not_false, if_true]
  · rw [if_neg c1]
    have hc : index * fs.blockSize < fs.part.sizeBytes := by omega
    have hmin : min fs.blockSize (fs.part.sizeBytes - index * fs.blockSize) = fs.blockSize := by
      omega
    have hL := layeredReadBlock_seek_ok fs index buf hr2 hidx hc
    rw [hmin] at hL
    by_cases c2 : fs.part.startByte + index * fs.blockSize + fs.blockSize
        > fs.part.vdi.diskSize
    · rw [if_pos c2]
      apply layeredReadBlock_false_of
      rw [hL]
      simp only [decide_eq_false_iff_not]
      intro hcon
      by_cases ho : fs.part.startByte + index * fs.blockSize < fs.part.vdi.diskSize
      · have := vdiRead_le_clamped fs.part.vdi (fs.part.startByte + index * fs.blockSize) buf
          fs.blockSize ho
        rw [hcon] at this
        omega
      · rw [vdiRead_of_ge _ _ _ _ (by omega)] at hcon
        simp only at hcon
        omega
    · rw [if_neg c2]
      have ho : fs.part.startByte + index * fs.blockSize < fs.part.vdi.diskSize := by omega
      have hphys : fs.part.vdi.frameOffset + (fs.part.startByte + index * fs.blockSize)
          = physOffset fs index := by
        unfold physOffset; omega
      have hV := vdiRead_eq fs.part.vdi (fs.part.startByte + index * fs.blockSize) buf
        fs.blockSize ho (by omega)
      have hmin2 : min fs.blockSize
          (fs.part.vdi.diskSize - (fs.part.startByte + index * fs.blockSize))
          = fs.blockSize := by omega
      rw [hphys, hmin2] at hV
      have e6 := physOffset_toInt64 fs index hr2 (by omega)
      have hpr : physRead fs index buf
          = (fs.part.vdi.file.seekg ((physOffset fs index : Nat) : Int)).read buf
              fs.blockSize := by
        unfold physRead; rw [e6]
      by_cases c3 : (!(fs.part.vdi.file.seekg ((physOffset fs index : Nat) : Int)).good)
          = true
      · rw [if_pos c3]
        apply layeredReadBlock_false_of
        rw [hL, hV, if_pos c3]
        simp only [decide_eq_false_iff_not]
        omega
      · rw [if_neg c3]
        rw [if_neg c3, ← hpr] at hV
        by_cases c4 : (physRead fs index buf).1.gcount < fs.blockSize
        · rw [if_pos c4]
          apply layeredReadBlock_false_of
          rw [hL, hV]
          simp only [decide_eq_false_iff_not]
          omega
        · rw [if_neg c4]
          have hgc : (physRead fs index buf).1.gcount = fs.blockSize := by
            have := FStream.got_le
              (fs.part.vdi.file.seekg ((physOffset fs index : Nat) : Int)) fs.blockSize
            have h5 : (physRead fs index buf).1.gcount ≤ fs.blockSize := by
              rw [hpr, FStream.read_gcount]
              split_ifs <;> omega
            omega
          rw [hL, hV]
          simp only [hgc]
          rw [if_pos (by omega)]
          simp only [Int.toNat_ofNat, decide_True]

theorem openVolume_ext2Open (host : Option HostFile) (index : Int) (fs : Ext2File)
    (h : openVolume host index = some fs) :
    ∃ part, ext2Open Ext2File.fresh part = some (fs, true) := by
  unfold openVolume at h
  simp only at h
  split_ifs at h with c1 c2
  split at h
  · rename_i fs1 he
    simp only [Option.some.injEq] at h
    subst h
    exact ⟨_, he⟩
  · exact absurd h (by simp)

theorem ext2ReadBlock_layers (fs : Ext2File) (index : Nat) (buf : Mem) (hr : fs.InRange)
    (hidx : index < 4294967296) (hbs : 0 < fs.blockSize) :
    (ext2ReadBlock fs index buf).2.2 = (layeredReadBlock fs index buf).2.2
    ∧ ((ext2ReadBlock fs index buf).2.2 = true →
        (ext2ReadBlock fs index buf).2.1 = (layeredReadBlock fs index buf).2.1
        ∧ (ext2ReadBlock fs index buf).1.part.vdi = (layeredReadBlock fs index buf).1.vdi
        ∧ (layeredReadBlock fs index buf).1.cursor = index * fs.blockSize + fs.blockSize)
    ∧ (ext2ReadBlock fs index buf).1.part.cursor = fs.part.cursor := by
  have hE := ext2ReadBlock_eq fs index buf hr hidx
  have hL := layeredReadBlock_eq fs index buf hr hidx hbs
  by_cases c1 : index * fs.blockSize + fs.blockSize > fs.part.sizeBytes
  · rw [if_pos c1] at hE hL
    rw [hE, hL]
    exact ⟨rfl, fun h => Bool.noConfusion h, rfl⟩
  · rw [if_neg c1] at hE hL
    by_cases c2 : fs.part.startByte + index * fs.blockSize + fs.blockSize
        > fs.part.vdi.diskSize
    · rw [if_pos c2] at hE hL
      rw [hE, hL]
      exact ⟨rfl, fun h => Bool.noConfusion h, rfl⟩
    · rw [if_neg c2] at hE hL
      by_cases c3 : (!(fs.part.vdi.file.seekg ((physOffset fs index : Nat) : Int)).good)
          = true
      · rw [if_pos c3] at hE hL
        rw [hE, hL]
        exact ⟨rfl, fun h => Bool.noConfusion h, rfl⟩
      · rw [if_neg c3] at hE hL
        by_cases c4 : (physRead fs index buf).1.gcount < fs.blockSize
        · rw [if_pos c4] at hE hL
          rw [hE, hL]
          exact ⟨rfl, fun h => Bool.noConfusion h, rfl⟩
        · rw [if_neg c4] at hE hL
          rw [hE, hL]
          exact ⟨rfl, fun _ => ⟨rfl, rfl, rfl⟩, rfl⟩

/-- C29. On an opened volume, whatever the state of the stream and the partition
cursor afterwards, `ext2ReadBlock fs index buf` succeeds exactly when `mbrSeek` to
`index * blockSize` followed by `mbrRead` of `blockSize` bytes returns `blockSize`
(the result of `layeredReadBlock`); on success both deliver the same buffer and
leave the container and its stream in the same state, the layered route with the
cursor at the end of the block, and `ext2ReadBlock` never moves the partition
cursor. -/
theorem ext2ReadBlock_matches_layers (host : Option HostFile) (i : Int) (fs0 : Ext2File)
    (hopen : openVolume host i = some fs0) (f : FStream) (c : Nat) (fs : Ext2File)
    (hfs : fs = (fs0.setFile f).setCursor c) (index : Nat) (hidx : index < 4294967296)
    (buf : Mem) :
    (ext2ReadBlock fs index buf).2.2 = (layeredReadBlock fs index buf).2.2
    ∧ ((ext2ReadBlock fs index buf).2.2 = true →
        (ext2ReadBlock fs index buf).2.1 = (layeredReadBlock fs index buf).2.1
        ∧ (ext2ReadBlock fs index buf).1.part.vdi = (layeredReadBlock fs index buf).1.vdi
        ∧ (layeredReadBlock fs index buf).1.cursor = index * fs.blockSize + fs.blockSize)
    ∧ (ext2ReadBlock fs index buf).1.part.cursor = c := by
  have hr := openVolume_inRange host i fs0 hopen
  obtain ⟨part, hp⟩ := openVolume_ext2Open host i fs0 hopen
  have hbs := (ext2Open_geometry _ _ _ hp).2.1
  subst hfs
  exact ext2ReadBlock_layers _ index buf ⟨hr.1, hr.2, hr.3, hr.4⟩ hidx hbs

theorem ext2ReadBlock_matches_layers_witness :
    openVolume (some (sampleHost false)) 0 = some sampleFs
    ∧ sampleFsLater = (sampleFs.setFile sampleFs.part.vdi.file).setCursor 7
    ∧ (4 : Nat) < 4294967296
    ∧ (ext2ReadBlock sampleFsLater 4 zeroMem).2.2 = true
    ∧ (ext2ReadBlock sampleFsLater 4 zeroMem).2.2
        = (layeredReadBlock sampleFsLater 4 zeroMem).2.2
    ∧ ((ext2ReadBlock sampleFsLater 4 zeroMem).2.2 = true →
        (ext2ReadBlock sampleFsLater 4 zeroMem).2.1
            = (layeredReadBlock sampleFsLater 4 zeroMem).2.1
        ∧ (ext2ReadBlock sampleFsLater 4 zeroMem).1.part.vdi
            = (layeredReadBlock sampleFsLater 4 zeroMem).1.vdi
        ∧ (layeredReadBlock sampleFsLater 4 zeroMem).1.cursor
            = 4 * sampleFsLater.blockSize + sampleFsLater.blockSize)
    ∧ (ext2ReadBlock sampleFsLater 4 zeroMem).1.part.cursor = 7 :=
  ⟨rfl, rfl, by decide, by decide,
    ext2ReadBlock_matches_layers (some (sampleHost false)) 0 sampleFs rfl
      sampleFs.part.vdi.file 7 sampleFsLater rfl 4 (by decide) zeroMem⟩

/-! ## The header overlay of `vdi.cpp` (C32) -/

theorem pread_zero (hf : HostFile) (buf : Mem) (count : Nat) (hc : count ≤ hf.size) :
    pread hf buf count 0 = (memcpy buf 0 hf.data 0 count, (count : Int)) := by
  unfold pread
  have : min count (hf.size - 0) = count := by omega
  simp only [this]

theorem vdiCpp_offsets :
    VdiCpp.offsetOf .signature = 0x40 ∧ VdiCpp.offsetOf .imageType = 0x4C
    ∧ VdiCpp.offsetOf .offsetBlocks = 0x154 ∧ VdiCpp.offsetOf .offsetData = 0x158
    ∧ VdiCpp.offsetOf .sectorSize = 0x15C ∧ VdiCpp.offsetOf .diskSize = 0x164
    ∧ VdiCpp.sizeofVDIHeader = 380 := by decide

theorem vdiCpp_vdiOpen_fields (hf : HostFile) (fd : Int) (fresh : Mem)
    (hs : 380 ≤ hf.size) :
    (VdiCpp.vdiOpen (some hf) fd fresh).map
        (fun v => (v.header.signature, v.header.imageType, v.header.offsetBlocks,
          v.header.offsetData, v.header.diskSize))
      = some (le32 hf.data 0x40, le32 hf.data 0x4C, le32 hf.data 0x154, le32 hf.data 0x158,
          le64 hf.data 0x164) := by
  obtain ⟨o1, o2, o3, o4, -, o6, o7⟩ := vdiCpp_offsets
  unfold VdiCpp.vdiOpen
  simp only [Option.map_some', Option.some.injEq]
  rw [o7, pread_zero hf fresh 380 hs]
  simp only [VdiCpp.VDIHeader.signature, VdiCpp.VDIHeader.imageType,
    VdiCpp.VDIHeader.offsetBlocks, VdiCpp.VDIHeader.offsetData, VdiCpp.VDIHeader.diskSize,
    o1, o2, o3, o4, o6]
  rw [le32_memcpy _ _ _ _ (by omega), le32_memcpy _ _ _ _ (by omega),
    le32_memcpy _ _ _ _ (by omega), le32_memcpy _ _ _ _ (by omega),
    le64_memcpy _ _ _ _ (by omega)]

/-- C32 (the code on this claim). For every file with a header block of 400
bytes, `vdiOpen` of `vdi.cpp` decodes through its packed record the signature
at 0x40, the image type at 0x4C, `offsetBlocks` at 0x154 and `offsetData` at
0x158, the offsets of the format table, and `offsetData` equals the
`frameOffset` that `vdiOpen` of `step4_only.cpp` decodes; but the member
`diskSize` of the record lies at offset 0x164, so `header.diskSize` is the
64-bit value at 0x164, while `step4_only.cpp` takes `diskSize` from 0x170. -/
theorem vdiHeader_overlay_diskSize_at_0x164 (hf : HostFile) (fd : Int) (fresh : Mem)
    (hs : 400 ≤ hf.size) :
    VdiCpp.offsetOf .diskSize = 0x164
    ∧ (VdiCpp.vdiOpen (some hf) fd fresh).map
        (fun v => (v.header.signature, v.header.imageType, v.header.offsetBlocks,
          v.header.offsetData, v.header.diskSize))
      = some (le32 hf.data 0x40, le32 hf.data 0x4C, le32 hf.data 0x154, le32 hf.data 0x158,
          le64 hf.data 0x164)
    ∧ (vdiOpen VDIFile.fresh (some hf)).2 = true
    ∧ (vdiOpen VDIFile.fresh (some hf)).1.frameOffset = le32 hf.data 0x158
    ∧ (vdiOpen VDIFile.fresh (some hf)).1.diskSize = le64 hf.data 0x170 := by
  refine ⟨vdiCpp_offsets.2.2.2.2.2.1, vdiCpp_vdiOpen_fields hf fd fresh (by omega), ?_⟩
  rw [vdiOpen_true VDIFile.fresh hf rfl hs]
  exact ⟨rfl, rfl, rfl⟩

/-- Witness of C32 on the sample image, whose header declares a disk of 128 MiB
at 0x170 and has zero bytes at 0x164: `vdi.cpp` obtains `diskSize = 0`,
`step4_only.cpp` obtains 134217728; both obtain the data offset 512. -/
theorem vdiHeader_overlay_diskSize_at_0x164_witness :
    400 ≤ (sampleHost false).size
    ∧ le64 (sampleHost false).data 0x164 = 0
    ∧ le64 (sampleHost false).data 0x170 = 134217728
    ∧ le32 (sampleHost false).data 0x158 = 512
    ∧ (VdiCpp.offsetOf .diskSize = 0x164
      ∧ (VdiCpp.vdiOpen (some (sampleHost false)) 3 zeroMem).map
          (fun v => (v.header.signature, v.header.imageType, v.header.offsetBlocks,
            v.header.offsetData, v.header.diskSize))
        = some (le32 (sampleHost false).data 0x40, le32 (sampleHost false).data 0x4C,
            le32 (sampleHost false).data 0x154, le32 (sampleHost false).data 0x158,
            le64 (sampleHost false).data 0x164)
      ∧ (vdiOpen VDIFile.fresh (some (sampleHost false))).2 = true
      ∧ (vdiOpen VDIFile.fresh (some (sampleHost false))).1.frameOffset
          = le32 (sampleHost false).data 0x158
      ∧ (vdiOpen VDIFile.fresh (some (sampleHost false))).1.diskSize
          = le64 (sampleHost false).data 0x170) :=
  ⟨by decide, by decide, by decide, by decide,
    vdiHeader_overlay_diskSize_at_0x164 (sampleHost false) 3 zeroMem (by decide)⟩

/-! ## The partition extent of `partition.cpp` (C33) -/

theorem openPartitionCpp_eq (hf : HostFile) (fd : Int) (stack : Mem) (partNum : Int)
    (hs : 512 ≤ hf.size) (h0 : 0 ≤ partNum) (h3 : partNum ≤ 3) :
    PartitionCpp.openPartition (some hf) fd stack partNum =
      if le32 hf.data (446 + 16 * partNum.toNat + 12) = 0 then none
      else
        some { fd := fd, cursor := 0
               partitionStart :=
                 (le32 hf.data (446 + 16 * partNum.toNat + 8) * 512) % 4294967296
               partitionSize :=
                 (le32 hf.data (446 + 16 * partNum.toNat + 12) * 512) % 4294967296 } := by
  unfold PartitionCpp.openPartition
  simp only
  have e : PartitionCpp.sizeofMBR = 512 := rfl
  rw [e, pread_zero hf stack 512 hs]
  simp only [PartitionCpp.sectorCount, PartitionCpp.firstLBASector]
  rw [le32_memcpy _ _ _ _ (by omega), le32_memcpy _ _ _ _ (by omega)]
  by_cases c : le32 hf.data (446 + 16 * partNum.toNat + 12) = 0
  · rw [if_pos c, if_pos (Or.inr (Or.inr c))]
  · rw [if_neg c, if_neg (by
      intro hcon
      rcases hcon with hcon | hcon | hcon
      · omega
      · omega
      · exact c hcon)]

theorem le32_congr (m1 m2 : Mem) (o1 o2 : Nat)
    (h : ∀ j, j < 4 → m1 (o1 + j) = m2 (o2 + j)) : le32 m1 o1 = le32 m2 o2 := by
  unfold le32
  have h0 := h 0 (by omega)
  have h1 := h 1 (by omega)
  have h2 := h 2 (by omega)
  have h3 := h 3 (by omega)
  simp only [Nat.add_zero] at h0
  rw [h0, h1, h2, h3]

theorem mbrOpen_after_vdiOpen (hf : HostFile) (index : Int) (hs : 400 ≤ hf.size)
    (hdisk : 512 ≤ le64 hf.data 0x170) (hfile : le32 hf.data 0x158 + 512 ≤ hf.size)
    (h0 : 0 ≤ index) (h3 : index ≤ 3) :
    (mbrOpen MBRPartition.fresh (vdiOpen VDIFile.fresh (some hf)).1 index).2 = true
    ∧ (mbrOpen MBRPartition.fresh (vdiOpen VDIFile.fresh (some hf)).1 index).1.startByte
        = le32 hf.data (le32 hf.data 0x158 + (446 + 16 * index.toNat + 8)) * 512
    ∧ (mbrOpen MBRPartition.fresh (vdiOpen VDIFile.fresh (some hf)).1 index).1.sizeBytes
        = le32 hf.data (le32 hf.data 0x158 + (446 + 16 * index.toNat + 12)) * 512 := by
  have hv := vdiOpen_true VDIFile.fresh hf rfl hs
  generalize hvd : (vdiOpen VDIFile.fresh (some hf)).1 = v
  rw [hv] at hvd
  simp only at hvd
  have hfo : v.frameOffset = le32 hf.data 0x158 := by rw [← hvd]
  have hds : v.diskSize = le64 hf.data 0x170 := by rw [← hvd]
  have hdat : v.file.data = hf.data := by rw [← hvd]
  have hsz : v.file.size = hf.size := by rw [← hvd]
  have hfail : v.file.fail = false := by rw [← hvd]; rfl
  have hop : v.file.isOpen = true := by rw [← hvd]
  have hin : v.file.modeIn = true := by rw [← hvd]
  have hlt := le32_lt hf.data 0x158
  have hR := vdiRead_eq v 0 zeroMem 512 (by omega) (by omega)
  obtain ⟨g1, g2, g3, g4, g5⟩ := FStream.seekg_read_ok v.file (v.frameOffset + 0) zeroMem 512
    hfail hop hin (by omega)
  have hmin : min 512 (v.diskSize - 0) = 512 := by omega
  rw [hmin, if_neg (by rw [g1]; decide)] at hR
  have hgot : (vdiRead v 0 zeroMem 512).2.2 = 512 := by
    rw [hR]; simp only; rw [g2]; rfl
  have hbuf : ∀ j, j < 512 → (vdiRead v 0 zeroMem 512).2.1 j = hf.data (le32 hf.data 0x158 + j) := by
    intro j hj
    have := vdiRead_bytes v 0 zeroMem 512 (by omega) j (by rw [hgot]; omega)
    rw [this, hdat, hfo]
    rfl
  have hM := mbrOpen_ok MBRPartition.fresh v index (by rw [hgot]) h0 h3
  rw [hM]
  have hi : index.toNat < 4 := by omega
  refine ⟨rfl, ?_, ?_⟩
  · show (parseEntry (vdiRead v 0 zeroMem 512).2.1 index.toNat).firstLBA * 512 = _
    congr 1
    show le32 (vdiRead v 0 zeroMem 512).2.1 (446 + index.toNat * 16 + 8) = _
    apply le32_congr
    intro j hj
    rw [hbuf _ (by omega)]
    congr 1
    omega
  · show (parseEntry (vdiRead v 0 zeroMem 512).2.1 index.toNat).sectorCount * 512 = _
    congr 1
    show le32 (vdiRead v 0 zeroMem 512).2.1 (446 + index.toNat * 16 + 12) = _
    apply le32_congr
    intro j hj
    rw [hbuf _ (by omega)]
    congr 1
    omega

/-- C33 (the code on this claim). For every image file that `vdiOpen` accepts
and whose disk has its first sector in the file, and every index in 0..3:
`vdiOpen` + `mbrOpen` of `step4_only.cpp` take the entry from the boot sector of
the disk, at file offset `frameOffset + 446 + 16*index`, and form the exact
products; `openPartition` of `partition.cpp` takes the entry from file offset
`446 + 16*index`, where the container header lies, returns no partition when
the count found there is 0, and forms both products modulo 2^32. -/
theorem openPartition_extent_differs (hf : HostFile) (fd : Int) (stack : Mem) (index : Int)
    (hs : 400 ≤ hf.size) (hdisk : 512 ≤ le64 hf.data 0x170)
    (hfile : le32 hf.data 0x158 + 512 ≤ hf.size) (h0 : 0 ≤ index) (h3 : index ≤ 3) :
    ((mbrOpen MBRPartition.fresh (vdiOpen VDIFile.fresh (some hf)).1 index).2 = true
      ∧ (mbrOpen MBRPartition.fresh (vdiOpen VDIFile.fresh (some hf)).1 index).1.startByte
          = le32 hf.data (le32 hf.data 0x158 + (446 + 16 * index.toNat + 8)) * 512
      ∧ (mbrOpen MBRPartition.fresh (vdiOpen VDIFile.fresh (some hf)).1 index).1.sizeBytes
          = le32 hf.data (le32 hf.data 0x158 + (446 + 16 * index.toNat + 12)) * 512)
    ∧ PartitionCpp.openPartition (some hf) fd stack index =
        if le32 hf.data (446 + 16 * index.toNat + 12) = 0 then none
        else
          some { fd := fd, cursor := 0
                 partitionStart :=
                   (le32 hf.data (446 + 16 * index.toNat + 8) * 512) % 4294967296
                 partitionSize :=
                   (le32 hf.data (446 + 16 * index.toNat + 12) * 512) % 4294967296 } :=
  ⟨mbrOpen_after_vdiOpen hf index hs hdisk hfile h0 h3,
    openPartitionCpp_eq hf fd stack index (by omega) h0 h3⟩

/-- Witness of C33.  On the sample image (data offset 512, entry 0 of the boot
sector with `firstLBA = 2048` and `sectorCount = 204800`) `step4_only.cpp` obtains
the extent (1048576, 104857600) and `partition.cpp`, which finds a zero count at
file offset 458, no partition.  On the image without a container in front (data
offset 0, `firstLBA = 0x800000`, `sectorCount = 0x800800`), where both read the
same entry, `step4_only.cpp` obtains (2^32, 2^32 + 1048576) and `partition.cpp`
(0, 1048576). -/
theorem openPartition_extent_differs_witness :
    (400 ≤ (sampleHost false).size ∧ 512 ≤ le64 (sampleHost false).data 0x170
      ∧ le32 (sampleHost false).data 0x158 + 512 ≤ (sampleHost false).size
      ∧ (openPartition (sampleHost false)).startByte = 1048576
      ∧ (openPartition (sampleHost false)).sizeBytes = 104857600
      ∧ (PartitionCpp.openPartition (some (sampleHost false)) 3 zeroMem 0).isNone = true
      ∧ (((mbrOpen MBRPartition.fresh (vdiOpen VDIFile.fresh (some (sampleHost false))).1 0).2 = true
        ∧ (mbrOpen MBRPartition.fresh (vdiOpen VDIFile.fresh (some (sampleHost false))).1 0).1.startByte
            = le32 (sampleHost false).data
                (le32 (sampleHost false).data 0x158 + (446 + 16 * (0 : Int).toNat + 8)) * 512
        ∧ (mbrOpen MBRPartition.fresh (vdiOpen VDIFile.fresh (some (sampleHost false))).1 0).1.sizeBytes
            = le32 (sampleHost false).data
                (le32 (sampleHost false).data 0x158 + (446 + 16 * (0 : Int).toNat + 12)) * 512)
      ∧ PartitionCpp.openPartition (some (sampleHost false)) 3 zeroMem 0 =
          if le32 (sampleHost false).data (446 + 16 * (0 : Int).toNat + 12) = 0 then none
          else
            some { fd := 3, cursor := 0
                   partitionStart :=
                     (le32 (sampleHost false).data (446 + 16 * (0 : Int).toNat + 8) * 512)
                       % 4294967296
                   partitionSize :=
                     (le32 (sampleHost false).data (446 + 16 * (0 : Int).toNat + 12) * 512)
                       % 4294967296 }))
    ∧ (400 ≤ rawHost.size ∧ 512 ≤ le64 rawHost.data 0x170
      ∧ le32 rawHost.data 0x158 + 512 ≤ rawHost.size
      ∧ (openPartition rawHost).startByte = 4294967296
      ∧ (openPartition rawHost).sizeBytes = 4296015872
      ∧ (PartitionCpp.openPartition (some rawHost) 3 zeroMem 0).map
          (fun p => (p.partitionStart, p.partitionSize)) = some (0, 1048576)
      ∧ (((mbrOpen MBRPartition.fresh (vdiOpen VDIFile.fresh (some rawHost)).1 0).2 = true
        ∧ (mbrOpen MBRPartition.fresh (vdiOpen VDIFile.fresh (some rawHost)).1 0).1.startByte
            = le32 rawHost.data
                (le32 rawHost.data 0x158 + (446 + 16 * (0 : Int).toNat + 8)) * 512
        ∧ (mbrOpen MBRPartition.fresh (vdiOpen VDIFile.fresh (some rawHost)).1 0).1.sizeBytes
            = le32 rawHost.data
                (le32 rawHost.data 0x158 + (446 + 16 * (0 : Int).toNat + 12)) * 512)
      ∧ PartitionCpp.openPartition (some rawHost) 3 zeroMem 0 =
          if le32 rawHost.data (446 + 16 * (0 : Int).toNat + 12) = 0 then none
          else
            some { fd := 3, cursor := 0
                   partitionStart :=
                     (le32 rawHost.data (446 + 16 * (0 : Int).toNat + 8) * 512)
                       % 4294967296
                   partitionSize :=
                     (le32 rawHost.data (446 + 16 * (0 : Int).toNat + 12) * 512)
                       % 4294967296 })) :=
  ⟨⟨by decide, by decide, by decide, by decide, by decide, by decide,
      openPartition_extent_differs (sampleHost false) 3 zeroMem 0 (by decide) (by decide)
        (by decide) (by decide) (by decide)⟩,
    ⟨by decide, by decide, by decide, by decide, by decide, by decide,
      openPartition_extent_differs rawHost 3 zeroMem 0 (by decide) (by decide)
        (by decide) (by decide) (by decide)⟩⟩

/-! ## The slots of the inode table (C35) -/

theorem slot_lt_arith (bs sz q a b : Nat) (hq : 0 < q) (hqs : q * sz ≤ bs) (hab : a < b) :
    a / q * bs + a % q * sz + sz ≤ b / q * bs + b % q * sz := by
  have ha := Nat.div_add_mod a q
  have hb := Nat.div_add_mod b q
  have hra := Nat.mod_lt a hq
  have hrb := Nat.mod_lt b hq
  have hdle : a / q ≤ b / q := Nat.div_le_div_right (Nat.le_of_lt hab)
  rcases Nat.eq_or_lt_of_le hdle with heq | hlt
  · rw [heq] at ha ⊢
    have hr : a % q + 1 ≤ b % q := by omega
    have := Nat.mul_le_mul_right sz hr
    rw [Nat.add_mul, Nat.one_mul] at this
    omega
  · have h1 : a % q * sz + sz ≤ q * sz := by
      have := Nat.mul_le_mul_right sz (show a % q + 1 ≤ q by omega)
      rw [Nat.add_mul, Nat.one_mul] at this
      exact this
    have h2 : (a / q + 1) * bs ≤ b / q * bs := Nat.mul_le_mul_right bs hlt
    rw [Nat.add_mul, Nat.one_mul] at h2
    omega

theorem slots_disjoint_aux (fs : Ext2File) (n m : Nat)
    (his : 0 < fs.inodeSize) (hle : fs.inodeSize ≤ fs.blockSize)
    (hn : 1 ≤ n) (hm : 1 ≤ m) (hnm : n < m)
    (hg : (fs.address n).group = (fs.address m).group) :
    fs.slotOffset n + fs.inodeSize ≤ fs.slotOffset m := by
  unfold Ext2File.slotOffset Ext2File.address specInodeAddress at *
  simp only at hg ⊢
  have hq : 0 < fs.blockSize / fs.inodeSize := Nat.div_pos hle his
  have hqs : fs.blockSize / fs.inodeSize * fs.inodeSize ≤ fs.blockSize :=
    Nat.div_mul_le_self _ _
  apply slot_lt_arith _ _ _ _ _ hq hqs
  have h1 := Nat.div_add_mod (n - 1) fs.sb.s_inodes_per_group
  have h2 := Nat.div_add_mod (m - 1) fs.sb.s_inodes_per_group
  rw [hg] at h1
  omega

/-- C35. For every block size, inode size and number of inodes per group with
`0 < inodeSize ≤ blockSize` and `inodesPerGroup > 0`, and two distinct inode
numbers `n`, `m ≥ 1` of the same group: the slots of `inodeSize` bytes that
start at `(indexInGroup / inodesPerBlock) * blockSize + byteOffset` relative to
the inode table of the group are disjoint; each slot lies inside its block; `n`
is `group * inodesPerGroup + indexInGroup + 1`; the byte that `fetchInode` and
`writeInode` address in the file is the start of the inode table plus the
relative start of the slot; and where the arithmetic of the code is defined,
`fetchInode` and `writeInode` work on the block and byte offset of that
address. -/
theorem inode_slots_disjoint (fs : Ext2File) (n m : Nat)
    (his : 0 < fs.inodeSize) (hle : fs.inodeSize ≤ fs.blockSize)
    (hipg : 0 < fs.sb.s_inodes_per_group)
    (hn : 1 ≤ n) (hm : 1 ≤ m) (hne : n ≠ m)
    (hg : (fs.address n).group = (fs.address m).group) :
    (fs.slotOffset n + fs.inodeSize ≤ fs.slotOffset m
      ∨ fs.slotOffset m + fs.inodeSize ≤ fs.slotOffset n)
    ∧ (fs.address n).byteOffset + fs.inodeSize ≤ fs.blockSize
    ∧ n = (fs.address n).group * fs.sb.s_inodes_per_group + (fs.address n).indexInGroup + 1
    ∧ (fs.address n).indexInGroup < fs.sb.s_inodes_per_group
    ∧ physOffset fs (fs.address n).block + (fs.address n).byteOffset
        = physOffset fs (fs.inodeTable (fs.address n).group) + fs.slotOffset n
    ∧ (fs.AddressDefined n →
        (∀ buf, n ≤ fs.sb.s_inodes_count →
          fetchInode fs n buf
            = fetchInodeAt fs (fs.address n).block (fs.address n).byteOffset buf)
        ∧ (∀ X, writeInode fs n X
            = writeInodeAt fs (fs.address n).block (fs.address n).byteOffset X)) := by
  have hq : 0 < fs.blockSize / fs.inodeSize := Nat.div_pos hle his
  refine ⟨?_, ?_, ?_, ?_, ?_, ?_⟩
  · rcases Nat.lt_or_gt_of_ne hne with h | h
    · exact Or.inl (slots_disjoint_aux fs n m his hle hn hm h hg)
    · exact Or.inr (slots_disjoint_aux fs m n his hle hm hn h hg.symm)
  · rcases fs.byteOffset_le n with h | h
    · exact h
    · omega
  · unfold Ext2File.address specInodeAddress
    simp only
    have := Nat.div_add_mod (n - 1) fs.sb.s_inodes_per_group
    rw [Nat.mul_comm] at this
    omega
  · unfold Ext2File.address specInodeAddress
    exact Nat.mod_lt _ hipg
  · unfold physOffset Ext2File.slotOffset Ext2File.address specInodeAddress
    simp only
    rw [Nat.add_mul]
    omega
  · intro hd
    exact ⟨fun buf hc => fetchInode_eq fs n buf hd hc, fun X => writeInode_eq fs n X hd⟩

/-- Witness of C35 on the sample volume (1 KiB blocks, 128-byte inodes, 8192
inodes per group): inodes 8 and 9 of group 0 have their slots at 896 and 1024
from the start of the inode table, inode 9 at byte 0 of the next block. -/
theorem inode_slots_disjoint_witness :
    sampleFs.slotOffset 8 = 896 ∧ sampleFs.slotOffset 9 = 1024
    ∧ sampleFs.inodeSize = 128
    ∧ (sampleFs.address 9).block = 6 ∧ (sampleFs.address 9).byteOffset = 0
    ∧ ((sampleFs.slotOffset 8 + sampleFs.inodeSize ≤ sampleFs.slotOffset 9
        ∨ sampleFs.slotOffset 9 + sampleFs.inodeSize ≤ sampleFs.slotOffset 8)
      ∧ (sampleFs.address 8).byteOffset + sampleFs.inodeSize ≤ sampleFs.blockSize
      ∧ 8 = (sampleFs.address 8).group * sampleFs.sb.s_inodes_per_group
            + (sampleFs.address 8).indexInGroup + 1
      ∧ (sampleFs.address 8).indexInGroup < sampleFs.sb.s_inodes_per_group
      ∧ physOffset sampleFs (sampleFs.address 8).block + (sampleFs.address 8).byteOffset
          = physOffset sampleFs (sampleFs.inodeTable (sampleFs.address 8).group)
              + sampleFs.slotOffset 8
      ∧ (sampleFs.AddressDefined 8 →
          (∀ buf, 8 ≤ sampleFs.sb.s_inodes_count →
            fetchInode sampleFs 8 buf
              = fetchInodeAt sampleFs (sampleFs.address 8).block
                  (sampleFs.address 8).byteOffset buf)
          ∧ (∀ X, writeInode sampleFs 8 X
              = writeInodeAt sampleFs (sampleFs.address 8).block
                  (sampleFs.address 8).byteOffset X))) :=
  ⟨by decide, by decide, by decide, by decide, by decide,
    inode_slots_disjoint sampleFs 8 9 (by decide) (by decide) (by decide) (by decide)
      (by decide) (by decide) (by decide)⟩

/-! ## Indexing the bitmap block (C37) -/

theorem allocateInodeLoop_isSome :
    ∀ (fuel : Nat) (cur : Ext2File) (g : Nat), g + fuel ≤ cur.bgdt.len →
      cur.sb.s_inodes_per_group ≤ 8 * cur.blockSize →
      (allocateInodeLoop fuel cur g).isSome = true := by
  intro fuel
  induction fuel with
  | zero => intro cur g _ _; rfl
  | succ k ih =>
    intro cur g hg hb
    rw [allocateInodeLoop_step cur k g (by omega)]
    have hscan := allocScan_spec cur.blockSize
      (ext2ReadBlock cur (cur.inodeBitmap g) zeroMem).2.1 cur.sb.s_inodes_per_group 0
      (by intro i hi; omega)
    rcases hscan with ⟨i, hi, -⟩ | ⟨hnone, -⟩
    · rw [hi]; rfl
    · rw [hnone]
      simp only
      have hfst := ext2ReadBlock_fst cur (cur.inodeBitmap g) zeroMem
      apply ih
      · rw [hfst]; show g + 1 + k ≤ cur.bgdt.len; omega
      · rw [hfst]; exact hb

theorem allocateInode_isSome (fs : Ext2File) (hint : Int)
    (hlen : fs.bgdt.len = fs.numBlockGroups)
    (hb : fs.sb.s_inodes_per_group ≤ 8 * fs.blockSize) :
    (allocateInode fs hint).isSome = true := by
  unfold allocateInode
  simp only
  by_cases h0 : fs.numBlockGroups - (if hint < 0 then 0 else hint.toNat) = 0
  · rw [h0]; rfl
  · exact allocateInodeLoop_isSome _ fs _ (by omega) hb

theorem inodeInUse_isSome (fs : Ext2File) (n : Nat) (h1 : 1 ≤ n) (hlt : n < 4294967296)
    (hipg : 0 < fs.sb.s_inodes_per_group)
    (hg : (n - 1) / fs.sb.s_inodes_per_group < fs.bgdt.len)
    (hb : fs.sb.s_inodes_per_group ≤ 8 * fs.blockSize) :
    (inodeInUse fs n).isSome = true ∧ (freeInode fs n).isSome = true := by
  have hidx := Nat.mod_lt (n - 1) hipg
  have hbyte : ¬ ((n - 1) % fs.sb.s_inodes_per_group / 8 ≥ fs.blockSize) := by omega
  constructor
  · unfold inodeInUse
    simp only
    rw [u32_pred n h1 hlt, if_neg (by omega), BGDTVector.get_of_lt _ _ hg]
    simp only
    rw [if_neg hbyte]
    rfl
  · unfold freeInode
    simp only
    rw [u32_pred n h1 hlt, if_neg (by omega), BGDTVector.get_of_lt _ _ hg]
    simp only
    rw [if_neg hbyte]
    rfl

/-- C37. For every volume that `ext2Open` has opened and whose superblock has
no more inodes per group than a bitmap block has bits (`s_inodes_per_group ≤ 8 *
blockSize`), in whatever state of the stream and of the partition cursor: every
bit position `i < s_inodes_per_group` has `i/8 < blockSize`; `allocateInode` is
defined for every group hint; and `inodeInUse(n)` and `freeInode(n)` are defined
for every inode number `n ≥ 1` whose group has a descriptor. -/
theorem bitmap_index_in_block (e : Ext2File) (part : MBRPartition) (fs0 : Ext2File)
    (h : ext2Open e part = some (fs0, true))
    (hb : fs0.sb.s_inodes_per_group ≤ 8 * fs0.blockSize)
    (f : FStream) (c : Nat) (fs : Ext2File) (hfs : fs = (fs0.setFile f).setCursor c) :
    (∀ i, i < fs.sb.s_inodes_per_group → i / 8 < fs.blockSize)
    ∧ (∀ hint, (allocateInode fs hint).isSome = true)
    ∧ (∀ n, 1 ≤ n → n < 4294967296 → 0 < fs.sb.s_inodes_per_group →
        (n - 1) / fs.sb.s_inodes_per_group < fs.numBlockGroups →
        (inodeInUse fs n).isSome = true ∧ (freeInode fs n).isSome = true) := by
  have hlen := (ext2Open_geometry e part fs0 h).1
  subst hfs
  refine ⟨?_, ?_, ?_⟩
  · intro i hi
    have : i < 8 * fs0.blockSize := Nat.lt_of_lt_of_le hi hb
    show i / 8 < fs0.blockSize
    omega
  · intro hint
    exact allocateInode_isSome _ hint hlen hb
  · intro n h1 hlt hipg hg
    exact inodeInUse_isSome _ n h1 hlt hipg (Nat.lt_of_lt_of_eq hg hlen.symm) hb

/-- Witness of C37 on the sample volume (8192 inodes per group, 1 KiB blocks). -/
theorem bitmap_index_in_block_witness :
    ext2Open Ext2File.fresh (openPartition (sampleHost false)) = some (sampleFs, true)
    ∧ sampleFs.sb.s_inodes_per_group ≤ 8 * sampleFs.blockSize
    ∧ sampleFsLater = (sampleFs.setFile sampleFs.part.vdi.file).setCursor 7
    ∧ 8191 / 8 < sampleFsLater.blockSize
    ∧ (allocateInode sampleFsLater (-1)).isSome = true
    ∧ (inodeInUse sampleFsLater 16384).isSome = true
    ∧ (freeInode sampleFsLater 16384).isSome = true :=
  ⟨rfl, by decide, rfl,
    (bitmap_index_in_block Ext2File.fresh (openPartition (sampleHost false)) sampleFs rfl
      (by decide) sampleFs.part.vdi.file 7 sampleFsLater rfl).1 8191 (by decide),
    (bitmap_index_in_block Ext2File.fresh (openPartition (sampleHost false)) sampleFs rfl
      (by decide) sampleFs.part.vdi.file 7 sampleFsLater rfl).2.1 (-1),
    ((bitmap_index_in_block Ext2File.fresh (openPartition (sampleHost false)) sampleFs rfl
      (by decide) sampleFs.part.vdi.file 7 sampleFsLater rfl).2.2 16384 (by decide)
      (by decide) (by decide) (by decide)).1,
    ((bitmap_index_in_block Ext2File.fresh (openPartition (sampleHost false)) sampleFs rfl
      (by decide) sampleFs.part.vdi.file 7 sampleFsLater rfl).2.2 16384 (by decide)
      (by decide) (by decide) (by decide)).2⟩

/-- Counterexample to C37 as stated: `ext2Open` accepts the sample image with
`s_inodes_per_group = 8200` and 1 KiB blocks; bit position 8192 has byte index
1024, outside the 1024-byte buffer, and `inodeInUse(8193)` and
`freeInode(8193)`, which use that position, index the buffer past its end. -/
theorem bitmap_index_outside_block :
    ext2Open Ext2File.fresh (openPartition wideGroupHost) = some (wideGroupFs, true)
    ∧ wideGroupFs.sb.s_inodes_per_group = 8200 ∧ wideGroupFs.blockSize = 1024
    ∧ ¬ (∀ i, i < wideGroupFs.sb.s_inodes_per_group → i / 8 < wideGroupFs.blockSize)
    ∧ 8193 ≤ wideGroupFs.sb.s_inodes_count
    ∧ (inodeInUse wideGroupFs 8193).isNone = true
    ∧ (freeInode wideGroupFs 8193).isNone = true := by
  refine ⟨rfl, by decide, by decide, ?_, by decide, by decide, by decide⟩
  intro hc
  have := hc 8192 (by decide)
  revert this
  decide

/-! ## The divisors and the block buffer of `fetchInode` and `writeInode` (C36) -/

theorem byteOffset_code_le (bs sz idx : Nat) (h128 : sizeofInode ≤ sz) (hle : sz ≤ bs) :
    ((idx % (bs / sz)) * sz) % 4294967296 + sizeofInode ≤ bs := by
  have hsz : 0 < sz := by
    have : sizeofInode = 128 := rfl
    omega
  have hq : 0 < bs / sz := Nat.div_pos hle hsz
  have h2 := Nat.mod_lt idx hq
  have h3 : (idx % (bs / sz) + 1) * sz ≤ (bs / sz) * sz := Nat.mul_le_mul_right _ h2
  have h4 := Nat.div_mul_le_self bs sz
  rw [Nat.add_mul, Nat.one_mul] at h3
  have h5 := Nat.mod_le ((idx % (bs / sz)) * sz) 4294967296
  omega

theorem writeInodeAt_isSome (fs : Ext2File) (blockNum byteOffset : Nat) (inode : Mem)
    (h : byteOffset + sizeofInode ≤ fs.blockSize) :
    (writeInodeAt fs blockNum byteOffset inode).isSome = true := by
  unfold writeInodeAt
  simp only
  by_cases c : (!(ext2ReadBlock fs blockNum zeroMem).2.2) = true
  · rw [if_pos c]; rfl
  · rw [if_neg c, if_neg (by omega)]; rfl

theorem inode_access_isSome (fs : Ext2File) (n : Nat) (buf : Mem)
    (hipg : 0 < fs.sb.s_inodes_per_group) (h128 : sizeofInode ≤ fs.inodeSize)
    (hle : fs.inodeSize ≤ fs.blockSize) (h1 : 1 ≤ n) (hlt : n < 4294967296)
    (hg : (n - 1) / fs.sb.s_inodes_per_group < fs.bgdt.len) :
    (fetchInode fs n buf).isSome = true ∧ (writeInode fs n buf).isSome = true := by
  have hsz : 0 < fs.inodeSize := by
    have : sizeofInode = 128 := rfl
    omega
  have hq : 0 < fs.blockSize / fs.inodeSize := Nat.div_pos hle hsz
  constructor
  · unfold fetchInode
    by_cases c : n = 0 ∨ n > fs.sb.s_inodes_count
    · rw [if_pos c]; rfl
    · rw [if_neg c, if_neg (by omega)]
      simp only
      rw [u32_pred n h1 hlt, if_neg (by omega), if_neg (by omega),
        BGDTVector.get_of_lt _ _ hg]
      simp only
      rw [fetchInodeAt_eq _ _ _ _ (byteOffset_code_le _ _ _ h128 hle)]
      rfl
  · unfold writeInode
    rw [if_neg (by omega)]
    simp only
    rw [u32_pred n h1 hlt, if_neg (by omega), if_neg (by omega),
      BGDTVector.get_of_lt _ _ hg]
    simp only
    exact writeInodeAt_isSome _ _ _ _ (byteOffset_code_le _ _ _ h128 hle)

/-- C36. For every volume that `ext2Open` has opened and whose superblock has
`s_inodes_per_group > 0` and an inode size of at least `sizeof(Inode)` = 128
bytes and at most `blockSize`, in whatever state of the stream and of the
partition cursor, and every `n ≥ 1`: the divisors `s_inodes_per_group` and
`inodesPerBlock = blockSize / inodeSize` are non-zero and `byteOffset + 128 ≤
blockSize`; and when the group of `n` has a descriptor, `fetchInode(n)` and
`writeInode(n)` are defined. -/
theorem inode_access_defined (e : Ext2File) (part : MBRPartition) (fs0 : Ext2File)
    (h : ext2Open e part = some (fs0, true))
    (hipg : 0 < fs0.sb.s_inodes_per_group) (h128 : sizeofInode ≤ fs0.inodeSize)
    (hle : fs0.inodeSize ≤ fs0.blockSize)
    (f : FStream) (c : Nat) (fs : Ext2File) (hfs : fs = (fs0.setFile f).setCursor c)
    (n : Nat) (h1 : 1 ≤ n) (hlt : n < 4294967296) :
    0 < fs.sb.s_inodes_per_group ∧ 0 < fs.blockSize / fs.inodeSize
    ∧ (fs.address n).byteOffset + sizeofInode ≤ fs.blockSize
    ∧ ((n - 1) / fs.sb.s_inodes_per_group < fs.numBlockGroups →
        ∀ buf, (fetchInode fs n buf).isSome = true ∧ (writeInode fs n buf).isSome = true) := by
  have hlen := (ext2Open_geometry e part fs0 h).1
  subst hfs
  have hsz : 0 < fs0.inodeSize := by
    have : sizeofInode = 128 := rfl
    omega
  refine ⟨hipg, Nat.div_pos hle hsz, ?_, ?_⟩
  · rcases ((fs0.setFile f).setCursor c).byteOffset_le n with hh | hh
    · have e1 : ((fs0.setFile f).setCursor c).inodeSize = fs0.inodeSize := rfl
      rw [e1] at hh
      omega
    · have := Nat.div_pos hle hsz
      have e2 : ((fs0.setFile f).setCursor c).blockSize / ((fs0.setFile f).setCursor c).inodeSize
          = fs0.blockSize / fs0.inodeSize := rfl
      rw [e2] at hh
      omega
  · intro hg buf
    exact inode_access_isSome _ n buf hipg h128 hle h1 hlt (Nat.lt_of_lt_of_eq hg hlen.symm)

/-- Witness of C36 on the sample volume (8192 inodes per group, 128-byte inodes,
1 KiB blocks): inode 16384, the last of group 1, has byte offset 896. -/
theorem inode_access_defined_witness :
    ext2Open Ext2File.fresh (openPartition (sampleHost false)) = some (sampleFs, true)
    ∧ 0 < sampleFs.sb.s_inodes_per_group ∧ sizeofInode ≤ sampleFs.inodeSize
    ∧ sampleFs.inodeSize ≤ sampleFs.blockSize
    ∧ sampleFsLater = (sampleFs.setFile sampleFs.part.vdi.file).setCursor 7
    ∧ (sampleFsLater.address 16384).byteOffset = 896
    ∧ (0 < sampleFsLater.sb.s_inodes_per_group
      ∧ 0 < sampleFsLater.blockSize / sampleFsLater.inodeSize
      ∧ (sampleFsLater.address 16384).byteOffset + sizeofInode ≤ sampleFsLater.blockSize
      ∧ ((16384 - 1) / sampleFsLater.sb.s_inodes_per_group < sampleFsLater.numBlockGroups →
          ∀ buf, (fetchInode sampleFsLater 16384 buf).isSome = true
            ∧ (writeInode sampleFsLater 16384 buf).isSome = true)) :=
  ⟨rfl, by decide, by decide, by decide, rfl, by decide,
    inode_access_defined Ext2File.fresh (openPartition (sampleHost false)) sampleFs rfl
      (by decide) (by decide) (by decide) sampleFs.part.vdi.file 7 sampleFsLater rfl
      16384 (by decide) (by decide)⟩

/-- Counterexample to C36 as stated: `ext2Open` accepts the sample image with
`s_inodes_per_group = 0`, where `fetchInode(1)` and `writeInode(1)` divide by
zero; with revision 1 and `s_inode_size = 0`, where `inodesPerBlock` divides by
zero; and with revision 1 and `s_inode_size = 64`, where inode 16 has
`byteOffset = 960` and the copy of 128 bytes passes the end of the 1024-byte
block buffer. -/
theorem inode_access_undefined :
    ext2Open Ext2File.fresh (openPartition noGroupHost) = some (noGroupFs, true)
    ∧ noGroupFs.sb.s_inodes_per_group = 0 ∧ 1 ≤ noGroupFs.sb.s_inodes_count
    ∧ (fetchInode noGroupFs 1 zeroMem).isNone = true
    ∧ (writeInode noGroupFs 1 sampleInode).isNone = true
    ∧ ext2Open Ext2File.fresh (openPartition zeroInodeHost) = some (zeroInodeFs, true)
    ∧ zeroInodeFs.inodeSize = 0 ∧ 1 ≤ zeroInodeFs.sb.s_inodes_count
    ∧ (fetchInode zeroInodeFs 1 zeroMem).isNone = true
    ∧ (writeInode zeroInodeFs 1 sampleInode).isNone = true
    ∧ ext2Open Ext2File.fresh (openPartition smallInodeHost) = some (smallInodeFs, true)
    ∧ smallInodeFs.inodeSize = 64 ∧ smallInodeFs.blockSize = 1024
    ∧ 16 ≤ smallInodeFs.sb.s_inodes_count
    ∧ (smallInodeFs.address 16).byteOffset = 960
    ∧ ¬ ((smallInodeFs.address 16).byteOffset + 128 ≤ smallInodeFs.blockSize)
    ∧ (fetchInode smallInodeFs 16 zeroMem).isNone = true
    ∧ (writeInode smallInodeFs 16 sampleInode).isNone = true := by
  refine ⟨rfl, ?_, ?_, ?_, ?_, rfl, ?_, ?_, ?_, ?_, rfl, ?_, ?_, ?_, ?_, ?_, ?_, ?_⟩ <;> decide

/-! ## The inode numbers that `allocateInode` returns (C38) -/

theorem allocateInode_result (fs : Ext2File) (hint : Int) (hgeo : fs.BitmapGeometry)
    (hcnt : fs.numBlockGroups * fs.sb.s_inodes_per_group ≤ fs.sb.s_inodes_count)
    (fs1 : Ext2File) (n : Nat) (ha : allocateInode fs hint = some (fs1, n)) (hn : n ≠ 0) :
    1 ≤ n ∧ n ≤ fs.sb.s_inodes_count
    ∧ (∃ g i, g < fs.numBlockGroups ∧ i < fs.sb.s_inodes_per_group
        ∧ n = g * fs.sb.s_inodes_per_group + i + 1
        ∧ g * fs.sb.s_inodes_per_group + i + 1 < 4294967296)
    ∧ fs1.sb = fs.sb := by
  obtain ⟨fs2, n2, h2, hcase⟩ := allocateInode_spec fs hint hgeo
  rw [ha] at h2
  simp only [Option.some.injEq, Prod.mk.injEq] at h2
  obtain ⟨e1, e2⟩ := h2
  subst e1 e2
  rcases hcase with ⟨h0, -⟩ | ⟨g, i, f1, -, hg, hi, -, -, hnv, -, hfs⟩
  · exact absurd h0 hn
  · have hmul : g * fs.sb.s_inodes_per_group + fs.sb.s_inodes_per_group
        ≤ fs.numBlockGroups * fs.sb.s_inodes_per_group := by
      have := Nat.mul_le_mul_right fs.sb.s_inodes_per_group (show g + 1 ≤ fs.numBlockGroups from hg)
      rw [Nat.add_mul, Nat.one_mul] at this
      exact this
    have hc32 := le32_lt fs.sb.raw 0
    have hc : fs.sb.s_inodes_count < 4294967296 := hc32
    refine ⟨by omega, by omega, ⟨g, i, hg, hi, hnv, by omega⟩, ?_⟩
    rw [hfs]
    rfl

/-- C38. For every volume that `ext2Open` has opened and whose superblock has no
more inodes per group than a bitmap block has bits and as many inodes as its
block groups hold (`numBlockGroups * s_inodes_per_group ≤ s_inodes_count`), in
whatever state of the stream and of the partition cursor: every non-zero result
`n` of `allocateInode` is `g * s_inodes_per_group + i + 1` for a group `g <
numBlockGroups` and a position `i < s_inodes_per_group`, the sum is below 2^32
(no wrap-around), and `1 ≤ n ≤ s_inodes_count`, so the range check of
`fetchInode` does not reject it. -/
theorem allocateInode_result_valid (e : Ext2File) (part : MBRPartition) (fs0 : Ext2File)
    (h : ext2Open e part = some (fs0, true))
    (hb : fs0.sb.s_inodes_per_group ≤ 8 * fs0.blockSize)
    (hcnt : fs0.numBlockGroups * fs0.sb.s_inodes_per_group ≤ fs0.sb.s_inodes_count)
    (f : FStream) (c : Nat) (fs : Ext2File) (hfs : fs = (fs0.setFile f).setCursor c)
    (hint : Int) (fs1 : Ext2File) (n : Nat)
    (ha : allocateInode fs hint = some (fs1, n)) (hn : n ≠ 0) :
    1 ≤ n ∧ n ≤ fs.sb.s_inodes_count
    ∧ ¬ (n = 0 ∨ n > fs1.sb.s_inodes_count)
    ∧ (∃ g i, g < fs.numBlockGroups ∧ i < fs.sb.s_inodes_per_group
        ∧ n = g * fs.sb.s_inodes_per_group + i + 1
        ∧ g * fs.sb.s_inodes_per_group + i + 1 < 4294967296) := by
  have hlen := (ext2Open_geometry e part fs0 h).1
  subst hfs
  have hc : fs0.sb.s_inodes_count < 4294967296 := le32_lt fs0.sb.raw 0
  obtain ⟨r1, r2, r3, r4⟩ := allocateInode_result ((fs0.setFile f).setCursor c) hint
    ⟨Nat.le_of_eq hlen.symm, hb, Nat.lt_of_le_of_lt hcnt hc⟩ hcnt fs1 n ha hn
  refine ⟨r1, r2, ?_, r3⟩
  rw [r4]
  intro hcon
  rcases hcon with hcon | hcon
  · exact hn hcon
  · exact absurd r2 (Nat.not_le_of_gt hcon)

/-- Witness of C38 on the sample volume (2 groups of 8192 inodes, 16384 inodes):
`allocateInode` returns 4, bit 3 of group 0. -/
theorem allocateInode_result_valid_witness :
    ext2Open Ext2File.fresh (openPartition (sampleHost false)) = some (sampleFs, true)
    ∧ sampleFs.sb.s_inodes_per_group ≤ 8 * sampleFs.blockSize
    ∧ sampleFs.numBlockGroups * sampleFs.sb.s_inodes_per_group ≤ sampleFs.sb.s_inodes_count
    ∧ sampleFsLater = (sampleFs.setFile sampleFs.part.vdi.file).setCursor 7
    ∧ (∃ fs1 n, allocateInode sampleFsLater (-1) = some (fs1, n) ∧ n = 4
        ∧ 1 ≤ n ∧ n ≤ sampleFsLater.sb.s_inodes_count
        ∧ ¬ (n = 0 ∨ n > fs1.sb.s_inodes_count)
        ∧ (∃ g i, g < sampleFsLater.numBlockGroups ∧ i < sampleFsLater.sb.s_inodes_per_group
            ∧ n = g * sampleFsLater.sb.s_inodes_per_group + i + 1
            ∧ g * sampleFsLater.sb.s_inodes_per_group + i + 1 < 4294967296)) := by
  refine ⟨rfl, by decide, by decide, rfl, ?_⟩
  obtain ⟨r, hr⟩ := option_eq_some_of_isSome (allocateInode sampleFsLater (-1)) (by decide)
  have hn : (allocateInode sampleFsLater (-1)).map Prod.snd = some 4 := by decide
  rw [hr] at hn
  simp only [Option.map_some', Option.some.injEq] at hn
  obtain ⟨r1, r2, r3, r4⟩ :=
    allocateInode_result_valid Ext2File.fresh (openPartition (sampleHost false)) sampleFs
      rfl (by decide) (by decide) sampleFs.part.vdi.file 7 sampleFsLater rfl (-1) r.1 r.2
      hr (by omega)
  exact ⟨r.1, r.2, hr, hn, r1, r2, r3, r4⟩

/-- Counterexample to C38 as stated: `ext2Open` accepts the sample image with
`s_inodes_count = 2` (and 8192 inodes per group), where `allocateInode` returns
4, which the range check of `fetchInode` rejects; and the sample image with
`s_inodes_per_group = 2^32 - 1`, where `allocateInode` with group hint 1 finds
bit 0 of group 1 clear, attempts the write-back (the stream has badbit
afterwards) and returns `(1 * (2^32 - 1) + 0 + 1) mod 2^32 = 0`. -/
theorem allocateInode_result_invalid :
    ext2Open Ext2File.fresh (openPartition fewHost) = some (fewFs, true)
    ∧ fewFs.sb.s_inodes_count = 2
    ∧ (allocateInode fewFs (-1)).map Prod.snd = some 4
    ∧ (fetchInode fewFs 4 zeroMem).map (fun r => r.2.2) = some (-1)
    ∧ ext2Open Ext2File.fresh (openPartition hugeGroupHost) = some (hugeGroupFs, true)
    ∧ hugeGroupFs.sb.s_inodes_per_group = 4294967295 ∧ hugeGroupFs.numBlockGroups = 2
    ∧ hugeGroupFs.bitmapBit 1 0 = false
    ∧ hugeGroupFs.part.vdi.file.badbit = false
    ∧ (allocateInode hugeGroupFs 1).map (fun r => (r.2, r.1.part.vdi.file.badbit))
        = some (0, true) := by
  refine ⟨rfl, ?_, ?_, ?_, rfl, ?_, ?_, ?_, ?_, ?_⟩ <;> decide

/-! ## What a read depends on (C31) -/

theorem vdiRead_congr (vdi : VDIFile) (g : FStream) (h : vdi.file.ReadEquiv g)
    (off : Nat) (buf : Mem) (count : Nat) :
    (vdiRead { vdi with file := g } off buf count).2 = (vdiRead vdi off buf count).2 := by
  unfold vdiRead
  simp only
  by_cases c : off ≥ vdi.diskSize
  · rw [if_pos c, if_pos c]
  · rw [if_neg c, if_neg c]
    generalize (if count > vdi.diskSize - off then vdi.diskSize - off else count) = n
    obtain ⟨hg, hb, hgc⟩ := FStream.seekg_read_congr vdi.file g h
      (toInt64 ((vdi.frameOffset + off) % 18446744073709551616)) buf n
    rw [hg]
    by_cases c2 : (!(vdi.file.seekg
        (toInt64 ((vdi.frameOffset + off) % 18446744073709551616))).good) = true
    · rw [if_pos c2, if_pos c2]
    · rw [if_neg c2, if_neg c2]
      simp only [hb, hgc]

theorem vdiRead_sameFile (vdi : VDIFile) (off : Nat) (buf : Mem) (count : Nat) :
    vdi.file.SameFile (vdiRead vdi off buf count).1.file := by
  unfold vdiRead
  simp only
  split_ifs
  all_goals
    first
      | exact FStream.sameFile_refl _
      | exact FStream.seekg_sameFile _ _
      | exact FStream.sameFile_trans (FStream.seekg_sameFile _ _)
          (FStream.read_sameFile _ _ _)

theorem FStream.seekg_not_good_fail (f : FStream) (off : Int)
    (h : (f.seekg off).good = false) : (f.seekg off).fail = true := by
  rcases f with ⟨d, sz, o, mi, mo, p, e, fb, bb, gc⟩
  unfold FStream.seekg at h ⊢
  simp only at h ⊢
  split_ifs at h ⊢ with c1 c2
  · simp [FStream.fail]
  · simp [FStream.fail]
  · cases fb <;> cases bb <;> simp [FStream.good, FStream.fail] at c1 h ⊢

theorem FStream.read_short_fail (s : FStream) (buf : Mem) (n : Nat)
    (h : (s.read buf n).1.gcount < n) : (s.read buf n).1.fail = true := by
  unfold FStream.read at h ⊢
  split_ifs at h ⊢ with c1 c2
  · simp [FStream.fail]
  · simp [FStream.fail]
  · simp only at h
    omega

theorem vdiRead_complete_or_failed (vdi : VDIFile) (off : Nat) (buf : Mem) (count : Nat) :
    ((vdiRead vdi off buf count).2.2 = ((min count (vdi.diskSize - off) : Nat) : Int) →
        vdi.file.ReadEquiv (vdiRead vdi off buf count).1.file)
    ∧ ((vdiRead vdi off buf count).2.2 ≠ ((min count (vdi.diskSize - off) : Nat) : Int) →
        (vdiRead vdi off buf count).1.file.fail = true) := by
  unfold vdiRead
  simp only
  by_cases c : off ≥ vdi.diskSize
  · rw [if_pos c]
    have : min count (vdi.diskSize - off) = 0 := by omega
    rw [this]
    exact ⟨fun _ => FStream.readEquiv_refl _, fun hne => absurd rfl hne⟩
  · rw [if_neg c]
    have e3 : (if count > vdi.diskSize - off then vdi.diskSize - off else count)
        = min count (vdi.diskSize - off) := by
      split_ifs <;> omega
    rw [e3]
    generalize min count (vdi.diskSize - off) = n
    generalize toInt64 ((vdi.frameOffset + off) % 18446744073709551616) = o
    cases hg : (vdi.file.seekg o).good
    · simp only [Bool.not_false, if_true]
      constructor
      · intro hcon
        have : (-1 : Int) = (n : Int) := hcon
        omega
      · intro _
        exact FStream.seekg_not_good_fail _ _ hg
    · simp only [Bool.not_true, Bool.false_eq_true, if_false]
      constructor
      · intro hcon
        have hcon2 : (((vdi.file.seekg o).read buf n).1.gcount : Int) = (n : Int) := hcon
        exact FStream.seekg_read_full_equiv _ _ _ _ hg (by omega)
      · intro hne
        have hne2 : (((vdi.file.seekg o).read buf n).1.gcount : Int) ≠ (n : Int) := hne
        apply FStream.read_short_fail
        have hle : ((vdi.file.seekg o).read buf n).1.gcount ≤ n := by
          rw [FStream.read_gcount]
          have := FStream.got_le (vdi.file.seekg o) n
          rw [hg]
          exact this
        omega

theorem vdiRead_failed (vdi : VDIFile) (off : Nat) (buf : Mem) (count : Nat)
    (hf : vdi.file.fail = true) (ho : off < vdi.diskSize) :
    (vdiRead vdi off buf count).2 = (buf, -1) := by
  unfold vdiRead
  simp only
  rw [if_neg (by omega)]
  cases hg : (vdi.file.seekg
      (toInt64 ((vdi.frameOffset + off) % 18446744073709551616))).good
  · simp only [Bool.not_false, if_true]
  · have := FStream.seekg_good_fail _ _ hg
    rw [hf] at this
    exact absurd this (by decide)

theorem ext2ReadBlock_failed (fs : Ext2File) (index : Nat) (buf : Mem)
    (hf : fs.part.vdi.file.fail = true) : (ext2ReadBlock fs index buf).2.2 = false := by
  cases h : (ext2ReadBlock fs index buf).2.2
  · rfl
  · have := ext2ReadBlock_true_bits fs index buf h
    rw [hf] at this
    exact absurd this (by decide)

/-- C31. The return value and the bytes of `vdiRead` and of `ext2ReadBlock` are
the same on two states of the stream that agree in the file, the open mode and
the error bits (failbit, badbit), whatever the position, eofbit and gcount that
earlier calls have left; no read changes the file, `frameOffset` or `diskSize`;
a read that delivers all the bytes asked for leaves the error bits as they
were; a `vdiRead` that delivers fewer (or returns -1) leaves the stream failed;
and on a failed stream every `vdiRead` inside the disk returns -1 with the
buffer untouched and every `ext2ReadBlock` returns false. -/
theorem reads_depend_on_error_state_only (vdi : VDIFile) (g : FStream)
    (hv : vdi.file.ReadEquiv g) (fs : Ext2File) (g2 : FStream)
    (hf : fs.part.vdi.file.ReadEquiv g2) (off count index : Nat) (buf : Mem) :
    (vdiRead { vdi with file := g } off buf count).2 = (vdiRead vdi off buf count).2
    ∧ (ext2ReadBlock (fs.setFile g2) index buf).2 = (ext2ReadBlock fs index buf).2
    ∧ (vdi.file.SameFile (vdiRead vdi off buf count).1.file
      ∧ (vdiRead vdi off buf count).1.frameOffset = vdi.frameOffset
      ∧ (vdiRead vdi off buf count).1.diskSize = vdi.diskSize
      ∧ fs.part.vdi.file.SameFile (ext2ReadBlock fs index buf).1.part.vdi.file)
    ∧ ((vdiRead vdi off buf count).2.2 = ((min count (vdi.diskSize - off) : Nat) : Int) →
        vdi.file.ReadEquiv (vdiRead vdi off buf count).1.file)
    ∧ ((ext2ReadBlock fs index buf).2.2 = true →
        fs.part.vdi.file.ReadEquiv (ext2ReadBlock fs index buf).1.part.vdi.file)
    ∧ ((vdiRead vdi off buf count).2.2 ≠ ((min count (vdi.diskSize - off) : Nat) : Int) →
        (vdiRead vdi off buf count).1.file.fail = true)
    ∧ (vdi.file.fail = true → off < vdi.diskSize →
        (vdiRead vdi off buf count).2 = (buf, -1))
    ∧ (fs.part.vdi.file.fail = true → (ext2ReadBlock fs index buf).2.2 = false) :=
  ⟨vdiRead_congr vdi g hv off buf count, ext2ReadBlock_congr fs g2 hf index buf,
    ⟨vdiRead_sameFile vdi off buf count, (vdiRead_fields vdi off buf count).1,
      (vdiRead_fields vdi off buf count).2, ext2ReadBlock_sameFile fs index buf⟩,
    (vdiRead_complete_or_failed vdi off buf count).1,
    ext2ReadBlock_true_equiv fs index buf,
    (vdiRead_complete_or_failed vdi off buf count).2,
    vdiRead_failed vdi off buf count, ext2ReadBlock_failed fs index buf⟩

/-- Witness of C31 on the sample container and volume: after a read of 100
bytes at offset 4096 (stream position 4708 instead of 400) and after a read of
block 5, later reads return what they return on the state left by the open. -/
theorem reads_depend_on_error_state_only_witness :
    sampleVdi.file.ReadEquiv sampleVdiLater.file
    ∧ sampleFs.part.vdi.file.ReadEquiv sampleFsRead.part.vdi.file
    ∧ sampleVdi.file.pos = 400 ∧ sampleVdiLater.file.pos = 4708
    ∧ (vdiRead sampleVdi 0 zeroMem 512).2.2 = 512
    ∧ (ext2ReadBlock sampleFs 4 zeroMem).2.2 = true
    ∧ ((vdiRead { sampleVdi with file := sampleVdiLater.file } 0 zeroMem 512).2
        = (vdiRead sampleVdi 0 zeroMem 512).2
      ∧ (ext2ReadBlock (sampleFs.setFile sampleFsRead.part.vdi.file) 4 zeroMem).2
        = (ext2ReadBlock sampleFs 4 zeroMem).2
      ∧ (sampleVdi.file.SameFile (vdiRead sampleVdi 0 zeroMem 512).1.file
        ∧ (vdiRead sampleVdi 0 zeroMem 512).1.frameOffset = sampleVdi.frameOffset
        ∧ (vdiRead sampleVdi 0 zeroMem 512).1.diskSize = sampleVdi.diskSize
        ∧ sampleFs.part.vdi.file.SameFile (ext2ReadBlock sampleFs 4 zeroMem).1.part.vdi.file)
      ∧ ((vdiRead sampleVdi 0 zeroMem 512).2.2
            = ((min 512 (sampleVdi.diskSize - 0) : Nat) : Int) →
          sampleVdi.file.ReadEquiv (vdiRead sampleVdi 0 zeroMem 512).1.file)
      ∧ ((ext2ReadBlock sampleFs 4 zeroMem).2.2 = true →
          sampleFs.part.vdi.file.ReadEquiv (ext2ReadBlock sampleFs 4 zeroMem).1.part.vdi.file)
      ∧ ((vdiRead sampleVdi 0 zeroMem 512).2.2
            ≠ ((min 512 (sampleVdi.diskSize - 0) : Nat) : Int) →
          (vdiRead sampleVdi 0 zeroMem 512).1.file.fail = true)
      ∧ (sampleVdi.file.fail = true → 0 < sampleVdi.diskSize →
          (vdiRead sampleVdi 0 zeroMem 512).2 = (zeroMem, -1))
      ∧ (sampleFs.part.vdi.file.fail = true → (ext2ReadBlock sampleFs 4 zeroMem).2.2 = false)) :=
  ⟨(vdiRead_complete_or_failed sampleVdi 4096 zeroMem 100).1 (by decide),
    ext2ReadBlock_true_equiv sampleFs 5 zeroMem (by decide),
    by decide, by decide, by decide, by decide,
    reads_depend_on_error_state_only sampleVdi sampleVdiLater.file
      ((vdiRead_complete_or_failed sampleVdi 4096 zeroMem 100).1 (by decide))
      sampleFs sampleFsRead.part.vdi.file
      (ext2ReadBlock_true_equiv sampleFs 5 zeroMem (by decide)) 0 512 4 zeroMem⟩

/-- Counterexample to C31 as stated: `ext2Open` accepts the sample file cut off
at the end of block 3 of the partition (the header declares the whole disk).
On the volume as opened `ext2ReadBlock(2)` succeeds and `vdiRead(0, 512)`
returns 512 bytes (byte 455 is 0x08).  The read of block 4, inside the
partition and past the end of the file, fails, and so does the read of 1024
bytes at logical offset 1052672 (it returns 0); after either of them the same
`ext2ReadBlock(2)` returns false and the same `vdiRead(0, 512)` returns -1 and
delivers nothing, although the header fields and the file are what they were. -/
theorem read_fails_after_short_read :
    ext2Open Ext2File.fresh (openPartition cutHost) = some (cutFs, true)
    ∧ (ext2ReadBlock cutFs 2 zeroMem).2.2 = true
    ∧ (ext2ReadBlock cutFs 4 zeroMem).2.2 = false
    ∧ (ext2ReadBlock (ext2ReadBlock cutFs 4 zeroMem).1 2 zeroMem).2.2 = false
    ∧ (vdiRead cutFs.part.vdi 0 zeroMem 512).2.2 = 512
    ∧ (vdiRead cutFs.part.vdi 0 zeroMem 512).2.1 455 = 8
    ∧ (vdiRead cutFs.part.vdi 1052672 zeroMem 1024).2.2 = 0
    ∧ (vdiRead (vdiRead cutFs.part.vdi 1052672 zeroMem 1024).1 0 zeroMem 512).2.2 = -1
    ∧ (vdiRead (vdiRead cutFs.part.vdi 1052672 zeroMem 1024).1 0 zeroMem 512).2.1 455 = 0
    ∧ (vdiRead cutFs.part.vdi 1052672 zeroMem 1024).1.frameOffset = cutFs.part.vdi.frameOffset
    ∧ (vdiRead cutFs.part.vdi 1052672 zeroMem 1024).1.diskSize = cutFs.part.vdi.diskSize
    ∧ (vdiRead cutFs.part.vdi 1052672 zeroMem 1024).1.file.size = cutFs.part.vdi.file.size
    ∧ (vdiRead cutFs.part.vdi 1052672 zeroMem 1024).1.file.data 967
        = cutFs.part.vdi.file.data 967 := by
  refine ⟨rfl, ?_, ?_, ?_, ?_, ?_, ?_, ?_, ?_, ?_, ?_, ?_, ?_⟩ <;> decide

/-! ## Two allocations in a row (C39) -/

theorem bitmapBit_false_later (fs : Ext2File) (F : FStream) (c : Nat)
    (hL : fs.part.vdi.file.Later F) (g i : Nat) (hb : i / 8 < fs.blockSize)
    (hbit : fs.bitmapBit g i = false) :
    ((fs.setFile F).setCursor c).bitmapBit g i = false := by
  unfold Ext2File.bitmapBit Ext2File.bitmapRead
  rw [ext2ReadBlock_setCursor]
  show bitSet ((ext2ReadBlock (fs.setFile F) (fs.inodeBitmap g) zeroMem).2.1 (i / 8)) (i % 8)
    = false
  by_cases hok : (ext2ReadBlock (fs.setFile F) (fs.inodeBitmap g) zeroMem).2.2 = true
  · rw [ext2ReadBlock_later_congr fs _ hL _ _ hok]
    exact hbit
  · have hf : (ext2ReadBlock (fs.setFile F) (fs.inodeBitmap g) zeroMem).2.2 = false := by
      simpa using hok
    rw [ext2ReadBlock_false_zero _ _ _ hf (i / 8) hb]
    exact bitSet_zero _

theorem allocateInode_shape (fs : Ext2File) (hint : Int) (hgeo : fs.BitmapGeometry)
    (hm : fs.part.vdi.file.modeOut = false) (fs1 : Ext2File) (n : Nat)
    (h : allocateInode fs hint = some (fs1, n)) (hn : n ≠ 0) :
    ∃ g i F c, (if hint < 0 then 0 else hint.toNat) ≤ g ∧ g < fs.numBlockGroups
      ∧ i < fs.sb.s_inodes_per_group
      ∧ fs.bitmapBit g i = false
      ∧ (∀ g2 i2, (if hint < 0 then 0 else hint.toNat) ≤ g2 →
          i2 < fs.sb.s_inodes_per_group →
          (g2 < g ∨ (g2 = g ∧ i2 < i)) → fs.bitmapBit g2 i2 = true)
      ∧ n = g * fs.sb.s_inodes_per_group + i + 1
      ∧ fs.part.vdi.file.Later F
      ∧ fs1 = (fs.setFile F).setCursor c := by
  obtain ⟨fs2, n2, he, hres⟩ := allocateInode_spec fs hint hgeo
  rw [h] at he
  simp only [Option.some.injEq, Prod.mk.injEq] at he
  obtain ⟨e1, e2⟩ := he
  subst e1 e2
  rcases hres with ⟨hn0, _, _⟩ | ⟨g, i, f1, a1, a2, a3, a4, a5, a6, a7, a8⟩
  · exact absurd hn0 hn
  · have hl := allocWriteBack_later (fs.setFile f1) (fs.inodeBitmap g) i
      (fs.bitmapRead g (i / 8)) (a7.same.modeOut.trans hm)
    have hshape := allocWriteBack_shape (fs.setFile f1) (fs.inodeBitmap g) i
      (fs.bitmapRead g (i / 8))
    rw [← a8] at hshape hl
    exact ⟨g, i, fs1.part.vdi.file, fs1.part.cursor, a1, a2, a3, a4, a5, a6,
      FStream.later_trans a7 hl, hshape⟩

theorem inodeInUse_false_of_bit (fs : Ext2File) (hgeo : fs.BitmapGeometry) (g i : Nat)
    (hg : g < fs.numBlockGroups) (hi : i < fs.sb.s_inodes_per_group)
    (hbit : fs.bitmapBit g i = false) :
    (inodeInUse fs (g * fs.sb.s_inodes_per_group + i + 1)).map Prod.snd = some false := by
  have hmul : (g + 1) * fs.sb.s_inodes_per_group
      ≤ fs.numBlockGroups * fs.sb.s_inodes_per_group :=
    Nat.mul_le_mul_right _ (by omega)
  rw [Nat.add_mul, Nat.one_mul] at hmul
  have h1 := hgeo.inodes_lt
  have h2 := hgeo.bits_le
  have h3 := hgeo.groups_le
  rw [inodeInUse_eq fs g i hi (by omega) (by omega) (by omega), hbit]
  rfl

theorem second_allocation_le (fs : Ext2File) (hgeo : fs.BitmapGeometry)
    (hm : fs.part.vdi.file.modeOut = false) (fs1 fs2 : Ext2File) (n1 n2 : Nat)
    (h1 : allocateInode fs (-1) = some (fs1, n1)) (hn1 : n1 ≠ 0)
    (h2 : allocateInode fs1 (-1) = some (fs2, n2)) (hn2 : n2 ≠ 0) :
    n2 ≤ n1
    ∧ (inodeInUse fs2 n1).map Prod.snd = some false
    ∧ (inodeInUse fs2 n2).map Prod.snd = some false
    ∧ fs2.part.vdi.file.data = fs.part.vdi.file.data := by
  obtain ⟨g1, i1, F1, c1, -, a2, a3, a4, -, a6, a7, a8⟩ :=
    allocateInode_shape fs (-1) hgeo hm fs1 n1 h1 hn1
  have hbits := hgeo.bits_le
  have hb1 : i1 / 8 < fs.blockSize := by omega
  subst a8
  have hgeo1 : ((fs.setFile F1).setCursor c1).BitmapGeometry :=
    ⟨hgeo.groups_le, hgeo.bits_le, hgeo.inodes_lt⟩
  have hm1 : ((fs.setFile F1).setCursor c1).part.vdi.file.modeOut = false :=
    a7.same.modeOut.trans hm
  have hbit1 : ((fs.setFile F1).setCursor c1).bitmapBit g1 i1 = false :=
    bitmapBit_false_later fs F1 c1 a7 g1 i1 hb1 a4
  obtain ⟨g2, i2, F2, c2, -, b2, b3, b4, b5, b6, b7, b8⟩ :=
    allocateInode_shape _ (-1) hgeo1 hm1 fs2 n2 h2 hn2
  have hL2 : fs.part.vdi.file.Later F2 := FStream.later_trans a7 b7
  have hfs2 : fs2 = (fs.setFile F2).setCursor c2 := b8
  have b3x : i2 < fs.sb.s_inodes_per_group := b3
  have b2x : g2 < fs.numBlockGroups := b2
  have b6x : n2 = g2 * fs.sb.s_inodes_per_group + i2 + 1 := b6
  have hgeo2 : ((fs.setFile F2).setCursor c2).BitmapGeometry :=
    ⟨hgeo.groups_le, hgeo.bits_le, hgeo.inodes_lt⟩
  have hnot : ¬ (g1 < g2 ∨ (g1 = g2 ∧ i1 < i2)) := by
    intro hlt
    have := b5 g1 i1 (by simp) a3 hlt
    rw [hbit1] at this
    exact Bool.false_ne_true this
  refine ⟨?_, ?_, ?_, ?_⟩
  · rw [a6, b6x]
    rcases Nat.lt_trichotomy g1 g2 with hlt | heq | hgt
    · exact absurd (Or.inl hlt) hnot
    · subst heq
      have : ¬ i1 < i2 := fun h => hnot (Or.inr ⟨rfl, h⟩)
      omega
    · have hmul : (g2 + 1) * fs.sb.s_inodes_per_group ≤ g1 * fs.sb.s_inodes_per_group :=
        Nat.mul_le_mul_right _ hgt
      rw [Nat.add_mul, Nat.one_mul] at hmul
      omega
  · rw [hfs2, a6]
    exact inodeInUse_false_of_bit _ hgeo2 g1 i1 a2 a3
      (bitmapBit_false_later fs F2 c2 hL2 g1 i1 hb1 a4)
  · rw [hfs2, b6x]
    have hb2 : i2 / 8 < fs.blockSize := by omega
    have hbit2 : ((fs.setFile F2).setCursor c2).bitmapBit g2 i2 = false := by
      have hx := bitmapBit_false_later ((fs.setFile F1).setCursor c1) F2 c2 b7 g2 i2 hb2 b4
      exact hx
    exact inodeInUse_false_of_bit _ hgeo2 g2 i2 b2x b3x hbit2
  · rw [hfs2]
    exact hL2.same.data

/-- C39 (the code on this claim). On every volume opened by `vdiOpen`, `mbrOpen`
and `ext2Open` (with a geometry that keeps the bitmap scan defined), when two
calls of `allocateInode()` in a row return non-zero numbers `n1` and `n2`, then
`n2 ≤ n1`, never `n1 < n2`; `inodeInUse(n1)` and `inodeInUse(n2)` are both false
afterwards; and the file is as it was.  The stream is open for input only, so
the first call records nothing, and it leaves the stream failed. -/
theorem second_allocation_not_greater (host : Option HostFile) (index : Int)
    (fs fs1 fs2 : Ext2File) (n1 n2 : Nat)
    (hopen : openVolume host index = some fs) (hgeo : fs.BitmapGeometry)
    (h1 : allocateInode fs (-1) = some (fs1, n1)) (hn1 : n1 ≠ 0)
    (h2 : allocateInode fs1 (-1) = some (fs2, n2)) (hn2 : n2 ≠ 0) :
    n2 ≤ n1
    ∧ (inodeInUse fs2 n1).map Prod.snd = some false
    ∧ (inodeInUse fs2 n2).map Prod.snd = some false
    ∧ fs2.part.vdi.file.data = fs.part.vdi.file.data :=
  second_allocation_le fs hgeo (openVolume_modeOut host index fs hopen) fs1 fs2 n1 n2
    h1 hn1 h2 hn2

/-- Witness of C39 on the sample volume (inodes 1 to 3 marked allocated): the
first call returns 4, the second 1, the third 1 again; `inodeInUse(4)` and
`inodeInUse(1)` are false after the second call, although bit 0 of the bitmap is
set on disk. -/
theorem second_allocation_not_greater_witness :
    openVolume (some (sampleHost false)) 0 = some sampleFs
    ∧ sampleFs.diskInodeBit 1 = true
    ∧ (∃ fs1 fs2, allocateInode sampleFs (-1) = some (fs1, 4)
        ∧ allocateInode fs1 (-1) = some (fs2, 1)
        ∧ (1 : Nat) ≤ 4
        ∧ (inodeInUse fs2 4).map Prod.snd = some false
        ∧ (inodeInUse fs2 1).map Prod.snd = some false
        ∧ fs2.part.vdi.file.data = sampleFs.part.vdi.file.data
        ∧ (allocateInode fs2 (-1)).map Prod.snd = some 1) := by
  refine ⟨rfl, by decide, ?_⟩
  obtain ⟨r1, hr1⟩ := option_eq_some_of_isSome (allocateInode sampleFs (-1)) (by decide)
  have hv1 : (allocateInode sampleFs (-1)).map Prod.snd = some 4 := by decide
  have hs2 : ((allocateInode sampleFs (-1)).bind
      (fun r => allocateInode r.1 (-1))).isSome = true := by decide
  have hv2 : ((allocateInode sampleFs (-1)).bind
      (fun r => allocateInode r.1 (-1))).map Prod.snd = some 1 := by decide
  have hv3 : (((allocateInode sampleFs (-1)).bind (fun r => allocateInode r.1 (-1))).bind
      (fun r => allocateInode r.1 (-1))).map Prod.snd = some 1 := by decide
  rw [hr1] at hv1 hs2 hv2 hv3
  simp only [Option.map_some', Option.some.injEq, Option.some_bind] at hv1 hs2 hv2 hv3
  obtain ⟨r2, hr2⟩ := option_eq_some_of_isSome (allocateInode r1.1 (-1)) hs2
  rw [hr2] at hv2 hv3
  simp only [Option.map_some', Option.some.injEq, Option.some_bind] at hv2 hv3
  have h1 : allocateInode sampleFs (-1) = some (r1.1, 4) := by rw [hr1, ← hv1]
  have h2 : allocateInode r1.1 (-1) = some (r2.1, 1) := by rw [hr2, ← hv2]
  obtain ⟨w1, w2, w3, w4⟩ := second_allocation_not_greater (some (sampleHost false)) 0
    sampleFs r1.1 r2.1 4 1 rfl sampleFs_geometry h1 (by decide) h2 (by decide)
  exact ⟨r1.1, r2.1, h1, h2, w1, w2, w3, w4, hv3⟩

/-! ## The frame of `writeInode` on a stream open for output -/

theorem FStream.write_good_state (s : FStream) (buf : Mem) (n : Nat)
    (hw : (s.write buf n).good = true) (hfit : s.pos + n ≤ s.size) :
    (s.write buf n).isOpen = s.isOpen ∧ (s.write buf n).modeIn = s.modeIn
    ∧ (s.write buf n).size = s.size ∧ (s.write buf n).fail = false := by
  have hfail : (s.write buf n).fail = false := by
    generalize s.write buf n = t at hw
    rcases t with ⟨d, sz, o, mi, mo, p, e, fb, bb, gc⟩
    cases fb <;> cases bb <;> simp [FStream.good, FStream.fail] at hw ⊢
  refine ⟨?_, ?_, ?_, hfail⟩
  all_goals
    unfold FStream.write
    split_ifs <;> first | rfl | (simp only; omega)

theorem vdiWrite_ok_file (vdi : VDIFile) (off : Nat) (buf : Mem) (count : Nat)
    (hp : vdi.frameOffset + off < 9223372036854775808)
    (h : 0 < (vdiWrite vdi off buf count).2)
    (hfit : vdi.frameOffset + off + count ≤ vdi.file.size) :
    (vdiWrite vdi off buf count).1.file.isOpen = vdi.file.isOpen
    ∧ (vdiWrite vdi off buf count).1.file.modeIn = vdi.file.modeIn
    ∧ (vdiWrite vdi off buf count).1.file.size = vdi.file.size
    ∧ (vdiWrite vdi off buf count).1.file.fail = false
    ∧ (vdiWrite vdi off buf count).1.frameOffset = vdi.frameOffset
    ∧ (vdiWrite vdi off buf count).1.diskSize = vdi.diskSize := by
  have e1 : (vdi.frameOffset + off) % 18446744073709551616 = vdi.frameOffset + off :=
    Nat.mod_eq_of_lt (by omega)
  have e2 : toInt64 (vdi.frameOffset + off) = ((vdi.frameOffset + off : Nat) : Int) :=
    toInt64_of_lt _ hp
  unfold vdiWrite at h ⊢
  simp only [e1, e2] at h ⊢
  have htw : (if count > vdi.diskSize - off then vdi.diskSize - off else count) ≤ count := by
    split_ifs <;> omega
  generalize (if count > vdi.diskSize - off then vdi.diskSize - off else count) = toWrite
    at htw h ⊢
  have hL := (FStream.seekp_later vdi.file ((vdi.frameOffset + off : Nat) : Int)).same
  have hsp := FStream.seekp_good vdi.file (vdi.frameOffset + off)
  generalize vdi.file.seekp ((vdi.frameOffset + off : Nat) : Int) = f1 at h hL hsp ⊢
  by_cases c1 : off ≥ vdi.diskSize
  · rw [if_pos c1] at h
    simp only at h
    omega
  · rw [if_neg c1] at h ⊢
    by_cases c2 : (!f1.good) = true
    · rw [if_pos c2] at h
      simp only at h
      omega
    · rw [if_neg c2] at h ⊢
      simp only at h ⊢
      have c2x : f1.good = true := by simpa using c2
      have hsp2 := hsp c2x
      by_cases c3 : (f1.write buf toWrite).good = true
      · obtain ⟨w1, w2, w3, w4⟩ := FStream.write_good_state f1 buf toWrite c3
          (by rw [hsp2.1, hsp2.2.2]; omega)
        exact ⟨w1.trans hL.isOpen, w2.trans hL.modeIn, w3.trans hL.size, w4, trivial, trivial⟩
      · rw [if_neg c3] at h
        omega

theorem writeInodeAt_shape (fs : Ext2File) (B O : Nat) (X : Mem) (r : Ext2File × Int)
    (h : writeInodeAt fs B O X = some r) :
    r.1 = (fs.setFile r.1.part.vdi.file).setCursor r.1.part.cursor := by
  unfold writeInodeAt at h
  simp only at h
  have hfst := ext2ReadBlock_fst fs B zeroMem
  generalize ext2ReadBlock fs B zeroMem = rd at h hfst
  split_ifs at h
  all_goals
    simp only [Option.some.injEq] at h
    subst h
    simp only
    first
      | (rw [hfst]; rfl)
      | (rw [mbrWrite_shape, mbrSeek_shape, hfst]; rfl)

theorem writeInodeAt_ok (fs : Ext2File) (hr : fs.InRange) (B O : Nat) (X : Mem)
    (fs1 : Ext2File) (hB : B < 4294967296) (hO : O + sizeofInode ≤ fs.blockSize)
    (hfit : B * fs.blockSize < 4294967296)
    (hw : writeInodeAt fs B O X = some (fs1, 0)) :
    fs.BlockReadable B
    ∧ fs1 = (fs.setFile fs1.part.vdi.file).setCursor fs1.part.cursor
    ∧ fs1.part.vdi.file.size = fs.part.vdi.file.size
    ∧ fs1.part.vdi.file.isOpen = fs.part.vdi.file.isOpen
    ∧ fs1.part.vdi.file.modeIn = fs.part.vdi.file.modeIn
    ∧ fs1.part.vdi.file.fail = false
    ∧ (∀ i, i < fs.part.vdi.file.size →
        ¬ (physOffset fs B + O ≤ i ∧ i < physOffset fs B + O + sizeofInode) →
        fs1.part.vdi.file.data i = fs.part.vdi.file.data i)
    ∧ (∀ k, k < sizeofInode → fs1.part.vdi.file.data (physOffset fs B + O + k) = X k) := by
  have h128 : sizeofInode = 128 := rfl
  have hbs : 0 < fs.blockSize := by omega
  have hshape := writeInodeAt_shape fs B O X (fs1, 0) hw
  unfold writeInodeAt at hw
  simp only at hw
  have hread : (ext2ReadBlock fs B zeroMem).2.2 = true := by
    cases hc : (ext2ReadBlock fs B zeroMem).2.2
    · rw [hc] at hw
      simp at hw
    · rfl
  rw [hread] at hw
  simp only [Bool.not_true, Bool.false_eq_true, if_false] at hw
  rw [if_neg (by omega)] at hw
  have hBR := (ext2ReadBlock_ok_iff fs B zeroMem hr hB hbs).1 hread
  obtain ⟨hE, hEq, hpos⟩ := ext2ReadBlock_readable fs B zeroMem hr hB hBR
  obtain ⟨b1, b2, b3, b4, b5, b6⟩ := hBR
  obtain ⟨r1, r2, r3, r4⟩ := hr
  rw [hE] at hw
  simp only at hw
  generalize (physRead fs B zeroMem).1 = F0 at hw hEq hpos
  have hcast : (((B * fs.blockSize) % 4294967296 : Nat) : Int) = toInt64 (B * fs.blockSize) := by
    rw [Nat.mod_eq_of_lt hfit, toInt64_of_lt _ (by omega)]
  rw [hcast] at hw
  obtain ⟨mp1, hmp, hv, hp, hst, hsz, hcur⟩ := mbrSeek_ok_fields (fs.setFile F0).part
    (B * fs.blockSize) (by show B * fs.blockSize ≤ fs.part.sizeBytes; omega) (by omega)
  rw [hmp] at hw
  simp only at hw
  have hst2 : mp1.startByte = fs.part.startByte := hst
  have hsz2 : mp1.sizeBytes = fs.part.sizeBytes := hsz
  have hfo : mp1.vdi.frameOffset = fs.part.vdi.frameOffset := by rw [hv]; rfl
  have hds : mp1.vdi.diskSize = fs.part.vdi.diskSize := by rw [hv]; rfl
  have hfile : mp1.vdi.file = F0 := by rw [hv]; rfl
  have hin : mp1.InRange := ⟨by rw [hfo]; exact r2, by rw [hst2]; exact r3, by rw [hsz2]; exact r4⟩
  have hW := mbrWrite_eq mp1 (memcpy (memcpy zeroMem 0 fs.part.vdi.file.data (physOffset fs B)
    fs.blockSize) O X 0 sizeofInode) fs.blockSize hin (by rw [hcur, hsz2]; omega)
  have hmin : min fs.blockSize (mp1.sizeBytes - mp1.cursor) = fs.blockSize := by
    rw [hcur, hsz2]; omega
  rw [hmin, hcur, hst2] at hW
  rw [hW] at hw
  simp only [Option.some.injEq, Prod.mk.injEq] at hw
  obtain ⟨hfs1, hres⟩ := hw
  generalize hWd : vdiWrite mp1.vdi (fs.part.startByte + B * fs.blockSize)
    (memcpy (memcpy zeroMem 0 fs.part.vdi.file.data (physOffset fs B) fs.blockSize) O X 0
      sizeofInode) fs.blockSize = W at hfs1 hres
  have hres2 : W.2 = (fs.blockSize : Int) := by
    by_contra hc
    rw [if_neg hc] at hres
    omega
  have hf1 : fs1.part.vdi.file = W.1.file := by rw [← hfs1]
  have hphys : mp1.vdi.frameOffset + (fs.part.startByte + B * fs.blockSize)
      = physOffset fs B := by
    rw [hfo]; unfold physOffset; omega
  have hpb : physOffset fs B + fs.blockSize ≤ fs.part.vdi.file.size := b3
  have hF0s : F0.size = fs.part.vdi.file.size := hEq.size
  have hF0d : F0.data = fs.part.vdi.file.data := hEq.data
  have hok := vdiWrite_ok_file mp1.vdi (fs.part.startByte + B * fs.blockSize)
    (memcpy (memcpy zeroMem 0 fs.part.vdi.file.data (physOffset fs B) fs.blockSize) O X 0
      sizeofInode) fs.blockSize (by rw [hphys]; omega) (by rw [hWd, hres2]; omega)
    (by rw [hphys, hfile, hF0s]; exact hpb)
  have heff := vdiWrite_effect mp1.vdi (fs.part.startByte + B * fs.blockSize)
    (memcpy (memcpy zeroMem 0 fs.part.vdi.file.data (physOffset fs B) fs.blockSize) O X 0
      sizeofInode) fs.blockSize (by rw [hphys]; omega) (by omega)
  rw [hWd, hfile] at hok
  rw [hWd, hphys, hfile] at heff
  obtain ⟨k1, k2, k3, k4, -, -⟩ := hok
  obtain ⟨e1, e2⟩ := heff
  have hinblock : ∀ j, j < fs.blockSize →
      W.1.file.data (physOffset fs B + j)
        = if O ≤ j ∧ j < O + sizeofInode then X (j - O) else fs.part.vdi.file.data (physOffset fs B + j) := by
    intro j hj
    rw [e2 j (by rw [hres2]; omega)]
    unfold memcpy
    by_cases c : O ≤ j ∧ j < O + sizeofInode
    · rw [if_pos c, if_pos c]
      congr 1
      omega
    · rw [if_neg c, if_neg c, if_pos ⟨by omega, by omega⟩]
      congr 1
  refine ⟨⟨b1, b2, b3, b4, b5, b6⟩, hshape, ?_, ?_, ?_, ?_, ?_, ?_⟩
  · rw [hf1, k3, hF0s]
  · rw [hf1, k1]; exact hEq.isOpen
  · rw [hf1, k2]; exact hEq.modeIn
  · rw [hf1]; exact k4
  · intro i hi hout
    rw [hf1]
    by_cases cb : physOffset fs B ≤ i ∧ i < physOffset fs B + fs.blockSize
    · have := hinblock (i - physOffset fs B) (by omega)
      have hi2 : physOffset fs B + (i - physOffset fs B) = i := by omega
      rw [hi2] at this
      rw [this, if_neg (by omega)]
    · rw [e1 i (by rw [hF0s]; exact hi) cb, hF0d]
  · intro k hk
    rw [hf1]
    have := hinblock (O + k) (by omega)
    rw [if_pos ⟨by omega, by omega⟩] at this
    rw [← Nat.add_assoc] at this
    rw [this]
    congr 1
    omega

theorem memcpy_inode_congr (buf : Mem) (D1 D2 : Mem) (phys bs O : Nat)
    (hO : O + sizeofInode ≤ bs)
    (h : ∀ k, k < sizeofInode → D1 (phys + O + k) = D2 (phys + O + k)) :
    memcpy buf 0 (memcpy zeroMem 0 D1 phys bs) O sizeofInode
      = memcpy buf 0 (memcpy zeroMem 0 D2 phys bs) O sizeofInode := by
  funext k
  unfold memcpy
  by_cases c : 0 ≤ k ∧ k < 0 + sizeofInode
  · rw [if_pos c, if_pos c]
    have hk : k < sizeofInode := by omega
    rw [if_pos ⟨by omega, by omega⟩, if_pos ⟨by omega, by omega⟩]
    have e : phys + (O + (k - 0) - 0) = phys + O + k := by omega
    rw [e]
    exact h k hk
  · rw [if_neg c, if_neg c]

theorem fetchInode_other_state (fs : Ext2File) (hr : fs.InRange) (F : FStream) (c : Nat)
    (m : Nat) (buf : Mem) (hm : fs.AddressDefined m) (hmc : m ≤ fs.sb.s_inodes_count)
    (hmo : (fs.address m).byteOffset + sizeofInode ≤ fs.blockSize)
    (hsize : F.size = fs.part.vdi.file.size) (hopen : F.isOpen = fs.part.vdi.file.isOpen)
    (hin : F.modeIn = fs.part.vdi.file.modeIn) (hF : F.fail = false)
    (hf0 : fs.part.vdi.file.fail = false)
    (hdata : fs.BlockReadable (fs.address m).block → ∀ k, k < sizeofInode →
      F.data (physOffset fs (fs.address m).block + (fs.address m).byteOffset + k)
        = fs.part.vdi.file.data
            (physOffset fs (fs.address m).block + (fs.address m).byteOffset + k)) :
    (fetchInode ((fs.setFile F).setCursor c) m buf).map (fun r => (r.2.1, r.2.2))
      = (fetchInode fs m buf).map (fun r => (r.2.1, r.2.2)) := by
  have h128 : sizeofInode = 128 := rfl
  have hbs : 0 < fs.blockSize := by omega
  have hm2 : ((fs.setFile F).setCursor c).AddressDefined m :=
    ⟨hm.n_pos, hm.n_lt, hm.blockSize_lt, hm.ipg_pos, hm.inodeSize_pos, hm.inodeSize_le,
      hm.group_lt, hm.block_lt⟩
  have hr2 : ((fs.setFile F).setCursor c).InRange := ⟨hr.1, hr.2, hr.3, hr.4⟩
  have hB := hm.block_lt
  rw [fetchInode_cases fs m buf (Or.inr (Or.inr ⟨hm, hmo⟩)),
    fetchInode_cases _ m buf (Or.inr (Or.inr ⟨hm2, hmo⟩))]
  have hnot : ¬ (m = 0 ∨ m > fs.sb.s_inodes_count) := by
    have := hm.n_pos
    omega
  have hnot2 : ¬ (m = 0 ∨ m > ((fs.setFile F).setCursor c).sb.s_inodes_count) := hnot
  rw [if_neg hnot, if_neg hnot2]
  have haddr : ((fs.setFile F).setCursor c).address m = fs.address m := rfl
  rw [haddr]
  by_cases hbr : fs.BlockReadable (fs.address m).block
  · have hbr2 : ((fs.setFile F).setCursor c).BlockReadable (fs.address m).block :=
      ⟨hbr.in_partition, hbr.in_disk,
        by show physOffset fs (fs.address m).block + fs.blockSize ≤ F.size
           rw [hsize]; exact hbr.in_file,
        hF, hopen.trans hbr.isOpen, hin.trans hbr.modeIn⟩
    have h1 := (ext2ReadBlock_readable fs (fs.address m).block zeroMem hr hB hbr).1
    have h2 := (ext2ReadBlock_readable _ (fs.address m).block zeroMem hr2 hB hbr2).1
    rw [h1, h2]
    simp only [Option.map_some', Bool.true_eq_false, if_false, Option.some.injEq, Prod.mk.injEq,
      and_true]
    exact memcpy_inode_congr buf _ _ _ _ _ hmo (hdata hbr)
  · have hbr2 : ¬ ((fs.setFile F).setCursor c).BlockReadable (fs.address m).block := by
      intro hcon
      exact hbr ⟨hcon.in_partition, hcon.in_disk,
        by have := hcon.in_file
           have e : ((fs.setFile F).setCursor c).part.vdi.file.size = F.size := rfl
           rw [e, hsize] at this
           exact this,
        hf0, hopen.symm.trans hcon.isOpen, hin.symm.trans hcon.modeIn⟩
    have h1 := ext2ReadBlock_unreadable fs (fs.address m).block zeroMem hr hB hbs hbr
    have h2 := ext2ReadBlock_unreadable _ (fs.address m).block zeroMem hr2 hB hbs hbr2
    rw [if_pos h1, if_pos h2]
    rfl

theorem writeInode_frame_of_fit (fs : Ext2File) (hr : fs.InRange) (n : Nat) (X : Mem)
    (fs1 : Ext2File) (hn : fs.AddressDefined n)
    (hno : (fs.address n).byteOffset + sizeofInode ≤ fs.blockSize)
    (hfit : (fs.address n).block * fs.blockSize < 4294967296)
    (hw : writeInode fs n X = some (fs1, 0)) :
    (∀ i, i < fs.part.vdi.file.size →
        ¬ (physOffset fs (fs.address n).block + (fs.address n).byteOffset ≤ i
            ∧ i < physOffset fs (fs.address n).block + (fs.address n).byteOffset
                  + sizeofInode) →
        fs1.part.vdi.file.data i = fs.part.vdi.file.data i)
    ∧ (∀ k, k < sizeofInode →
        fs1.part.vdi.file.data
            (physOffset fs (fs.address n).block + (fs.address n).byteOffset + k) = X k)
    ∧ fs1.part.vdi.file.size = fs.part.vdi.file.size
    ∧ (∀ m buf, fs.AddressDefined m → m ≤ fs.sb.s_inodes_count →
        (fs.address m).byteOffset + sizeofInode ≤ fs.blockSize →
        (physOffset fs (fs.address m).block + (fs.address m).byteOffset + sizeofInode
            ≤ physOffset fs (fs.address n).block + (fs.address n).byteOffset
          ∨ physOffset fs (fs.address n).block + (fs.address n).byteOffset + sizeofInode
            ≤ physOffset fs (fs.address m).block + (fs.address m).byteOffset) →
        (fetchInode fs1 m buf).map (fun r => (r.2.1, r.2.2))
          = (fetchInode fs m buf).map (fun r => (r.2.1, r.2.2))) := by
  rw [writeInode_eq fs n X hn] at hw
  obtain ⟨hbr, hshape, k1, k2, k3, k4, k5, k6⟩ :=
    writeInodeAt_ok fs hr _ _ X fs1 hn.block_lt hno hfit hw
  refine ⟨k5, k6, k1, ?_⟩
  intro m buf hm hmc hmo hdisj
  rw [hshape]
  apply fetchInode_other_state fs hr _ _ m buf hm hmc hmo k1 k2 k3 k4 hbr.not_failed
  intro hbm k hk
  apply k5
  · have := hbm.in_file
    have h128 : sizeofInode = 128 := rfl
    omega
  · omega

/-- The frame of `writeInode` where a call succeeds, which takes a stream open
for output, a state that `vdiOpen` of `step4_only.cpp` does not produce.  On
every volume whose fields are in the ranges of their types, when `writeInode(n,
X)` returns 0 and the 32-bit product `block * blockSize` of its seek does not
wrap: no byte of the file outside the 128 bytes
at `block * blockSize + byteOffset` of the partition is changed, these 128
bytes are `X`, and `fetchInode(m)` returns the same record and result as before
for every `m` whose 128 bytes do not overlap them.  Where the product wraps the
frame is broken: on the fourth sample volume (4 KiB blocks, inode table of
group 1 in block 0x100005), on a stream open for output, `writeInode(8193, X)`
returns 0 and has written the block at partition offset 0x100005 * 4096 mod
2^32 = 20480, which is block 5, the inode table of group 0: the file byte
1069568 changes from 0xA4 to 0xED, the slot of inode 8193 (file byte
4296036864) keeps 0x77, and `fetchInode(1)`, which delivered A4 00 before,
delivers ED 41 afterwards.  On the stream as `vdiOpen` opens it, `writeInode`
returns -1 and writes nothing. -/
theorem writeInode_frame_broken_by_wrap (fs : Ext2File) (hr : fs.InRange) (n : Nat) (X : Mem)
    (fs1 : Ext2File) (hn : fs.AddressDefined n)
    (hno : (fs.address n).byteOffset + sizeofInode ≤ fs.blockSize)
    (hfit : (fs.address n).block * fs.blockSize < 4294967296)
    (hw : writeInode fs n X = some (fs1, 0)) :
    ((∀ i, i < fs.part.vdi.file.size →
        ¬ (physOffset fs (fs.address n).block + (fs.address n).byteOffset ≤ i
            ∧ i < physOffset fs (fs.address n).block + (fs.address n).byteOffset
                  + sizeofInode) →
        fs1.part.vdi.file.data i = fs.part.vdi.file.data i)
      ∧ (∀ k, k < sizeofInode →
        fs1.part.vdi.file.data
            (physOffset fs (fs.address n).block + (fs.address n).byteOffset + k) = X k)
      ∧ fs1.part.vdi.file.size = fs.part.vdi.file.size
      ∧ (∀ m buf, fs.AddressDefined m → m ≤ fs.sb.s_inodes_count →
        (fs.address m).byteOffset + sizeofInode ≤ fs.blockSize →
        (physOffset fs (fs.address m).block + (fs.address m).byteOffset + sizeofInode
            ≤ physOffset fs (fs.address n).block + (fs.address n).byteOffset
          ∨ physOffset fs (fs.address n).block + (fs.address n).byteOffset + sizeofInode
            ≤ physOffset fs (fs.address m).block + (fs.address m).byteOffset) →
        (fetchInode fs1 m buf).map (fun r => (r.2.1, r.2.2))
          = (fetchInode fs m buf).map (fun r => (r.2.1, r.2.2))))
    ∧ (openVolume (some twoGroupHost) 0 = some twoGroupFs
      ∧ twoGroupFsRW.blockSize = 4096 ∧ twoGroupFsRW.sb.s_inodes_count = 16384
      ∧ (twoGroupFsRW.address 8193).block = 1048581
      ∧ (twoGroupFsRW.address 8193).byteOffset = 0
      ∧ (twoGroupFsRW.address 1).block = 5 ∧ (twoGroupFsRW.address 1).byteOffset = 0
      ∧ physOffset twoGroupFsRW 1048581 = 4296036864
      ∧ physOffset twoGroupFsRW 5 = 1069568
      ∧ (1048581 * 4096) % 4294967296 = 5 * 4096
      ∧ (fetchInode twoGroupFsRW 1 zeroMem).map (fun r => (r.2.2, r.2.1 0, r.2.1 1))
          = some (0, 0xA4, 0)
      ∧ (writeInode twoGroupFsRW 8193 sampleInode).map
          (fun r => (r.2, r.1.part.vdi.file.data 1069568, r.1.part.vdi.file.data 1069569,
            r.1.part.vdi.file.data 4296036864)) = some (0, 0xED, 0x41, 0x77)
      ∧ ((writeInode twoGroupFsRW 8193 sampleInode).bind
          (fun r => fetchInode r.1 1 zeroMem)).map (fun r => (r.2.2, r.2.1 0, r.2.1 1))
          = some (0, 0xED, 0x41)
      ∧ ((writeInode twoGroupFsRW 8193 sampleInode).bind
          (fun r => fetchInode r.1 8193 zeroMem)).map (fun r => (r.2.2, r.2.1 0, r.2.1 1))
          = some (0, 0x77, 0)
      ∧ (writeInode twoGroupFs 8193 sampleInode).map
          (fun r => (r.2, r.1.part.vdi.file.data 1069568)) = some (-1, 0xA4)) := by
  refine ⟨writeInode_frame_of_fit fs hr n X fs1 hn hno hfit hw, rfl, ?_, ?_, ?_, ?_, ?_, ?_,
    ?_, ?_, ?_, ?_, ?_, ?_, ?_, ?_⟩ <;> decide

/-- An instance on the sample volume on a stream open for output, where
block 5 times 1024 fits 32 bits: `writeInode(2, X)` returns 0, the slot of inode
2 (file offset 1054336) holds `X`, the first byte of the slot of inode 4 (file
offset 1054592) is unchanged, and `fetchInode(4)` returns what it returned
before. -/
theorem writeInode_frame_broken_by_wrap_witness :
    (sampleFsRW.address 2).byteOffset + sizeofInode ≤ sampleFsRW.blockSize
    ∧ (sampleFsRW.address 2).block * sampleFsRW.blockSize < 4294967296
    ∧ physOffset sampleFsRW (sampleFsRW.address 2).block + (sampleFsRW.address 2).byteOffset
        = 1054336
    ∧ physOffset sampleFsRW (sampleFsRW.address 4).block + (sampleFsRW.address 4).byteOffset
        = 1054592
    ∧ sampleFsRW.part.vdi.file.data 1054336 = 0xA4
    ∧ (∃ fs1, writeInode sampleFsRW 2 sampleInode = some (fs1, 0)
        ∧ fs1.part.vdi.file.data 1054336 = 0xED
        ∧ fs1.part.vdi.file.data 1054592 = sampleFsRW.part.vdi.file.data 1054592
        ∧ fs1.part.vdi.file.size = sampleFsRW.part.vdi.file.size
        ∧ (fetchInode fs1 4 zeroMem).map (fun r => (r.2.1, r.2.2))
            = (fetchInode sampleFsRW 4 zeroMem).map (fun r => (r.2.1, r.2.2))) := by
  refine ⟨by decide, by decide, by decide, by decide, by decide, ?_⟩
  obtain ⟨r, hr⟩ := option_eq_some_of_isSome (writeInode sampleFsRW 2 sampleInode) (by decide)
  have hv : (writeInode sampleFsRW 2 sampleInode).map Prod.snd = some 0 := by decide
  rw [hr] at hv
  simp only [Option.map_some', Option.some.injEq] at hv
  have hr2 : writeInode sampleFsRW 2 sampleInode = some (r.1, 0) := by
    rw [hr, ← hv]
  have hin : sampleFsRW.InRange := ⟨by decide, by decide, by decide, by decide⟩
  have hd2 : sampleFsRW.AddressDefined 2 :=
    ⟨by decide, by decide, by decide, by decide, by decide, by decide, by decide, by decide⟩
  have hd4 : sampleFsRW.AddressDefined 4 :=
    ⟨by decide, by decide, by decide, by decide, by decide, by decide, by decide, by decide⟩
  obtain ⟨⟨w1, w2, w3, w4⟩, -⟩ := writeInode_frame_broken_by_wrap sampleFsRW hin 2 sampleInode
    r.1 hd2 (by decide) (by decide) hr2
  refine ⟨r.1, hr2, ?_, ?_, w3, ?_⟩
  · have := w2 0 (by decide)
    have e : physOffset sampleFsRW (sampleFsRW.address 2).block
        + (sampleFsRW.address 2).byteOffset + 0 = 1054336 := by decide
    rw [e] at this
    rw [this]
    rfl
  · apply w1
    · decide
    · decide
  · exact w4 4 zeroMem hd4 (by decide) (by decide) (by decide)

/-! ## The bitmap operations on a stream that is not open for output -/

theorem allocateInodeLoop_later :
    ∀ (fuel : Nat) (cur : Ext2File) (g : Nat) (r : Ext2File × Nat),
      cur.part.vdi.file.modeOut = false →
      allocateInodeLoop fuel cur g = some r →
      cur.part.vdi.file.Later r.1.part.vdi.file := by
  intro fuel
  induction fuel with
  | zero =>
    intro cur g r _ h
    simp only [allocateInodeLoop, Option.some.injEq] at h
    rw [← h]
    exact FStream.later_refl _
  | succ k ih =>
    intro cur g r hm h
    rw [allocateInodeLoop] at h
    split at h
    · simp at h
    · rename_i d hd
      simp only at h
      have hrd := ext2ReadBlock_later cur d.bg_inode_bitmap zeroMem
      have hm1 : (ext2ReadBlock cur d.bg_inode_bitmap zeroMem).1.part.vdi.file.modeOut
          = false := by rw [ext2ReadBlock_modeOut, hm]
      split at h
      · simp at h
      · rename_i i hi
        simp only [Option.some.injEq] at h
        rw [← h]
        refine FStream.later_trans hrd ?_
        have hw := mbrWrite_later
          (mbrSeek (ext2ReadBlock cur d.bg_inode_bitmap zeroMem).1.part
            (((d.bg_inode_bitmap * cur.blockSize + i / 8) % 4294967296 : Nat) : Int)).1
          (fun _ => orBit ((ext2ReadBlock cur d.bg_inode_bitmap zeroMem).2.1 (i / 8)) (i % 8))
          1 (by rw [mbrSeek_vdi]; exact hm1)
        rw [mbrSeek_vdi] at hw
        exact hw
      · exact FStream.later_trans hrd (ih _ _ _ hm1 h)

theorem allocateInode_later (fs : Ext2File) (hint : Int) (r : Ext2File × Nat)
    (hm : fs.part.vdi.file.modeOut = false) (h : allocateInode fs hint = some r) :
    fs.part.vdi.file.Later r.1.part.vdi.file :=
  allocateInodeLoop_later _ fs _ r hm h

theorem mbrWrite_after_seek_later (p : MBRPartition) (off : Int) (buf : Mem) (count : Nat)
    (hm : p.vdi.file.modeOut = false) :
    p.vdi.file.Later (mbrWrite (mbrSeek p off).1 buf count).1.vdi.file := by
  have hw := mbrWrite_later (mbrSeek p off).1 buf count (by rw [mbrSeek_vdi]; exact hm)
  rw [mbrSeek_vdi] at hw
  exact hw

theorem Ext2File.part_of_with (x R : Ext2File) (p : MBRPartition)
    (h : x = { R with part := p }) : x.part = p := by rw [h]

theorem freeInode_shape (fs : Ext2File) (n : Nat) (r : Ext2File × Bool)
    (h : freeInode fs n = some r) :
    ∃ d, fs.bgdt.get? ((n + 4294967295) % 4294967296 / fs.sb.s_inodes_per_group) = some d
      ∧ r.1 = { (ext2ReadBlock fs d.bg_inode_bitmap zeroMem).1 with
              part := (mbrWrite (mbrSeek (ext2ReadBlock fs d.bg_inode_bitmap zeroMem).1.part
                (((d.bg_inode_bitmap * fs.blockSize
                  + (n + 4294967295) % 4294967296 % fs.sb.s_inodes_per_group / 8)
                    % 4294967296 : Nat) : Int)).1
                (fun _ => clearBit ((ext2ReadBlock fs d.bg_inode_bitmap zeroMem).2.1
                  ((n + 4294967295) % 4294967296 % fs.sb.s_inodes_per_group / 8))
                  ((n + 4294967295) % 4294967296 % fs.sb.s_inodes_per_group % 8)) 1).1 } := by
  unfold freeInode at h
  simp only at h
  cases hg : fs.bgdt.get? ((n + 4294967295) % 4294967296 / fs.sb.s_inodes_per_group) with
  | none =>
    rw [hg] at h
    split_ifs at h
  | some d =>
    rw [hg] at h
    simp only at h
    split_ifs at h
    exact ⟨d, rfl, (congrArg Prod.fst (Option.some.inj h)).symm⟩

theorem freeInode_later (fs : Ext2File) (n : Nat) (r : Ext2File × Bool)
    (hm : fs.part.vdi.file.modeOut = false) (h : freeInode fs n = some r) :
    fs.part.vdi.file.Later r.1.part.vdi.file := by
  obtain ⟨d, -, e⟩ := freeInode_shape fs n r h
  have hrd := ext2ReadBlock_later fs d.bg_inode_bitmap zeroMem
  have hm1 : (ext2ReadBlock fs d.bg_inode_bitmap zeroMem).1.part.vdi.file.modeOut
      = false := by rw [ext2ReadBlock_modeOut, hm]
  rw [Ext2File.part_of_with _ _ _ e]
  exact FStream.later_trans hrd (mbrWrite_after_seek_later _ _ _ _ hm1)

theorem allocateInode_disk_bits (fs : Ext2File) (hint : Int) (hgeo : fs.BitmapGeometry)
    (hm : fs.part.vdi.file.modeOut = false) (fs1 : Ext2File) (n : Nat)
    (h : allocateInode fs hint = some (fs1, n)) (hn : n ≠ 0) :
    fs1.part.vdi.file.data = fs.part.vdi.file.data
    ∧ ∀ m, fs1.diskInodeBit m = fs.diskInodeBit m := by
  obtain ⟨g, i, F, c, -, -, -, -, -, -, a7, a8⟩ := allocateInode_shape fs hint hgeo hm fs1 n h hn
  subst a8
  refine ⟨a7.same.data, ?_⟩
  intro m
  show bitIsOne (F.data _) _ = bitIsOne (fs.part.vdi.file.data _) _
  rw [a7.same.data]
  rfl

theorem sampleFsAfterAlloc_eq :
    allocateInode sampleFs (-1) = some (sampleFsAfterAlloc, 4) := by
  obtain ⟨r, hr⟩ := option_eq_some_of_isSome (allocateInode sampleFs (-1)) (by decide)
  have hv : (allocateInode sampleFs (-1)).map Prod.snd = some 4 := by decide
  have hs : sampleFsAfterAlloc = r.1 := by
    show ((allocateInode sampleFs (-1)).getD (Ext2File.fresh, 0)).1 = r.1
    rw [hr]; rfl
  rw [hr] at hv
  simp only [Option.map_some', Option.some.injEq] at hv
  rw [hr, hs, ← hv]

/-- C8 (the code on this claim). On every volume opened by `vdiOpen`, `mbrOpen`
and `ext2Open` (with a geometry that keeps the scan defined), `allocateInode` is
first-fit over the bitmap blocks as `ext2ReadBlock` delivers them into its
buffer, a block that cannot be read counting as all clear: it returns
`g*inodesPerGroup + i + 1` for the first `(g, i)`, from group `groupHint` (0 when
negative) on, whose bit in the buffer is clear, and 0 exactly when every such
bit is set; a non-zero result `n` has `inodeInUse(n)` false before the call.  It
does not set the bit: after a non-zero result the file is as it was, and so is
every bit of the bitmap on disk.  On the sample volume, where
inodes 1 to 3 are marked allocated, the first call returns 4 and leaves bit 3
clear on disk; the second call, on the stream that the failed write has left
failed, returns 1, whose bit is set on disk, `inodeInUse(1)` having been false
before the call. -/
theorem allocateInode_first_fit_of_read_buffer (host : Option HostFile) (index : Int)
    (fs : Ext2File) (groupHint : Int) (hopen : openVolume host index = some fs)
    (hgeo : fs.BitmapGeometry) :
    (∃ fs1 n, allocateInode fs groupHint = some (fs1, n)
      ∧ (n = 0 ↔ ∀ g i, (if groupHint < 0 then 0 else groupHint.toNat) ≤ g →
          g < fs.numBlockGroups → i < fs.sb.s_inodes_per_group →
          fs.bitmapBit g i = true)
      ∧ (n ≠ 0 → ∃ g i, (if groupHint < 0 then 0 else groupHint.toNat) ≤ g
          ∧ g < fs.numBlockGroups ∧ i < fs.sb.s_inodes_per_group
          ∧ fs.bitmapBit g i = false
          ∧ (∀ g2 i2, (if groupHint < 0 then 0 else groupHint.toNat) ≤ g2 →
              i2 < fs.sb.s_inodes_per_group →
              (g2 < g ∨ (g2 = g ∧ i2 < i)) → fs.bitmapBit g2 i2 = true)
          ∧ n = g * fs.sb.s_inodes_per_group + i + 1
          ∧ (inodeInUse fs n).map Prod.snd = some false
          ∧ fs1.part.vdi.file.data = fs.part.vdi.file.data
          ∧ ∀ m, fs1.diskInodeBit m = fs.diskInodeBit m))
    ∧ (openVolume (some (sampleHost false)) 0 = some sampleFs
      ∧ sampleFs.diskInodeBit 3 = true ∧ sampleFs.diskInodeBit 4 = false
      ∧ allocateInode sampleFs (-1) = some (sampleFsAfterAlloc, 4)
      ∧ sampleFsAfterAlloc.diskInodeBit 4 = false
      ∧ sampleFsAfterAlloc.part.vdi.file.data 1053184 = 7
      ∧ sampleFsAfterAlloc.diskInodeBit 1 = true
      ∧ sampleFsAfterAlloc.bitmapBit 0 0 = false
      ∧ (inodeInUse sampleFsAfterAlloc 1).map Prod.snd = some false
      ∧ (allocateInode sampleFsAfterAlloc (-1)).map
          (fun r => (r.2, r.1.part.vdi.file.data 1053184)) = some (1, 7)) := by
  have hm := openVolume_modeOut host index fs hopen
  obtain ⟨fs1, n, he, hres⟩ := allocateInode_spec fs groupHint hgeo
  refine ⟨⟨fs1, n, he, ?_, ?_⟩, rfl, by decide, by decide, sampleFsAfterAlloc_eq,
    by decide, by decide, by decide, by decide, by decide, by decide⟩
  · rcases hres with ⟨hn, _, hall⟩ | ⟨g, i, f1, a1, a2, a3, a4, a5, a6, a7, a8⟩
    · exact ⟨fun _ => hall, fun _ => hn⟩
    · constructor
      · intro hn; omega
      · intro hall
        have := hall g i a1 a2 a3
        rw [a4] at this
        exact absurd this (by decide)
  · intro hn
    have hd := allocateInode_disk_bits fs groupHint hgeo hm fs1 n he hn
    rcases hres with ⟨hn0, _, _⟩ | ⟨g, i, f1, a1, a2, a3, a4, a5, a6, a7, a8⟩
    · exact absurd hn0 hn
    · refine ⟨g, i, a1, a2, a3, a4, a5, a6, ?_, hd.1, hd.2⟩
      rw [a6]
      exact inodeInUse_false_of_bit fs hgeo g i a2 a3 a4

/-- Witness of C8 on the sample volume: the theorem at the default call. -/
theorem allocateInode_first_fit_of_read_buffer_witness :
    openVolume (some (sampleHost false)) 0 = some sampleFs
    ∧ ∃ fs1 n, allocateInode sampleFs (-1) = some (fs1, n)
      ∧ (n = 0 ↔ ∀ g i, (if (-1 : Int) < 0 then 0 else (-1 : Int).toNat) ≤ g →
          g < sampleFs.numBlockGroups → i < sampleFs.sb.s_inodes_per_group →
          sampleFs.bitmapBit g i = true)
      ∧ (n ≠ 0 → ∃ g i, (if (-1 : Int) < 0 then 0 else (-1 : Int).toNat) ≤ g
          ∧ g < sampleFs.numBlockGroups ∧ i < sampleFs.sb.s_inodes_per_group
          ∧ sampleFs.bitmapBit g i = false
          ∧ (∀ g2 i2, (if (-1 : Int) < 0 then 0 else (-1 : Int).toNat) ≤ g2 →
              i2 < sampleFs.sb.s_inodes_per_group →
              (g2 < g ∨ (g2 = g ∧ i2 < i)) → sampleFs.bitmapBit g2 i2 = true)
          ∧ n = g * sampleFs.sb.s_inodes_per_group + i + 1
          ∧ (inodeInUse sampleFs n).map Prod.snd = some false
          ∧ fs1.part.vdi.file.data = sampleFs.part.vdi.file.data
          ∧ ∀ m, fs1.diskInodeBit m = sampleFs.diskInodeBit m) :=
  ⟨rfl, (allocateInode_first_fit_of_read_buffer (some (sampleHost false)) 0 sampleFs (-1)
    sampleFs_open sampleFs_geometry).1⟩

/-! ## The bytes that `allocateInode` and `freeInode` change (C11) -/

theorem later_state_modeOut (host : Option HostFile) (index : Int) (fs0 : Ext2File)
    (hopen : openVolume host index = some fs0) (f : FStream) (c : Nat)
    (hL : fs0.part.vdi.file.Later f) :
    ((fs0.setFile f).setCursor c).part.vdi.file.modeOut = false :=
  hL.same.modeOut.trans (openVolume_modeOut host index fs0 hopen)

/-- C11. On every volume opened by `vdiOpen`, `mbrOpen` and `ext2Open`, in the
state as opened or in any later state of the stream and of the partition
cursor, a call of `allocateInode` or of `freeInode` leaves every byte of the
file, and so of the logical disk, that is not the bitmap byte of the inode
concerned (byte `((n-1) mod inodesPerGroup) / 8` of block `bg_inode_bitmap` of
its group) as it was, for every bitmap block number and block size.  The stream
is open for input only, so that byte is not changed either: the file is the
same before and after the call.  Both calls are defined when a group has no
more inodes than its bitmap block has bits. -/
theorem bitmap_ops_change_at_most_one_byte (host : Option HostFile) (index : Int)
    (fs0 : Ext2File) (hopen : openVolume host index = some fs0) (f : FStream) (c : Nat)
    (fs : Ext2File) (hfs : fs = (fs0.setFile f).setCursor c)
    (hL : fs0.part.vdi.file.Later f) :
    (∀ hint fs1 n, allocateInode fs hint = some (fs1, n) →
        (∀ k, k ≠ fs.bitmapByteOffset n →
          fs1.part.vdi.file.data k = fs.part.vdi.file.data k)
        ∧ fs1.part.vdi.file.data = fs.part.vdi.file.data
        ∧ fs1.part.vdi.file.size = fs.part.vdi.file.size)
    ∧ (∀ n fs1 b, freeInode fs n = some (fs1, b) →
        (∀ k, k ≠ fs.bitmapByteOffset n →
          fs1.part.vdi.file.data k = fs.part.vdi.file.data k)
        ∧ fs1.part.vdi.file.data = fs.part.vdi.file.data
        ∧ fs1.part.vdi.file.size = fs.part.vdi.file.size)
    ∧ (fs.sb.s_inodes_per_group ≤ 8 * fs.blockSize →
        (∀ hint, (allocateInode fs hint).isSome = true)
        ∧ ∀ n, 1 ≤ n → n < 4294967296 → 0 < fs.sb.s_inodes_per_group →
            (n - 1) / fs.sb.s_inodes_per_group < fs.numBlockGroups →
            (freeInode fs n).isSome = true) := by
  have hm := later_state_modeOut host index fs0 hopen f c hL
  obtain ⟨part, hext⟩ := openVolume_ext2Open host index fs0 hopen
  have hlen := (ext2Open_geometry _ part fs0 hext).1
  subst hfs
  refine ⟨?_, ?_, ?_⟩
  · intro hint fs1 n h
    have hl := allocateInode_later _ hint (fs1, n) hm h
    exact ⟨fun k _ => congrFun hl.same.data k, hl.same.data, hl.same.size⟩
  · intro n fs1 b h
    have hl := freeInode_later _ n (fs1, b) hm h
    exact ⟨fun k _ => congrFun hl.same.data k, hl.same.data, hl.same.size⟩
  · intro hb
    refine ⟨fun hint => allocateInode_isSome _ hint hlen hb, ?_⟩
    intro n h1 hlt hipg hg
    exact (inodeInUse_isSome _ n h1 hlt hipg (Nat.lt_of_lt_of_eq hg hlen.symm) hb).2

/-- Witness of C11 on the sample volume, with the partition cursor at 7:
`allocateInode()` returns 4 and `freeInode(3)` returns false, and the bitmap byte
of both inodes, at file offset 1053184, is 0x07 before and after. -/
theorem bitmap_ops_change_at_most_one_byte_witness :
    openVolume (some (sampleHost false)) 0 = some sampleFs
    ∧ sampleFsLater.bitmapByteOffset 4 = 1053184
    ∧ sampleFsLater.bitmapByteOffset 3 = 1053184
    ∧ sampleFsLater.part.vdi.file.data 1053184 = 7
    ∧ (∃ fs1, allocateInode sampleFsLater (-1) = some (fs1, 4)
        ∧ (∀ k, k ≠ sampleFsLater.bitmapByteOffset 4 →
            fs1.part.vdi.file.data k = sampleFsLater.part.vdi.file.data k)
        ∧ fs1.part.vdi.file.data = sampleFsLater.part.vdi.file.data
        ∧ fs1.part.vdi.file.size = sampleFsLater.part.vdi.file.size)
    ∧ (∃ fs1, freeInode sampleFsLater 3 = some (fs1, false)
        ∧ (∀ k, k ≠ sampleFsLater.bitmapByteOffset 3 →
            fs1.part.vdi.file.data k = sampleFsLater.part.vdi.file.data k)
        ∧ fs1.part.vdi.file.data = sampleFsLater.part.vdi.file.data
        ∧ fs1.part.vdi.file.size = sampleFsLater.part.vdi.file.size) := by
  have hT := bitmap_ops_change_at_most_one_byte (some (sampleHost false)) 0 sampleFs
    sampleFs_open sampleFs.part.vdi.file 7 sampleFsLater rfl (FStream.later_refl _)
  obtain ⟨r, hr⟩ := option_eq_some_of_isSome (allocateInode sampleFsLater (-1)) (by decide)
  have hv : (allocateInode sampleFsLater (-1)).map Prod.snd = some 4 := by decide
  obtain ⟨q, hq⟩ := option_eq_some_of_isSome (freeInode sampleFsLater 3) (by decide)
  have hu : (freeInode sampleFsLater 3).map Prod.snd = some false := by decide
  rw [hr] at hv
  rw [hq] at hu
  simp only [Option.map_some', Option.some.injEq] at hv hu
  have h1 : allocateInode sampleFsLater (-1) = some (r.1, 4) := by rw [hr, ← hv]
  have h2 : freeInode sampleFsLater 3 = some (q.1, false) := by rw [hq, ← hu]
  exact ⟨rfl, by decide, by decide, by decide, ⟨r.1, h1, hT.1 (-1) r.1 4 h1⟩,
    ⟨q.1, h2, hT.2.1 3 q.1 false h2⟩⟩

/-! ## The frame of `writeInode` on an opened volume (C34) -/

end Step4
